import Mathlib

/-! # blockwatch-go: the dataframe decoder

A shallow embedding of the row/column decoder of the blockwatch Go client
(`util.go`, `typeinfo.go`, `datafield.go`, `dataframe.go`), of the errors and of
the query parameters (`error.go`, `filter.go`, `collapse.go`, `table.go`), and
theorems about them.

Conventions of the embedding:

* a Go `[]byte` / `string` is a `List UInt8`; Go `int` is `Int`;
* a Go call that returns `(value, error)` returns a `Res`, which has a third
  outcome `panic` for a Go run-time panic (index or slice bounds out of range,
  a `reflect` set on a value that cannot be set);
* errors built with `fmt.Errorf` are kept structured: one constructor of `Err`
  per format string, holding the arguments of the format.
-/

namespace Blockwatch

/-! ## Byte strings -/

/-- A Go byte string. -/
abbrev Bytes := List UInt8

/-- The bytes of an ASCII literal. -/
def ascii (s : String) : Bytes := s.toList.map (fun c => UInt8.ofNat c.toNat)

/-- Go `bytes.IndexByte(b, c)`: the index of the first `c` in `b`, or `-1`. -/
def IndexByte : Bytes → UInt8 → Int
  | [], _ => -1
  | x :: xs, c =>
    if x = c then 0
    else
      let r := IndexByte xs c
      if r < 0 then -1 else r + 1

/-- Go `bytes.Split(s, sep)` for a one-byte separator: the fields between the
separators, in order; the empty input has the one field `""`. -/
def bytesSplit (sep : UInt8) : Bytes → List Bytes
  | [] => [[]]
  | c :: cs =>
    if c = sep then [] :: bytesSplit sep cs
    else
      match bytesSplit sep cs with
      | f :: fs => (c :: f) :: fs
      | [] => [[c]]

/-! ## util.go -/

/-- The first loop of `indexByteColumnN`: advance `start` past `n` separators.
`none` stands for the early `return -1, 0`. -/
def indexByteColumnN.skip (b : Bytes) (sep : UInt8) : Nat → Nat → Option Nat
  | start, 0 => some start
  | start, k + 1 =>
    let n := IndexByte (b.drop start) sep
    if n = -1 then none
    else indexByteColumnN.skip b sep (start + (n + 1).toNat) k

/-- The function `indexByteColumnN(b, sep, n)` of util.go: the offsets `(start, end)` of the
`n`-th column of `b`. The loop runs while `n > 0`, so a negative `n` behaves as 0. -/
def indexByteColumnN (b : Bytes) (sep : UInt8) (n : Int) : Int × Int :=
  match indexByteColumnN.skip b sep 0 n.toNat with
  | none => (-1, 0)
  | some start =>
    let e := IndexByte (b.drop start) sep
    if e < 0 then ((start : Int), (b.length : Int) + 1)
    else ((start : Int), e + (start : Int))

/-! ## Results, errors and panics -/

/-- The `Err` field of a Go `*strconv.NumError`. -/
inductive NumErr where
  | ErrSyntax
  | ErrRange
  deriving DecidableEq, Repr

/-- The underlying cause (`%v`) of a decode error: what the standard library
parser or a custom unmarshaler returned. -/
inductive Cause where
  /-- Go `*strconv.NumError` with its fields `Func`, `Num`, `Err` -/
  | num (func : String) (num : Bytes) (e : NumErr)
  /-- Go `strconv.ErrSyntax`, as returned by `strconv.Unquote` -/
  | unquote
  /-- Go `hex.ErrLength` -/
  | hexLength
  /-- Go `hex.InvalidByteError(b)` -/
  | hexInvalidByte (b : UInt8)
  /-- An error returned by a custom `UnmarshalBinary` / `UnmarshalText` -/
  | custom (msg : Bytes)
  deriving DecidableEq, Repr

/-- The errors of the decoder, one constructor per `fmt.Errorf` format string. -/
inductive Err where
  /-- Format "blockwatch: invalid table row %d > len %d" -/
  | invalidTableRow (pos : Int) (len : Nat)
  /-- Format "blockwatch: invalid value of type %T" -/
  | invalidValue (typ : String)
  /-- Format of makeFieldError: "blockwatch: cannot decode column '%s' into struct field of type %s: %v" -/
  | fieldError (name : String) (typ : String) (cause : Cause)
  /-- Format "blockwatch: unsupported embedded slice type %s" -/
  | unsupportedSlice (elemKind : String)
  /-- Format "blockwatch: unsupported embedded struct type %s" -/
  | unsupportedStruct (typ : String)
  /-- Format "blockwatch: no method for unmarshaling type %s (%s)" -/
  | noMethodUnmarshal (typ : String) (kind : String)
  /-- The parser error of a `time.Time` field, returned as it is (`return err`) -/
  | bare (cause : Cause)
  /-- Format "blockwatch: invalid data column %d > len %d" -/
  | invalidDataColumn (col : Int) (len : Nat)
  /-- Format "blockwatch: invalid data row %d > len %d" -/
  | invalidDataRow (row : Int) (len : Nat)
  /-- Format "blockwatch: no method for decoding column '%s' type %s" -/
  | noMethodColumn (name : String) (typ : String)
  /-- Format "blockwatch: missing column '%s'" -/
  | missingColumn (name : String)
  /-- Format of makeColumnMissingError: "blockwatch: missing column '%s' [%d:%d]" -/
  | columnMissing (name : String) (col row : Int)
  /-- Format of makeColumnError: "blockwatch: cannot decode column '%s' [%d:%d]: %v" -/
  | columnError (name : String) (col row : Int) (cause : Cause)
  /-- Format in decodeTimeAt: "blockwatch: missing column %s (%d:%d)" -/
  | timeMissing (name : String) (col row : Int)
  /-- Format in decodeTimeAt: "blockwatch: cannot decode column %s [%d:%d]: %v" -/
  | timeError (name : String) (col row : Int) (cause : Cause)
  /-- Format "blockwatch: type %s (%s) is not a struct" -/
  | notStruct (typ : String) (kind : String)
  /-- Format in addFieldInfo: "blockwatch: %s field %q with tag %q conflicts with field %q with tag %q" -/
  | conflict (typ : String) (f1Name f1Tag f2Name f2Tag : String)
  /-- Format in FieldType.UnmarshalText: "invalid datatfield ype %s" -/
  | invalidFieldType (data : Bytes)
  /-- Format in ParseFilter: "invalid filter mode '%s'" -/
  | invalidFilterMode (mkey : Bytes)
  deriving DecidableEq, Repr

/-- Go run-time panics the decoder can run into. -/
inductive Panic where
  /-- Message "index out of range" -/
  | indexOutOfRange
  /-- Message "slice bounds out of range" -/
  | sliceBounds
  /-- A `reflect` setter on a value that is not settable, or `Set` with a value
  that is not assignable -/
  | reflectSet
  /-- A `reflect` method called on a Value of the wrong kind or on the zero Value -/
  | reflectCall
  deriving DecidableEq, Repr

/-- The outcome of a Go call returning `(α, error)`: a value, an error, or a panic. -/
inductive Res (α : Type) where
  | ok (a : α)
  | err (e : Err)
  | panic (p : Panic)
  deriving DecidableEq, Repr

/-- Lift a parser result, wrapping the cause into an error. -/
def Res.ofExcept {α : Type} (wrap : Cause → Err) : Except Cause α → Res α
  | .ok a => .ok a
  | .error c => .err (wrap c)

/-! ## The Go standard library functions the decoder calls -/

/-- The loop of `strconv.ParseUint` for base 10: `maxVal = 2^bitSize - 1`, the
cutoff is `maxUint64/10 + 1`; the first offending byte decides the error. -/
def ParseUint.loop (maxVal : Nat) : Bytes → Nat → Except NumErr Nat
  | [], n => .ok n
  | c :: cs, n =>
    if 48 ≤ c ∧ c ≤ 57 then
      if n ≥ (2 ^ 64 - 1) / 10 + 1 then .error .ErrRange
      else
        let n1 := n * 10 + (c - 48).toNat
        if n1 ≥ 2 ^ 64 ∨ n1 > maxVal then .error .ErrRange
        else ParseUint.loop maxVal cs n1
    else .error .ErrSyntax

/-- The core of `strconv.ParseUint(s, 10, bitSize)` without the `NumError` wrapper. -/
def ParseUint.core (s : Bytes) (bitSize : Nat) : Except NumErr Nat :=
  if s = [] then .error .ErrSyntax
  else ParseUint.loop (2 ^ bitSize - 1) s 0

/-- Go `strconv.ParseUint(s, 10, bitSize)` for `bitSize` in 8, 16, 32, 64. -/
def ParseUint (s : Bytes) (bitSize : Nat) : Except Cause Nat :=
  match ParseUint.core s bitSize with
  | .ok n => .ok n
  | .error e => .error (.num "ParseUint" s e)

/-- Go `strconv.ParseInt(s, 10, bitSize)` for `bitSize` in 8, 16, 32, 64: an
optional sign, then `ParseUint(s, 10, bitSize)` on the rest. A syntax error of
`ParseUint` is returned under the name of `ParseInt`; after a range error
`ParseInt` goes on with `un = 2^bitSize - 1`, which fails the range check of the
sign that follows, so that the result is the range error; a value returned by
`ParseUint` goes through the range check against the cutoff `2^(bitSize-1)`. -/
def ParseInt (s : Bytes) (bitSize : Nat) : Except Cause Int :=
  match s with
  | [] => .error (.num "ParseInt" s .ErrSyntax)
  | c :: rest =>
    let neg := c = 45
    let digits := if c = 43 ∨ c = 45 then rest else s
    match ParseUint.core digits bitSize with
    | .error .ErrSyntax => .error (.num "ParseInt" s .ErrSyntax)
    | .error .ErrRange => .error (.num "ParseInt" s .ErrRange)
    | .ok un =>
      let cutoff := 2 ^ (bitSize - 1)
      if ¬ neg ∧ un ≥ cutoff then .error (.num "ParseInt" s .ErrRange)
      else if neg ∧ un > cutoff then .error (.num "ParseInt" s .ErrRange)
      else .ok (if neg then - (un : Int) else (un : Int))

/-- Go `strconv.ParseBool`. -/
def ParseBool (s : Bytes) : Except Cause Bool :=
  if s = ascii "1" ∨ s = ascii "t" ∨ s = ascii "T" ∨ s = ascii "TRUE" ∨ s = ascii "true"
      ∨ s = ascii "True" then .ok true
  else if s = ascii "0" ∨ s = ascii "f" ∨ s = ascii "F" ∨ s = ascii "FALSE"
      ∨ s = ascii "false" ∨ s = ascii "False" then .ok false
  else .error (.num "ParseBool" s .ErrSyntax)

/-- The value of a hexadecimal digit (`fromHexChar` of encoding/hex). -/
def fromHexChar (c : UInt8) : Option UInt8 :=
  if 48 ≤ c ∧ c ≤ 57 then some (c - 48)
  else if 97 ≤ c ∧ c ≤ 102 then some (c - 97 + 10)
  else if 65 ≤ c ∧ c ≤ 70 then some (c - 65 + 10)
  else none

/-- Go `hex.DecodeString`: pairs of hex digits; the first invalid byte is
reported before an odd length. -/
def hexDecodeString : Bytes → Except Cause Bytes
  | [] => .ok []
  | [p] =>
    match fromHexChar p with
    | none => .error (.hexInvalidByte p)
    | some _ => .error .hexLength
  | p :: q :: rest =>
    match fromHexChar p with
    | none => .error (.hexInvalidByte p)
    | some a =>
      match fromHexChar q with
      | none => .error (.hexInvalidByte q)
      | some b =>
        match hexDecodeString rest with
        | .ok bs => .ok ((a <<< 4 ||| b) :: bs)
        | .error e => .error e

/-- The standard library functions that are taken as parameters: their results
on every input are left open. `ParseFloat s bitSize` returns the IEEE-754 bits
of the float parsed or the `NumError` kind, `Unquote` returns `none` for
`strconv.ErrSyntax`, `TrimSpace` is `strings.TrimSpace` / `bytes.TrimSpace`. -/
structure StdLib where
  ParseFloat : Bytes → Nat → Except NumErr Nat
  Unquote : Bytes → Option Bytes
  TrimSpace : Bytes → Bytes

/-- Go `strconv.ParseFloat` with its `NumError` wrapper. -/
def StdLib.parseFloat (lib : StdLib) (s : Bytes) (bitSize : Nat) : Except Cause Nat :=
  match lib.ParseFloat s bitSize with
  | .ok v => .ok v
  | .error e => .error (.num "ParseFloat" s e)

/-- Go `strconv.Unquote` with its error. -/
def StdLib.unquote (lib : StdLib) (s : Bytes) : Except Cause Bytes :=
  match lib.Unquote s with
  | some v => .ok v
  | none => .error .unquote

/-! ## Go types and values as `reflect` sees them -/

/-- The signed integer kinds; `Int` has 64 bits (a 64-bit platform). -/
inductive IntKind where
  | Int | Int8 | Int16 | Int32 | Int64
  deriving DecidableEq, Repr

/-- The unsigned integer kinds; `Uint` and `Uintptr` have 64 bits. -/
inductive UintKind where
  | Uint | Uint8 | Uint16 | Uint32 | Uint64 | Uintptr
  deriving DecidableEq, Repr

/-- The floating point kinds. -/
inductive FloatKind where
  | Float32 | Float64
  deriving DecidableEq, Repr

/-- The kinds the decoder has no method for. -/
inductive OtherKind where
  | Complex64 | Complex128 | Array | Chan | Func | Interface | Map | UnsafePointer
  deriving DecidableEq, Repr

/-- Go `Type.Bits()` of a signed integer kind. -/
def IntKind.bits : IntKind → Nat
  | .Int => 64 | .Int8 => 8 | .Int16 => 16 | .Int32 => 32 | .Int64 => 64

/-- Go `Type.Bits()` of an unsigned integer kind. -/
def UintKind.bits : UintKind → Nat
  | .Uint => 64 | .Uint8 => 8 | .Uint16 => 16 | .Uint32 => 32 | .Uint64 => 64 | .Uintptr => 64

/-- Go `Type.Bits()` of a floating point kind. -/
def FloatKind.bits : FloatKind → Nat
  | .Float32 => 32 | .Float64 => 64

/-- What `reflect` knows of a type besides its structure: `name` is
`Type.String()`; `binV` / `binP` say that the type declares `UnmarshalBinary`
with a value / pointer receiver, `txtV` / `txtP` the same for `UnmarshalText`. -/
structure TypeMeta where
  name : String
  binV : Bool
  binP : Bool
  txtV : Bool
  txtP : Bool
  deriving DecidableEq, Repr

/-- A type without methods. -/
def TypeMeta.plain (name : String) : TypeMeta := ⟨name, false, false, false, false⟩

mutual
/-- A Go type as a finite tree. `time` is `time.Time`. A struct type that embeds
itself, through a pointer, is no finite tree: such types are in the second
embedding of typeinfo.go, over `Decls`, further down; on them
`getReflectTypeInfo` does not return. -/
inductive GoType where
  | bool (m : TypeMeta)
  | int (m : TypeMeta) (k : IntKind)
  | uint (m : TypeMeta) (k : UintKind)
  | float (m : TypeMeta) (k : FloatKind)
  | string (m : TypeMeta)
  | slice (m : TypeMeta) (elem : GoType)
  | ptr (m : TypeMeta) (elem : GoType)
  | struct (m : TypeMeta) (fields : Fields)
  | time
  | other (m : TypeMeta) (k : OtherKind)
  deriving DecidableEq, Repr
/-- The fields of a struct type in declaration order, each a
`reflect.StructField`: `Name`, `PkgPath` (empty for an exported field),
`Anonymous` (embedded), `Tag` (the value of `Tag.Get(TagName)`, with the default
`TagName = "json"`) and `Typ`. -/
inductive Fields where
  | nil
  | cons (Name PkgPath : String) (Anonymous : Bool) (Tag : String) (Typ : GoType)
      (rest : Fields)
  deriving DecidableEq, Repr
end

/-- Go `reflect.StructField`, as far as the decoder reads it. -/
structure StructField where
  Name : String
  PkgPath : String
  Anonymous : Bool
  Tag : String
  Typ : GoType
  deriving DecidableEq, Repr

/-- The fields of a struct type as a list. -/
def Fields.toList : Fields → List StructField
  | .nil => []
  | .cons n p a t ty rest => ⟨n, p, a, t, ty⟩ :: rest.toList

/-- The struct fields made of a list. -/
def Fields.ofList : List StructField → Fields
  | [] => .nil
  | f :: fs => .cons f.Name f.PkgPath f.Anonymous f.Tag f.Typ (Fields.ofList fs)

/-- The meta data of `time.Time`: it declares `UnmarshalBinary` and
`UnmarshalText` with pointer receivers. -/
def timeMeta : TypeMeta := ⟨"time.Time", false, true, false, true⟩

/-- The meta data of a type. -/
def GoType.meta : GoType → TypeMeta
  | .bool m => m
  | .int m _ => m
  | .uint m _ => m
  | .float m _ => m
  | .string m => m
  | .slice m _ => m
  | .ptr m _ => m
  | .struct m _ => m
  | .time => timeMeta
  | .other m _ => m

/-- Go `Type.String()`. -/
def GoType.typeString (t : GoType) : String := t.meta.name

/-- Go `Type.Kind().String()`. -/
def GoType.kindString : GoType → String
  | .bool _ => "bool"
  | .int _ .Int => "int"
  | .int _ .Int8 => "int8"
  | .int _ .Int16 => "int16"
  | .int _ .Int32 => "int32"
  | .int _ .Int64 => "int64"
  | .uint _ .Uint => "uint"
  | .uint _ .Uint8 => "uint8"
  | .uint _ .Uint16 => "uint16"
  | .uint _ .Uint32 => "uint32"
  | .uint _ .Uint64 => "uint64"
  | .uint _ .Uintptr => "uintptr"
  | .float _ .Float32 => "float32"
  | .float _ .Float64 => "float64"
  | .string _ => "string"
  | .slice _ _ => "slice"
  | .ptr _ _ => "ptr"
  | .struct _ _ => "struct"
  | .time => "struct"
  | .other _ .Complex64 => "complex64"
  | .other _ .Complex128 => "complex128"
  | .other _ .Array => "array"
  | .other _ .Chan => "chan"
  | .other _ .Func => "func"
  | .other _ .Interface => "interface"
  | .other _ .Map => "map"
  | .other _ .UnsafePointer => "unsafe.Pointer"

/-- Whether `Kind() == reflect.Struct`. -/
def GoType.isStruct : GoType → Bool
  | .struct _ _ => true
  | .time => true
  | _ => false

/-- Whether `Kind() == reflect.Ptr`. -/
def GoType.isPtr : GoType → Bool
  | .ptr _ _ => true
  | _ => false

/-- A Go value as a tree; a pointer holds its pointee (aliasing between
pointers is not modelled). `time sec nsec` is the `time.Time` in UTC that lies
`sec` seconds and `nsec` nanoseconds after the Unix epoch; `bytes none` is the
nil slice; `other` stands for the values the decoder never looks into. -/
inductive Value where
  | bool (b : Bool)
  | int (i : Int)
  | uint (n : Nat)
  | float (bits : Nat)
  | string (s : Bytes)
  | bytes (b : Option Bytes)
  | time (sec : Int) (nsec : Int)
  | struct (fields : List Value)
  | ptr (target : Option Value)
  | other (id : Nat)

mutual
/-- The zero value of a type (`reflect.New(t).Elem()`). -/
def zeroValue : GoType → Value
  | .bool _ => .bool false
  | .int _ _ => .int 0
  | .uint _ _ => .uint 0
  | .float _ _ => .float 0
  | .string _ => .string []
  | .slice _ _ => .bytes none
  | .ptr _ _ => .ptr none
  | .struct _ fs => .struct (zeroFields fs)
  | .time => .time (-62135596800) 0
  | .other _ _ => .other 0
/-- The zero values of the fields of a struct type. -/
def zeroFields : Fields → List Value
  | .nil => []
  | .cons _ _ _ _ ty rest => zeroValue ty :: zeroFields rest
end

/-! ## typeinfo.go -/

/-- Details for the representation of a single field (`fieldInfo`): the index
path `idx` and the wire name `name`; `aliasName` is the field `alias` of the
source, which the code never sets. -/
structure fieldInfo where
  idx : List Nat
  name : String
  aliasName : String
  deriving DecidableEq, Repr

/-- Details for the representation of a type (`typeInfo`). -/
structure typeInfo where
  name : String
  fields : List fieldInfo
  gotype : Bool
  deriving DecidableEq, Repr

/-- The process-wide `tinfoMap`: a map from types to descriptors, kept as an
association list whose first entry for a key is the one in force. -/
abbrev TinfoMap := List (GoType × typeInfo)

/-- The map lookup `tinfoMap[typ]`. -/
def TinfoMap.get (m : TinfoMap) (typ : GoType) : Option typeInfo :=
  match m with
  | [] => none
  | (k, ti) :: rest => if k = typ then some ti else TinfoMap.get rest typ

/-- Go `Type.Field(x)` of a struct type; `none` is the panic of `reflect`. The
unexported fields of `time.Time` are not modelled. -/
def GoType.Field (t : GoType) (x : Nat) : Option StructField :=
  match t with
  | .struct _ fs => fs.toList[x]?
  | _ => none

/-- The step `if ft.Kind() == Ptr && ft.Elem().Kind() == Struct { ft = ft.Elem() }`. -/
def GoType.derefStruct : GoType → GoType
  | .ptr m e => if e.isStruct then e else .ptr m e
  | t => t

/-- The part of `Type.FieldByIndex` after the first index. -/
def GoType.FieldByIndex.rest : StructField → List Nat → Option StructField
  | f, [] => some f
  | f, x :: xs =>
    match f.Typ.derefStruct.Field x with
    | some g => GoType.FieldByIndex.rest g xs
    | none => none

/-- Go `Type.FieldByIndex(index)`; `none` is the panic of `reflect`. -/
def GoType.FieldByIndex (t : GoType) : List Nat → Option StructField
  | [] => some ⟨"", "", false, "", t⟩
  | x :: xs =>
    match t.Field x with
    | some f => GoType.FieldByIndex.rest f xs
    | none => none

/-- The function `structFieldInfo`: the descriptor entry of field `i`, named by
its tag when the tag is not empty and by the field name otherwise. -/
def structFieldInfo (i : Nat) (Name Tag : String) : fieldInfo :=
  ⟨[i], if Tag ≠ "" then Tag else Name, ""⟩

/-- The function `addFieldInfo`: append `newf` unless an entry with its name is
there already; the error is built from the first conflicting entry. -/
def addFieldInfo (typ : GoType) (tinfo : typeInfo) (newf : fieldInfo) : Res typeInfo :=
  match tinfo.fields.find? (fun oldf => newf.name = oldf.name) with
  | some oldf =>
    match typ.FieldByIndex oldf.idx, typ.FieldByIndex newf.idx with
    | some f1, some f2 => .err (.conflict typ.typeString f1.Name f1.Tag f2.Name f2.Tag)
    | _, _ => .panic .reflectCall
  | none => .ok { tinfo with fields := tinfo.fields ++ [newf] }

/-- The inner loop of `getReflectTypeInfo` over the fields of an embedded
struct: each gets the index `i` in front of its path and is added. -/
def addEmbedded (typ : GoType) (i : Nat) : List fieldInfo → typeInfo → Res typeInfo
  | [], tinfo => .ok tinfo
  | finfo :: rest, tinfo =>
    match addFieldInfo typ tinfo { finfo with idx := i :: finfo.idx } with
    | .ok tinfo1 => addEmbedded typ i rest tinfo1
    | .err e => .err e
    | .panic p => .panic p

mutual
/-- The function `getReflectTypeInfo`: the cached descriptor when there is one,
otherwise the descriptor built from the fields, which is then stored. -/
def getReflectTypeInfo (cache : TinfoMap) : GoType → Res typeInfo × TinfoMap
  | .struct m fs =>
    match TinfoMap.get cache (.struct m fs) with
    | some tinfo => (.ok tinfo, cache)
    | none =>
      match getReflectTypeInfo.loop cache (.struct m fs) fs 0 ⟨m.name, [], true⟩ with
      | (.ok tinfo, c) => (.ok tinfo, (.struct m fs, tinfo) :: c)
      | (r, c) => (r, c)
  | .time =>
    match TinfoMap.get cache .time with
    | some tinfo => (.ok tinfo, cache)
    | none => (.ok ⟨"time.Time", [], true⟩, (.time, ⟨"time.Time", [], true⟩) :: cache)
  | t =>
    match TinfoMap.get cache t with
    | some tinfo => (.ok tinfo, cache)
    | none => (.err (.notStruct t.typeString t.kindString), cache)
/-- The loop of `getReflectTypeInfo` over the fields from index `i` on. -/
def getReflectTypeInfo.loop (cache : TinfoMap) (typ : GoType) :
    Fields → Nat → typeInfo → Res typeInfo × TinfoMap
  | .nil, _, tinfo => (.ok tinfo, cache)
  | .cons Name PkgPath Anonymous Tag ty rest, i, tinfo =>
    if (PkgPath ≠ "" ∧ Anonymous = false) ∨ Tag = "-" then
      getReflectTypeInfo.loop cache typ rest (i + 1) tinfo
    else
      let embed := fun (r : Res typeInfo × TinfoMap) =>
        match r with
        | (.ok inner, c) =>
          match addEmbedded typ i inner.fields tinfo with
          | .ok tinfo1 => getReflectTypeInfo.loop c typ rest (i + 1) tinfo1
          | .err e => (.err e, c)
          | .panic p => (.panic p, c)
        | (.err e, c) => (.err e, c)
        | (.panic p, c) => (.panic p, c)
      let own := fun (_ : Unit) =>
        match addFieldInfo typ tinfo (structFieldInfo i Name Tag) with
        | .ok tinfo1 => getReflectTypeInfo.loop cache typ rest (i + 1) tinfo1
        | .err e => (.err e, cache)
        | .panic p => (.panic p, cache)
      if Anonymous then
        match ty with
        | .ptr _ e => if e.isStruct then embed (getReflectTypeInfo cache e) else own ()
        | .struct m fs => embed (getReflectTypeInfo cache (.struct m fs))
        | .time => embed (getReflectTypeInfo cache .time)
        | _ => own ()
      else own ()
end

/-- A destination passed as `val interface{}`: `none` is the nil interface,
otherwise the dynamic type and the value. A pointer destination `*T` is
`some (.ptr m T, .ptr target)`. -/
abbrev Dest := Option (GoType × Value)

/-- The function `getTypeInfo`: the descriptor of the type of
`reflect.Indirect(reflect.ValueOf(v))`. -/
def getTypeInfo (cache : TinfoMap) (v : Dest) : Res typeInfo × TinfoMap :=
  match v with
  | none => (.err (.invalidValue "<nil>"), cache)
  | some (.ptr m _, .ptr none) => (.err (.invalidValue m.name), cache)
  | some (.ptr _ e, _) => getReflectTypeInfo cache e
  | some (t, _) => getReflectTypeInfo cache t

/-! ## datafield.go -/

/-- The declared type of a column: `type FieldType string`. -/
abbrev FieldType := String

/-- The constant `FieldTypeUndefined`. -/
def FieldTypeUndefined : FieldType := ""

/-- The constant `FieldTypeString`. -/
def FieldTypeString : FieldType := "string"

/-- The constant `FieldTypeBytes`. -/
def FieldTypeBytes : FieldType := "bytes"

/-- The constant `FieldTypeDate`. -/
def FieldTypeDate : FieldType := "date"

/-- The constant `FieldTypeDatetime`. -/
def FieldTypeDatetime : FieldType := "datetime"

/-- The constant `FieldTypeBoolean`. -/
def FieldTypeBoolean : FieldType := "boolean"

/-- The constant `FieldTypeFloat64`. -/
def FieldTypeFloat64 : FieldType := "float64"

/-- The constant `FieldTypeInt64`. -/
def FieldTypeInt64 : FieldType := "int64"

/-- The constant `FieldTypeUint64`. -/
def FieldTypeUint64 : FieldType := "uint64"

/-- One column of the schema (`Datafield`); `Typ` is the field `Type`. -/
structure Datafield where
  Name : String
  Code : String
  Typ : FieldType
  deriving DecidableEq, Repr

/-! ## dataframe.go -/

/-- The `Dataframe`: the columns, the raw rows, and the two internal fields
`tinfo` and `colmap` (`none` is nil). The map `colmap` is an association list
whose first entry for a key is the one in force. -/
structure Dataframe where
  Columns : List Datafield
  Data : List Bytes
  tinfo : Option typeInfo
  colmap : Option (List (String × Nat))
  deriving DecidableEq, Repr

/-- The method `ResetType`. -/
def Dataframe.ResetType (t : Dataframe) : Dataframe :=
  { t with tinfo := none, colmap := none }

/-- The loop `for i, v := range t.Columns { t.colmap[v.Code] = i }` from index `i` on. -/
def buildColmap : List Datafield → Nat → List (String × Nat) → List (String × Nat)
  | [], _, m => m
  | v :: rest, i, m => buildColmap rest (i + 1) ((v.Code, i) :: m)

/-- The method `columnIndex`: the index stored in `colmap`, or `-1`; a nil map
has no entry. -/
def Dataframe.columnIndex (t : Dataframe) (name : String) : Int :=
  match t.colmap with
  | none => -1
  | some m =>
    match m.lookup name with
    | some i => (i : Int)
    | none => -1

/-- The flag bits of a `reflect.Value` the decoder depends on: addressable, and
read-only because reached through an unexported plain or embedded field. -/
structure Flag where
  addr : Bool
  stickyRO : Bool
  embedRO : Bool
  deriving DecidableEq, Repr

/-- Whether one of the read-only bits is set. -/
def Flag.ro (fl : Flag) : Bool := fl.stickyRO || fl.embedRO

/-- Go `Value.CanSet`. -/
def Flag.CanSet (fl : Flag) : Bool := fl.addr && !fl.ro

/-- Go `Value.CanInterface`. -/
def Flag.CanInterface (fl : Flag) : Bool := !fl.ro

/-- The flag of `v.Field(i)`: the sticky bit and addressability are inherited,
an unexported field sets the embedded or the sticky read-only bit. -/
def Flag.field (fl : Flag) (f : StructField) : Flag :=
  { addr := fl.addr
    stickyRO := fl.stickyRO || (f.PkgPath != "" && !f.Anonymous)
    embedRO := f.PkgPath != "" && f.Anonymous }

/-- The flag of `v.Elem()` of a pointer: addressable, read-only bits inherited. -/
def Flag.elem (fl : Flag) : Flag := { fl with addr := true }

/-- Whether methods declared on `t` are in the method set of `*t`: not for
pointer and interface types. -/
def GoType.hasPtrMethods : GoType → Bool
  | .ptr _ _ => false
  | .other _ .Interface => false
  | _ => true

/-- Whether `reflect.PtrTo(t).Implements(binaryUnmarshalerType)`. -/
def GoType.ptrImplementsBinary (t : GoType) : Bool :=
  t.hasPtrMethods && (t.meta.binV || t.meta.binP)

/-- Whether `reflect.PtrTo(t).Implements(textUnmarshalerType)`. -/
def GoType.ptrImplementsText (t : GoType) : Bool :=
  t.hasPtrMethods && (t.meta.txtV || t.meta.txtP)

/-- Whether `t.Implements(binaryUnmarshalerType)`. -/
def GoType.implementsBinary : GoType → Bool
  | .ptr _ e => e.ptrImplementsBinary
  | t => t.meta.binV

/-- Whether `t.Implements(textUnmarshalerType)`. -/
def GoType.implementsText : GoType → Bool
  | .ptr _ e => e.ptrImplementsText
  | t => t.meta.txtV

/-- The custom unmarshalers of the program: given the type of the field, whether
the call goes through `dst.Addr()`, the raw column bytes and the value of the
field, the value of the field after the call and the error returned, if any. -/
structure Custom where
  UnmarshalBinary : GoType → Bool → Bytes → Value → Value × Option Cause
  UnmarshalText : GoType → Bool → Bytes → Value → Value × Option Cause

/-- Two's complement wrap-around of an `int64` result. -/
def wrapInt64 (x : Int) : Int := Int.emod (x + 2 ^ 63) (2 ^ 64) - 2 ^ 63

/-- Go `time.Unix(0, i*1000000).UTC()` for an `int64` `i`: the product wraps
around, and the nanoseconds are split into seconds and the rest. -/
def timeOfMillis (i : Int) : Value :=
  let n := wrapInt64 (i * 1000000)
  .time (Int.ediv n 1000000000) (Int.emod n 1000000000)

/-- The result of one call of a custom unmarshaler inside `decodeAt`. -/
def customResult (name : String) (t : GoType) (r : Value × Option Cause) : Res Unit × Value :=
  match r.2 with
  | none => (.ok (), r.1)
  | some c => (.err (.fieldError name t.typeString c), r.1)

/-- Lines 221-283 of `decodeAt`: the built-in coercion of the column text
`cols[col]` by the kind of `dst` (type `t`, flag `fl`, value `v`); `t0` is the
type of `dst0`. `raw = none` stands for `col` out of the range of `cols`. -/
def decodeSimple (lib : StdLib) (name : String) (raw : Option Bytes) (t0 t : GoType)
    (fl : Flag) (v : Value) : Res Unit × Value :=
  match raw with
  | none => (.panic .indexOutOfRange, v)
  | some colstr =>
    let set := fun (x : Value) => if fl.CanSet then (Res.ok (), x) else (Res.panic .reflectSet, v)
    match t with
    | .int _ k =>
      match ParseInt colstr k.bits with
      | .error c => (.err (.fieldError name t.typeString c), v)
      | .ok i => set (.int i)
    | .uint _ k =>
      match ParseUint colstr k.bits with
      | .error c => (.err (.fieldError name t.typeString c), v)
      | .ok i => set (.uint i)
    | .float _ k =>
      match lib.parseFloat colstr k.bits with
      | .error c => (.err (.fieldError name t.typeString c), v)
      | .ok i => set (.float i)
    | .bool _ =>
      match ParseBool (lib.TrimSpace colstr) with
      | .error c => (.err (.fieldError name t.typeString c), v)
      | .ok i => set (.bool i)
    | .string _ =>
      match lib.unquote (lib.TrimSpace colstr) with
      | .error c => (.err (.fieldError name t.typeString c), v)
      | .ok i => set (.string i)
    | .slice _ e =>
      match e with
      | .uint _ .Uint8 =>
        match lib.unquote (lib.TrimSpace colstr) with
        | .error c => (.err (.fieldError name t.typeString c), v)
        | .ok str =>
          match hexDecodeString str with
          | .error c => (.err (.fieldError name t.typeString c), v)
          | .ok buf => set (.bytes (some buf))
      | _ => (.err (.unsupportedSlice e.kindString), v)
    | .time =>
      match ParseInt colstr 64 with
      | .error c => (.err (.bare c), v)
      | .ok i => set (timeOfMillis i)
    | .struct m _ =>
      if m.name = "time.Time" then
        match ParseInt colstr 64 with
        | .error c => (.err (.bare c), v)
        | .ok _ => (.panic .reflectSet, v)
      else (.err (.unsupportedStruct m.name), v)
    | .ptr _ _ => (.err (.noMethodUnmarshal t0.typeString t0.kindString), v)
    | .other _ _ => (.err (.noMethodUnmarshal t0.typeString t0.kindString), v)

/-- Lines 183-283 of `decodeAt` for `dst` after the pointer step: the binary
unmarshaler of the type, else of its address, else the text unmarshalers, else
the built-in coercion; `time.Time` goes to the built-in coercion directly. -/
def decodeElem (lib : StdLib) (cu : Custom) (name : String) (raw : Option Bytes)
    (t0 t : GoType) (fl : Flag) (v : Value) : Res Unit × Value :=
  let call := fun (f : Bytes → Value → Value × Option Cause) =>
    match raw with
    | none => (Res.panic .indexOutOfRange, v)
    | some b => customResult name t (f b v)
  if t.typeString ≠ "time.Time" then
    if fl.CanInterface ∧ t.implementsBinary then call (cu.UnmarshalBinary t false)
    else if fl.addr ∧ fl.CanInterface ∧ t.ptrImplementsBinary then
      call (cu.UnmarshalBinary t true)
    else if fl.CanInterface ∧ t.implementsText then call (cu.UnmarshalText t false)
    else if fl.addr ∧ fl.CanInterface ∧ t.ptrImplementsText then
      call (cu.UnmarshalText t true)
    else decodeSimple lib name raw t0 t fl v
  else decodeSimple lib name raw t0 t fl v

/-- Lines 174-283 of `decodeAt`: the body of the loop once `dst` is resolved. A
nil pointer is allocated when it can be set and then dereferenced; a nil
pointer that cannot be set leaves the zero Value, on which `dst.Type()` panics. -/
def decodeValue (lib : StdLib) (cu : Custom) (name : String) (raw : Option Bytes)
    (t : GoType) (fl : Flag) (v : Value) : Res Unit × Value :=
  match t with
  | .ptr _ e =>
    match v with
    | .ptr none =>
      if fl.CanSet then
        let r := decodeElem lib cu name raw t e fl.elem (zeroValue e)
        (r.1, .ptr (some r.2))
      else (.panic .reflectCall, v)
    | .ptr (some pv) =>
      let r := decodeElem lib cu name raw t e fl.elem pv
      (r.1, .ptr (some r.2))
    | _ => (.panic .reflectCall, v)
  | _ => decodeElem lib cu name raw t t fl v

/-- The step `v = v.Field(x)` of `fieldInfo.value` on the value `v` of type `t`,
followed by `next` on the field; the value returned is `v` with the field
replaced by what `next` leaves there. `Field` panics on a value that is no
struct and on an index out of range. -/
def fieldInfo.value.field (next : GoType → Flag → Value → Res Unit × Value) (x : Nat)
    (t : GoType) (fl : Flag) (v : Value) : Res Unit × Value :=
  match t.Field x, v with
  | some f, .struct vs =>
    match vs[x]? with
    | some fv =>
      let r := next f.Typ (fl.field f) fv
      (r.1, Value.struct (vs.set x r.2))
    | none => (Res.panic .reflectCall, v)
  | _, _ => (Res.panic .reflectCall, v)

/-- The method `fieldInfo.value` followed by `k` on the field it returns. The
path is walked from the value `v` of type `t`; after the first index a pointer
to a struct is dereferenced, and allocated first when it is nil. The value
returned is `v` with the field replaced by what `k` leaves there. -/
def fieldInfo.value (k : GoType → Flag → Value → Res Unit × Value) :
    List Nat → Bool → GoType → Flag → Value → Res Unit × Value
  | [], _, t, fl, v => k t fl v
  | x :: xs, first, t, fl, v =>
    let next := fun (t1 : GoType) (fl1 : Flag) (v1 : Value) =>
      fieldInfo.value k xs false t1 fl1 v1
    if first then fieldInfo.value.field next x t fl v
    else
      match t with
      | .ptr _ e =>
        if e.isStruct then
          match v with
          | .ptr none =>
            if fl.CanSet then
              let r := fieldInfo.value.field next x e fl.elem (zeroValue e)
              (r.1, Value.ptr (some r.2))
            else (.panic .reflectSet, v)
          | .ptr (some pv) =>
            let r := fieldInfo.value.field next x e fl.elem pv
            (r.1, Value.ptr (some r.2))
          | _ => (.panic .reflectCall, v)
        else fieldInfo.value.field next x t fl v
      | _ => fieldInfo.value.field next x t fl v

/-- The loop of `decodeAt` over the fields of the descriptor: a field whose
name has no column is skipped; the first error or panic ends the loop. `t` and
`fl` are the type and flag of the dereferenced destination `v`. -/
def decodeAt.loop (lib : StdLib) (cu : Custom) (df : Dataframe) (cols : List Bytes)
    (t : GoType) (fl : Flag) : List fieldInfo → Value → Res Unit × Value
  | [], v => (.ok (), v)
  | finfo :: rest, v =>
    let col := df.columnIndex finfo.name
    if col < 0 then decodeAt.loop lib cu df cols t fl rest v
    else
      match fieldInfo.value (decodeValue lib cu finfo.name cols[col.toNat]?) finfo.idx true
          t fl v with
      | (.ok _, v1) => decodeAt.loop lib cu df cols t fl rest v1
      | (r, v1) => (r, v1)

/-- Lines 156-285 of `decodeAt`, once the destination is dereferenced to the
value `v` of type `t`: fetch the row, strip the delimiters, split, bind. -/
def decodeAt.row (lib : StdLib) (cu : Custom) (df : Dataframe) (pos : Int)
    (tinfo : typeInfo) (t : GoType) (fl : Flag) (v : Value) : Res Unit × Value :=
  if pos < 0 then (.panic .indexOutOfRange, v)
  else
    match df.Data[pos.toNat]? with
    | none => (.panic .indexOutOfRange, v)
    | some buf =>
      if buf.length < 2 then (.panic .sliceBounds, v)
      else
        let cols := bytesSplit 44 ((buf.drop 1).take (buf.length - 2))
        decodeAt.loop lib cu df cols t fl tinfo.fields v

/-- The method `decodeAt`: the outcome and the destination after the call.
`derefValue` steps through a pointer destination (and panics when it is nil,
since the Value made of `val` cannot be set). -/
def Dataframe.decodeAt (lib : StdLib) (cu : Custom) (df : Dataframe) (pos : Int)
    (val : Dest) (tinfo : typeInfo) : Res Unit × Dest :=
  if (df.Data.length : Int) ≤ pos then (.err (.invalidTableRow pos df.Data.length), val)
  else
    match val with
    | none => (.err (.invalidValue "reflect.Value"), val)
    | some (.ptr m e, .ptr none) => (.panic .reflectSet, some (.ptr m e, .ptr none))
    | some (.ptr m e, .ptr (some pv)) =>
      let r := decodeAt.row lib cu df pos tinfo e ⟨true, false, false⟩ pv
      (r.1, some (.ptr m e, .ptr (some r.2)))
    | some (t, v) =>
      let r := decodeAt.row lib cu df pos tinfo t ⟨false, false, false⟩ v
      (r.1, some (t, r.2))

/-- What a call of `DecodeAt` leaves behind: the result, the destination, the
Dataframe and the process-wide descriptor cache. -/
structure Outcome where
  res : Res Unit
  val : Dest
  frame : Dataframe
  cache : TinfoMap

/-- The method `DecodeAt`: on a Dataframe without descriptor the descriptor of
the destination is resolved and the column map is built, both are stored; then
`decodeAt` runs with the stored descriptor. -/
def Dataframe.DecodeAt (lib : StdLib) (cu : Custom) (cache : TinfoMap) (df : Dataframe)
    (row : Int) (val : Dest) : Outcome :=
  match df.tinfo with
  | none =>
    match getTypeInfo cache val with
    | (.ok tinfo, c) =>
      let df1 : Dataframe :=
        { df with tinfo := some tinfo, colmap := some (buildColmap df.Columns 0 []) }
      let r := df1.decodeAt lib cu row val tinfo
      ⟨r.1, r.2, df1, c⟩
    | (.err e, c) => ⟨.err e, val, df, c⟩
    | (.panic p, c) => ⟨.panic p, val, df, c⟩
  | some tinfo =>
    let r := df.decodeAt lib cu row val tinfo
    ⟨r.1, r.2, df, cache⟩

/-- The first lines shared by the per-cell decoders: `v := t.Data[row]`,
`v = v[1 : len(v)-1]`, `start, end := indexByteColumnN(v, ',', col)` and the
slice `v[start:end]`, whose bounds are checked against the capacity of `v`: the
backing array of `v` goes on with the last byte of the row. `ok none` stands
for `start < 0`. -/
def Dataframe.cellText (df : Dataframe) (col row : Int) : Res (Option Bytes) :=
  if row < 0 then .panic .indexOutOfRange
  else
    match df.Data[row.toNat]? with
    | none => .panic .indexOutOfRange
    | some buf =>
      if buf.length < 2 then .panic .sliceBounds
      else
        let v := (buf.drop 1).take (buf.length - 2)
        let spare := buf.drop (buf.length - 1)
        let se := indexByteColumnN v 44 col
        if se.1 < 0 then .ok none
        else if se.1 ≤ se.2 ∧ se.2 ≤ (v.length : Int) + (spare.length : Int) then
          .ok (some (((v ++ spare).drop se.1.toNat).take (se.2 - se.1).toNat))
        else .panic .sliceBounds

/-- The tail shared by the per-cell decoders that report with
`makeColumnMissingError` and `makeColumnError`. -/
def Dataframe.cell {α : Type} (df : Dataframe) (parse : Bytes → Except Cause α)
    (col row : Int) (name : String) : Res α :=
  match df.cellText col row with
  | .panic p => .panic p
  | .err e => .err e
  | .ok none => .err (.columnMissing name col row)
  | .ok (some s) =>
    match parse s with
    | .ok val => .ok val
    | .error c => .err (.columnError name col row c)

/-- The method `decodeInt64At`. -/
def Dataframe.decodeInt64At (df : Dataframe) (col row : Int) (name : String) : Res Int :=
  df.cell (fun s => ParseInt s 64) col row name

/-- The method `decodeUint64At`. -/
def Dataframe.decodeUint64At (df : Dataframe) (col row : Int) (name : String) : Res Nat :=
  df.cell (fun s => ParseUint s 64) col row name

/-- The method `decodeFloat64At`. -/
def Dataframe.decodeFloat64At (lib : StdLib) (df : Dataframe) (col row : Int)
    (name : String) : Res Nat :=
  df.cell (fun s => lib.parseFloat s 64) col row name

/-- The method `decodeStringAt`. -/
def Dataframe.decodeStringAt (lib : StdLib) (df : Dataframe) (col row : Int)
    (name : String) : Res Bytes :=
  df.cell (fun s => lib.unquote (lib.TrimSpace s)) col row name

/-- The method `decodeBytesAt`: unquote, then hex-decode. -/
def Dataframe.decodeBytesAt (lib : StdLib) (df : Dataframe) (col row : Int)
    (name : String) : Res Bytes :=
  df.cell (fun s =>
    match lib.unquote (lib.TrimSpace s) with
    | .error c => .error c
    | .ok val => hexDecodeString val) col row name

/-- The method `decodeBoolAt`. -/
def Dataframe.decodeBoolAt (df : Dataframe) (col row : Int) (name : String) : Res Bool :=
  df.cell ParseBool col row name

/-- The method `decodeTimeAt`, which has error formats of its own. -/
def Dataframe.decodeTimeAt (df : Dataframe) (col row : Int) (name : String) : Res Value :=
  match df.cellText col row with
  | .panic p => .panic p
  | .err e => .err e
  | .ok none => .err (.timeMissing name col row)
  | .ok (some s) =>
    match ParseInt s 64 with
    | .ok val => .ok (timeOfMillis val)
    | .error c => .err (.timeError name col row c)

/-- Map the value of a result. -/
def Res.map {α β : Type} (f : α → β) : Res α → Res β
  | .ok a => .ok (f a)
  | .err e => .err e
  | .panic p => .panic p

/-- The method `FieldAt`: the two guards, then the decoder of the declared
type of the column. -/
def Dataframe.FieldAt (lib : StdLib) (df : Dataframe) (col row : Int) : Res Value :=
  if (df.Columns.length : Int) < col then .err (.invalidDataColumn col df.Columns.length)
  else if (df.Data.length : Int) < row then .err (.invalidDataRow row df.Data.length)
  else if col < 0 then .panic .indexOutOfRange
  else
    match df.Columns[col.toNat]? with
    | none => .panic .indexOutOfRange
    | some c =>
      let name := c.Code
      let typ := c.Typ
      if typ = FieldTypeString then (df.decodeStringAt lib col row name).map .string
      else if typ = FieldTypeBytes then
        (df.decodeBytesAt lib col row name).map (fun b => .bytes (some b))
      else if typ = FieldTypeDate ∨ typ = FieldTypeDatetime then df.decodeTimeAt col row name
      else if typ = FieldTypeBoolean then (df.decodeBoolAt col row name).map .bool
      else if typ = FieldTypeFloat64 then (df.decodeFloat64At lib col row name).map .float
      else if typ = FieldTypeInt64 then (df.decodeInt64At col row name).map .int
      else if typ = FieldTypeUint64 then (df.decodeUint64At col row name).map .uint
      else .err (.noMethodColumn name typ)

/-- The loop shared by the whole-column decoders:
`for i := range t.Data { vec[i], err = cell(col, i, name); if err != nil { return nil, err } }`,
from row `i` on for `n` rows. -/
def columnLoop {α : Type} (cell : Int → Res α) : Nat → Nat → Res (List α)
  | _, 0 => .ok []
  | i, n + 1 =>
    match cell (i : Int) with
    | .ok a =>
      match columnLoop cell (i + 1) n with
      | .ok vec => .ok (a :: vec)
      | .err e => .err e
      | .panic p => .panic p
    | .err e => .err e
    | .panic p => .panic p

/-- The method `decodeInt64Column`. -/
def Dataframe.decodeInt64Column (df : Dataframe) (col : Int) (name : String) :
    Res (List Int) :=
  columnLoop (fun i => df.decodeInt64At col i name) 0 df.Data.length

/-- The method `decodeUint64Column`. -/
def Dataframe.decodeUint64Column (df : Dataframe) (col : Int) (name : String) :
    Res (List Nat) :=
  columnLoop (fun i => df.decodeUint64At col i name) 0 df.Data.length

/-- The method `decodeFloat64Column`. -/
def Dataframe.decodeFloat64Column (lib : StdLib) (df : Dataframe) (col : Int)
    (name : String) : Res (List Nat) :=
  columnLoop (fun i => df.decodeFloat64At lib col i name) 0 df.Data.length

/-- The method `decodeStringColumn`. -/
def Dataframe.decodeStringColumn (lib : StdLib) (df : Dataframe) (col : Int)
    (name : String) : Res (List Bytes) :=
  columnLoop (fun i => df.decodeStringAt lib col i name) 0 df.Data.length

/-- The method `decodeBytesColumn`. -/
def Dataframe.decodeBytesColumn (lib : StdLib) (df : Dataframe) (col : Int)
    (name : String) : Res (List Bytes) :=
  columnLoop (fun i => df.decodeBytesAt lib col i name) 0 df.Data.length

/-- The method `decodeBoolColumn`. -/
def Dataframe.decodeBoolColumn (df : Dataframe) (col : Int) (name : String) :
    Res (List Bool) :=
  columnLoop (fun i => df.decodeBoolAt col i name) 0 df.Data.length

/-- The method `decodeTimeColumn`. -/
def Dataframe.decodeTimeColumn (df : Dataframe) (col : Int) (name : String) :
    Res (List Value) :=
  columnLoop (fun i => df.decodeTimeAt col i name) 0 df.Data.length

/-- The method `Dataframe.Column`: the index of the column and the decoded
vector, or `-1` and the missing-column error. -/
def Dataframe.Column (lib : StdLib) (df : Dataframe) (name : String) :
    Int × Res (List Value) :=
  let i := df.columnIndex name
  if i < 0 then (-1, .err (.missingColumn name))
  else
    match df.Columns[i.toNat]? with
    | none => (i, .panic .indexOutOfRange)
    | some c =>
      let typ := c.Typ
      if typ = FieldTypeString then (i, (df.decodeStringColumn lib i name).map (List.map .string))
      else if typ = FieldTypeBytes then
        (i, (df.decodeBytesColumn lib i name).map (List.map (fun b => .bytes (some b))))
      else if typ = FieldTypeDate ∨ typ = FieldTypeDatetime then
        (i, df.decodeTimeColumn i name)
      else if typ = FieldTypeBoolean then (i, (df.decodeBoolColumn i name).map (List.map .bool))
      else if typ = FieldTypeFloat64 then
        (i, (df.decodeFloat64Column lib i name).map (List.map .float))
      else if typ = FieldTypeInt64 then (i, (df.decodeInt64Column i name).map (List.map .int))
      else if typ = FieldTypeUint64 then
        (i, (df.decodeUint64Column i name).map (List.map .uint))
      else (i, .err (.noMethodColumn name typ))

/-- The type `Row`: a Dataframe and a row number. -/
structure Row where
  data : Dataframe
  n : Int

/-- The method `Row.Decode`. -/
def Row.Decode (lib : StdLib) (cu : Custom) (cache : TinfoMap) (r : Row) (val : Dest) :
    Outcome :=
  r.data.DecodeAt lib cu cache r.n val

/-- The method `Row.Column`. -/
def Row.Column (lib : StdLib) (r : Row) (name : String) : Int × Res Value :=
  let col := r.data.columnIndex name
  if col < 0 then (-1, .err (.missingColumn name))
  else (col, r.data.FieldAt lib col r.n)

/-! ## Example data -/

/-- The type `uint64`. -/
def uint64Type : GoType := .uint (.plain "uint64") .Uint64

/-- A record with an unsigned 64-bit field aliased `height` and a time field
aliased `time`:
`struct { Height uint64 "json:height"; Time time.Time "json:time" }`. -/
def heightTimeRecord : GoType :=
  .struct (.plain "main.Rec")
    (.cons "Height" "" false "height" uint64Type (.cons "Time" "" false "time" .time .nil))

/-- A pointer to a `heightTimeRecord` whose fields hold `h` and `t`. -/
def heightTimeDest (h t : Value) : Dest :=
  some (.ptr (.plain "*main.Rec") heightTimeRecord, .ptr (some (.struct [h, t])))

/-- The columns `[height: uint64, time: datetime]`. -/
def heightTimeColumns : List Datafield :=
  [⟨"Height", "height", FieldTypeUint64⟩, ⟨"Time", "time", FieldTypeDatetime⟩]

/-- A Dataframe with the columns `[height: uint64, time: datetime]` and the given
rows, as it is after JSON decoding: no descriptor and no column map yet. -/
def heightTimeFrame (rows : List Bytes) : Dataframe :=
  ⟨heightTimeColumns, rows, none, none⟩

/-- Whether a byte is ASCII white space. -/
def isAsciiSpace (c : UInt8) : Bool :=
  c = 9 || c = 10 || c = 11 || c = 12 || c = 13 || c = 32

/-- A `StdLib` for evaluating examples. It agrees with Go on the inputs the
examples use: `TrimSpace` trims ASCII white space, `Unquote` takes the text
between two double quotes when that text has no quote, backslash or control
byte and is ASCII, and `ParseFloat` is not used (it rejects). -/
def asciiLib : StdLib where
  ParseFloat := fun _ _ => .error .ErrSyntax
  Unquote := fun s =>
    match s with
    | 34 :: rest =>
      match rest.reverse with
      | 34 :: body =>
        if body.all (fun c => c ≠ 34 ∧ c ≠ 92 ∧ 32 ≤ c ∧ c < 127) then some body.reverse
        else none
      | _ => none
    | _ => none
  TrimSpace := fun s => ((s.dropWhile isAsciiSpace).reverse.dropWhile isAsciiSpace).reverse

/-- A `Custom` without effect, for evaluating examples with types that have no
custom unmarshaler. -/
def noCustom : Custom where
  UnmarshalBinary := fun _ _ _ v => (v, none)
  UnmarshalText := fun _ _ _ v => (v, none)

/-- What is claimed of a whole-column decoder with per-cell decoder `cell` over
`n` rows and result `result`: when every cell decodes, the result is a vector
of length `n` whose `r`-th element is the result of cell `r`; when the cell of
row `r` fails with `e` and all cells before it decode, the result is the error
`e` and no vector, whatever the cells after row `r` would do. -/
def ColumnContract {α : Type} (cell : Int → Res α) (n : Nat) (result : Res (List α)) : Prop :=
  ((∀ r, r < n → ∃ a, cell (r : Int) = .ok a) →
    ∃ vec, result = .ok vec ∧ vec.length = n ∧
      ∀ r, r < n → ∃ a, vec[r]? = some a ∧ cell (r : Int) = .ok a) ∧
  (∀ r e, r < n → (∀ q, q < r → ∃ a, cell (q : Int) = .ok a) → cell (r : Int) = .err e →
    result = .err e)

/-! ## The bindable fields of a record shape, in the words of the specification -/

/-- The wire name of a field: its alias tag when that is not empty, its declared
name otherwise. -/
def wireName (Name Tag : String) : String := if Tag ≠ "" then Tag else Name

/-- Put the index `i` in front of the path of a descriptor entry. -/
def fieldInfo.under (i : Nat) (finfo : fieldInfo) : fieldInfo :=
  { finfo with idx := i :: finfo.idx }

mutual
/-- The bindable fields of a record shape as the specification describes them:
the own fields plus the flattened fields of embedded records, with a path
prefix, excluded fields left out. -/
def bindable : GoType → List fieldInfo
  | .struct _ fs => bindableFields fs 0
  | _ => []
/-- The bindable fields contributed by the fields from index `i` on. -/
def bindableFields : Fields → Nat → List fieldInfo
  | .nil, _ => []
  | .cons Name PkgPath Anonymous Tag ty rest, i =>
    bindableField i Name PkgPath Anonymous Tag ty ++ bindableFields rest (i + 1)
/-- The bindable fields contributed by the field at index `i`: none when the
field is unexported and not embedded or is tagged `-`; the fields of the
embedded record, under `i`, when it embeds a struct or a pointer to a struct;
the field itself otherwise. -/
def bindableField (i : Nat) (Name PkgPath : String) (Anonymous : Bool) (Tag : String) :
    GoType → List fieldInfo
  | .ptr _ e =>
    if (PkgPath ≠ "" ∧ Anonymous = false) ∨ Tag = "-" then []
    else if Anonymous = true ∧ e.isStruct = true then (bindable e).map (fieldInfo.under i)
    else [⟨[i], wireName Name Tag, ""⟩]
  | .struct _ fs =>
    if (PkgPath ≠ "" ∧ Anonymous = false) ∨ Tag = "-" then []
    else if Anonymous = true then (bindableFields fs 0).map (fieldInfo.under i)
    else [⟨[i], wireName Name Tag, ""⟩]
  | .time =>
    if (PkgPath ≠ "" ∧ Anonymous = false) ∨ Tag = "-" then []
    else if Anonymous = true then []
    else [⟨[i], wireName Name Tag, ""⟩]
  | _ =>
    if (PkgPath ≠ "" ∧ Anonymous = false) ∨ Tag = "-" then []
    else [⟨[i], wireName Name Tag, ""⟩]
end

/-- The wire names of the bindable fields of a record shape. -/
def bindableNames (t : GoType) : List String := (bindable t).map (fun finfo => finfo.name)

/-- The descriptor the specification assigns to a record shape. -/
def descriptorOf (t : GoType) : typeInfo := ⟨t.typeString, bindable t, true⟩

/-- The invariant of the process-wide descriptor cache: every entry belongs to
a struct type without two bindable fields of one wire name and is the
descriptor of that type. The empty cache of a fresh process has it. -/
def CacheOK (cache : TinfoMap) : Prop :=
  ∀ t tinfo, TinfoMap.get cache t = some tinfo →
    t.isStruct = true ∧ (bindableNames t).Nodup ∧ tinfo = descriptorOf t

/-- The struct type a field embeds, if any: for an anonymous field of struct type
the type itself, for an anonymous field of type pointer to struct the struct. -/
def embedTarget : Bool → GoType → Option GoType
  | true, .ptr _ e => if e.isStruct then some e else none
  | true, .struct m fs => some (.struct m fs)
  | true, .time => some .time
  | _, _ => none

/-- The path of the entry leads, in `t`, to a struct field whose wire name is
the name of the entry. -/
def PathOK (t : GoType) (finfo : fieldInfo) : Prop :=
  ∃ f, t.FieldByIndex finfo.idx = some f ∧ wireName f.Name f.Tag = finfo.name

/-- The error `e` is a conflict error that names two colliding entries of the
list `l` of descriptor entries of `t`: two entries of `l`, in their order, with
the same wire name, and the struct fields `f1`, `f2` at their paths, whose
names and tags the error carries. -/
def CollisionIn (t : GoType) (l : List fieldInfo) (e : Err) : Prop :=
  ∃ (fi1 fi2 : fieldInfo) (f1 f2 : StructField) (tn : String),
    [fi1, fi2].Sublist l ∧ fi1.name = fi2.name ∧
    t.FieldByIndex fi1.idx = some f1 ∧ t.FieldByIndex fi2.idx = some f2 ∧
    wireName f1.Name f1.Tag = fi1.name ∧ wireName f2.Name f2.Tag = fi2.name ∧
    e = .conflict tn f1.Name f1.Tag f2.Name f2.Tag

/-- The error `e` is a conflict error that names two colliding bindable fields
of `t`. -/
def NamesCollision (t : GoType) (e : Err) : Prop := CollisionIn t (bindable t) e

/-- What `getReflectTypeInfo` does for the type `t` on a cache with the
invariant: the cache keeps the invariant, and for a struct type the result is
the descriptor of the specification when no two bindable fields have one wire
name, and otherwise a conflict error that names two colliding fields. -/
def TypeSpec (t : GoType) (cache : TinfoMap) : Prop :=
  CacheOK (getReflectTypeInfo cache t).2 ∧
  (t.isStruct = true →
    ((bindableNames t).Nodup → (getReflectTypeInfo cache t).1 = .ok (descriptorOf t)) ∧
    (¬ (bindableNames t).Nodup →
      ∃ e, (getReflectTypeInfo cache t).1 = .err e ∧ NamesCollision t e))

/-- What the loop of `getReflectTypeInfo` does from field `i` on, with the
entries `acc` collected so far: the cache keeps the invariant, and the result is
`acc` followed by the bindable fields of the remaining fields when no two of
all these entries have one wire name, and otherwise a conflict error that names
two colliding entries. -/
def LoopSpec (cache : TinfoMap) (typ : GoType) (fs : Fields) (i : Nat) (nm : String)
    (g : Bool) (acc : List fieldInfo) : Prop :=
  CacheOK (getReflectTypeInfo.loop cache typ fs i ⟨nm, acc, g⟩).2 ∧
  (((acc ++ bindableFields fs i).map (fun fi => fi.name)).Nodup →
    (getReflectTypeInfo.loop cache typ fs i ⟨nm, acc, g⟩).1
      = .ok ⟨nm, acc ++ bindableFields fs i, g⟩) ∧
  (¬ ((acc ++ bindableFields fs i).map (fun fi => fi.name)).Nodup →
    ∃ e, (getReflectTypeInfo.loop cache typ fs i ⟨nm, acc, g⟩).1 = .err e ∧
      CollisionIn typ (acc ++ bindableFields fs i) e)

/-- A record with two fields of the same wire name `x`:
`struct { A uint64 "json:x"; B uint64 "json:x" }`. -/
def conflictRecord : GoType :=
  .struct (.plain "main.Dup")
    (.cons "A" "" false "x" uint64Type (.cons "B" "" false "x" uint64Type .nil))

/-! ## Reading a field of a destination -/

/-- The step `v.Field(x)` of reading a field, followed by `next` on the field. -/
def Value.read.field (next : GoType → Value → Option Value) (x : Nat) (t : GoType)
    (v : Value) : Option Value :=
  match t.Field x, v with
  | some f, .struct vs =>
    match vs[x]? with
    | some fv => next f.Typ fv
    | none => none
  | _, _ => none

/-- The value held by the field at the index path `idx` of the record `v` of
type `t`, walking the path as `fieldInfo.value` does; behind a nil pointer to an
embedded struct a field holds the zero value. `none` when the path leaves the
type or the value. -/
def Value.read : List Nat → Bool → GoType → Value → Option Value
  | [], _, _, v => some v
  | x :: xs, first, t, v =>
    let next := fun (t1 : GoType) (v1 : Value) => Value.read xs false t1 v1
    if first then Value.read.field next x t v
    else
      match t with
      | .ptr _ e =>
        if e.isStruct then
          match v with
          | .ptr none => Value.read.field next x e (zeroValue e)
          | .ptr (some pv) => Value.read.field next x e pv
          | _ => none
        else Value.read.field next x t v
      | _ => Value.read.field next x t v

/-- Two index paths part ways: at the first index where they differ both still
have an index. Neither leads into the field of the other. -/
def diverge : List Nat → List Nat → Bool
  | a :: p, b :: q => if a = b then diverge p q else true
  | _, _ => false

/-- The record a pointer destination points to. -/
def Dest.record : Dest → Option Value
  | some (.ptr _ _, .ptr (some v)) => some v
  | _ => none

/-- The codes of the columns of a Dataframe. -/
def Dataframe.codes (df : Dataframe) : List String := df.Columns.map (fun c => c.Code)

/-- The internal fields of the Dataframe fit the record shape `t`: there is no
descriptor yet, or the descriptor is the one of `t` and the column map is the
one built from the columns. -/
def Dataframe.FitsShape (df : Dataframe) (t : GoType) : Prop :=
  df.tinfo = none ∨
    (df.tinfo = some (descriptorOf t) ∧ df.colmap = some (buildColmap df.Columns 0 []))

/-- The Dataframe with the descriptor of the record shape `t` and the column map
built from its columns stored, as `DecodeAt` leaves it after resolving `t`. -/
def Dataframe.withShape (df : Dataframe) (t : GoType) : Dataframe :=
  { df with tinfo := some (descriptorOf t), colmap := some (buildColmap df.Columns 0 []) }

/-- A record with one field `X uint64` aliased `x`. -/
def recordX : GoType :=
  .struct (.plain "main.A") (.cons "X" "" false "x" uint64Type .nil)

/-- A record with one field `Y uint64` aliased `y`. -/
def recordY : GoType :=
  .struct (.plain "main.B") (.cons "Y" "" false "y" uint64Type .nil)

/-- A Dataframe with the one column `x` of type uint64 and the row `[7]`, after
one call of `DecodeAt` for row 0 into a `recordX`. -/
def frameAfterRecordX : Outcome :=
  Dataframe.DecodeAt asciiLib noCustom []
    ⟨[⟨"X", "x", FieldTypeUint64⟩], [ascii "[7]"], none, none⟩ 0
    (some (.ptr (.plain "*main.A") recordX, .ptr (some (.struct [.uint 0]))))

/-! ## Data for the claims on times, column types and destinations -/

/-- The columns `[time: datetime, height: uint64]`. -/
def timeHeightColumns : List Datafield :=
  [⟨"Time", "time", FieldTypeDatetime⟩, ⟨"Height", "height", FieldTypeUint64⟩]

/-- The nanoseconds after the Unix epoch of a time value `time sec nsec`; `none`
for a value that is no time. -/
def Value.epochNanos : Value → Option Int
  | .time sec nsec => some (sec * 1000000000 + nsec)
  | _ => none

/-! ## datafield.go: parsing a declared column type -/

/-- The lower-case form of an ASCII byte. -/
def asciiLower (c : UInt8) : UInt8 := if 65 ≤ c ∧ c ≤ 90 then c + 32 else c

/-- Go `strings.ToLower`: on a text of ASCII bytes only, each upper-case letter
is replaced by its lower-case form; on any other text the result is the mapping
of `unicode.ToLower` over the runes, which is left open as `unicodeLower`. -/
def stringsToLower (unicodeLower : Bytes → Bytes) (s : Bytes) : Bytes :=
  if s.all (fun c => c < 128) then s.map asciiLower else unicodeLower s

/-- The function `ParseFieldType`. -/
def ParseFieldType (unicodeLower : Bytes → Bytes) (s : Bytes) : FieldType :=
  let l := stringsToLower unicodeLower s
  if l = ascii "string" then FieldTypeString
  else if l = ascii "bytes" then FieldTypeBytes
  else if l = ascii "date" then FieldTypeDate
  else if l = ascii "datetime" then FieldTypeDatetime
  else if l = ascii "bool" ∨ l = ascii "boolean" then FieldTypeBoolean
  else if l = ascii "integer" ∨ l = ascii "int" ∨ l = ascii "int64" then FieldTypeInt64
  else if l = ascii "unsigned" ∨ l = ascii "uint" ∨ l = ascii "uint64" then FieldTypeUint64
  else if l = ascii "float" ∨ l = ascii "float64" then FieldTypeFloat64
  else FieldTypeUndefined

/-- The method `FieldType.IsValid`. -/
def FieldType.IsValid (t : FieldType) : Bool := t != FieldTypeUndefined

/-- The method `FieldType.UnmarshalText` on the receiver `t`: the result and the
receiver after the call. -/
def FieldType.UnmarshalText (unicodeLower : Bytes → Bytes) (t : FieldType) (data : Bytes) :
    Res Unit × FieldType :=
  let typ := ParseFieldType unicodeLower data
  if FieldType.IsValid typ = false then (.err (.invalidFieldType data), t)
  else (.ok (), typ)

/-- The vocabulary of declared column types, in the words of the specification:
each accepted lower-case text with the declared type it stands for. -/
def fieldTypeVocabulary : List (Bytes × FieldType) :=
  [(ascii "string", FieldTypeString), (ascii "bytes", FieldTypeBytes),
    (ascii "date", FieldTypeDate), (ascii "datetime", FieldTypeDatetime),
    (ascii "boolean", FieldTypeBoolean), (ascii "bool", FieldTypeBoolean),
    (ascii "int64", FieldTypeInt64), (ascii "int", FieldTypeInt64),
    (ascii "integer", FieldTypeInt64), (ascii "uint64", FieldTypeUint64),
    (ascii "uint", FieldTypeUint64), (ascii "unsigned", FieldTypeUint64),
    (ascii "float64", FieldTypeFloat64), (ascii "float", FieldTypeFloat64)]

/-- The wire name of the field an error of the decoder names, if it names one. -/
def Err.fieldName : Err → Option String
  | .fieldError name _ _ => some name
  | .columnMissing name _ _ => some name
  | .columnError name _ _ _ => some name
  | .timeMissing name _ _ => some name
  | .timeError name _ _ _ => some name
  | .missingColumn name => some name
  | .noMethodColumn name _ => some name
  | _ => none

/-- Two columns that differ at most in their declared `Type`. -/
def Datafield.sameButType (a b : Datafield) : Prop := a.Name = b.Name ∧ a.Code = b.Code

/-- Two Dataframes that are identical except for the declared `Type` of their
columns: the same rows, the same internal fields, and columns that agree one by
one in name and code. -/
def Dataframe.sameButTypes (df df2 : Dataframe) : Prop :=
  List.Forall₂ Datafield.sameButType df.Columns df2.Columns ∧ df.Data = df2.Data ∧
    df.tinfo = df2.tinfo ∧ df.colmap = df2.colmap

/-- The call `t.columnIndex(name)` as a step on the state: the index returned
and the Dataframe behind the pointer receiver after the call. The body of the
method reads `t.colmap` and assigns nothing. -/
def Dataframe.columnIndexCall (t : Dataframe) (name : String) : Int × Dataframe :=
  (t.columnIndex name, t)

/-- The type a destination has after dereferencing one pointer; `none` for the
nil interface. -/
def Dest.shape : Dest → Option GoType
  | none => none
  | some (.ptr _ e, _) => some e
  | some (t, _) => some t

/-- A pointer to an `uint64` that holds `n`. -/
def uint64Dest (n : Nat) : Dest := some (.ptr (.plain "*uint64") uint64Type, .ptr (some (.uint n)))

/-! ## Numerals and their canonical form, in the words of the specification -/

/-- Whether a byte is a decimal digit `0`..`9`. -/
def isDigit (c : UInt8) : Bool := decide (48 ≤ c ∧ c ≤ 57)

/-- Whether a text is a non-empty string of decimal digits. -/
def isDecimal (ds : Bytes) : Bool := !ds.isEmpty && ds.all isDigit

/-- The number a string of decimal digits denotes. -/
def decimalValue (ds : Bytes) : Nat := ds.foldl (fun n c => n * 10 + (c - 48).toNat) 0

/-- The integer a base-10 numeral denotes: an optional sign `+` or `-`, then
decimal digits; `none` for a text that is no such numeral. -/
def numeralValue (s : Bytes) : Option Int :=
  match s with
  | 43 :: ds => if isDecimal ds then some (decimalValue ds : Int) else none
  | 45 :: ds => if isDecimal ds then some (-(decimalValue ds : Int)) else none
  | ds => if isDecimal ds then some (decimalValue ds : Int) else none

/-- The loop of the base-10 digits of `n`, the last digit first, in front of `acc`. -/
def formatUint.loop : Nat → Nat → Bytes → Bytes
  | 0, _, acc => acc
  | fuel + 1, n, acc =>
    if n < 10 then UInt8.ofNat (48 + n) :: acc
    else formatUint.loop fuel (n / 10) (UInt8.ofNat (48 + n % 10) :: acc)

/-- The base-10 digits of a natural number, without leading zeros (`0` for zero). -/
def formatUint (n : Nat) : Bytes := formatUint.loop (n + 1) n []

/-- The base-10 digits of an integer, with a leading `-` when it is negative. -/
def formatInt (v : Int) : Bytes :=
  if v < 0 then 45 :: formatUint v.natAbs else formatUint v.toNat

/-- The text of a boolean: `true` or `false`. -/
def formatBool (b : Bool) : Bytes := if b then ascii "true" else ascii "false"

/-- Whether a text is the canonical base-10 numeral of a natural number: decimal
digits without a leading zero, or the one digit `0`. -/
def canonicalUint (s : Bytes) : Bool :=
  isDecimal s && (decide (s = [48]) || decide (s.head? ≠ some 48))

/-- Whether a text is the canonical base-10 numeral of an integer: the canonical
numeral of a natural number, or `-` followed by the canonical numeral of a
positive number. -/
def canonicalInt (s : Bytes) : Bool :=
  match s with
  | 45 :: ds => isDecimal ds && decide (ds.head? ≠ some 48)
  | ds => canonicalUint ds

/-- Whether a byte may stand for itself between the double quotes of a string
literal: printable ASCII other than the double quote and the backslash. -/
def isPlainByte (c : UInt8) : Bool := decide (32 ≤ c ∧ c < 127 ∧ c ≠ 34 ∧ c ≠ 92)

/-- Whether a byte is one of the hexadecimal digits `0`..`9`, `a`..`f`. -/
def isLowerHex (c : UInt8) : Bool := decide ((48 ≤ c ∧ c ≤ 57) ∨ (97 ≤ c ∧ c ≤ 102))

/-- The table `hextable` of encoding/hex. -/
def hextable : Bytes := ascii "0123456789abcdef"

/-- Go `hex.EncodeToString`: two digits of `hextable` for every byte. -/
def hexEncodeToString : Bytes → Bytes
  | [] => []
  | b :: rest =>
    hextable.getD (b >>> 4).toNat 0 :: hextable.getD (b &&& 15).toNat 0 :: hexEncodeToString rest

/-- Whether the two hexadecimal digits `p` and `q` are read as a byte whose
encoding is `p`, `q` again. -/
def hexPairBack (p q : UInt8) : Bool :=
  match fromHexChar p, fromHexChar q with
  | some a, some b =>
    decide (hextable.getD ((a <<< 4 ||| b) >>> 4).toNat 0 = p) &&
      decide (hextable.getD ((a <<< 4 ||| b) &&& 15).toNat 0 = q)
  | _, _ => false

/-- The quoted string literal of a string, as Go `strconv.Quote` writes it: the
bytes between two double quotes when each of them is printable ASCII other than
the double quote and the backslash; what `strconv.Quote` writes for any other
string, with its escape sequences, is left open in the parameter `quote`. -/
def quoteLiteral (quote : Bytes → Bytes) (s : Bytes) : Bytes :=
  if s.all isPlainByte then 34 :: s ++ [34] else quote s

/-- A stand-in for `strconv.Quote` on strings that need an escape sequence, for
evaluating examples whose strings need none. -/
def noEscapes : Bytes → Bytes := fun s => 34 :: s ++ [34]

/-- The bytes between the first and the last byte of a text when both are double
quotes. -/
def betweenQuotes (text : Bytes) : Option Bytes :=
  match text with
  | 34 :: rest =>
    match rest.reverse with
    | 34 :: body => some body.reverse
    | _ => none
  | _ => none

/-- Whether a text is the canonical quoted literal of a string. For a text
between two double quotes whose bytes in between are printable ASCII other than
the double quote and the backslash this is so; any other text is canonical when
it denotes, after trimming and unquoting, a string that needs an escape
sequence and whose quoted literal is the text. -/
def canonicalString (lib : StdLib) (quote : Bytes → Bytes) (text : Bytes) : Bool :=
  (match betweenQuotes text with
    | some body => body.all isPlainByte
    | none => false) ||
  (match lib.Unquote (lib.TrimSpace text) with
    | some s => !s.all isPlainByte && decide (quote s = text)
    | none => false)

/-- Whether a text is the canonical quoted literal of a byte sequence: an even
number of the hexadecimal digits `0`..`9`, `a`..`f` between two double quotes. -/
def canonicalBytes (text : Bytes) : Bool :=
  match betweenQuotes text with
  | some body => body.all isLowerHex && decide (body.length % 2 = 0)
  | none => false

/-- The re-encoding of a decoded value in the words of the specification: the
quoted string literal for strings, quoted lower-case hex for byte sequences,
base-10 digits for integers, `true` / `false` for booleans, base-10 epoch
milliseconds for times. Other values have no re-encoding (`none`). -/
def reencode (quote : Bytes → Bytes) : Value → Option Bytes
  | .string s => some (quoteLiteral quote s)
  | .bytes b => some (34 :: hexEncodeToString (b.getD []) ++ [34])
  | .int i => some (formatInt i)
  | .uint n => some (formatUint n)
  | .bool b => some (formatBool b)
  | .time sec nsec => some (formatInt (sec * 1000 + nsec / 1000000))
  | _ => none

/-- Whether the text of a cell is the canonical text of a value of the declared
type of its column: for `string` and `bytes` the canonical quoted literal, for
`int64` and `uint64` the canonical base-10 numeral, for `boolean` one of `true`
and `false`, for `date` and `datetime` the canonical base-10 numeral of a
number of milliseconds whose nanoseconds fit into an `int64` (at most
9223372036854 in absolute value). -/
def canonicalText (lib : StdLib) (quote : Bytes → Bytes) (typ : FieldType) (text : Bytes) :
    Bool :=
  if typ = FieldTypeString then canonicalString lib quote text
  else if typ = FieldTypeBytes then canonicalBytes text
  else if typ = FieldTypeInt64 then canonicalInt text
  else if typ = FieldTypeUint64 then canonicalUint text
  else if typ = FieldTypeBoolean then decide (text = ascii "true" ∨ text = ascii "false")
  else if typ = FieldTypeDate ∨ typ = FieldTypeDatetime then
    canonicalInt text &&
      (match numeralValue text with
        | some ms => decide (-9223372036854 ≤ ms ∧ ms ≤ 9223372036854)
        | none => false)
  else false

/-- What the claims on quoted literals take from `strings.TrimSpace` and
`strconv.Unquote`, and what Go's functions do: a text between two double quotes
has no white space to trim, and it unquotes to the bytes between the quotes when
each of them is printable ASCII other than the double quote and the backslash. -/
def StdLib.PlainQuotes (lib : StdLib) : Prop :=
  (∀ body : Bytes, lib.TrimSpace (34 :: body ++ [34]) = 34 :: body ++ [34]) ∧
  (∀ body : Bytes, body.all isPlainByte = true → lib.Unquote (34 :: body ++ [34]) = some body)

/-! ## The binding of one field of a destination -/

/-- The step `v.Field(x)` of locating a field, followed by `next` on the field. -/
def Value.locate.field (next : GoType → Flag → Value → Option (GoType × Flag × Value))
    (x : Nat) (t : GoType) (fl : Flag) (v : Value) : Option (GoType × Flag × Value) :=
  match t.Field x, v with
  | some f, .struct vs =>
    match vs[x]? with
    | some fv => next f.Typ (fl.field f) fv
    | none => none
  | _, _ => none

/-- The field the method `fieldInfo.value` resolves at an index path of the
record `v` of type `t`: its type, its flag and the value it holds, which is the
zero value behind a nil pointer to an embedded struct (that the method
allocates on the way); `none` where the method panics. -/
def Value.locate : List Nat → Bool → GoType → Flag → Value → Option (GoType × Flag × Value)
  | [], _, t, fl, v => some (t, fl, v)
  | x :: xs, first, t, fl, v =>
    let next := fun (t1 : GoType) (fl1 : Flag) (v1 : Value) => Value.locate xs false t1 fl1 v1
    if first then Value.locate.field next x t fl v
    else
      match t with
      | .ptr _ e =>
        if e.isStruct then
          match v with
          | .ptr none =>
            if fl.CanSet then Value.locate.field next x e fl.elem (zeroValue e) else none
          | .ptr (some pv) => Value.locate.field next x e fl.elem pv
          | _ => none
        else Value.locate.field next x t fl v
      | _ => Value.locate.field next x t fl v

/-- The index of the column a wire name is bound to by the column map that
`DecodeAt` builds from the columns: the last column with that code, or `-1`. -/
def Dataframe.columnOf (df : Dataframe) (name : String) : Int :=
  match (buildColmap df.Columns 0 []).lookup name with
  | some i => (i : Int)
  | none => -1

/-- The text of the column bound to a wire name in a row: the field at the
index of that column in the row payload without its first and last byte, split
at the commas; `none` when the row, the column or the field does not exist. -/
def Dataframe.fieldText (df : Dataframe) (row : Int) (name : String) : Option Bytes :=
  if row < 0 ∨ df.columnOf name < 0 then none
  else
    match df.Data[row.toNat]? with
    | none => none
    | some buf =>
      if buf.length < 2 then none
      else (bytesSplit 44 ((buf.drop 1).take (buf.length - 2)))[(df.columnOf name).toNat]?

/-- The body of the loop of `decodeAt` (lines 174-283) on the field that the
index path `idx` resolves to in the record `v` of type `t`, with the text `raw`
of its column: the result of the step and the value the field holds after it;
`none` where resolving the field panics. -/
def bindField (lib : StdLib) (cu : Custom) (name : String) (raw : Option Bytes)
    (idx : List Nat) (t : GoType) (fl : Flag) (v : Value) : Option (Res Unit × Value) :=
  match Value.locate idx true t fl v with
  | some (ty, fl1, old) => some (decodeValue lib cu name raw ty fl1 old)
  | none => none

/-- The binding of one field of the record `v` of type `t`, reached through a
pointer destination, from a row: the body of the loop of `decodeAt` on the
field the descriptor entry resolves to and the text of its column. -/
def Dataframe.bind (lib : StdLib) (cu : Custom) (df : Dataframe) (row : Int) (t : GoType)
    (v : Value) (finfo : fieldInfo) : Option (Res Unit × Value) :=
  bindField lib cu finfo.name (df.fieldText row finfo.name) finfo.idx t ⟨true, false, false⟩ v

/-- What the walk to a field followed by `k` does, given the field `loc` the
walk resolves and what is read at the path afterwards: the result is that of
`k` on the field and the field holds what `k` left; where the walk panics the
result is a panic. -/
def OwnSpec (k : GoType → Flag → Value → Res Unit × Value) (res : Res Unit)
    (loc : Option (GoType × Flag × Value)) (rd : Option Value) : Prop :=
  match loc with
  | some (ty, fl, old) => res = (k ty fl old).1 ∧ rd = some (k ty fl old).2
  | none => ∃ p, res = .panic p

/-- Whether a type declares a binary or text unmarshaler that `decodeAt` finds,
on the type or on a pointer to it. -/
def GoType.declaresUnmarshaler (t : GoType) : Bool :=
  t.implementsBinary || t.ptrImplementsBinary || t.implementsText || t.ptrImplementsText

/-- The binding of a descriptor entry inside the loop of `decodeAt`, with the
fields `cols` of the row: `bindField` with the text at the column index of the
wire name. -/
def decodeAt.bind (lib : StdLib) (cu : Custom) (df : Dataframe) (cols : List Bytes)
    (t : GoType) (fl : Flag) (v : Value) (finfo : fieldInfo) : Option (Res Unit × Value) :=
  bindField lib cu finfo.name cols[(df.columnIndex finfo.name).toNat]? finfo.idx t fl v

/-- A named type of kind `int64` that declares `UnmarshalText` with a pointer
receiver: `type Level int64; func (l *Level) UnmarshalText(b []byte) error`. -/
def levelType : GoType := .int ⟨"main.Level", false, false, false, true⟩ .Int64

/-- A record with one field `Level Level` aliased `level`. -/
def recordLevel : GoType :=
  .struct (.plain "main.L") (.cons "Level" "" false "level" levelType .nil)

/-- Custom unmarshalers of a program whose `UnmarshalText` sets the receiver to
7 and returns no error, whatever the text. -/
def levelCustom : Custom where
  UnmarshalBinary := fun _ _ _ v => (v, none)
  UnmarshalText := fun _ _ _ _ => (.int 7, none)

/-- The type `int32`. -/
def int32Type : GoType := .int (.plain "int32") .Int32

/-- A record with one field `N int32` aliased `n`. -/
def recordN : GoType := .struct (.plain "main.N") (.cons "N" "" false "n" int32Type .nil)

/-- A Dataframe with the one column `n` and the given rows, without descriptor. -/
def frameN (rows : List Bytes) : Dataframe := ⟨[⟨"N", "n", FieldTypeInt64⟩], rows, none, none⟩

/-! ## Concurrent callers of getReflectTypeInfo -/

/-- A call of `getReflectTypeInfo` as seen from the shared `tinfoMap`: `lookup`
is the read `tinfoMap[typ]` under `tinfoLock.RLock`, `store` is the write
`tinfoMap[typ] = tinfo` under `tinfoLock.Lock`, `done` is the return. What the
call does between two accesses touches no shared state. -/
inductive Prog where
  | lookup (typ : GoType) (k : Option typeInfo → Prog)
  | store (typ : GoType) (tinfo : typeInfo) (k : Prog)
  | done (r : Res typeInfo)

mutual
/-- The function `getReflectTypeInfo` as a program of lookups and stores,
followed by `k` on its result. -/
def getReflectTypeInfo.prog : GoType → (Res typeInfo → Prog) → Prog
  | .struct m fs, k =>
    .lookup (.struct m fs) (fun hit =>
      match hit with
      | some tinfo => k (.ok tinfo)
      | none =>
        getReflectTypeInfo.progLoop (.struct m fs) fs 0 ⟨m.name, [], true⟩ (fun r =>
          match r with
          | .ok tinfo => .store (.struct m fs) tinfo (k (.ok tinfo))
          | .err e => k (.err e)
          | .panic p => k (.panic p)))
  | .time, k =>
    .lookup .time (fun hit =>
      match hit with
      | some tinfo => k (.ok tinfo)
      | none => .store .time ⟨"time.Time", [], true⟩ (k (.ok ⟨"time.Time", [], true⟩)))
  | t, k =>
    .lookup t (fun hit =>
      match hit with
      | some tinfo => k (.ok tinfo)
      | none => k (.err (.notStruct t.typeString t.kindString)))
/-- The loop of `getReflectTypeInfo` over the fields from index `i` on, as a
program, followed by `k` on its result. -/
def getReflectTypeInfo.progLoop (typ : GoType) :
    Fields → Nat → typeInfo → (Res typeInfo → Prog) → Prog
  | .nil, _, tinfo, k => k (.ok tinfo)
  | .cons Name PkgPath Anonymous Tag ty rest, i, tinfo, k =>
    if (PkgPath ≠ "" ∧ Anonymous = false) ∨ Tag = "-" then
      getReflectTypeInfo.progLoop typ rest (i + 1) tinfo k
    else
      let embed := fun (r : Res typeInfo) =>
        match r with
        | .ok inner =>
          match addEmbedded typ i inner.fields tinfo with
          | .ok tinfo1 => getReflectTypeInfo.progLoop typ rest (i + 1) tinfo1 k
          | .err e => k (.err e)
          | .panic p => k (.panic p)
        | .err e => k (.err e)
        | .panic p => k (.panic p)
      let own := fun (_ : Unit) =>
        match addFieldInfo typ tinfo (structFieldInfo i Name Tag) with
        | .ok tinfo1 => getReflectTypeInfo.progLoop typ rest (i + 1) tinfo1 k
        | .err e => k (.err e)
        | .panic p => k (.panic p)
      if Anonymous then
        match ty with
        | .ptr _ e => if e.isStruct then getReflectTypeInfo.prog e embed else own ()
        | .struct m fs => getReflectTypeInfo.prog (.struct m fs) embed
        | .time => getReflectTypeInfo.prog .time embed
        | _ => own ()
      else own ()
end

/-- A program run to its end on a cache, without other callers in between. -/
def Prog.exec : Prog → TinfoMap → Res typeInfo × TinfoMap
  | .lookup typ k, cache => Prog.exec (k (TinfoMap.get cache typ)) cache
  | .store typ tinfo k, cache => Prog.exec k ((typ, tinfo) :: cache)
  | .done r, cache => (r, cache)

/-- The state of a process with concurrent callers of `getReflectTypeInfo`: the
shared `tinfoMap`, what each caller has left to do, and a log of the stores so
far, in their order: the caller that stored and the type it stored a descriptor
for. -/
structure Sys where
  cache : TinfoMap
  callers : List Prog
  stored : List (Nat × GoType)

/-- One step of caller `i`: its next access to the shared map. A caller that
has returned, or does not exist, does nothing. -/
def Sys.step (s : Sys) (i : Nat) : Sys :=
  match s.callers[i]? with
  | some (.lookup typ k) =>
    { s with callers := s.callers.set i (k (TinfoMap.get s.cache typ)) }
  | some (.store typ tinfo k) =>
    { cache := (typ, tinfo) :: s.cache, callers := s.callers.set i k,
      stored := s.stored ++ [(i, typ)] }
  | _ => s

/-- The state after the callers took their steps in the order of a schedule. -/
def Sys.run (s : Sys) : List Nat → Sys
  | [] => s
  | i :: rest => (s.step i).run rest

/-- The state in which `n` callers are about to call `getReflectTypeInfo(t)`. -/
def Sys.start (cache : TinfoMap) (n : Nat) (t : GoType) : Sys :=
  ⟨cache, List.replicate n (getReflectTypeInfo.prog t .done), []⟩

/-- The result a caller has returned, if it has. -/
def Sys.result (s : Sys) (i : Nat) : Option (Res typeInfo) :=
  match s.callers[i]? with
  | some (.done r) => some r
  | _ => none

/-- What a call of `getReflectTypeInfo(t)` returns, in the words of the
specification: for a struct type the descriptor of the type when no two
bindable fields have one wire name and otherwise a conflict error that names
two colliding fields; for any other type the not-a-struct error. -/
def ResultSpec (t : GoType) (r : Res typeInfo) : Prop :=
  (t.isStruct = true →
    ((bindableNames t).Nodup → r = .ok (descriptorOf t)) ∧
    (¬ (bindableNames t).Nodup → ∃ e, r = .err e ∧ NamesCollision t e)) ∧
  (t.isStruct = false → r = .err (.notStruct t.typeString t.kindString))

/-- A program is good for the shape `t`: whatever the lookups find in a cache
with the invariant, it stores only descriptors of struct types without
colliding fields, it returns what a single call of `getReflectTypeInfo(t)`
returns in a fresh process, and it returns a descriptor only after it has found
or stored one for `t` (`known`). -/
def Prog.Good (t : GoType) : Bool → Prog → Prop
  | known, .done r => r = (getReflectTypeInfo [] t).1 ∧ (∀ ti, r = .ok ti → known = true)
  | known, .lookup typ k =>
    ∀ hit : Option typeInfo,
      (∀ ti, hit = some ti →
        typ.isStruct = true ∧ (bindableNames typ).Nodup ∧ ti = descriptorOf typ) →
      Prog.Good t (known || (decide (typ = t) && hit.isSome)) (k hit)
  | known, .store typ ti k =>
    (typ.isStruct = true ∧ (bindableNames typ).Nodup ∧ ti = descriptorOf typ) ∧
      Prog.Good t (known || decide (typ = t)) k

/-- What is to be shown of the program of `getReflectTypeInfo(typ)` followed by
`k`: it is good for `t` when `k` is good on the result that a single call of
`getReflectTypeInfo(typ)` returns in a fresh process. -/
def ProgSpec (t typ : GoType) : Prop :=
  ∀ (known : Bool) (k : Res typeInfo → Prog),
    (∀ (known2 : Bool), (known = true → known2 = true) →
      (typ = t → (∃ ti, (getReflectTypeInfo [] typ).1 = .ok ti) → known2 = true) →
      Prog.Good t known2 (k (getReflectTypeInfo [] typ).1)) →
    Prog.Good t known (getReflectTypeInfo.prog typ k)

/-- The invariant of a process whose callers resolve the shape `t`: the cache
has its invariant, and every caller is good for `t` and has found or stored a
descriptor for `t` only if the cache holds one. -/
def Sys.Inv (t : GoType) (s : Sys) : Prop :=
  CacheOK s.cache ∧
    ∀ p, p ∈ s.callers →
      ∃ known, Prog.Good t known p ∧ (known = true → TinfoMap.get s.cache t ≠ none)

/-! ## The choice of the decoder of a field -/

/-- The value of a field of type `ty` whose dereferenced `dst` holds `w`: a
pointer to `w` for a pointer field, `w` itself otherwise. -/
def rewrapField : GoType → Value → Value
  | .ptr _ _, w => .ptr (some w)
  | _, w => w

/-- The index of the directly declared field a descriptor entry comes from: the
first index of its path. -/
def fieldInfo.top (finfo : fieldInfo) : Option Nat := finfo.idx.head?

/-- The entries of a list of descriptor entries that come from the field at
index `i`. -/
def entriesAt (l : List fieldInfo) (i : Nat) : List fieldInfo :=
  l.filter (fun finfo => finfo.top = some i)

/-- The embedded record a walk of `fieldInfo.value` goes through at an embedded
field of type `ty` that holds `ev` and has the flag `fl`, with the flag of the
record: the value itself for an embedded struct; the pointee for an embedded
pointer, which is allocated first when it is nil and can be set. `none` for a
nil pointer that cannot be set, where the walk panics. -/
def embeddedRecord : GoType → Flag → Value → Option (Flag × Value)
  | .ptr _ _, fl, .ptr (some pv) => some (fl.elem, pv)
  | .ptr _ e, fl, .ptr none => if fl.CanSet then some (fl.elem, zeroValue e) else none
  | .ptr _ _, _, _ => none
  | _, fl, ev => some (fl, ev)

/-- The fields `A uint64 "json:a"; b uint64; C uint64 "json:-"; D uint64`: one
aliased `a`, one unexported, one tagged `-`, one without tag. -/
def mixedFields : Fields :=
  .cons "A" "" false "a" uint64Type (.cons "b" "main" false "" uint64Type
    (.cons "C" "" false "-" uint64Type (.cons "D" "" false "" uint64Type .nil)))

/-- The record `struct { A uint64 "json:a"; b uint64; C uint64 "json:-"; D uint64 }`. -/
def mixedRecord : GoType := .struct (.plain "main.M") mixedFields

/-- A record that embeds `recordX` after a field of its own:
`struct { N uint64 "json:n"; A }`. -/
def recordEmbedsX : GoType :=
  .struct (.plain "main.P")
    (.cons "N" "" false "n" uint64Type (.cons "A" "" true "" recordX .nil))

/-- A record that embeds `recordX` and excludes it by the tag `-`:
`struct { A "json:-" }`. -/
def recordExcludesX : GoType :=
  .struct (.plain "main.Q") (.cons "A" "" true "-" recordX .nil)

/-- The unexported record `inner` with one field `X uint64` aliased `x`. -/
def innerRecord : GoType :=
  .struct (.plain "main.inner") (.cons "X" "" false "x" uint64Type .nil)

/-- A record that embeds a pointer to the unexported record `inner`:
`struct { *inner }`. -/
def recordEmbedsInnerPtr : GoType :=
  .struct (.plain "main.R")
    (.cons "inner" "main" true "" (.ptr (.plain "*main.inner") innerRecord) .nil)

/-! ## Sequences of DecodeAt calls on one Dataframe -/

/-- A sequence of `DecodeAt` calls on one Dataframe, each with its row and its
destination: what every call leaves behind, in the order of the calls. The
Dataframe and the process-wide descriptor cache go from call to call. -/
def Dataframe.DecodeAll (lib : StdLib) (cu : Custom) :
    TinfoMap → Dataframe → List (Int × Dest) → List Outcome
  | _, _, [] => []
  | cache, df, c :: rest =>
    (df.DecodeAt lib cu cache c.1 c.2) ::
      Dataframe.DecodeAll lib cu (df.DecodeAt lib cu cache c.1 c.2).cache
        (df.DecodeAt lib cu cache c.1 c.2).frame rest

/-- The same sequence of calls in the words of the specification: every call
decodes its row with a descriptor freshly resolved from its own destination and
a column map freshly built from the columns, which is what `DecodeAt` does on
the Dataframe that `ResetType` leaves. -/
def Dataframe.DecodeAllFresh (lib : StdLib) (cu : Custom) :
    TinfoMap → Dataframe → List (Int × Dest) → List Outcome
  | _, _, [] => []
  | cache, df, c :: rest =>
    (df.ResetType.DecodeAt lib cu cache c.1 c.2) ::
      Dataframe.DecodeAllFresh lib cu (df.ResetType.DecodeAt lib cu cache c.1 c.2).cache
        (df.ResetType.DecodeAt lib cu cache c.1 c.2).frame rest

/-- The state of a Dataframe and the descriptor cache between the calls of a
sequence that binds records of the one shape `t`: the Dataframe holds nothing
yet, or it holds the descriptor of `t` and the column map of its columns, and
the cache holds the descriptor of `t`. -/
def Dataframe.Settled (df : Dataframe) (cache : TinfoMap) (t : GoType) : Prop :=
  (df.tinfo = none ∧ df.colmap = none) ∨
    (df.tinfo = some (descriptorOf t) ∧ df.colmap = some (buildColmap df.Columns 0 []) ∧
      TinfoMap.get cache t = some (descriptorOf t))

/-- A Dataframe with the one column `x` and the row `[7]`, as JSON decoding
leaves it. -/
def frameX : Dataframe := ⟨[⟨"X", "x", FieldTypeUint64⟩], [ascii "[7]"], none, none⟩

/-- A pointer to a `recordX` whose field holds `n`. -/
def destX (n : Nat) : Dest := some (.ptr (.plain "*main.A") recordX, .ptr (some (.struct [.uint n])))

/-- A pointer to a `recordY` whose field holds `n`. -/
def destY (n : Nat) : Dest := some (.ptr (.plain "*main.B") recordY, .ptr (some (.struct [.uint n])))

/-! ## The descriptor cache in sequential use -/

/-- The cache after the process resolved the shapes of a list with
`getReflectTypeInfo`, one call after the other. -/
def resolveAll : TinfoMap → List GoType → TinfoMap
  | cache, [] => cache
  | cache, t :: rest => resolveAll (getReflectTypeInfo cache t).2 rest

/-- The invariant of the cache in the words of the specification: every cached
entry equals the descriptor a fresh build of its shape produces, which is what
`getReflectTypeInfo` returns for the shape on the empty cache. -/
def CacheFresh (cache : TinfoMap) : Prop :=
  ∀ t ti, TinfoMap.get cache t = some ti → (getReflectTypeInfo [] t).1 = .ok ti

/-! ## error.go -/

/-- A Go `[]byte` with its capacity: the bytes of the backing array from the
first element of the slice up to the capacity, and the length of the slice. -/
structure ByteSlice where
  backing : Bytes
  len : Nat

/-- The slice expression `s[:n]`, which may reach past the length up to the
capacity and panics beyond it. -/
def ByteSlice.upTo (s : ByteSlice) (n : Nat) : Res Bytes :=
  if n ≤ s.backing.length then .ok (s.backing.take n) else .panic .sliceBounds

/-- The type `httpError`. -/
structure httpError where
  status : Int
  body : ByteSlice
  text : Bytes

/-- Go `strings.TrimRight(s, "\x00")`: `s` without its trailing NUL bytes. -/
def trimRightNul (s : Bytes) : Bytes := (s.reverse.dropWhile (fun c => c = 0)).reverse

/-- Go `strings.Replace(s, "  ", " ", -1)`: every pair of spaces, found from left
to right without overlap, becomes one space. -/
def replaceTwoSpaces : Bytes → Bytes
  | 32 :: 32 :: rest => 32 :: replaceTwoSpaces rest
  | c :: rest => c :: replaceTwoSpaces rest
  | [] => []

/-- The method `(*httpError).Error`: the status, its text by `http.StatusText`
(a parameter) and the text of the error, which is the field `text` or, when
that is empty, the first 256 bytes of the body without trailing NUL bytes,
without newlines and with pairs of spaces made one. -/
def httpError.Error (statusText : Int → Bytes) (e : httpError) : Res Bytes :=
  let print := fun (bodyText : Bytes) =>
    formatInt e.status ++ ascii " " ++ statusText e.status ++ ascii ": " ++ bodyText
  if e.text = [] then
    match e.body.upTo 256 with
    | .ok b => .ok (print (replaceTwoSpaces ((trimRightNul b).filter (fun c => c ≠ 10))))
    | .err x => .err x
    | .panic p => .panic p
  else .ok (print e.text)

/-- The type `errRateLimited`: the embedded `httpError` and the deadline, in
seconds after the epoch; the channel `done` plays no part in `Error`. -/
structure errRateLimited where
  httpError : httpError
  deadline : Int

/-- The function `newErrRateLimited`, as far as the value it returns goes (the
goroutine that closes `done` is not modelled). -/
def newErrRateLimited (err : httpError) (untilSecs : Int) : errRateLimited := ⟨err, untilSecs⟩

/-- The method `(*errRateLimited).Error`, whose body is `return e.Error()`. For
the receiver `e` of type `*errRateLimited` the selector `e.Error` is this method
(declared on the type itself, it hides the method promoted from the embedded
`httpError`), so the body is a call of the method on the same receiver. The
fuel bounds the depth of the nested calls; `none` says that the fuel was used up
before a call returned. -/
def errRateLimited.Error : Nat → errRateLimited → Option (Res Bytes)
  | 0, _ => none
  | fuel + 1, e => errRateLimited.Error fuel e

/-- The text of `http.StatusText` for the status 429, and the empty text for
every other status, for evaluating an example. -/
def statusText429 (status : Int) : Bytes :=
  if status = 429 then ascii "Too Many Requests" else []

/-- The `httpError` of a response with status 429 and the body `slow down`, read
into a buffer that is longer than the body. -/
def slowDownError : httpError :=
  ⟨429, ⟨ascii "slow down" ++ List.replicate 503 0, 9⟩, []⟩

/-! ## filter.go -/

/-- Go `url.Values`, a `map[string][]string`, as the function from a key to the
values stored under it, in the order in which they were added; a key that is
not in the map has no values. -/
structure Values where
  get : Bytes → List Bytes

/-- The empty map `url.Values{}`. -/
def Values.empty : Values := ⟨fun _ => []⟩

/-- The method `Values.Add`: `v[key] = append(v[key], value)`. -/
def Values.Add (q : Values) (key value : Bytes) : Values :=
  ⟨fun k => if k = key then q.get k ++ [value] else q.get k⟩

/-- The type `FilterMode`, a Go `int`. -/
abbrev FilterMode := Int

/-- The constant `FilterModeEqual`. -/
def FilterModeEqual : FilterMode := 0

/-- The constant `FilterModeNotEqual`. -/
def FilterModeNotEqual : FilterMode := 1

/-- The constant `FilterModeGt`. -/
def FilterModeGt : FilterMode := 2

/-- The constant `FilterModeGte`. -/
def FilterModeGte : FilterMode := 3

/-- The constant `FilterModeLt`. -/
def FilterModeLt : FilterMode := 4

/-- The constant `FilterModeLte`. -/
def FilterModeLte : FilterMode := 5

/-- The constant `FilterModeIn`. -/
def FilterModeIn : FilterMode := 6

/-- The constant `FilterModeNotIn`. -/
def FilterModeNotIn : FilterMode := 7

/-- The constant `FilterModeRange`. -/
def FilterModeRange : FilterMode := 8

/-- The constant `FilterModeRegexp`. -/
def FilterModeRegexp : FilterMode := 9

/-- The constant `FilterModeInvalid`. -/
def FilterModeInvalid : FilterMode := 10

/-- The type `Filter`. -/
structure Filter where
  Field : Bytes
  Mode : FilterMode
  Value : Bytes
  deriving DecidableEq, Repr

/-- The function `ParseFilterMode`: the switch on `strings.ToLower(s)`. -/
def ParseFilterMode (unicodeLower : Bytes → Bytes) (s : Bytes) : FilterMode :=
  let l := stringsToLower unicodeLower s
  if l = [] ∨ l = ascii "eq" then FilterModeEqual
  else if l = ascii "ne" then FilterModeNotEqual
  else if l = ascii "gt" then FilterModeGt
  else if l = ascii "gte" then FilterModeGte
  else if l = ascii "lt" then FilterModeLt
  else if l = ascii "lte" then FilterModeLte
  else if l = ascii "in" then FilterModeIn
  else if l = ascii "nin" then FilterModeNotIn
  else if l = ascii "rg" then FilterModeRange
  else if l = ascii "re" then FilterModeRegexp
  else FilterModeInvalid

/-- The method `FilterMode.String`. -/
def FilterMode.String (m : FilterMode) : Bytes :=
  if m = FilterModeEqual then ascii "eq"
  else if m = FilterModeNotEqual then ascii "ne"
  else if m = FilterModeGt then ascii "gt"
  else if m = FilterModeGte then ascii "gte"
  else if m = FilterModeLt then ascii "lt"
  else if m = FilterModeLte then ascii "lte"
  else if m = FilterModeIn then ascii "in"
  else if m = FilterModeNotIn then ascii "nin"
  else if m = FilterModeRange then ascii "rg"
  else if m = FilterModeRegexp then ascii "re"
  else []

/-- The key `fmt.Sprintf("%s.%s", f.Field, f.Mode)` of `Filter.AppendQuery`; the
verb `%s` prints the mode by its method `String`. -/
def Filter.queryKey (f : Filter) : Bytes := f.Field ++ ascii "." ++ FilterMode.String f.Mode

/-- The method `Filter.AppendQuery`, with the map after the call. -/
def Filter.AppendQuery (f : Filter) (q : Values) : Values := q.Add f.queryKey f.Value

/-- The function `ParseFilter`: the key is split at the dots; with two parts the
second is the mode, otherwise the first part is the field and the mode is that
of `FilterModeEqual.String()`. -/
def ParseFilter (unicodeLower : Bytes → Bytes) (key val : Bytes) : Res Filter :=
  let parse := fun (fkey mkey : Bytes) =>
    let mode := ParseFilterMode unicodeLower mkey
    if mode = FilterModeInvalid then Res.err (.invalidFilterMode mkey)
    else Res.ok ⟨fkey, mode, val⟩
  match bytesSplit 46 key with
  | [f0, f1] => parse f0 f1
  | f0 :: _ => parse f0 (FilterMode.String FilterModeEqual)
  | [] => .panic .indexOutOfRange

/-- The ten valid modes `eq, ne, gt, gte, lt, lte, in, nin, rg, re`. -/
def validFilterModes : List FilterMode :=
  [FilterModeEqual, FilterModeNotEqual, FilterModeGt, FilterModeGte, FilterModeLt,
    FilterModeLte, FilterModeIn, FilterModeNotIn, FilterModeRange, FilterModeRegexp]

/-- The names of the ten valid modes with their modes. -/
def filterModeNames : List (Bytes × FilterMode) :=
  [(ascii "eq", FilterModeEqual), (ascii "ne", FilterModeNotEqual), (ascii "gt", FilterModeGt),
    (ascii "gte", FilterModeGte), (ascii "lt", FilterModeLt), (ascii "lte", FilterModeLte),
    (ascii "in", FilterModeIn), (ascii "nin", FilterModeNotIn), (ascii "rg", FilterModeRange),
    (ascii "re", FilterModeRegexp)]

/-! ## collapse.go -/

/-- The type `CollapseMode`, a Go `string`. -/
abbrev CollapseMode := String

/-- The constant `CollapseInvalid`. -/
def CollapseInvalid : CollapseMode := ""

/-- The constant `CollapseNone`. -/
def CollapseNone : CollapseMode := "none"

/-- The constant `CollapseOneMinute`. -/
def CollapseOneMinute : CollapseMode := "1m"

/-- The constant `CollapseFiveMinutes`. -/
def CollapseFiveMinutes : CollapseMode := "5m"

/-- The constant `CollapseFifteenMinutes`. -/
def CollapseFifteenMinutes : CollapseMode := "15m"

/-- The constant `CollapseThirtyMinutes`. -/
def CollapseThirtyMinutes : CollapseMode := "30m"

/-- The constant `CollapseOneHour`. -/
def CollapseOneHour : CollapseMode := "1h"

/-- The constant `CollapseThreeHours`. -/
def CollapseThreeHours : CollapseMode := "3h"

/-- The constant `CollapseSixHours`. -/
def CollapseSixHours : CollapseMode := "6h"

/-- The constant `CollapseTwelveHours`. -/
def CollapseTwelveHours : CollapseMode := "12h"

/-- The constant `CollapseDaily`. -/
def CollapseDaily : CollapseMode := "1d"

/-- The constant `CollapseWeekly`. -/
def CollapseWeekly : CollapseMode := "1w"

/-- The constant `CollapseMonthly`. -/
def CollapseMonthly : CollapseMode := "1M"

/-- The constant `CollapseQuarterly`. -/
def CollapseQuarterly : CollapseMode := "3M"

/-- The constant `CollapseAnnual`. -/
def CollapseAnnual : CollapseMode := "1y"

/-- Go `time.Minute`: a `time.Duration` is an `int64` count of nanoseconds. -/
def timeMinute : Int := 60 * 1000000000

/-- Go `time.Hour`. -/
def timeHour : Int := 60 * timeMinute

/-- The function `NewCollapseMode`: the first case of `switch true` that holds. -/
def NewCollapseMode (d : Int) : CollapseMode :=
  if d = 0 then CollapseNone
  else if d ≤ timeMinute then CollapseOneMinute
  else if d ≤ 5 * timeMinute then CollapseFiveMinutes
  else if d ≤ 15 * timeMinute then CollapseFifteenMinutes
  else if d ≤ 30 * timeMinute then CollapseThirtyMinutes
  else if d ≤ timeHour then CollapseOneHour
  else if d ≤ 3 * timeHour then CollapseThreeHours
  else if d ≤ 6 * timeHour then CollapseSixHours
  else if d ≤ 12 * timeHour then CollapseTwelveHours
  else if d ≤ 24 * timeHour then CollapseDaily
  else if d ≤ 7 * 24 * timeHour then CollapseWeekly
  else if d ≤ 31 * 24 * timeHour then CollapseMonthly
  else if d ≤ 92 * 24 * timeHour then CollapseQuarterly
  else CollapseAnnual

/-- The method `CollapseMode.Duration`. -/
def CollapseMode.Duration (m : CollapseMode) : Int :=
  if m = CollapseOneMinute then timeMinute
  else if m = CollapseFiveMinutes then 5 * timeMinute
  else if m = CollapseFifteenMinutes then 15 * timeMinute
  else if m = CollapseThirtyMinutes then 30 * timeMinute
  else if m = CollapseOneHour then timeHour
  else if m = CollapseThreeHours then 3 * timeHour
  else if m = CollapseSixHours then 6 * timeHour
  else if m = CollapseTwelveHours then 12 * timeHour
  else if m = CollapseDaily then 24 * timeHour
  else if m = CollapseWeekly then 24 * 7 * timeHour
  else if m = CollapseMonthly then 30 * 24 * timeHour
  else if m = CollapseQuarterly then 90 * 24 * timeHour
  else if m = CollapseAnnual then 365 * 24 * timeHour
  else timeMinute

/-- The valid collapse modes other than `none`:
`1m, 5m, 15m, 30m, 1h, 3h, 6h, 12h, 1d, 1w, 1M, 3M, 1y`. -/
def collapseModes : List CollapseMode :=
  [CollapseOneMinute, CollapseFiveMinutes, CollapseFifteenMinutes, CollapseThirtyMinutes,
    CollapseOneHour, CollapseThreeHours, CollapseSixHours, CollapseTwelveHours, CollapseDaily,
    CollapseWeekly, CollapseMonthly, CollapseQuarterly, CollapseAnnual]

/-- A step function given by a table of thresholds with their values: the value
of the first threshold that is not below `d`, and `dflt` above all thresholds. -/
def stepOf : List (Int × Int) → Int → Int → Int
  | [], dflt, _ => dflt
  | e :: rest, dflt, d => if d ≤ e.1 then e.2 else stepOf rest dflt d

/-- The thresholds of `NewCollapseMode` with the durations of the modes it
assigns below them. -/
def collapseSteps : List (Int × Int) :=
  [(timeMinute, timeMinute), (5 * timeMinute, 5 * timeMinute),
    (15 * timeMinute, 15 * timeMinute), (30 * timeMinute, 30 * timeMinute),
    (timeHour, timeHour), (3 * timeHour, 3 * timeHour), (6 * timeHour, 6 * timeHour),
    (12 * timeHour, 12 * timeHour), (24 * timeHour, 24 * timeHour),
    (7 * 24 * timeHour, 24 * 7 * timeHour), (31 * 24 * timeHour, 30 * 24 * timeHour),
    (92 * 24 * timeHour, 90 * 24 * timeHour)]

/-! ## table.go -/

/-- Go `strings.Join(elems, sep)`. -/
def stringsJoin (sep : Bytes) : List Bytes → Bytes
  | [] => []
  | [a] => a
  | a :: b :: rest => a ++ sep ++ stringsJoin sep (b :: rest)

/-- Go `strconv.Itoa`: the base-10 text of an `int`. -/
def Itoa (i : Int) : Bytes := formatInt i

/-- The type `TableParams`; a nil pointer in `Filter` is `none`. -/
structure TableParams where
  Columns : List Bytes
  Cursor : Bytes
  Limit : Int
  Filter : List (Option Blockwatch.Filter)
  Format : Bytes

/-- The method `TableParams.Query`. -/
def TableParams.Query (p : TableParams) : Values :=
  let q0 := Values.empty
  let q1 :=
    if 0 < p.Columns.length ∧ p.Columns[0]? ≠ some [] then
      q0.Add (ascii "columns") (stringsJoin (ascii ",") p.Columns)
    else q0
  let q2 := p.Filter.foldl (fun q v =>
    match v with
    | none => q
    | some f => f.AppendQuery q) q1
  let q3 := if p.Cursor ≠ [] then q2.Add (ascii "cursor") p.Cursor else q2
  if p.Limit > 0 then q3.Add (ascii "limit") (Itoa p.Limit) else q3

/-- The call `p.Query()` as a step on the state: the query returned and the
parameters of the caller after the call. The receiver is a copy, and the body
assigns to no field and writes through no slice or pointer of it. -/
def TableParams.QueryCall (p : TableParams) : Values × TableParams := (p.Query, p)

/-- The values the specification puts under a key of the query: the comma-joined
columns under `columns` when there are columns and the first is not empty; for
each filter that is not nil, in list order, its value under its key; the cursor
under `cursor` when it is not empty; the base-10 text of the limit under `limit`
when it is positive. -/
def TableParams.entries (p : TableParams) (key : Bytes) : List Bytes :=
  (if key = ascii "columns" ∧ p.Columns ≠ [] ∧ p.Columns.head? ≠ some [] then
      [stringsJoin (ascii ",") p.Columns] else []) ++
  ((p.Filter.filterMap id).filter (fun f => f.queryKey = key)).map (fun f => f.Value) ++
  (if key = ascii "cursor" ∧ p.Cursor ≠ [] then [p.Cursor] else []) ++
  (if key = ascii "limit" ∧ 0 < p.Limit then [formatInt p.Limit] else [])

/-- Parameters with two columns, a cursor, a limit and three filters, of which
the second is nil. -/
def exampleParams : TableParams :=
  ⟨[ascii "height", ascii "time"], ascii "abc", 10,
    [some ⟨ascii "height", FilterModeGte, ascii "5"⟩, none,
      some ⟨ascii "height", FilterModeGte, ascii "7"⟩], []⟩

/-! ## typeinfo.go on struct types that may embed themselves -/

/-- A type as a field of a declared struct type refers to it, in a program whose
struct types are declared by name and may refer to each other and to
themselves: the struct type declared under a name, a pointer to it, or a type
that is neither (with its `String()` and its `Kind().String()`). -/
inductive TypeRef where
  | struct (name : String)
  | ptr (name : String)
  | scalar (name kind : String)
  deriving DecidableEq, Repr

/-- A `reflect.StructField` of a declared struct type. -/
structure DeclField where
  Name : String
  PkgPath : String
  Anonymous : Bool
  Tag : String
  Typ : TypeRef
  deriving DecidableEq, Repr

/-- The struct types a program declares: the name of each with its fields in
declaration order. Unlike a `GoType`, which is a finite tree, a declaration may
refer to itself: `type T struct { *T; X uint64 }`. -/
abbrev Decls := List (String × List DeclField)

/-- Go `Type.String()`. -/
def TypeRef.typeString : TypeRef → String
  | .struct n => n
  | .ptr n => "*" ++ n
  | .scalar n _ => n

/-- Go `Type.Kind().String()`. -/
def TypeRef.kindString : TypeRef → String
  | .struct _ => "struct"
  | .ptr _ => "ptr"
  | .scalar _ k => k

/-- The name of the struct type `t` is after the step
`if t.Kind() == Ptr { t = t.Elem() }`, when it is a struct type then. -/
def TypeRef.structName : TypeRef → Option String
  | .struct n => some n
  | .ptr n => some n
  | .scalar _ _ => none

/-- Go `Type.Field(x)` of a declared struct type; `none` is the panic of `reflect`. -/
def Decls.Field (d : Decls) (t : TypeRef) (x : Nat) : Option DeclField :=
  match t with
  | .struct n =>
    match d.lookup n with
    | some fs => fs[x]?
    | none => none
  | _ => none

/-- The part of `Type.FieldByIndex` after the first index: before every further
index a pointer to a struct type is replaced by the struct type. -/
def Decls.FieldByIndex.rest (d : Decls) : DeclField → List Nat → Option DeclField
  | f, [] => some f
  | f, x :: xs =>
    match f.Typ.structName with
    | some n =>
      match d.Field (.struct n) x with
      | some g => Decls.FieldByIndex.rest d g xs
      | none => none
    | none => none

/-- Go `Type.FieldByIndex(index)`; `none` is the panic of `reflect`. -/
def Decls.FieldByIndex (d : Decls) (t : TypeRef) : List Nat → Option DeclField
  | [] => some ⟨"", "", false, "", t⟩
  | x :: xs =>
    match d.Field t x with
    | some f => Decls.FieldByIndex.rest d f xs
    | none => none

/-- The function `addFieldInfo` on a declared struct type. -/
def Decls.addFieldInfo (d : Decls) (typ : TypeRef) (tinfo : typeInfo) (newf : fieldInfo) :
    Res typeInfo :=
  match tinfo.fields.find? (fun oldf => newf.name = oldf.name) with
  | some oldf =>
    match d.FieldByIndex typ oldf.idx, d.FieldByIndex typ newf.idx with
    | some f1, some f2 => .err (.conflict typ.typeString f1.Name f1.Tag f2.Name f2.Tag)
    | _, _ => .panic .reflectCall
  | none => .ok { tinfo with fields := tinfo.fields ++ [newf] }

/-- The inner loop of `getReflectTypeInfo` over the fields of an embedded
struct, on a declared struct type. -/
def Decls.addEmbedded (d : Decls) (typ : TypeRef) (i : Nat) :
    List fieldInfo → typeInfo → Res typeInfo
  | [], tinfo => .ok tinfo
  | finfo :: rest, tinfo =>
    match d.addFieldInfo typ tinfo { finfo with idx := i :: finfo.idx } with
    | .ok tinfo1 => Decls.addEmbedded d typ i rest tinfo1
    | .err e => .err e
    | .panic p => .panic p

/-- The process-wide `tinfoMap` of a program with declared struct types. -/
abbrev DeclCache := List (TypeRef × typeInfo)

/-- The loop of `getReflectTypeInfo` over the fields of a declared struct type
from index `i` on; `call` is the recursive call `getReflectTypeInfo(t)` for an
embedded struct, which returns `none` when it does not return. -/
def Decls.loop (d : Decls) (call : DeclCache → TypeRef → Option (Res typeInfo × DeclCache))
    (typ : TypeRef) :
    List DeclField → Nat → DeclCache → typeInfo → Option (Res typeInfo × DeclCache)
  | [], _, cache, tinfo => some (.ok tinfo, cache)
  | f :: rest, i, cache, tinfo =>
    if (f.PkgPath ≠ "" ∧ f.Anonymous = false) ∨ f.Tag = "-" then
      Decls.loop d call typ rest (i + 1) cache tinfo
    else
      let own := fun (_ : Unit) =>
        match d.addFieldInfo typ tinfo (structFieldInfo i f.Name f.Tag) with
        | .ok tinfo1 => Decls.loop d call typ rest (i + 1) cache tinfo1
        | .err e => some (.err e, cache)
        | .panic p => some (.panic p, cache)
      if f.Anonymous then
        match f.Typ.structName with
        | some n =>
          match call cache (.struct n) with
          | none => none
          | some (.ok inner, c) =>
            match d.addEmbedded typ i inner.fields tinfo with
            | .ok tinfo1 => Decls.loop d call typ rest (i + 1) c tinfo1
            | .err e => some (.err e, c)
            | .panic p => some (.panic p, c)
          | some (.err e, c) => some (.err e, c)
          | some (.panic p, c) => some (.panic p, c)
        | none => own ()
      else own ()

/-- The function `getReflectTypeInfo` on a program with declared struct types,
with a bound on the depth of the nested calls: the cached descriptor when there
is one, otherwise the descriptor built from the fields, with a nested call for
every embedded struct before the descriptor is stored. `none` says that the
nesting of the calls goes beyond the bound; a call that gives `none` for every
bound never returns. The name of a struct type that the program does not
declare stands for no type: the result is the panic of `reflect`. -/
def Decls.getReflectTypeInfo (d : Decls) :
    Nat → DeclCache → TypeRef → Option (Res typeInfo × DeclCache)
  | 0, _, _ => none
  | fuel + 1, cache, typ =>
    match cache.lookup typ with
    | some tinfo => some (.ok tinfo, cache)
    | none =>
      match typ with
      | .struct n =>
        match d.lookup n with
        | some fs =>
          match Decls.loop d (Decls.getReflectTypeInfo d fuel) typ fs 0 cache ⟨n, [], true⟩ with
          | some (.ok tinfo, c) => some (.ok tinfo, (typ, tinfo) :: c)
          | r => r
        | none => some (.panic .reflectCall, cache)
      | t => some (.err (.notStruct t.typeString t.kindString), cache)

/-- The declaration `type T struct { *T; X uint64 }` of package `main`: a struct
type that embeds a pointer to itself. -/
def selfEmbedding : Decls :=
  [("main.T", [⟨"T", "", true, "", .ptr "main.T"⟩,
    ⟨"X", "", false, "", .scalar "uint64" "uint64"⟩])]

/-- The declaration of `conflictRecord`:
`type Dup struct { A uint64 "json:x"; B uint64 "json:x" }`. -/
def conflictDecls : Decls :=
  [("main.Dup", [⟨"A", "", false, "x", .scalar "uint64" "uint64"⟩,
    ⟨"B", "", false, "x", .scalar "uint64" "uint64"⟩])]

/-- The declarations of `recordEmbedsX` and of the record `recordX` it embeds:
`type P struct { N uint64 "json:n"; A }` and `type A struct { X uint64 "json:x" }`. -/
def embedsDecls : Decls :=
  [("main.P", [⟨"N", "", false, "n", .scalar "uint64" "uint64"⟩,
      ⟨"A", "", true, "", .struct "main.A"⟩]),
    ("main.A", [⟨"X", "", false, "x", .scalar "uint64" "uint64"⟩])]

/-! ## Theorems -/

/-- C1: binding row 0 of a fresh Dataframe with columns `[height: uint64, time: datetime]`
and raw row `[12345,1700000000000]` into a record with fields aliased `height`
(unsigned 64-bit) and `time` succeeds, sets `height = 12345` and sets `time` to
the instant 1700000000 s + 0 ns after the epoch, which is 1700000000000 ms after
it; whatever the two fields held before. -/
theorem C1_decodeAt_height_time (lib : StdLib) (cu : Custom) (h0 t0 : Value) :
    ((heightTimeFrame [ascii "[12345,1700000000000]"]).DecodeAt lib cu [] 0
        (heightTimeDest h0 t0)).res = .ok () ∧
    ((heightTimeFrame [ascii "[12345,1700000000000]"]).DecodeAt lib cu [] 0
        (heightTimeDest h0 t0)).val
      = heightTimeDest (.uint 12345) (.time 1700000000 0) ∧
    (1700000000 : Int) * 1000000000 + 0 = 1700000000000 * 1000000 :=
  ⟨rfl, rfl, by norm_num⟩

/-- C2 (code at the failing input): for `b = "1,2"`, split by `,` into the two
fields `1` and `2`, `indexByteColumnN(b, ',', 1)` returns `(2, 4)`: the end
offset of the last field is `len(b) + 1 = 4`, one more than `len(b) = 3`. -/
theorem C2_indexByteColumnN_last_field_end :
    bytesSplit 44 (ascii "1,2") = [ascii "1", ascii "2"] ∧
    indexByteColumnN (ascii "1,2") 44 1 = (2, 4) ∧
    ((ascii "1,2").length : Int) = 3 ∧
    ¬ ((indexByteColumnN (ascii "1,2") 44 1).2 ≤ ((ascii "1,2").length : Int)) := by
  decide

/-- C3 (code at the failing input): on a Dataframe with a column of code `height`
on which `DecodeAt` was never called, `columnIndex("height")` is `-1`, and
`Dataframe.Column("height")` and `Row.Column("height")` report the missing column. -/
theorem C3_columnIndex_without_colmap (lib : StdLib) :
    (heightTimeFrame [ascii "[12345,1700000000000]"]).Columns.map (fun c => c.Code)
      = ["height", "time"] ∧
    (heightTimeFrame [ascii "[12345,1700000000000]"]).columnIndex "height" = -1 ∧
    (heightTimeFrame [ascii "[12345,1700000000000]"]).Column lib "height"
      = (-1, .err (.missingColumn "height")) ∧
    Row.Column lib ⟨heightTimeFrame [ascii "[12345,1700000000000]"], 0⟩ "height"
      = (-1, .err (.missingColumn "height")) :=
  ⟨rfl, rfl, rfl, rfl⟩

/-- C6 (code at the failing inputs): with columns `[height, time]`, the row `[12345]`
that has one field only makes `DecodeAt` into a record with a field `time` panic
with an index out of range; a row payload of one byte makes it panic with slice
bounds out of range; and so does the row index `-1` with an index out of range. -/
theorem C6_decodeAt_panics (lib : StdLib) (cu : Custom) :
    ((heightTimeFrame [ascii "[12345]"]).DecodeAt lib cu [] 0
        (heightTimeDest (.uint 0) (.time 0 0))).res = .panic .indexOutOfRange ∧
    ((heightTimeFrame [ascii "1"]).DecodeAt lib cu [] 0
        (heightTimeDest (.uint 0) (.time 0 0))).res = .panic .sliceBounds ∧
    ((heightTimeFrame [ascii "[12345,1700000000000]"]).DecodeAt lib cu [] (-1)
        (heightTimeDest (.uint 0) (.time 0 0))).res = .panic .indexOutOfRange :=
  ⟨rfl, rfl, rfl⟩

/-- C8 (code at the failing input): with two `int64` columns and the row payload
`[1,2` (no closing bracket), the text of field 1 of the stripped payload `1,` is
empty, which `ParseInt` rejects; `FieldAt(1, 0)` still returns the value 2
without error, because the end offset `len + 1` takes in the last byte of the
payload. The same happens with one `int64` column and the row payload `12`, a
JSON number: the one field of the stripped payload is empty and `FieldAt(0, 0)`
returns 2. -/
theorem C8_fieldAt_numeral_from_last_byte (lib : StdLib) :
    bytesSplit 44 (((ascii "[1,2").drop 1).take ((ascii "[1,2").length - 2))
      = [ascii "1", ascii ""] ∧
    ParseInt (ascii "") 64 = .error (.num "ParseInt" (ascii "") .ErrSyntax) ∧
    Dataframe.FieldAt lib
      ⟨[⟨"A", "a", FieldTypeInt64⟩, ⟨"B", "b", FieldTypeInt64⟩], [ascii "[1,2"], none, none⟩
      1 0 = .ok (.int 2) ∧
    bytesSplit 44 (((ascii "12").drop 1).take ((ascii "12").length - 2)) = [ascii ""] ∧
    Dataframe.FieldAt lib ⟨[⟨"A", "a", FieldTypeInt64⟩], [ascii "12"], none, none⟩ 0 0
      = .ok (.int 2) :=
  ⟨by decide, rfl, rfl, by decide, rfl⟩

/-- C9 (code at the failing input): with one `bytes` column and the row
`["00ff"]`, the field text `"00ff"` is a well-formed quoted string of valid hex
digits, and binding it with `DecodeAt` into a byte slice field gives the bytes
`00 ff`; `FieldAt(0, 0)` hands `"00ff"]` to `Unquote` and fails with the
unquoting cause. -/
theorem C9_fieldAt_bytes_last_column :
    bytesSplit 44 (((ascii "[\"00ff\"]").drop 1).take ((ascii "[\"00ff\"]").length - 2))
      = [ascii "\"00ff\""] ∧
    (Dataframe.DecodeAt asciiLib noCustom []
      ⟨[⟨"H", "h", FieldTypeBytes⟩], [ascii "[\"00ff\"]"], none, none⟩ 0
      (some (.ptr (.plain "*main.R")
          (.struct (.plain "main.R")
            (.cons "H" "" false "h" (.slice (.plain "[]uint8") (.uint (.plain "uint8") .Uint8))
              .nil)),
        .ptr (some (.struct [.bytes none]))))).val
      = some (.ptr (.plain "*main.R")
          (.struct (.plain "main.R")
            (.cons "H" "" false "h" (.slice (.plain "[]uint8") (.uint (.plain "uint8") .Uint8))
              .nil)),
        .ptr (some (.struct [.bytes (some [0, 255])]))) ∧
    Dataframe.FieldAt asciiLib
      ⟨[⟨"H", "h", FieldTypeBytes⟩], [ascii "[\"00ff\"]"], none, none⟩ 0 0
      = .err (.columnError "h" 0 0 .unquote) :=
  ⟨by decide, rfl, rfl⟩

/-- The loop of the whole-column decoders keeps the contract from any start row. -/
theorem columnLoop_ok {α : Type} (cell : Int → Res α) :
    ∀ (n i : Nat), (∀ r, r < n → ∃ a, cell ((i + r : Nat) : Int) = .ok a) →
      ∃ vec, columnLoop cell i n = .ok vec ∧ vec.length = n ∧
        ∀ r, r < n → ∃ a, vec[r]? = some a ∧ cell ((i + r : Nat) : Int) = .ok a := by
  intro n
  induction n with
  | zero => intro i _; exact ⟨[], rfl, rfl, fun r hr => absurd hr (Nat.not_lt_zero r)⟩
  | succ n ih =>
    intro i h
    obtain ⟨a, ha⟩ := h 0 (Nat.succ_pos n)
    have h' : ∀ r, r < n → ∃ a, cell ((i + 1 + r : Nat) : Int) = .ok a := by
      intro r hr
      have := h (r + 1) (Nat.succ_lt_succ hr)
      rwa [show i + (r + 1) = i + 1 + r by omega] at this
    obtain ⟨vec, hv, hl, hr⟩ := ih (i + 1) h'
    refine ⟨a :: vec, ?_, by simp [hl], ?_⟩
    · simp only [Nat.add_zero] at ha
      simp [columnLoop, ha, hv]
    · intro r hrn
      cases r with
      | zero => exact ⟨a, by simp, ha⟩
      | succ r =>
        obtain ⟨b, hb1, hb2⟩ := hr r (Nat.lt_of_succ_lt_succ hrn)
        refine ⟨b, by simpa using hb1, ?_⟩
        rwa [show i + (r + 1) = i + 1 + r by omega]

/-- The loop of the whole-column decoders returns the error of the first cell
that fails. -/
theorem columnLoop_err {α : Type} (cell : Int → Res α) :
    ∀ (n i r : Nat) (e : Err), r < n →
      (∀ q, q < r → ∃ a, cell ((i + q : Nat) : Int) = .ok a) →
      cell ((i + r : Nat) : Int) = .err e → columnLoop cell i n = .err e := by
  intro n
  induction n with
  | zero => intro i r e hr; exact absurd hr (Nat.not_lt_zero r)
  | succ n ih =>
    intro i r e hr hq he
    cases r with
    | zero =>
      simp only [Nat.add_zero] at he
      simp [columnLoop, he]
    | succ r =>
      obtain ⟨a, ha⟩ := hq 0 (Nat.succ_pos r)
      simp only [Nat.add_zero] at ha
      have h1 : columnLoop cell (i + 1) n = .err e := by
        apply ih (i + 1) r e (Nat.lt_of_succ_lt_succ hr)
        · intro q hqr
          have := hq (q + 1) (Nat.succ_lt_succ hqr)
          rwa [show i + (q + 1) = i + 1 + q by omega] at this
        · rwa [show i + (r + 1) = i + 1 + r by omega] at he
      simp [columnLoop, ha, h1]

/-- The loop of the whole-column decoders panics with the panic of the first
cell that does not return, when all cells before it decode. -/
theorem columnLoop_panic {α : Type} (cell : Int → Res α) :
    ∀ (n i r : Nat) (p : Panic), r < n →
      (∀ q, q < r → ∃ a, cell ((i + q : Nat) : Int) = .ok a) →
      cell ((i + r : Nat) : Int) = .panic p → columnLoop cell i n = .panic p := by
  intro n
  induction n with
  | zero => intro i r p hr; exact absurd hr (Nat.not_lt_zero r)
  | succ n ih =>
    intro i r p hr hq he
    cases r with
    | zero =>
      simp only [Nat.add_zero] at he
      simp [columnLoop, he]
    | succ r =>
      obtain ⟨a, ha⟩ := hq 0 (Nat.succ_pos r)
      simp only [Nat.add_zero] at ha
      have h1 : columnLoop cell (i + 1) n = .panic p := by
        apply ih (i + 1) r p (Nat.lt_of_succ_lt_succ hr)
        · intro q hqr
          have := hq (q + 1) (Nat.succ_lt_succ hqr)
          rwa [show i + (q + 1) = i + 1 + q by omega] at this
        · rwa [show i + (r + 1) = i + 1 + r by omega] at he
      simp [columnLoop, ha, h1]

/-- The loop of the whole-column decoders from row 0 meets the contract where
cells decode or fail with an error, and panics with the first cell that panics. -/
theorem columnLoop_contract {α : Type} (cell : Int → Res α) (n : Nat) :
    ColumnContract cell n (columnLoop cell 0 n) ∧
    (∀ r p, r < n → (∀ q, q < r → ∃ a, cell (q : Int) = .ok a) → cell (r : Int) = .panic p →
      columnLoop cell 0 n = .panic p) := by
  refine ⟨⟨?_, ?_⟩, ?_⟩
  · intro h
    have := columnLoop_ok cell n 0 (by simpa using h)
    simpa using this
  · intro r e hr hq he
    exact columnLoop_err cell n 0 r e hr (by simpa using hq) (by simpa using he)
  · intro r p hr hq he
    exact columnLoop_panic cell n 0 r p hr (by simpa using hq) (by simpa using he)

/-- What the whole-column decoders (`decodeInt64Column`, `decodeUint64Column`,
`decodeFloat64Column`, `decodeStringColumn`, `decodeBytesColumn`,
`decodeBoolColumn`, `decodeTimeColumn`) do on every Dataframe where no cell
panics before an error: when the per-cell decoder succeeds on every row, the
result is a vector of length `len(Data)` whose `r`-th element is the per-cell
result for `(i, r)`; when the cell of row `r` returns an error and all cells
before it decode, the result is no vector and exactly that error, independently
of the rows after it. -/
theorem whole_column_decoders (lib : StdLib) (df : Dataframe) (i : Int) (name : String) :
    ColumnContract (fun r => df.decodeInt64At i r name) df.Data.length
      (df.decodeInt64Column i name) ∧
    ColumnContract (fun r => df.decodeUint64At i r name) df.Data.length
      (df.decodeUint64Column i name) ∧
    ColumnContract (fun r => df.decodeFloat64At lib i r name) df.Data.length
      (df.decodeFloat64Column lib i name) ∧
    ColumnContract (fun r => df.decodeStringAt lib i r name) df.Data.length
      (df.decodeStringColumn lib i name) ∧
    ColumnContract (fun r => df.decodeBytesAt lib i r name) df.Data.length
      (df.decodeBytesColumn lib i name) ∧
    ColumnContract (fun r => df.decodeBoolAt i r name) df.Data.length
      (df.decodeBoolColumn i name) ∧
    ColumnContract (fun r => df.decodeTimeAt i r name) df.Data.length
      (df.decodeTimeColumn i name) :=
  ⟨(columnLoop_contract _ _).1, (columnLoop_contract _ _).1, (columnLoop_contract _ _).1,
    (columnLoop_contract _ _).1, (columnLoop_contract _ _).1, (columnLoop_contract _ _).1,
    (columnLoop_contract _ _).1⟩

/-- The cell of a row whose payload is shorter than two bytes: every per-cell
decoder panics in `v[1 : len(v)-1]`, whatever the column is. -/
theorem cellText_short (df : Dataframe) (col : Int) (r : Nat) (buf : Bytes)
    (hb : df.Data[r]? = some buf) (hl : buf.length < 2) :
    df.cellText col (r : Int) = .panic .sliceBounds := by
  unfold Dataframe.cellText
  have h0 : ¬ ((r : Int) < 0) := by omega
  rw [if_neg h0]
  simp only [Int.toNat_ofNat, hb, hl, if_true]

/-- C10 (code at the failing input): a Dataframe with the column `h` and the two
rows `[5,6]` and `1`, the second a payload of one byte. The cell of row 0
decodes to 5, the per-cell decoder of row 1 panics in `v[1 : len(v)-1]`, and so
`decodeInt64Column` neither returns a vector nor `nil` with the error of the
smallest failing row: it panics, and `Dataframe.Column` with it. The same holds
for every whole-column decoder, on every Dataframe, at the first row whose
payload is shorter than two bytes when the cells of all rows before it decode. -/
theorem C10_column_decoders_panic (lib : StdLib) :
    Dataframe.decodeInt64At
      ⟨[⟨"H", "h", FieldTypeInt64⟩], [ascii "[5,6]", ascii "1"], none, none⟩ 0 0 "h" = .ok 5 ∧
    Dataframe.decodeInt64At
      ⟨[⟨"H", "h", FieldTypeInt64⟩], [ascii "[5,6]", ascii "1"], none, none⟩ 0 1 "h"
      = .panic .sliceBounds ∧
    Dataframe.decodeInt64Column
      ⟨[⟨"H", "h", FieldTypeInt64⟩], [ascii "[5,6]", ascii "1"], none, none⟩ 0 "h"
      = .panic .sliceBounds ∧
    Dataframe.Column lib
      ⟨[⟨"H", "h", FieldTypeInt64⟩], [ascii "[5,6]", ascii "1"], none,
        some (buildColmap [⟨"H", "h", FieldTypeInt64⟩] 0 [])⟩ "h"
      = (0, .panic .sliceBounds) ∧
    (∀ (df : Dataframe) (i : Int) (name : String) (r : Nat) (buf : Bytes),
      df.Data[r]? = some buf → buf.length < 2 →
      ((∀ q, q < r → ∃ a, df.decodeInt64At i (q : Int) name = .ok a) →
        df.decodeInt64Column i name = .panic .sliceBounds) ∧
      ((∀ q, q < r → ∃ a, df.decodeUint64At i (q : Int) name = .ok a) →
        df.decodeUint64Column i name = .panic .sliceBounds) ∧
      ((∀ q, q < r → ∃ a, df.decodeFloat64At lib i (q : Int) name = .ok a) →
        df.decodeFloat64Column lib i name = .panic .sliceBounds) ∧
      ((∀ q, q < r → ∃ a, df.decodeStringAt lib i (q : Int) name = .ok a) →
        df.decodeStringColumn lib i name = .panic .sliceBounds) ∧
      ((∀ q, q < r → ∃ a, df.decodeBytesAt lib i (q : Int) name = .ok a) →
        df.decodeBytesColumn lib i name = .panic .sliceBounds) ∧
      ((∀ q, q < r → ∃ a, df.decodeBoolAt i (q : Int) name = .ok a) →
        df.decodeBoolColumn i name = .panic .sliceBounds) ∧
      ((∀ q, q < r → ∃ a, df.decodeTimeAt i (q : Int) name = .ok a) →
        df.decodeTimeColumn i name = .panic .sliceBounds)) := by
  refine ⟨rfl, rfl, rfl, rfl, ?_⟩
  intro df i name r buf hb hl
  have hr : r < df.Data.length := by
    rcases Nat.lt_or_ge r df.Data.length with h | h
    · exact h
    · rw [List.getElem?_eq_none h] at hb
      cases hb
  have hc := cellText_short df i r buf hb hl
  refine ⟨?_, ?_, ?_, ?_, ?_, ?_, ?_⟩
  · intro hq
    exact (columnLoop_contract _ _).2 r _ hr hq (by
      show Dataframe.cell df _ i (r : Int) name = _
      unfold Dataframe.cell
      rw [hc])
  · intro hq
    exact (columnLoop_contract _ _).2 r _ hr hq (by
      show Dataframe.cell df _ i (r : Int) name = _
      unfold Dataframe.cell
      rw [hc])
  · intro hq
    exact (columnLoop_contract _ _).2 r _ hr hq (by
      show Dataframe.cell df _ i (r : Int) name = _
      unfold Dataframe.cell
      rw [hc])
  · intro hq
    exact (columnLoop_contract _ _).2 r _ hr hq (by
      show Dataframe.cell df _ i (r : Int) name = _
      unfold Dataframe.cell
      rw [hc])
  · intro hq
    exact (columnLoop_contract _ _).2 r _ hr hq (by
      show Dataframe.cell df _ i (r : Int) name = _
      unfold Dataframe.cell
      rw [hc])
  · intro hq
    exact (columnLoop_contract _ _).2 r _ hr hq (by
      show Dataframe.cell df _ i (r : Int) name = _
      unfold Dataframe.cell
      rw [hc])
  · intro hq
    exact (columnLoop_contract _ _).2 r _ hr hq (by
      show Dataframe.decodeTimeAt df i (r : Int) name = _
      unfold Dataframe.decodeTimeAt
      rw [hc])

/-! ### `indexByteColumnN` against `bytes.Split` -/

theorem IndexByte_of_not_mem (c : UInt8) : ∀ l : Bytes, c ∉ l → IndexByte l c = -1 := by
  intro l
  induction l with
  | nil => intro _; rfl
  | cons x xs ih =>
    intro h
    have hx : x ≠ c := fun e => h (by simp [e])
    have hxs : c ∉ xs := fun m => h (List.mem_cons_of_mem _ m)
    simp [IndexByte, hx, ih hxs]

theorem IndexByte_of_mem (c : UInt8) : ∀ l : Bytes, c ∈ l →
    ∃ pre post, l = pre ++ c :: post ∧ c ∉ pre ∧ IndexByte l c = (pre.length : Int) := by
  intro l
  induction l with
  | nil => intro h; cases h
  | cons x xs ih =>
    intro h
    by_cases hx : x = c
    · exact ⟨[], xs, by simp [hx], by simp, by simp [IndexByte, hx]⟩
    · have hxs : c ∈ xs := by
        rcases List.mem_cons.mp h with h1 | h1
        · exact absurd h1.symm hx
        · exact h1
      obtain ⟨pre, post, h1, h2, h3⟩ := ih hxs
      refine ⟨x :: pre, post, by simp [h1], ?_, ?_⟩
      · intro m
        rcases List.mem_cons.mp m with m1 | m1
        · exact hx m1.symm
        · exact h2 m1
      · have hnn : ¬ ((pre.length : Int) < 0) := by omega
        simp [IndexByte, hx, h3, hnn]

theorem bytesSplit_ne_nil (sep : UInt8) : ∀ l : Bytes, bytesSplit sep l ≠ [] := by
  intro l
  induction l with
  | nil => simp [bytesSplit]
  | cons x xs ih =>
    by_cases hx : x = sep
    · simp [bytesSplit, hx]
    · cases h : bytesSplit sep xs with
      | nil => exact absurd h ih
      | cons f fs => simp [bytesSplit, hx, h]

theorem bytesSplit_of_not_mem (sep : UInt8) : ∀ l : Bytes, sep ∉ l → bytesSplit sep l = [l] := by
  intro l
  induction l with
  | nil => intro _; rfl
  | cons x xs ih =>
    intro h
    have hx : x ≠ sep := fun e => h (by simp [e])
    have hxs : sep ∉ xs := fun m => h (List.mem_cons_of_mem _ m)
    simp [bytesSplit, hx, ih hxs]

theorem bytesSplit_append_sep (sep : UInt8) (post : Bytes) : ∀ pre : Bytes, sep ∉ pre →
    bytesSplit sep (pre ++ sep :: post) = pre :: bytesSplit sep post := by
  intro pre
  induction pre with
  | nil => intro _; simp [bytesSplit]
  | cons x xs ih =>
    intro h
    have hx : x ≠ sep := fun e => h (by simp [e])
    have hxs : sep ∉ xs := fun m => h (List.mem_cons_of_mem _ m)
    simp [bytesSplit, hx, ih hxs]

/-- The first loop of `indexByteColumnN` against the split of the rest of `b`:
with too few fields it gives up, otherwise it stops at the start of field `n`. -/
theorem skip_spec (b : Bytes) (sep : UInt8) : ∀ (n start : Nat),
    ((bytesSplit sep (b.drop start)).length ≤ n → indexByteColumnN.skip b sep start n = none) ∧
    (n < (bytesSplit sep (b.drop start)).length →
      ∃ s, indexByteColumnN.skip b sep start n = some s ∧ (start ≤ b.length → s ≤ b.length) ∧
        bytesSplit sep (b.drop s) = (bytesSplit sep (b.drop start)).drop n) := by
  intro n
  induction n with
  | zero =>
    intro start
    refine ⟨fun h => ?_, fun _ => ⟨start, rfl, id, rfl⟩⟩
    have := bytesSplit_ne_nil sep (b.drop start)
    cases hs : bytesSplit sep (b.drop start) with
    | nil => exact absurd hs this
    | cons f fs => rw [hs] at h; simp at h
  | succ n ih =>
    intro start
    by_cases hm : sep ∈ b.drop start
    · obtain ⟨pre, post, h1, h2, h3⟩ := IndexByte_of_mem sep _ hm
      have hne : ¬ ((pre.length : Int) = -1) := by omega
      have hdrop : b.drop (start + (((pre.length : Int) + 1).toNat)) = post := by
        have : (((pre.length : Int) + 1).toNat) = pre.length + 1 := by omega
        rw [this, ← List.drop_drop, h1]
        simp
      have hsplit : bytesSplit sep (b.drop start) = pre :: bytesSplit sep post := by
        rw [h1]; exact bytesSplit_append_sep sep post pre h2
      have hstep : indexByteColumnN.skip b sep start (n + 1)
          = indexByteColumnN.skip b sep (start + (((pre.length : Int) + 1).toNat)) n := by
        simp [indexByteColumnN.skip, h3, hne]
      obtain ⟨ihA, ihB⟩ := ih (start + (((pre.length : Int) + 1).toNat))
      rw [hdrop] at ihA ihB
      rw [hsplit, hstep]
      constructor
      · intro h
        exact ihA (by simpa using h)
      · intro h
        obtain ⟨s, hs1, hsb, hs2⟩ := ihB (by simpa using h)
        refine ⟨s, hs1, fun _ => hsb ?_, by simpa using hs2⟩
        have hl := congrArg List.length h1
        simp at hl
        omega
    · have h3 := IndexByte_of_not_mem sep _ hm
      have hsplit := bytesSplit_of_not_mem sep _ hm
      rw [hsplit]
      constructor
      · intro _
        simp [indexByteColumnN.skip, h3]
      · intro h
        simp at h

/-- With fewer than `n + 1` fields `indexByteColumnN` returns `(-1, 0)`. -/
theorem indexByteColumnN_too_few (b : Bytes) (sep : UInt8) (n : Int)
    (h : (bytesSplit sep b).length ≤ n.toNat) : indexByteColumnN b sep n = (-1, 0) := by
  have := (skip_spec b sep n.toNat 0).1 (by simpa using h)
  simp [indexByteColumnN, this]

/-- For a field that is not the last one `indexByteColumnN` returns the offsets
of exactly the text of the field. -/
theorem indexByteColumnN_inner_field (b : Bytes) (sep : UInt8) (n : Nat)
    (h : n + 1 < (bytesSplit sep b).length) :
    ∃ s e : Nat, indexByteColumnN b sep (n : Int) = ((s : Int), (e : Int)) ∧ s ≤ e ∧
      e ≤ b.length ∧ (bytesSplit sep b)[n]? = some ((b.drop s).take (e - s)) := by
  obtain ⟨s, hs1, -, hs2⟩ := (skip_spec b sep n 0).2 (by simp; omega)
  simp only [List.drop_zero] at hs2
  by_cases hm : sep ∈ b.drop s
  · obtain ⟨pre, post, h1, h2, h3⟩ := IndexByte_of_mem sep _ hm
    have hsplit := bytesSplit_append_sep sep post pre h2
    rw [← h1, hs2] at hsplit
    have hlen : (b.drop s).length = pre.length + 1 + post.length := by
      rw [h1]; simp; omega
    have hlen2 : s + (pre.length + 1 + post.length) ≤ b.length := by
      have := List.length_drop s b
      omega
    refine ⟨s, pre.length + s, ?_, by omega, by omega, ?_⟩
    · have hnn : ¬ ((pre.length : Int) < 0) := by omega
      simp [indexByteColumnN, hs1, h3, hnn]
    · have : (bytesSplit sep b)[n]? = ((bytesSplit sep b).drop n)[0]? := by simp
      rw [this, hsplit, h1]
      simp
  · have hsplit := bytesSplit_of_not_mem sep _ hm
    rw [hs2] at hsplit
    have := congrArg List.length hsplit
    simp at this
    omega

/-- For the last field `indexByteColumnN` returns the start of the field and
the end `len(b) + 1`. -/
theorem indexByteColumnN_last_field (b : Bytes) (sep : UInt8) (n : Nat)
    (h : n + 1 = (bytesSplit sep b).length) :
    ∃ s : Nat, indexByteColumnN b sep (n : Int) = ((s : Int), (b.length : Int) + 1) ∧
      s ≤ b.length ∧ (bytesSplit sep b)[n]? = some (b.drop s) := by
  obtain ⟨s, hs1, hsb0, hs2⟩ := (skip_spec b sep n 0).2 (by simp; omega)
  simp only [List.drop_zero] at hs2
  by_cases hm : sep ∈ b.drop s
  · obtain ⟨pre, post, h1, h2, h3⟩ := IndexByte_of_mem sep _ hm
    have hsplit := bytesSplit_append_sep sep post pre h2
    rw [← h1, hs2] at hsplit
    have h4 := congrArg List.length hsplit
    have h5 := bytesSplit_ne_nil sep post
    have h6 : 0 < (bytesSplit sep post).length := List.length_pos.mpr h5
    simp at h4
    omega
  · have h3 := IndexByte_of_not_mem sep _ hm
    have hsplit := bytesSplit_of_not_mem sep _ hm
    rw [hs2] at hsplit
    have hsb : s ≤ b.length := hsb0 (Nat.zero_le _)
    refine ⟨s, ?_, hsb, ?_⟩
    · simp [indexByteColumnN, hs1, h3]
    · have : (bytesSplit sep b)[n]? = ((bytesSplit sep b).drop n)[0]? := by simp
      rw [this, hsplit]
      simp

/-- On a row with fewer than `col + 1` fields the per-cell decoders find no column. -/
theorem cellText_too_few (df : Dataframe) (col row : Nat) (buf : Bytes)
    (hbuf : df.Data[row]? = some buf) (hlen : 2 ≤ buf.length)
    (hfew : (bytesSplit 44 ((buf.drop 1).take (buf.length - 2))).length < col + 1) :
    df.cellText (col : Int) (row : Int) = .ok none := by
  have h1 : ¬ ((row : Int) < 0) := by omega
  have h2 : ¬ (buf.length < 2) := by omega
  have h3 := indexByteColumnN_too_few ((buf.drop 1).take (buf.length - 2)) 44 (col : Int)
    (by rw [Int.toNat_ofNat]; omega)
  unfold Dataframe.cellText
  rw [if_neg h1]
  simp only [Int.toNat_ofNat, hbuf]
  rw [if_neg h2]
  simp only [h3]
  simp

/-- For a column that is not the last field of the row the per-cell decoders
parse exactly the text of the field. -/
theorem cellText_inner_field (df : Dataframe) (col row : Nat) (buf : Bytes)
    (hbuf : df.Data[row]? = some buf) (hlen : 2 ≤ buf.length)
    (hcol : col + 1 < (bytesSplit 44 ((buf.drop 1).take (buf.length - 2))).length) :
    ∃ f, (bytesSplit 44 ((buf.drop 1).take (buf.length - 2)))[col]? = some f ∧
      df.cellText (col : Int) (row : Int) = .ok (some f) := by
  obtain ⟨s, e, h1, h2, h3, h4⟩ :=
    indexByteColumnN_inner_field ((buf.drop 1).take (buf.length - 2)) 44 col hcol
  refine ⟨_, h4, ?_⟩
  have g1 : ¬ ((row : Int) < 0) := by omega
  have g2 : ¬ (buf.length < 2) := by omega
  have g3 : ¬ ((s : Int) < 0) := by omega
  have g4 : (s : Int) ≤ (e : Int) ∧ (e : Int) ≤
      (((buf.drop 1).take (buf.length - 2)).length : Int)
        + ((buf.drop (buf.length - 1)).length : Int) := by
    constructor <;> omega
  unfold Dataframe.cellText
  rw [if_neg g1]
  simp only [Int.toNat_ofNat, hbuf]
  rw [if_neg g2]
  simp only [h1]
  rw [if_neg g3, if_pos g4]
  have g5 : ((e : Int) - (s : Int)).toNat = e - s := by omega
  rw [g5, Int.toNat_ofNat]
  have g6 : e - s ≤ (((buf.drop 1).take (buf.length - 2)).drop s).length := by
    rw [List.length_drop]
    omega
  rw [List.drop_append_of_le_length (by omega), List.take_append_of_le_length g6]

/-- For the column that is the last field of the row the per-cell decoders parse
the text of the field followed by the last byte of the row payload. -/
theorem cellText_last_field (df : Dataframe) (col row : Nat) (buf : Bytes)
    (hbuf : df.Data[row]? = some buf) (hlen : 2 ≤ buf.length)
    (hcol : col + 1 = (bytesSplit 44 ((buf.drop 1).take (buf.length - 2))).length) :
    ∃ f, (bytesSplit 44 ((buf.drop 1).take (buf.length - 2)))[col]? = some f ∧
      df.cellText (col : Int) (row : Int) = .ok (some (f ++ buf.drop (buf.length - 1))) := by
  obtain ⟨s, h1, h2, h4⟩ :=
    indexByteColumnN_last_field ((buf.drop 1).take (buf.length - 2)) 44 col hcol
  refine ⟨_, h4, ?_⟩
  have hvl : ((buf.drop 1).take (buf.length - 2)).length = buf.length - 2 := by
    rw [List.length_take, List.length_drop]
    omega
  have hsl : (buf.drop (buf.length - 1)).length = 1 := by
    rw [List.length_drop]
    omega
  have g1 : ¬ ((row : Int) < 0) := by omega
  have g2 : ¬ (buf.length < 2) := by omega
  have g3 : ¬ ((s : Int) < 0) := by omega
  have g4 : (s : Int) ≤ (((buf.drop 1).take (buf.length - 2)).length : Int) + 1 ∧
      (((buf.drop 1).take (buf.length - 2)).length : Int) + 1 ≤
      (((buf.drop 1).take (buf.length - 2)).length : Int)
        + ((buf.drop (buf.length - 1)).length : Int) := by
    constructor <;> omega
  unfold Dataframe.cellText
  rw [if_neg g1]
  simp only [Int.toNat_ofNat, hbuf]
  rw [if_neg g2]
  simp only [h1]
  rw [if_neg g3, if_pos g4]
  have g5 : ((((buf.drop 1).take (buf.length - 2)).length : Int) + 1 - (s : Int)).toNat
      = ((buf.drop 1).take (buf.length - 2)).length + 1 - s := by omega
  rw [g5, Int.toNat_ofNat, List.drop_append_of_le_length h2]
  have g6 : (((buf.drop 1).take (buf.length - 2)).drop s ++ buf.drop (buf.length - 1)).length
      ≤ ((buf.drop 1).take (buf.length - 2)).length + 1 - s := by
    rw [List.length_append, List.length_drop, hsl]
    omega
  rw [List.take_of_length_le g6]

/-- C7 (counterexample): column 1 has the undefined type `""` (as JSON decoding
leaves it when the `type` key is absent) and the row `[1]` has one field only;
`FieldAt(1, 0)` returns the error "no method for decoding column", which is no
missing-column error and does not name column and row. -/
theorem C7_counterexample_undeclared_type :
    (⟨[⟨"A", "a", FieldTypeInt64⟩, ⟨"B", "b", FieldTypeUndefined⟩], [ascii "[1]"], none, none⟩
      : Dataframe).Columns.length = 2 ∧
    2 ≤ (ascii "[1]").length ∧
    (bytesSplit 44 (((ascii "[1]").drop 1).take ((ascii "[1]").length - 2))).length < 1 + 1 ∧
    Dataframe.FieldAt asciiLib
      ⟨[⟨"A", "a", FieldTypeInt64⟩, ⟨"B", "b", FieldTypeUndefined⟩], [ascii "[1]"], none, none⟩
      1 0 = .err (.noMethodColumn "b" "") ∧
    Dataframe.FieldAt asciiLib
      ⟨[⟨"A", "a", FieldTypeInt64⟩, ⟨"B", "b", FieldTypeUndefined⟩], [ascii "[1]"], none, none⟩
      1 0 ≠ .err (.columnMissing "b" 1 0) := by
  refine ⟨rfl, by decide, by decide, rfl, ?_⟩
  intro h
  have h2 : Dataframe.FieldAt asciiLib
      ⟨[⟨"A", "a", FieldTypeInt64⟩, ⟨"B", "b", FieldTypeUndefined⟩], [ascii "[1]"], none, none⟩
      1 0 = .err (.noMethodColumn "b" "") := rfl
  rw [h2] at h
  cases h

/-- C7 (amended): for every Dataframe, column `col < len(Columns)` whose declared
type is one of the eight column types, and row whose payload of at least two
bytes has fewer than `col + 1` comma-separated fields, `FieldAt(col, row)`
returns no value but a missing-column error naming the column code, `col` and
`row`: the one of `decodeTimeAt` for date and datetime columns, and
`makeColumnMissingError` for the others. -/
theorem C7_fieldAt_missing_column (lib : StdLib) (df : Dataframe) (col row : Nat)
    (c : Datafield) (buf : Bytes)
    (hc : df.Columns[col]? = some c) (hbuf : df.Data[row]? = some buf)
    (hlen : 2 ≤ buf.length)
    (hfew : (bytesSplit 44 ((buf.drop 1).take (buf.length - 2))).length < col + 1)
    (htyp : c.Typ = FieldTypeString ∨ c.Typ = FieldTypeBytes ∨ c.Typ = FieldTypeDate ∨
      c.Typ = FieldTypeDatetime ∨ c.Typ = FieldTypeBoolean ∨ c.Typ = FieldTypeFloat64 ∨
      c.Typ = FieldTypeInt64 ∨ c.Typ = FieldTypeUint64) :
    df.FieldAt lib (col : Int) (row : Int)
      = .err (if c.Typ = FieldTypeDate ∨ c.Typ = FieldTypeDatetime
          then .timeMissing c.Code (col : Int) (row : Int)
          else .columnMissing c.Code (col : Int) (row : Int)) := by
  have hcell := cellText_too_few df col row buf hbuf hlen hfew
  have hcl : col < df.Columns.length := by
    by_contra hn
    rw [List.getElem?_eq_none (by omega)] at hc
    cases hc
  have hrl : row < df.Data.length := by
    by_contra hn
    rw [List.getElem?_eq_none (by omega)] at hbuf
    cases hbuf
  have g1 : ¬ ((df.Columns.length : Int) < (col : Int)) := by omega
  have g2 : ¬ ((df.Data.length : Int) < (row : Int)) := by omega
  have g3 : ¬ ((col : Int) < 0) := by omega
  unfold Dataframe.FieldAt
  rw [if_neg g1, if_neg g2, if_neg g3]
  simp only [Int.toNat_ofNat, hc]
  rcases htyp with h | h | h | h | h | h | h | h <;>
    simp [h, FieldTypeString, FieldTypeBytes, FieldTypeDate, FieldTypeDatetime,
      FieldTypeBoolean, FieldTypeFloat64, FieldTypeInt64, FieldTypeUint64,
      Dataframe.decodeStringAt, Dataframe.decodeBytesAt, Dataframe.decodeTimeAt,
      Dataframe.decodeBoolAt, Dataframe.decodeFloat64At, Dataframe.decodeInt64At,
      Dataframe.decodeUint64At, Dataframe.cell, hcell, Res.map]

/-- C7 (witness): the amended claim at columns `[height, time]` and the row
`[12345]`, column 1. -/
theorem C7_fieldAt_missing_column_witness :
    Dataframe.FieldAt asciiLib (heightTimeFrame [ascii "[12345]"]) ((1 : Nat) : Int)
        ((0 : Nat) : Int)
      = .err (if FieldTypeDatetime = FieldTypeDate ∨ FieldTypeDatetime = FieldTypeDatetime
          then .timeMissing "time" ((1 : Nat) : Int) ((0 : Nat) : Int)
          else .columnMissing "time" ((1 : Nat) : Int) ((0 : Nat) : Int)) :=
  C7_fieldAt_missing_column asciiLib (heightTimeFrame [ascii "[12345]"]) 1 0
    ⟨"Time", "time", FieldTypeDatetime⟩ (ascii "[12345]") rfl rfl (by decide) (by decide)
    (by decide)

/-! ### The descriptor built by `getReflectTypeInfo` -/

/-- Below an embedded field the path continues in the embedded struct. -/
theorem FieldByIndex_under (m : TypeMeta) (all : Fields) (i : Nat) (f : StructField)
    (e : GoType) (hf : all.toList[i]? = some f) (he : f.Typ.derefStruct = e) :
    ∀ p : List Nat, p ≠ [] →
      (GoType.struct m all).FieldByIndex (i :: p) = e.FieldByIndex p := by
  intro p hp
  cases p with
  | nil => exact absurd rfl hp
  | cons x xs =>
    simp only [GoType.FieldByIndex, GoType.Field, hf, GoType.FieldByIndex.rest, he]

/-- The path of an own field leads to the field. -/
theorem FieldByIndex_own (m : TypeMeta) (all : Fields) (i : Nat) (f : StructField)
    (hf : all.toList[i]? = some f) : (GoType.struct m all).FieldByIndex [i] = some f := by
  simp [GoType.FieldByIndex, GoType.Field, hf, GoType.FieldByIndex.rest]

mutual
/-- Every bindable field of a type has a non-empty path that leads to a struct
field with the wire name of the entry. -/
theorem bindable_path : ∀ (t : GoType) (fi : fieldInfo), fi ∈ bindable t →
    fi.idx ≠ [] ∧ ∃ f, t.FieldByIndex fi.idx = some f ∧ wireName f.Name f.Tag = fi.name
  | .struct m fs, fi, h => by
    rw [bindable] at h
    exact bindableFields_path fs 0 m fs (by simp) fi h
  | .bool _, fi, h => by simp [bindable] at h
  | .int _ _, fi, h => by simp [bindable] at h
  | .uint _ _, fi, h => by simp [bindable] at h
  | .float _ _, fi, h => by simp [bindable] at h
  | .string _, fi, h => by simp [bindable] at h
  | .slice _ _, fi, h => by simp [bindable] at h
  | .ptr _ _, fi, h => by simp [bindable] at h
  | .time, fi, h => by simp [bindable] at h
  | .other _ _, fi, h => by simp [bindable] at h
/-- The paths of the bindable fields contributed from index `i` on. -/
theorem bindableFields_path : ∀ (fs : Fields) (i : Nat) (m : TypeMeta) (all : Fields),
    all.toList.drop i = fs.toList → ∀ fi : fieldInfo, fi ∈ bindableFields fs i →
    fi.idx ≠ [] ∧ ∃ f, (GoType.struct m all).FieldByIndex fi.idx = some f ∧
      wireName f.Name f.Tag = fi.name
  | .nil, i, m, all, _, fi, h => by simp [bindableFields] at h
  | .cons Name PkgPath Anonymous Tag ty rest, i, m, all, hd, fi, h => by
    rw [bindableFields, List.mem_append] at h
    have hi : all.toList[i]? = some ⟨Name, PkgPath, Anonymous, Tag, ty⟩ := by
      have := congrArg (fun l => l[0]?) hd
      simpa [Fields.toList] using this
    have hrest : all.toList.drop (i + 1) = rest.toList := by
      have := congrArg (fun l => l.drop 1) hd
      simpa [Fields.toList, Nat.add_comm] using this
    rcases h with h | h
    · exact bindableField_path ty i Name PkgPath Anonymous Tag m all hi fi h
    · exact bindableFields_path rest (i + 1) m all hrest fi h
/-- The paths of the bindable fields contributed by the field at index `i`. -/
theorem bindableField_path : ∀ (ty : GoType) (i : Nat) (Name PkgPath : String)
    (Anonymous : Bool) (Tag : String) (m : TypeMeta) (all : Fields),
    all.toList[i]? = some ⟨Name, PkgPath, Anonymous, Tag, ty⟩ →
    ∀ fi : fieldInfo, fi ∈ bindableField i Name PkgPath Anonymous Tag ty →
    fi.idx ≠ [] ∧ ∃ f, (GoType.struct m all).FieldByIndex fi.idx = some f ∧
      wireName f.Name f.Tag = fi.name
  | .ptr pm e, i, Name, PkgPath, Anonymous, Tag, m, all, hi, fi, h => by
    rw [bindableField] at h
    split at h
    · simp at h
    · split at h
      · rename_i hc
        obtain ⟨g, hg, rfl⟩ := List.mem_map.mp h
        obtain ⟨h1, f, h2, h3⟩ := bindable_path e g hg
        refine ⟨by simp [fieldInfo.under], f, ?_, by simpa [fieldInfo.under] using h3⟩
        have := FieldByIndex_under m all i _ e hi (by simp [GoType.derefStruct, hc.2]) g.idx h1
        simpa [fieldInfo.under, this] using h2
      · simp at h
        subst h
        exact ⟨by simp, _, FieldByIndex_own m all i _ hi, rfl⟩
  | .struct sm fs, i, Name, PkgPath, Anonymous, Tag, m, all, hi, fi, h => by
    rw [bindableField] at h
    split at h
    · simp at h
    · split at h
      · obtain ⟨g, hg, rfl⟩ := List.mem_map.mp h
        obtain ⟨h1, f, h2, h3⟩ := bindable_path (.struct sm fs) g hg
        refine ⟨by simp [fieldInfo.under], f, ?_, by simpa [fieldInfo.under] using h3⟩
        have := FieldByIndex_under m all i _ (.struct sm fs) hi (by simp [GoType.derefStruct])
          g.idx h1
        simpa [fieldInfo.under, this] using h2
      · simp at h
        subst h
        exact ⟨by simp, _, FieldByIndex_own m all i _ hi, rfl⟩
  | .time, i, Name, PkgPath, Anonymous, Tag, m, all, hi, fi, h => by
    rw [bindableField] at h
    split at h
    · simp at h
    · split at h
      · simp at h
      · simp at h
        subst h
        exact ⟨by simp, _, FieldByIndex_own m all i _ hi, rfl⟩
  | .bool _, i, Name, PkgPath, Anonymous, Tag, m, all, hi, fi, h => by
    simp only [bindableField] at h
    split at h
    · simp at h
    · simp at h
      subst h
      exact ⟨by simp, _, FieldByIndex_own m all i _ hi, rfl⟩
  | .int _ _, i, Name, PkgPath, Anonymous, Tag, m, all, hi, fi, h => by
    simp only [bindableField] at h
    split at h
    · simp at h
    · simp at h
      subst h
      exact ⟨by simp, _, FieldByIndex_own m all i _ hi, rfl⟩
  | .uint _ _, i, Name, PkgPath, Anonymous, Tag, m, all, hi, fi, h => by
    simp only [bindableField] at h
    split at h
    · simp at h
    · simp at h
      subst h
      exact ⟨by simp, _, FieldByIndex_own m all i _ hi, rfl⟩
  | .float _ _, i, Name, PkgPath, Anonymous, Tag, m, all, hi, fi, h => by
    simp only [bindableField] at h
    split at h
    · simp at h
    · simp at h
      subst h
      exact ⟨by simp, _, FieldByIndex_own m all i _ hi, rfl⟩
  | .string _, i, Name, PkgPath, Anonymous, Tag, m, all, hi, fi, h => by
    simp only [bindableField] at h
    split at h
    · simp at h
    · simp at h
      subst h
      exact ⟨by simp, _, FieldByIndex_own m all i _ hi, rfl⟩
  | .slice _ _, i, Name, PkgPath, Anonymous, Tag, m, all, hi, fi, h => by
    simp only [bindableField] at h
    split at h
    · simp at h
    · simp at h
      subst h
      exact ⟨by simp, _, FieldByIndex_own m all i _ hi, rfl⟩
  | .other _ _, i, Name, PkgPath, Anonymous, Tag, m, all, hi, fi, h => by
    simp only [bindableField] at h
    split at h
    · simp at h
    · simp at h
      subst h
      exact ⟨by simp, _, FieldByIndex_own m all i _ hi, rfl⟩
end

/-- The contribution of one field, by what it embeds. -/
theorem bindableField_eq (i : Nat) (Name PkgPath : String) (Anonymous : Bool) (Tag : String)
    (ty : GoType) :
    bindableField i Name PkgPath Anonymous Tag ty
      = if (PkgPath ≠ "" ∧ Anonymous = false) ∨ Tag = "-" then []
        else match embedTarget Anonymous ty with
          | some e => (bindable e).map (fieldInfo.under i)
          | none => [⟨[i], wireName Name Tag, ""⟩] := by
  by_cases hx : (PkgPath ≠ "" ∧ Anonymous = false) ∨ Tag = "-"
  · cases ty <;> simp only [bindableField, if_pos hx]
  · cases Anonymous
    · cases ty <;> simp [bindableField, embedTarget, hx]
    · cases ty <;> simp only [bindableField, embedTarget, if_neg hx] <;>
        first | rfl | (split <;> simp_all [bindable])

theorem embedTarget_false (ty : GoType) : embedTarget false ty = none := by
  cases ty <;> rfl

/-- One round of the loop of `getReflectTypeInfo`, by what the field embeds. -/
theorem loop_cons (cache : TinfoMap) (typ : GoType) (Name PkgPath : String) (Anonymous : Bool)
    (Tag : String) (ty : GoType) (rest : Fields) (i : Nat) (tinfo : typeInfo) :
    getReflectTypeInfo.loop cache typ (.cons Name PkgPath Anonymous Tag ty rest) i tinfo
      = if (PkgPath ≠ "" ∧ Anonymous = false) ∨ Tag = "-" then
          getReflectTypeInfo.loop cache typ rest (i + 1) tinfo
        else match embedTarget Anonymous ty with
          | some e =>
            match getReflectTypeInfo cache e with
            | (.ok inner, c) =>
              match addEmbedded typ i inner.fields tinfo with
              | .ok tinfo1 => getReflectTypeInfo.loop c typ rest (i + 1) tinfo1
              | .err e => (.err e, c)
              | .panic p => (.panic p, c)
            | (.err e, c) => (.err e, c)
            | (.panic p, c) => (.panic p, c)
          | none =>
            match addFieldInfo typ tinfo (structFieldInfo i Name Tag) with
            | .ok tinfo1 => getReflectTypeInfo.loop cache typ rest (i + 1) tinfo1
            | .err e => (.err e, cache)
            | .panic p => (.panic p, cache) := by
  have hdef : getReflectTypeInfo.loop cache typ (.cons Name PkgPath Anonymous Tag ty rest) i tinfo
      = if (PkgPath ≠ "" ∧ Anonymous = false) ∨ Tag = "-" then
          getReflectTypeInfo.loop cache typ rest (i + 1) tinfo
        else
          if Anonymous then
            match ty with
            | .ptr _ e =>
              if e.isStruct then
                match getReflectTypeInfo cache e with
                | (.ok inner, c) =>
                  match addEmbedded typ i inner.fields tinfo with
                  | .ok tinfo1 => getReflectTypeInfo.loop c typ rest (i + 1) tinfo1
                  | .err e => (.err e, c)
                  | .panic p => (.panic p, c)
                | (.err e, c) => (.err e, c)
                | (.panic p, c) => (.panic p, c)
              else
                match addFieldInfo typ tinfo (structFieldInfo i Name Tag) with
                | .ok tinfo1 => getReflectTypeInfo.loop cache typ rest (i + 1) tinfo1
                | .err e => (.err e, cache)
                | .panic p => (.panic p, cache)
            | .struct m fs =>
              match getReflectTypeInfo cache (.struct m fs) with
              | (.ok inner, c) =>
                match addEmbedded typ i inner.fields tinfo with
                | .ok tinfo1 => getReflectTypeInfo.loop c typ rest (i + 1) tinfo1
                | .err e => (.err e, c)
                | .panic p => (.panic p, c)
              | (.err e, c) => (.err e, c)
              | (.panic p, c) => (.panic p, c)
            | .time =>
              match getReflectTypeInfo cache .time with
              | (.ok inner, c) =>
                match addEmbedded typ i inner.fields tinfo with
                | .ok tinfo1 => getReflectTypeInfo.loop c typ rest (i + 1) tinfo1
                | .err e => (.err e, c)
                | .panic p => (.panic p, c)
              | (.err e, c) => (.err e, c)
              | (.panic p, c) => (.panic p, c)
            | _ =>
              match addFieldInfo typ tinfo (structFieldInfo i Name Tag) with
              | .ok tinfo1 => getReflectTypeInfo.loop cache typ rest (i + 1) tinfo1
              | .err e => (.err e, cache)
              | .panic p => (.panic p, cache)
          else
            match addFieldInfo typ tinfo (structFieldInfo i Name Tag) with
            | .ok tinfo1 => getReflectTypeInfo.loop cache typ rest (i + 1) tinfo1
            | .err e => (.err e, cache)
            | .panic p => (.panic p, cache) := by
    cases ty <;> rfl
  rw [hdef]
  by_cases hx : (PkgPath ≠ "" ∧ Anonymous = false) ∨ Tag = "-"
  · rw [if_pos hx, if_pos hx]
  · rw [if_neg hx, if_neg hx]
    cases Anonymous
    · rw [embedTarget_false]
      simp
    · cases ty <;> simp only [embedTarget, if_true]
      split
      · rfl
      · rfl

/-- A new entry whose name is not in the descriptor yet is appended. -/
theorem addFieldInfo_fresh (typ : GoType) (nm : String) (g : Bool) (acc : List fieldInfo)
    (newf : fieldInfo) (h : newf.name ∉ acc.map (fun fi => fi.name)) :
    addFieldInfo typ ⟨nm, acc, g⟩ newf = .ok ⟨nm, acc ++ [newf], g⟩ := by
  have hfind : acc.find? (fun oldf => decide (newf.name = oldf.name)) = none := by
    rw [List.find?_eq_none]
    intro x hx hd
    exact h (List.mem_map.mpr ⟨x, hx, (of_decide_eq_true hd).symm⟩)
  simp [addFieldInfo, hfind]

/-- A new entry whose name is in the descriptor already gives the conflict error
that names the first entry of that name and the new one. -/
theorem addFieldInfo_conflict (typ : GoType) (nm : String) (g : Bool) (acc : List fieldInfo)
    (newf : fieldInfo) (h : newf.name ∈ acc.map (fun fi => fi.name))
    (hacc : ∀ fi, fi ∈ acc → PathOK typ fi) (hnew : PathOK typ newf) :
    ∃ e, addFieldInfo typ ⟨nm, acc, g⟩ newf = .err e ∧ CollisionIn typ (acc ++ [newf]) e := by
  obtain ⟨x, hx, hxn⟩ := List.mem_map.mp h
  have hsome : (acc.find? (fun oldf => decide (newf.name = oldf.name))).isSome := by
    rw [List.find?_isSome]
    exact ⟨x, hx, by simp [hxn]⟩
  obtain ⟨oldf, hold⟩ := Option.isSome_iff_exists.mp hsome
  have hmem : oldf ∈ acc := List.mem_of_find?_eq_some hold
  have hname : newf.name = oldf.name := by
    have := List.find?_some hold
    simpa using this
  obtain ⟨f1, hf1, hw1⟩ := hacc oldf hmem
  obtain ⟨f2, hf2, hw2⟩ := hnew
  refine ⟨.conflict typ.typeString f1.Name f1.Tag f2.Name f2.Tag, ?_, ?_⟩
  · simp [addFieldInfo, hold, hf1, hf2]
  · refine ⟨oldf, newf, f1, f2, typ.typeString, ?_, hname.symm, hf1, hf2, hw1, hw2, rfl⟩
    have h1 : [oldf].Sublist acc := List.singleton_sublist.mpr hmem
    exact List.Sublist.append h1 (List.Sublist.refl [newf])

/-- A collision among the entries of a list is one among the entries of any
list that has it as a sublist. -/
theorem CollisionIn.mono {t : GoType} {l l2 : List fieldInfo} {e : Err}
    (h : CollisionIn t l e) (hs : l.Sublist l2) : CollisionIn t l2 e := by
  obtain ⟨fi1, fi2, f1, f2, tn, h1, h2⟩ := h
  exact ⟨fi1, fi2, f1, f2, tn, h1.trans hs, h2⟩

/-- A list of names with a collision has two entries with one name. -/
theorem CollisionIn.not_nodup {t : GoType} {l : List fieldInfo} {e : Err}
    (h : CollisionIn t l e) : ¬ (l.map (fun fi => fi.name)).Nodup := by
  obtain ⟨fi1, fi2, f1, f2, tn, h1, h2, -⟩ := h
  intro hn
  have h3 := (h1.map (fun fi => fi.name)).nodup hn
  simp at h3
  exact h3 h2

/-- The inner loop over the entries of an embedded struct: without two entries of
one name all are appended, otherwise the conflict error comes back. -/
theorem addEmbedded_spec (typ : GoType) (i : Nat) (nm : String) (g : Bool) :
    ∀ (l acc : List fieldInfo), (acc.map (fun fi => fi.name)).Nodup →
      (∀ fi, fi ∈ acc → PathOK typ fi) → (∀ fi, fi ∈ l → PathOK typ (fi.under i)) →
      (((acc ++ l.map (fieldInfo.under i)).map (fun fi => fi.name)).Nodup →
        addEmbedded typ i l ⟨nm, acc, g⟩ = .ok ⟨nm, acc ++ l.map (fieldInfo.under i), g⟩) ∧
      (¬ ((acc ++ l.map (fieldInfo.under i)).map (fun fi => fi.name)).Nodup →
        ∃ e, addEmbedded typ i l ⟨nm, acc, g⟩ = .err e ∧
          CollisionIn typ (acc ++ l.map (fieldInfo.under i)) e) := by
  intro l
  induction l with
  | nil =>
    intro acc hn _ _
    refine ⟨fun _ => by simp [addEmbedded], fun h => ?_⟩
    simp at h
    exact absurd hn h
  | cons x xs ih =>
    intro acc hn hacc hl
    have hx : PathOK typ (x.under i) := hl x (List.mem_cons_self _ _)
    have hxs : ∀ fi, fi ∈ xs → PathOK typ (fi.under i) :=
      fun fi hfi => hl fi (List.mem_cons_of_mem _ hfi)
    have hstep : { x with idx := i :: x.idx } = x.under i := rfl
    have happ : acc ++ (x :: xs).map (fieldInfo.under i)
        = (acc ++ [x.under i]) ++ xs.map (fieldInfo.under i) := by simp
    by_cases hmem : (x.under i).name ∈ acc.map (fun fi => fi.name)
    · obtain ⟨e, he, hcol⟩ := addFieldInfo_conflict typ nm g acc (x.under i) hmem hacc hx
      have hcol2 : CollisionIn typ (acc ++ (x :: xs).map (fieldInfo.under i)) e := by
        rw [happ]
        exact hcol.mono (List.sublist_append_left _ _)
      refine ⟨fun h => absurd h hcol2.not_nodup, fun _ => ⟨e, ?_, hcol2⟩⟩
      simp [addEmbedded, hstep, he]
    · have hok := addFieldInfo_fresh typ nm g acc (x.under i) hmem
      have hn2 : ((acc ++ [x.under i]).map (fun fi => fi.name)).Nodup := by
        rw [List.map_append, List.nodup_append]
        refine ⟨hn, by simp, ?_⟩
        intro a ha hb
        simp at hb
        exact hmem (hb ▸ ha)
      have hacc2 : ∀ fi, fi ∈ acc ++ [x.under i] → PathOK typ fi := by
        intro fi hfi
        rcases List.mem_append.mp hfi with h1 | h1
        · exact hacc fi h1
        · simp at h1; exact h1 ▸ hx
      obtain ⟨ih1, ih2⟩ := ih (acc ++ [x.under i]) hn2 hacc2 hxs
      rw [happ]
      constructor
      · intro h
        simp only [addEmbedded, hstep, hok]
        exact ih1 h
      · intro h
        simp only [addEmbedded, hstep, hok]
        exact ih2 h

theorem embedTarget_isStruct {a : Bool} {ty e : GoType} (h : embedTarget a ty = some e) :
    e.isStruct = true := by
  cases a
  · rw [embedTarget_false] at h; cases h
  · cases ty
    all_goals (try (simp [embedTarget] at h))
    case ptr => obtain ⟨hs, rfl⟩ := h; exact hs
    case struct => subst h; rfl
    case time => subst h; rfl

theorem embedTarget_deref {a : Bool} {ty e : GoType} (h : embedTarget a ty = some e) :
    ty.derefStruct = e := by
  cases a
  · rw [embedTarget_false] at h; cases h
  · cases ty
    all_goals (try (simp [embedTarget] at h))
    case ptr => obtain ⟨hs, rfl⟩ := h; simp [GoType.derefStruct, hs]
    case struct => subst h; rfl
    case time => subst h; rfl

theorem bindableFields_cons (Name PkgPath : String) (Anonymous : Bool) (Tag : String)
    (ty : GoType) (rest : Fields) (i : Nat) :
    bindableFields (.cons Name PkgPath Anonymous Tag ty rest) i
      = bindableField i Name PkgPath Anonymous Tag ty ++ bindableFields rest (i + 1) := by
  rw [bindableFields]

/-- The entries of an embedded struct, put under index `i`, have paths that lead
to their fields from the embedding struct. -/
theorem pathOK_under (m : TypeMeta) (all : Fields) (i : Nat) (f : StructField) (e : GoType)
    (hf : all.toList[i]? = some f) (he : f.Typ.derefStruct = e) (fi : fieldInfo)
    (h : fi ∈ bindable e) : PathOK (.struct m all) (fi.under i) := by
  obtain ⟨h1, g, h2, h3⟩ := bindable_path e fi h
  refine ⟨g, ?_, h3⟩
  have := FieldByIndex_under m all i f e hf he fi.idx h1
  simpa [fieldInfo.under, this] using h2

/-- A collision among the bindable fields of an embedded struct is one among the
entries put under index `i` of the embedding struct. -/
theorem collision_under (m : TypeMeta) (all : Fields) (i : Nat) (f : StructField) (e : GoType)
    (hf : all.toList[i]? = some f) (he : f.Typ.derefStruct = e) (err : Err)
    (h : NamesCollision e err) :
    CollisionIn (.struct m all) ((bindable e).map (fieldInfo.under i)) err := by
  obtain ⟨fi1, fi2, f1, f2, tn, hs, hn, hp1, hp2, hw1, hw2, he2⟩ := h
  have hm1 : fi1 ∈ bindable e := hs.subset (by simp)
  have hm2 : fi2 ∈ bindable e := hs.subset (by simp)
  have hu1 := FieldByIndex_under m all i f e hf he fi1.idx (bindable_path e fi1 hm1).1
  have hu2 := FieldByIndex_under m all i f e hf he fi2.idx (bindable_path e fi2 hm2).1
  refine ⟨fi1.under i, fi2.under i, f1, f2, tn, ?_, hn, ?_, ?_, hw1, hw2, he2⟩
  · simpa using hs.map (fieldInfo.under i)
  · simpa [fieldInfo.under, hu1] using hp1
  · simpa [fieldInfo.under, hu2] using hp2

/-- One round of the loop keeps `LoopSpec`, given what `getReflectTypeInfo` does
for the embedded struct and what the loop does for the remaining fields. -/
theorem loop_step (Name PkgPath : String) (Anonymous : Bool) (Tag : String) (ty : GoType)
    (rest : Fields) (i : Nat) (m : TypeMeta) (all : Fields)
    (hd : all.toList.drop i = (Fields.cons Name PkgPath Anonymous Tag ty rest).toList)
    (ihT : ∀ e, embedTarget Anonymous ty = some e → ∀ cache, CacheOK cache → TypeSpec e cache)
    (ihR : ∀ cache nm g acc, CacheOK cache → (acc.map (fun fi => fi.name)).Nodup →
      (∀ fi, fi ∈ acc → PathOK (.struct m all) fi) →
      LoopSpec cache (.struct m all) rest (i + 1) nm g acc) :
    ∀ cache nm g acc, CacheOK cache → (acc.map (fun fi => fi.name)).Nodup →
      (∀ fi, fi ∈ acc → PathOK (.struct m all) fi) →
      LoopSpec cache (.struct m all) (.cons Name PkgPath Anonymous Tag ty rest) i nm g acc := by
  intro cache nm g acc hc hn hacc
  have hi : all.toList[i]? = some ⟨Name, PkgPath, Anonymous, Tag, ty⟩ := by
    have := congrArg (fun l => l[0]?) hd
    simpa [Fields.toList] using this
  unfold LoopSpec
  rw [loop_cons, bindableFields_cons, bindableField_eq]
  by_cases hx : (PkgPath ≠ "" ∧ Anonymous = false) ∨ Tag = "-"
  · simp only [if_pos hx, List.nil_append]
    exact ihR cache nm g acc hc hn hacc
  · simp only [if_neg hx]
    cases hE : embedTarget Anonymous ty with
    | none =>
      simp only []
      have hown : structFieldInfo i Name Tag = ⟨[i], wireName Name Tag, ""⟩ := rfl
      rw [hown]
      have hpath : PathOK (.struct m all) ⟨[i], wireName Name Tag, ""⟩ :=
        ⟨_, FieldByIndex_own m all i _ hi, rfl⟩
      have happ : acc ++ ([(⟨[i], wireName Name Tag, ""⟩ : fieldInfo)] ++ bindableFields rest (i + 1))
          = (acc ++ [⟨[i], wireName Name Tag, ""⟩]) ++ bindableFields rest (i + 1) := by simp
      rw [happ]
      by_cases hmem : (⟨[i], wireName Name Tag, ""⟩ : fieldInfo).name ∈ acc.map (fun fi => fi.name)
      · obtain ⟨e, he, hcol⟩ := addFieldInfo_conflict (.struct m all) nm g acc _ hmem hacc hpath
        have hcol2 := hcol.mono (List.sublist_append_left _ (bindableFields rest (i + 1)))
        rw [he]
        exact ⟨hc, fun h => absurd h hcol2.not_nodup, fun _ => ⟨e, rfl, hcol2⟩⟩
      · have hok := addFieldInfo_fresh (.struct m all) nm g acc _ hmem
        rw [hok]
        have hn2 : ((acc ++ [(⟨[i], wireName Name Tag, ""⟩ : fieldInfo)]).map
            (fun fi => fi.name)).Nodup := by
          rw [List.map_append, List.nodup_append]
          refine ⟨hn, by simp, ?_⟩
          intro a ha hb
          simp at hb
          exact hmem (hb ▸ ha)
        have hacc2 : ∀ fi, fi ∈ acc ++ [(⟨[i], wireName Name Tag, ""⟩ : fieldInfo)] →
            PathOK (.struct m all) fi := by
          intro fi hfi
          rcases List.mem_append.mp hfi with h1 | h1
          · exact hacc fi h1
          · simp at h1; exact h1 ▸ hpath
        exact ihR cache nm g _ hc hn2 hacc2
    | some e =>
      simp only []
      obtain ⟨hc1, hT⟩ := ihT e hE cache hc
      obtain ⟨hT1, hT2⟩ := hT (embedTarget_isStruct hE)
      have hde : ty.derefStruct = e := embedTarget_deref hE
      have happ : acc ++ ((bindable e).map (fieldInfo.under i) ++ bindableFields rest (i + 1))
          = (acc ++ (bindable e).map (fieldInfo.under i)) ++ bindableFields rest (i + 1) := by
        simp
      rw [happ]
      cases hg : getReflectTypeInfo cache e with
      | mk r c =>
        rw [hg] at hc1 hT1 hT2
        simp only [] at hc1 hT1 hT2
        by_cases hN : (bindableNames e).Nodup
        · have hr := hT1 hN
          subst hr
          simp only [descriptorOf]
          obtain ⟨hA1, hA2⟩ := addEmbedded_spec (.struct m all) i nm g (bindable e) acc hn hacc
            (fun fi hfi => pathOK_under m all i _ e hi hde fi hfi)
          by_cases hN2 : ((acc ++ (bindable e).map (fieldInfo.under i)).map
              (fun fi => fi.name)).Nodup
          · rw [hA1 hN2]
            have hacc2 : ∀ fi, fi ∈ acc ++ (bindable e).map (fieldInfo.under i) →
                PathOK (.struct m all) fi := by
              intro fi hfi
              rcases List.mem_append.mp hfi with h1 | h1
              · exact hacc fi h1
              · obtain ⟨g0, hg0, rfl⟩ := List.mem_map.mp h1
                exact pathOK_under m all i _ e hi hde g0 hg0
            exact ihR c nm g _ hc1 hN2 hacc2
          · obtain ⟨e0, he0, hcol⟩ := hA2 hN2
            have hcol2 := hcol.mono (List.sublist_append_left _ (bindableFields rest (i + 1)))
            rw [he0]
            exact ⟨hc1, fun h => absurd h hcol2.not_nodup, fun _ => ⟨e0, rfl, hcol2⟩⟩
        · obtain ⟨e0, he0, hcol⟩ := hT2 hN
          subst he0
          have hcol1 := collision_under m all i _ e hi hde e0 hcol
          have hcol2 : CollisionIn (.struct m all)
              ((acc ++ (bindable e).map (fieldInfo.under i)) ++ bindableFields rest (i + 1))
              e0 :=
            hcol1.mono ((List.sublist_append_right _ _).trans (List.sublist_append_left _ _))
          exact ⟨hc1, fun h => absurd h hcol2.not_nodup, fun _ => ⟨e0, rfl, hcol2⟩⟩

theorem getReflectTypeInfo_struct (cache : TinfoMap) (m : TypeMeta) (fs : Fields) :
    getReflectTypeInfo cache (.struct m fs)
      = match TinfoMap.get cache (.struct m fs) with
        | some tinfo => (.ok tinfo, cache)
        | none =>
          match getReflectTypeInfo.loop cache (.struct m fs) fs 0 ⟨m.name, [], true⟩ with
          | (.ok tinfo, c) => (.ok tinfo, (.struct m fs, tinfo) :: c)
          | (r, c) => (r, c) := rfl

theorem getReflectTypeInfo_time (cache : TinfoMap) :
    getReflectTypeInfo cache .time
      = match TinfoMap.get cache .time with
        | some tinfo => (.ok tinfo, cache)
        | none => (.ok ⟨"time.Time", [], true⟩, (.time, ⟨"time.Time", [], true⟩) :: cache) := rfl

theorem getReflectTypeInfo_other (cache : TinfoMap) (t : GoType) (h : t.isStruct = false) :
    getReflectTypeInfo cache t
      = match TinfoMap.get cache t with
        | some tinfo => (.ok tinfo, cache)
        | none => (.err (.notStruct t.typeString t.kindString), cache) := by
  cases t <;> first | rfl | (simp [GoType.isStruct] at h)

/-- Storing the descriptor of a struct type without colliding fields keeps the
invariant of the cache. -/
theorem CacheOK_insert (cache : TinfoMap) (t : GoType) (hc : CacheOK cache)
    (hs : t.isStruct = true) (hn : (bindableNames t).Nodup) :
    CacheOK ((t, descriptorOf t) :: cache) := by
  intro t2 ti hget
  simp only [TinfoMap.get] at hget
  split at hget
  · rename_i heq
    cases hget
    exact heq ▸ ⟨hs, hn, rfl⟩
  · exact hc t2 ti hget

/-- For a type that is no struct `getReflectTypeInfo` leaves the cache as it is. -/
theorem typeSpec_other (t : GoType) (h : t.isStruct = false) (cache : TinfoMap)
    (hc : CacheOK cache) : TypeSpec t cache := by
  unfold TypeSpec
  rw [getReflectTypeInfo_other cache t h]
  refine ⟨?_, fun hs => absurd hs (by simp [h])⟩
  cases TinfoMap.get cache t <;> exact hc

/-- For `time.Time` the descriptor has no fields. -/
theorem typeSpec_time (cache : TinfoMap) (hc : CacheOK cache) : TypeSpec .time cache := by
  have hb : bindable .time = [] := by simp [bindable]
  have hd : descriptorOf .time = ⟨"time.Time", [], true⟩ := by
    simp [descriptorOf, hb, GoType.typeString, GoType.meta, timeMeta]
  have hn : (bindableNames .time).Nodup := by simp [bindableNames, hb]
  unfold TypeSpec
  rw [getReflectTypeInfo_time]
  cases hget : TinfoMap.get cache .time with
  | some ti =>
    obtain ⟨_, _, hti⟩ := hc _ _ hget
    exact ⟨hc, fun _ => ⟨fun _ => by simp [hti], fun h => absurd hn h⟩⟩
  | none =>
    refine ⟨?_, fun _ => ⟨fun _ => by simp [hd], fun h => absurd hn h⟩⟩
    have := CacheOK_insert cache .time hc rfl hn
    rwa [hd] at this

/-- For a struct type, from what the loop does over all its fields. -/
theorem typeSpec_struct (m : TypeMeta) (fs : Fields) (cache : TinfoMap) (hc : CacheOK cache)
    (hL : LoopSpec cache (.struct m fs) fs 0 m.name true []) :
    TypeSpec (.struct m fs) cache := by
  have hb : bindable (.struct m fs) = bindableFields fs 0 := by rw [bindable]
  have hd : descriptorOf (.struct m fs) = ⟨m.name, bindableFields fs 0, true⟩ := by
    simp [descriptorOf, hb, GoType.typeString, GoType.meta]
  unfold TypeSpec
  rw [getReflectTypeInfo_struct]
  cases hget : TinfoMap.get cache (.struct m fs) with
  | some ti =>
    obtain ⟨_, hN, hti⟩ := hc _ _ hget
    exact ⟨hc, fun _ => ⟨fun _ => by simp [hti], fun h => absurd hN h⟩⟩
  | none =>
    unfold LoopSpec at hL
    simp only [List.nil_append] at hL
    cases hl : getReflectTypeInfo.loop cache (.struct m fs) fs 0 ⟨m.name, [], true⟩ with
    | mk r c =>
      rw [hl] at hL
      obtain ⟨hc1, hL1, hL2⟩ := hL
      simp only [] at hc1 hL1 hL2
      by_cases hN : (bindableNames (.struct m fs)).Nodup
      · have hN' : ((bindableFields fs 0).map (fun fi => fi.name)).Nodup := by
          simpa [bindableNames, hb] using hN
        have hr := hL1 hN'
        subst hr
        simp only []
        refine ⟨?_, fun _ => ⟨fun _ => by simp [hd], fun h => absurd hN h⟩⟩
        have := CacheOK_insert c (.struct m fs) hc1 rfl hN
        rwa [hd] at this
      · have hN' : ¬ ((bindableFields fs 0).map (fun fi => fi.name)).Nodup := by
          simpa [bindableNames, hb] using hN
        obtain ⟨e, he, hcol⟩ := hL2 hN'
        subst he
        simp only []
        refine ⟨hc1, fun _ => ⟨fun h => absurd h hN, fun _ => ⟨e, rfl, ?_⟩⟩⟩
        unfold NamesCollision
        rwa [hb]

theorem embedTarget_plain (a : Bool) (ty : GoType) (hp : ty.isPtr = false)
    (hs : ty.isStruct = false) : embedTarget a ty = none := by
  cases a
  · exact embedTarget_false ty
  · cases ty
    case ptr => simp [GoType.isPtr] at hp
    case struct => simp [GoType.isStruct] at hs
    case time => simp [GoType.isStruct] at hs
    all_goals rfl

theorem drop_succ_of_cons (all : Fields) (i : Nat) (Name PkgPath : String) (Anonymous : Bool)
    (Tag : String) (ty : GoType) (rest : Fields)
    (hd : all.toList.drop i = (Fields.cons Name PkgPath Anonymous Tag ty rest).toList) :
    all.toList.drop (i + 1) = rest.toList := by
  have := congrArg (fun l => l.drop 1) hd
  simpa [Fields.toList, Nat.add_comm] using this

/-- One round of the loop for a field whose type is neither a struct nor a
pointer: nothing can be embedded. -/
theorem loop_step_plain (Name PkgPath : String) (Anonymous : Bool) (Tag : String) (ty : GoType)
    (rest : Fields) (i : Nat) (m : TypeMeta) (all : Fields)
    (hp : ty.isPtr = false) (hs : ty.isStruct = false)
    (hd : all.toList.drop i = (Fields.cons Name PkgPath Anonymous Tag ty rest).toList)
    (ihR : ∀ cache nm g acc, CacheOK cache → (acc.map (fun fi => fi.name)).Nodup →
      (∀ fi, fi ∈ acc → PathOK (.struct m all) fi) →
      LoopSpec cache (.struct m all) rest (i + 1) nm g acc) :
    ∀ cache nm g acc, CacheOK cache → (acc.map (fun fi => fi.name)).Nodup →
      (∀ fi, fi ∈ acc → PathOK (.struct m all) fi) →
      LoopSpec cache (.struct m all) (.cons Name PkgPath Anonymous Tag ty rest) i nm g acc :=
  loop_step Name PkgPath Anonymous Tag ty rest i m all hd
    (fun e2 he2 => by rw [embedTarget_plain Anonymous ty hp hs] at he2; cases he2) ihR

mutual
/-- What `getReflectTypeInfo` does on a cache with the invariant, for every type. -/
theorem getReflectTypeInfo_spec : ∀ (t : GoType) (cache : TinfoMap), CacheOK cache →
    TypeSpec t cache
  | .struct m fs, cache, hc =>
    typeSpec_struct m fs cache hc
      (loop_spec fs 0 m fs cache m.name true [] (by simp) hc (by simp) (by simp))
  | .time, cache, hc => typeSpec_time cache hc
  | .bool a, cache, hc => typeSpec_other (.bool a) rfl cache hc
  | .int a b, cache, hc => typeSpec_other (.int a b) rfl cache hc
  | .uint a b, cache, hc => typeSpec_other (.uint a b) rfl cache hc
  | .float a b, cache, hc => typeSpec_other (.float a b) rfl cache hc
  | .string a, cache, hc => typeSpec_other (.string a) rfl cache hc
  | .slice a b, cache, hc => typeSpec_other (.slice a b) rfl cache hc
  | .ptr a b, cache, hc => typeSpec_other (.ptr a b) rfl cache hc
  | .other a b, cache, hc => typeSpec_other (.other a b) rfl cache hc
/-- What the loop of `getReflectTypeInfo` does on a cache with the invariant. -/
theorem loop_spec : ∀ (fs : Fields) (i : Nat) (m : TypeMeta) (all : Fields)
    (cache : TinfoMap) (nm : String) (g : Bool) (acc : List fieldInfo),
    all.toList.drop i = fs.toList → CacheOK cache → (acc.map (fun fi => fi.name)).Nodup →
    (∀ fi, fi ∈ acc → PathOK (.struct m all) fi) →
    LoopSpec cache (.struct m all) fs i nm g acc
  | .nil, i, m, all, cache, nm, g, acc, _, hc, hn, _ => by
    have hl : getReflectTypeInfo.loop cache (.struct m all) .nil i ⟨nm, acc, g⟩
        = (.ok ⟨nm, acc, g⟩, cache) := rfl
    have hb : bindableFields .nil i = [] := by rw [bindableFields]
    unfold LoopSpec
    rw [hl, hb, List.append_nil]
    exact ⟨hc, fun _ => rfl, fun h => absurd hn h⟩
  | .cons Name PkgPath Anonymous Tag (.ptr pm e) rest, i, m, all, cache, nm, g, acc,
      hd, hc, hn, hacc =>
    loop_step Name PkgPath Anonymous Tag (.ptr pm e) rest i m all hd
      (fun e2 he2 cache2 hc2 => by
        have h1 := embedTarget_deref he2
        have h2 := embedTarget_isStruct he2
        have h3 : e = e2 := by
          by_cases hs : e.isStruct = true
          · simpa [GoType.derefStruct, hs] using h1
          · simp [GoType.derefStruct, hs] at h1
            rw [← h1] at h2
            simp [GoType.isStruct] at h2
        exact h3 ▸ getReflectTypeInfo_spec e cache2 hc2)
      (fun cache2 nm2 g2 acc2 hc2 hn2 hacc2 =>
        loop_spec rest (i + 1) m all cache2 nm2 g2 acc2
          (drop_succ_of_cons all i _ _ _ _ _ rest hd) hc2 hn2 hacc2)
      cache nm g acc hc hn hacc
  | .cons Name PkgPath Anonymous Tag (.struct sm sfs) rest, i, m, all, cache, nm, g, acc,
      hd, hc, hn, hacc =>
    loop_step Name PkgPath Anonymous Tag (.struct sm sfs) rest i m all hd
      (fun e2 he2 cache2 hc2 => by
        have h1 := embedTarget_deref he2
        have h3 : GoType.struct sm sfs = e2 := by simpa [GoType.derefStruct] using h1
        exact h3 ▸ getReflectTypeInfo_spec (.struct sm sfs) cache2 hc2)
      (fun cache2 nm2 g2 acc2 hc2 hn2 hacc2 =>
        loop_spec rest (i + 1) m all cache2 nm2 g2 acc2
          (drop_succ_of_cons all i _ _ _ _ _ rest hd) hc2 hn2 hacc2)
      cache nm g acc hc hn hacc
  | .cons Name PkgPath Anonymous Tag .time rest, i, m, all, cache, nm, g, acc,
      hd, hc, hn, hacc =>
    loop_step Name PkgPath Anonymous Tag .time rest i m all hd
      (fun e2 he2 cache2 hc2 => by
        have h1 := embedTarget_deref he2
        have h3 : GoType.time = e2 := by simpa [GoType.derefStruct] using h1
        exact h3 ▸ typeSpec_time cache2 hc2)
      (fun cache2 nm2 g2 acc2 hc2 hn2 hacc2 =>
        loop_spec rest (i + 1) m all cache2 nm2 g2 acc2
          (drop_succ_of_cons all i _ _ _ _ _ rest hd) hc2 hn2 hacc2)
      cache nm g acc hc hn hacc
  | .cons Name PkgPath Anonymous Tag (.bool a) rest, i, m, all, cache, nm, g, acc,
      hd, hc, hn, hacc =>
    loop_step_plain Name PkgPath Anonymous Tag (.bool a) rest i m all rfl rfl hd
      (fun cache2 nm2 g2 acc2 hc2 hn2 hacc2 =>
        loop_spec rest (i + 1) m all cache2 nm2 g2 acc2
          (drop_succ_of_cons all i _ _ _ _ _ rest hd) hc2 hn2 hacc2)
      cache nm g acc hc hn hacc
  | .cons Name PkgPath Anonymous Tag (.int a b) rest, i, m, all, cache, nm, g, acc,
      hd, hc, hn, hacc =>
    loop_step_plain Name PkgPath Anonymous Tag (.int a b) rest i m all rfl rfl hd
      (fun cache2 nm2 g2 acc2 hc2 hn2 hacc2 =>
        loop_spec rest (i + 1) m all cache2 nm2 g2 acc2
          (drop_succ_of_cons all i _ _ _ _ _ rest hd) hc2 hn2 hacc2)
      cache nm g acc hc hn hacc
  | .cons Name PkgPath Anonymous Tag (.uint a b) rest, i, m, all, cache, nm, g, acc,
      hd, hc, hn, hacc =>
    loop_step_plain Name PkgPath Anonymous Tag (.uint a b) rest i m all rfl rfl hd
      (fun cache2 nm2 g2 acc2 hc2 hn2 hacc2 =>
        loop_spec rest (i + 1) m all cache2 nm2 g2 acc2
          (drop_succ_of_cons all i _ _ _ _ _ rest hd) hc2 hn2 hacc2)
      cache nm g acc hc hn hacc
  | .cons Name PkgPath Anonymous Tag (.float a b) rest, i, m, all, cache, nm, g, acc,
      hd, hc, hn, hacc =>
    loop_step_plain Name PkgPath Anonymous Tag (.float a b) rest i m all rfl rfl hd
      (fun cache2 nm2 g2 acc2 hc2 hn2 hacc2 =>
        loop_spec rest (i + 1) m all cache2 nm2 g2 acc2
          (drop_succ_of_cons all i _ _ _ _ _ rest hd) hc2 hn2 hacc2)
      cache nm g acc hc hn hacc
  | .cons Name PkgPath Anonymous Tag (.string a) rest, i, m, all, cache, nm, g, acc,
      hd, hc, hn, hacc =>
    loop_step_plain Name PkgPath Anonymous Tag (.string a) rest i m all rfl rfl hd
      (fun cache2 nm2 g2 acc2 hc2 hn2 hacc2 =>
        loop_spec rest (i + 1) m all cache2 nm2 g2 acc2
          (drop_succ_of_cons all i _ _ _ _ _ rest hd) hc2 hn2 hacc2)
      cache nm g acc hc hn hacc
  | .cons Name PkgPath Anonymous Tag (.slice a b) rest, i, m, all, cache, nm, g, acc,
      hd, hc, hn, hacc =>
    loop_step_plain Name PkgPath Anonymous Tag (.slice a b) rest i m all rfl rfl hd
      (fun cache2 nm2 g2 acc2 hc2 hn2 hacc2 =>
        loop_spec rest (i + 1) m all cache2 nm2 g2 acc2
          (drop_succ_of_cons all i _ _ _ _ _ rest hd) hc2 hn2 hacc2)
      cache nm g acc hc hn hacc
  | .cons Name PkgPath Anonymous Tag (.other a b) rest, i, m, all, cache, nm, g, acc,
      hd, hc, hn, hacc =>
    loop_step_plain Name PkgPath Anonymous Tag (.other a b) rest i m all rfl rfl hd
      (fun cache2 nm2 g2 acc2 hc2 hn2 hacc2 =>
        loop_spec rest (i + 1) m all cache2 nm2 g2 acc2
          (drop_succ_of_cons all i _ _ _ _ _ rest hd) hc2 hn2 hacc2)
      cache nm g acc hc hn hacc
end

/-- The empty cache of a fresh process has the invariant. -/
theorem CacheOK_nil : CacheOK [] := by
  intro t ti h
  simp [TinfoMap.get] at h

/-- The wire names a field contributes do not depend on its index. -/
theorem bindableField_names (i : Nat) (Name PkgPath : String) (Anonymous : Bool) (Tag : String)
    (ty : GoType) :
    (bindableField i Name PkgPath Anonymous Tag ty).map (fun fi => fi.name)
      = (bindableField 0 Name PkgPath Anonymous Tag ty).map (fun fi => fi.name) := by
  rw [bindableField_eq, bindableField_eq]
  split
  · rfl
  · cases embedTarget Anonymous ty with
    | none => rfl
    | some e => simp [fieldInfo.under, Function.comp_def]

/-- The wire names of the bindable fields of a list of fields: those of each
field, in order. -/
theorem bindableFields_names : ∀ (l : List StructField) (i : Nat),
    (bindableFields (Fields.ofList l) i).map (fun fi => fi.name)
      = l.flatMap (fun f =>
          (bindableField 0 f.Name f.PkgPath f.Anonymous f.Tag f.Typ).map (fun fi => fi.name)) := by
  intro l
  induction l with
  | nil => intro i; simp [Fields.ofList, bindableFields]
  | cons f fs ih =>
    intro i
    simp only [Fields.ofList, bindableFields_cons, List.map_append, List.flatMap_cons]
    rw [bindableField_names, ih (i + 1)]

/-- Declaring the same fields in another order permutes the wire names. -/
theorem bindableNames_perm (m1 m2 : TypeMeta) (l1 l2 : List StructField) (h : l1.Perm l2) :
    (bindableNames (.struct m1 (Fields.ofList l1))).Perm
      (bindableNames (.struct m2 (Fields.ofList l2))) := by
  have h1 : ∀ (m : TypeMeta) (l : List StructField),
      bindableNames (.struct m (Fields.ofList l))
        = (bindableFields (Fields.ofList l) 0).map (fun fi => fi.name) := by
    intro m l
    simp [bindableNames, bindable]
  rw [h1, h1, bindableFields_names, bindableFields_names]
  exact h.flatMap_right _

/-- On a cache with the invariant, resolving a struct type fails exactly when two
of its bindable fields have one wire name. -/
theorem getReflectTypeInfo_err_iff (cache : TinfoMap) (hc : CacheOK cache) (t : GoType)
    (hs : t.isStruct = true) :
    (∃ e, (getReflectTypeInfo cache t).1 = .err e) ↔ ¬ (bindableNames t).Nodup := by
  obtain ⟨_, h⟩ := getReflectTypeInfo_spec t cache hc
  obtain ⟨h1, h2⟩ := h hs
  constructor
  · rintro ⟨e, he⟩ hn
    rw [h1 hn] at he
    cases he
  · intro hn
    obtain ⟨e, he, _⟩ := h2 hn
    exact ⟨e, he⟩

/-- Conflicts of record shapes that do not embed themselves (the shapes that are
a `GoType`): on a descriptor cache with its invariant (the empty cache has it),
resolving such a record shape `t` with `getReflectTypeInfo` fails if and only if
two of its bindable fields (own fields plus the flattened fields of embedded
records, excluded fields left out) have the same wire name; every such failure
is a conflict error that carries the names and tags of two bindable fields of
that wire name; and whether resolution fails does not change when the fields
are declared in another order. -/
theorem conflict_iff_same_wire_name (cache : TinfoMap) (hc : CacheOK cache) (t : GoType)
    (hs : t.isStruct = true) :
    ((∃ e, (getReflectTypeInfo cache t).1 = .err e) ↔
      ∃ fi1 fi2, [fi1, fi2].Sublist (bindable t) ∧ fi1.name = fi2.name) ∧
    (∀ e, (getReflectTypeInfo cache t).1 = .err e → NamesCollision t e) ∧
    (∀ (m1 m2 : TypeMeta) (l1 l2 : List StructField), t = .struct m1 (Fields.ofList l1) →
      l1.Perm l2 →
      ((∃ e, (getReflectTypeInfo cache t).1 = .err e) ↔
        ∃ e, (getReflectTypeInfo cache (.struct m2 (Fields.ofList l2))).1 = .err e)) := by
  obtain ⟨_, h⟩ := getReflectTypeInfo_spec t cache hc
  obtain ⟨h1, h2⟩ := h hs
  have hcol : ∀ e, (getReflectTypeInfo cache t).1 = .err e → NamesCollision t e := by
    intro e he
    by_cases hn : (bindableNames t).Nodup
    · rw [h1 hn] at he
      cases he
    · obtain ⟨e2, he2, hc2⟩ := h2 hn
      rw [he2] at he
      cases he
      exact hc2
  refine ⟨⟨?_, ?_⟩, hcol, ?_⟩
  · rintro ⟨e, he⟩
    obtain ⟨fi1, fi2, _, _, _, hsub, hname, _⟩ := hcol e he
    exact ⟨fi1, fi2, hsub, hname⟩
  · rintro ⟨fi1, fi2, hsub, hname⟩
    apply (getReflectTypeInfo_err_iff cache hc t hs).mpr
    intro hn
    have h3 := (hsub.map (fun fi => fi.name)).nodup (by simpa [bindableNames] using hn)
    simp at h3
    exact h3 hname
  · intro m1 m2 l1 l2 ht hp
    rw [getReflectTypeInfo_err_iff cache hc t hs,
      getReflectTypeInfo_err_iff cache hc (.struct m2 (Fields.ofList l2)) rfl, ht]
    exact not_congr (bindableNames_perm m1 m2 l1 l2 hp).nodup_iff

/-- The record `struct { A uint64 "json:x"; B uint64 "json:x" }` resolved on the
empty cache: its two bindable fields have the wire name `x`, and the error names
the fields `A` and `B`. -/
theorem conflict_iff_same_wire_name_example :
    CacheOK [] ∧ conflictRecord.isStruct = true ∧
    ((∃ e, (getReflectTypeInfo [] conflictRecord).1 = .err e) ↔
      ∃ fi1 fi2, [fi1, fi2].Sublist (bindable conflictRecord) ∧ fi1.name = fi2.name) ∧
    (getReflectTypeInfo [] conflictRecord).1 = .err (.conflict "main.Dup" "A" "x" "B" "x") ∧
    bindable conflictRecord = [⟨[0], "x", ""⟩, ⟨[1], "x", ""⟩] :=
  ⟨CacheOK_nil, rfl, (conflict_iff_same_wire_name [] CacheOK_nil conflictRecord rfl).1,
    rfl, rfl⟩

/-! ### Record shapes that embed themselves -/

/-- On shapes that do not embed themselves the resolution over declared struct
types returns what the resolution over `GoType` returns: the conflict error for
`conflictRecord`, and for `recordEmbedsX` the descriptor with the entries `n`
and `x`, the descriptor of the embedded record stored first. -/
theorem decls_resolve_examples :
    conflictDecls.getReflectTypeInfo 1 [] (.struct "main.Dup")
      = some (.err (.conflict "main.Dup" "A" "x" "B" "x"), []) ∧
    (getReflectTypeInfo [] conflictRecord).1 = .err (.conflict "main.Dup" "A" "x" "B" "x") ∧
    embedsDecls.getReflectTypeInfo 2 [] (.struct "main.P")
      = some (.ok ⟨"main.P", [⟨[0], "n", ""⟩, ⟨[1, 0], "x", ""⟩], true⟩,
          [(.struct "main.P", ⟨"main.P", [⟨[0], "n", ""⟩, ⟨[1, 0], "x", ""⟩], true⟩),
            (.struct "main.A", ⟨"main.A", [⟨[0], "x", ""⟩], true⟩)]) ∧
    (getReflectTypeInfo [] recordEmbedsX).1
      = .ok ⟨"main.P", [⟨[0], "n", ""⟩, ⟨[1, 0], "x", ""⟩], true⟩ ∧
    embedsDecls.getReflectTypeInfo 1 [] (.struct "main.P") = none :=
  ⟨rfl, rfl, rfl, rfl, rfl⟩

/-- C5 (code at the failing input): the record shape `type T struct { *T; X uint64 }`
embeds a pointer to itself. Its field `X` at the path `[1]` and the field `X` of
the embedded record at the path `[0, 1]` are two bindable fields with the same
wire name `X`, so that the resolution is to fail with a conflict error. But
`getReflectTypeInfo(T)`, on the empty cache, calls itself for the embedded
field before it stores anything, with the same type and the same cache: for no
bound on the depth of the nested calls does it return. -/
theorem C5_self_embedding_never_returns (fuel : Nat) :
    selfEmbedding.FieldByIndex (.struct "main.T") [1]
      = some ⟨"X", "", false, "", .scalar "uint64" "uint64"⟩ ∧
    selfEmbedding.FieldByIndex (.struct "main.T") [0, 1]
      = some ⟨"X", "", false, "", .scalar "uint64" "uint64"⟩ ∧
    (structFieldInfo 1 "X" "").name = "X" ∧
    selfEmbedding.getReflectTypeInfo fuel [] (.struct "main.T") = none := by
  refine ⟨rfl, rfl, rfl, ?_⟩
  induction fuel with
  | zero => rfl
  | succ fuel ih =>
    show (match Decls.loop selfEmbedding (Decls.getReflectTypeInfo selfEmbedding fuel)
        (.struct "main.T") [⟨"T", "", true, "", .ptr "main.T"⟩,
          ⟨"X", "", false, "", .scalar "uint64" "uint64"⟩] 0 [] ⟨"main.T", [], true⟩ with
      | some (.ok tinfo, c) => some (.ok tinfo, (TypeRef.struct "main.T", tinfo) :: c)
      | r => r) = none
    have hl : Decls.loop selfEmbedding (Decls.getReflectTypeInfo selfEmbedding fuel)
        (.struct "main.T") [⟨"T", "", true, "", .ptr "main.T"⟩,
          ⟨"X", "", false, "", .scalar "uint64" "uint64"⟩] 0 [] ⟨"main.T", [], true⟩
        = (match Decls.getReflectTypeInfo selfEmbedding fuel [] (.struct "main.T") with
          | none => none
          | some (.ok inner, c) =>
            match selfEmbedding.addEmbedded (.struct "main.T") 0 inner.fields
                ⟨"main.T", [], true⟩ with
            | .ok tinfo1 =>
              Decls.loop selfEmbedding (Decls.getReflectTypeInfo selfEmbedding fuel)
                (.struct "main.T") [⟨"X", "", false, "", .scalar "uint64" "uint64"⟩] 1 c tinfo1
            | .err e => some (.err e, c)
            | .panic p => some (.panic p, c)
          | some (.err e, c) => some (.err e, c)
          | some (.panic p, c) => some (.panic p, c)) := rfl
    rw [hl, ih]

/-- The loop over the fields of a declared struct type returns what it returns
with a recursive call that returns less often. -/
theorem Decls.loop_mono (d : Decls)
    (call1 call2 : DeclCache → TypeRef → Option (Res typeInfo × DeclCache))
    (hcall : ∀ c t r, call1 c t = some r → call2 c t = some r) (typ : TypeRef) :
    ∀ (fs : List DeclField) (i : Nat) (cache : DeclCache) (tinfo : typeInfo)
      (r : Res typeInfo × DeclCache),
      Decls.loop d call1 typ fs i cache tinfo = some r →
      Decls.loop d call2 typ fs i cache tinfo = some r := by
  intro fs
  induction fs with
  | nil => intro i cache tinfo r h; exact h
  | cons f rest ih =>
    intro i cache tinfo r h
    unfold Decls.loop at h ⊢
    by_cases hx : (f.PkgPath ≠ "" ∧ f.Anonymous = false) ∨ f.Tag = "-"
    · rw [if_pos hx] at h ⊢
      exact ih _ _ _ _ h
    · rw [if_neg hx] at h ⊢
      simp only [] at h ⊢
      have hown : ∀ r, (match d.addFieldInfo typ tinfo (structFieldInfo i f.Name f.Tag) with
            | .ok tinfo1 => Decls.loop d call1 typ rest (i + 1) cache tinfo1
            | .err e => some (.err e, cache)
            | .panic p => some (.panic p, cache)) = some r →
          (match d.addFieldInfo typ tinfo (structFieldInfo i f.Name f.Tag) with
            | .ok tinfo1 => Decls.loop d call2 typ rest (i + 1) cache tinfo1
            | .err e => some (.err e, cache)
            | .panic p => some (.panic p, cache)) = some r := by
        intro r h
        cases ha : d.addFieldInfo typ tinfo (structFieldInfo i f.Name f.Tag) with
        | ok tinfo1 =>
          rw [ha] at h
          exact ih _ _ _ _ h
        | err e => rw [ha] at h; exact h
        | panic p => rw [ha] at h; exact h
      by_cases ha : f.Anonymous = true
      · rw [if_pos ha] at h ⊢
        cases hn : f.Typ.structName with
        | none =>
          rw [hn] at h
          exact hown r h
        | some n =>
          rw [hn] at h
          simp only [] at h ⊢
          cases hc1 : call1 cache (.struct n) with
          | none => rw [hc1] at h; cases h
          | some r1 =>
            rw [hc1] at h
            rw [hcall _ _ _ hc1]
            obtain ⟨res, c⟩ := r1
            cases res with
            | ok inner =>
              simp only [] at h ⊢
              cases hadd : d.addEmbedded typ i inner.fields tinfo with
              | ok tinfo1 =>
                rw [hadd] at h
                exact ih _ _ _ _ h
              | err e => rw [hadd] at h; exact h
              | panic p => rw [hadd] at h; exact h
            | err e => exact h
            | panic p => exact h
      · rw [if_neg ha] at h ⊢
        exact hown r h

theorem Decls.getReflectTypeInfo_succ (d : Decls) (fuel : Nat) (cache : DeclCache)
    (typ : TypeRef) :
    d.getReflectTypeInfo (fuel + 1) cache typ
      = match cache.lookup typ with
        | some tinfo => some (.ok tinfo, cache)
        | none =>
          match typ with
          | .struct n =>
            match d.lookup n with
            | some fs =>
              match Decls.loop d (Decls.getReflectTypeInfo d fuel) typ fs 0 cache
                  ⟨n, [], true⟩ with
              | some (.ok tinfo, c) => some (.ok tinfo, (typ, tinfo) :: c)
              | r => r
            | none => some (.panic .reflectCall, cache)
          | t => some (.err (.notStruct t.typeString t.kindString), cache) := rfl

/-- A call of `getReflectTypeInfo` on declared struct types that returns within
a bound on the depth of the nested calls returns the same within every larger
bound. -/
theorem Decls.getReflectTypeInfo_mono (d : Decls) : ∀ (fuel : Nat) (cache : DeclCache)
    (typ : TypeRef) (r : Res typeInfo × DeclCache),
    d.getReflectTypeInfo fuel cache typ = some r →
    d.getReflectTypeInfo (fuel + 1) cache typ = some r := by
  intro fuel
  induction fuel with
  | zero => intro cache typ r h; cases h
  | succ fuel ih =>
    intro cache typ r h
    rw [Decls.getReflectTypeInfo_succ] at h ⊢
    cases hl : cache.lookup typ with
    | some tinfo => rw [hl] at h; exact h
    | none =>
      rw [hl] at h
      simp only [] at h ⊢
      cases typ with
      | struct n =>
        simp only [] at h ⊢
        cases hd : d.lookup n with
        | none => rw [hd] at h; exact h
        | some fs =>
          rw [hd] at h
          simp only [] at h ⊢
          cases hloop : Decls.loop d (Decls.getReflectTypeInfo d fuel) (.struct n) fs 0 cache
              ⟨n, [], true⟩ with
          | none => rw [hloop] at h; cases h
          | some r1 =>
            rw [hloop] at h
            rw [Decls.loop_mono d _ _ (fun c t r hr => ih c t r hr) _ _ _ _ _ _ hloop]
            exact h
      | ptr n => exact h
      | scalar n k => exact h

/-! ### The frame of `decodeAt` -/

theorem diverge_nil_right (p : List Nat) : diverge p [] = false := by
  cases p <;> rfl

theorem diverge_nil_left (q : List Nat) : diverge [] q = false := rfl

theorem diverge_cons (a b : Nat) (p q : List Nat) :
    diverge (a :: p) (b :: q) = if a = b then diverge p q else true := rfl

theorem diverge_symm : ∀ (p q : List Nat), diverge p q = diverge q p := by
  intro p
  induction p with
  | nil => intro q; rw [diverge_nil_left, diverge_nil_right]
  | cons a p ih =>
    intro q
    cases q with
    | nil => rfl
    | cons b q =>
      rw [diverge_cons, diverge_cons, ih q]
      by_cases h : a = b
      · simp [h]
      · have h2 : ¬ b = a := fun e => h e.symm
        simp [h, h2]

theorem Value.read_cons (x : Nat) (xs : List Nat) (first : Bool) (t : GoType) (v : Value) :
    Value.read (x :: xs) first t v
      = if first then Value.read.field (fun t1 v1 => Value.read xs false t1 v1) x t v
        else
          match t with
          | .ptr _ e =>
            if e.isStruct then
              match v with
              | .ptr none =>
                Value.read.field (fun t1 v1 => Value.read xs false t1 v1) x e (zeroValue e)
              | .ptr (some pv) =>
                Value.read.field (fun t1 v1 => Value.read xs false t1 v1) x e pv
              | _ => none
            else Value.read.field (fun t1 v1 => Value.read xs false t1 v1) x t v
          | _ => Value.read.field (fun t1 v1 => Value.read xs false t1 v1) x t v := by
  cases t <;> rfl

/-- The step `v.Field(x)` followed by `next` keeps what is read from a field
other than `x`, and from field `x` when `next` keeps what is read there. -/
theorem field_read_frame (next : GoType → Flag → Value → Res Unit × Value)
    (rnext : GoType → Value → Option Value) (x a : Nat) (t : GoType) (fl : Flag) (v : Value)
    (hnext : a = x → ∀ ty fl1 fv, rnext ty (next ty fl1 fv).2 = rnext ty fv) :
    Value.read.field rnext a t (fieldInfo.value.field next x t fl v).2
      = Value.read.field rnext a t v := by
  unfold fieldInfo.value.field
  cases hf : t.Field x with
  | none => rfl
  | some f =>
    cases v with
    | struct vs =>
      simp only []
      cases hx : vs[x]? with
      | none => rfl
      | some fv =>
        simp only []
        unfold Value.read.field
        cases hfa : t.Field a with
        | none => rfl
        | some fa =>
          simp only []
          by_cases hax : a = x
          · subst hax
            have hlt : a < vs.length := by
              by_contra hn
              rw [List.getElem?_eq_none (by omega)] at hx
              cases hx
            rw [hf] at hfa
            cases hfa
            rw [List.getElem?_set_self hlt, hx]
            exact hnext rfl _ _ _
          · rw [List.getElem?_set_ne (fun e => hax e.symm)]
    | bool _ => rfl
    | int _ => rfl
    | uint _ => rfl
    | float _ => rfl
    | string _ => rfl
    | bytes _ => rfl
    | time _ _ => rfl
    | ptr _ => rfl
    | other _ => rfl

theorem fieldInfo.value_cons (k : GoType → Flag → Value → Res Unit × Value) (x : Nat)
    (xs : List Nat) (first : Bool) (t : GoType) (fl : Flag) (v : Value) :
    fieldInfo.value k (x :: xs) first t fl v
      = if first then
          fieldInfo.value.field (fun t1 fl1 v1 => fieldInfo.value k xs false t1 fl1 v1) x t fl v
        else
          match t with
          | .ptr _ e =>
            if e.isStruct then
              match v with
              | .ptr none =>
                if fl.CanSet then
                  ((fieldInfo.value.field (fun t1 fl1 v1 => fieldInfo.value k xs false t1 fl1 v1)
                      x e fl.elem (zeroValue e)).1,
                    Value.ptr (some (fieldInfo.value.field
                      (fun t1 fl1 v1 => fieldInfo.value k xs false t1 fl1 v1)
                      x e fl.elem (zeroValue e)).2))
                else (.panic .reflectSet, v)
              | .ptr (some pv) =>
                ((fieldInfo.value.field (fun t1 fl1 v1 => fieldInfo.value k xs false t1 fl1 v1)
                    x e fl.elem pv).1,
                  Value.ptr (some (fieldInfo.value.field
                    (fun t1 fl1 v1 => fieldInfo.value k xs false t1 fl1 v1) x e fl.elem pv).2))
              | _ => (.panic .reflectCall, v)
            else
              fieldInfo.value.field (fun t1 fl1 v1 => fieldInfo.value k xs false t1 fl1 v1)
                x t fl v
          | _ =>
            fieldInfo.value.field (fun t1 fl1 v1 => fieldInfo.value k xs false t1 fl1 v1)
              x t fl v := by
  cases t <;> rfl

/-- Walking to the field at `idx` and running `k` there keeps what is read at
every path that parts ways with `idx`. -/
theorem value_frame (k : GoType → Flag → Value → Res Unit × Value) :
    ∀ (idx : List Nat) (first : Bool) (t : GoType) (fl : Flag) (v : Value) (p : List Nat),
      diverge p idx = true →
        Value.read p first t (fieldInfo.value k idx first t fl v).2 = Value.read p first t v := by
  intro idx
  induction idx with
  | nil =>
    intro first t fl v p hd
    rw [diverge_nil_right] at hd
    cases hd
  | cons x xs ih =>
    intro first t fl v p hd
    cases p with
    | nil => rw [diverge_nil_left] at hd; cases hd
    | cons a p =>
      rw [diverge_cons] at hd
      have hstep : ∀ t1 fl1 v1,
          Value.read.field (fun t2 v2 => Value.read p false t2 v2) a t1
            (fieldInfo.value.field
              (fun t1 fl1 v1 => fieldInfo.value k xs false t1 fl1 v1) x t1 fl1 v1).2
          = Value.read.field (fun t2 v2 => Value.read p false t2 v2) a t1 v1 := by
        intro t1 fl1 v1
        apply field_read_frame
        intro hax ty fl2 fv
        rw [if_pos hax] at hd
        exact ih false ty fl2 fv p hd
      rw [fieldInfo.value_cons, Value.read_cons, Value.read_cons]
      cases first with
      | true => exact hstep t fl v
      | false =>
        simp only [Bool.false_eq_true, if_false]
        cases t with
        | ptr m e =>
          simp only []
          by_cases hs : e.isStruct = true
          · simp only [if_pos hs]
            cases v with
            | ptr target =>
              cases target with
              | none =>
                simp only []
                by_cases hcs : fl.CanSet = true
                · rw [if_pos hcs]
                  exact hstep e fl.elem (zeroValue e)
                · rw [if_neg hcs]
              | some pv =>
                simp only []
                exact hstep e fl.elem pv
            | struct vs => rfl
            | bool _ => rfl
            | int _ => rfl
            | uint _ => rfl
            | float _ => rfl
            | string _ => rfl
            | bytes _ => rfl
            | time _ _ => rfl
            | other _ => rfl
          · simp only [if_neg hs]
            exact hstep _ fl v
        | bool _ => exact hstep _ fl v
        | int _ _ => exact hstep _ fl v
        | uint _ _ => exact hstep _ fl v
        | float _ _ => exact hstep _ fl v
        | string _ => exact hstep _ fl v
        | slice _ _ => exact hstep _ fl v
        | struct _ _ => exact hstep _ fl v
        | time => exact hstep _ fl v
        | other _ _ => exact hstep _ fl v

/-- A name that is no column code is looked up in the map as it was before the
loop that builds the column map. -/
theorem buildColmap_lookup_not_mem (name : String) : ∀ (cols : List Datafield) (i : Nat)
    (m : List (String × Nat)), name ∉ cols.map (fun c => c.Code) →
    (buildColmap cols i m).lookup name = m.lookup name := by
  intro cols
  induction cols with
  | nil => intro i m _; rfl
  | cons v rest ih =>
    intro i m h
    have h1 : name ≠ v.Code := fun e => h (by simp [e])
    have h2 : name ∉ rest.map (fun c => c.Code) := fun hm => h (by simp at hm ⊢; exact Or.inr hm)
    have hb : (name == v.Code) = false := by simpa using h1
    rw [buildColmap, ih (i + 1) _ h2]
    simp [List.lookup, hb]

theorem Fields.ofList_toList : ∀ fs : Fields, Fields.ofList fs.toList = fs
  | .nil => rfl
  | .cons n p a t ty rest => by
    simp [Fields.toList, Fields.ofList, Fields.ofList_toList rest]

mutual
/-- A property that holds for a type whenever it holds for the structs its
fields embed holds for the type and for what it points to. -/
theorem embed_induction_type {motive : GoType → Prop}
    (step : ∀ t, (∀ m fs f e, t = .struct m fs → f ∈ fs.toList →
      embedTarget f.Anonymous f.Typ = some e → motive e) → motive t) :
    ∀ t : GoType, motive t ∧ (∀ pm e0, t = .ptr pm e0 → motive e0)
  | .struct m fs =>
    ⟨step _ (fun m2 fs2 f e heq hf he => by
        cases heq
        exact embed_induction_fields step fs f hf e he),
      fun pm e0 h => by cases h⟩
  | .ptr pm e0 =>
    ⟨step _ (fun m2 fs2 f e heq => by cases heq),
      fun pm2 e2 h => by
        cases h
        exact (embed_induction_type step e0).1⟩
  | .bool a => ⟨step _ (fun m2 fs2 f e heq => by cases heq), fun pm e0 h => by cases h⟩
  | .int a b => ⟨step _ (fun m2 fs2 f e heq => by cases heq), fun pm e0 h => by cases h⟩
  | .uint a b => ⟨step _ (fun m2 fs2 f e heq => by cases heq), fun pm e0 h => by cases h⟩
  | .float a b => ⟨step _ (fun m2 fs2 f e heq => by cases heq), fun pm e0 h => by cases h⟩
  | .string a => ⟨step _ (fun m2 fs2 f e heq => by cases heq), fun pm e0 h => by cases h⟩
  | .slice a b => ⟨step _ (fun m2 fs2 f e heq => by cases heq), fun pm e0 h => by cases h⟩
  | .time => ⟨step _ (fun m2 fs2 f e heq => by cases heq), fun pm e0 h => by cases h⟩
  | .other a b => ⟨step _ (fun m2 fs2 f e heq => by cases heq), fun pm e0 h => by cases h⟩
/-- The property holds for every struct embedded by one of the fields. -/
theorem embed_induction_fields {motive : GoType → Prop}
    (step : ∀ t, (∀ m fs f e, t = .struct m fs → f ∈ fs.toList →
      embedTarget f.Anonymous f.Typ = some e → motive e) → motive t) :
    ∀ (fs : Fields) (f : StructField), f ∈ fs.toList →
      ∀ e, embedTarget f.Anonymous f.Typ = some e → motive e
  | .nil, f, hf, e, _ => by simp [Fields.toList] at hf
  | .cons n p a t ty rest, f, hf, e, he => by
    have hA := embed_induction_type step ty
    simp only [Fields.toList, List.mem_cons] at hf
    rcases hf with hf | hf
    · subst hf
      simp only [] at he
      have hd := embedTarget_deref he
      cases ty with
      | ptr pm e0 =>
        by_cases hs : e0.isStruct = true
        · have : e0 = e := by simpa [GoType.derefStruct, hs] using hd
          exact this ▸ hA.2 pm e0 rfl
        · have h2 := embedTarget_isStruct he
          simp [GoType.derefStruct, hs] at hd
          rw [← hd] at h2
          simp [GoType.isStruct] at h2
      | struct sm sfs =>
        have : GoType.struct sm sfs = e := by simpa [GoType.derefStruct] using hd
        exact this ▸ hA.1
      | time =>
        have : GoType.time = e := by simpa [GoType.derefStruct] using hd
        exact this ▸ hA.1
      | bool x1 => rw [embedTarget_plain a (.bool x1) rfl rfl] at he; cases he
      | int x1 x2 => rw [embedTarget_plain a (.int x1 x2) rfl rfl] at he; cases he
      | uint x1 x2 => rw [embedTarget_plain a (.uint x1 x2) rfl rfl] at he; cases he
      | float x1 x2 => rw [embedTarget_plain a (.float x1 x2) rfl rfl] at he; cases he
      | string x1 => rw [embedTarget_plain a (.string x1) rfl rfl] at he; cases he
      | slice x1 x2 => rw [embedTarget_plain a (.slice x1 x2) rfl rfl] at he; cases he
      | other x1 x2 => rw [embedTarget_plain a (.other x1 x2) rfl rfl] at he; cases he
    · exact embed_induction_fields step rest f hf e he
end

/-- Induction over the structs a type embeds: a property that holds for a type
whenever it holds for the struct types its fields embed holds for every type. -/
theorem embed_induction {motive : GoType → Prop}
    (step : ∀ t, (∀ m fs f e, t = .struct m fs → f ∈ fs.toList →
      embedTarget f.Anonymous f.Typ = some e → motive e) → motive t) (t : GoType) : motive t :=
  (embed_induction_type step t).1

/-- The paths of the bindable fields contributed by a list of fields part ways
pairwise and start at an index from `i` on, when those of every embedded struct
part ways pairwise. -/
theorem bindableFields_diverge : ∀ (l : List StructField) (i : Nat),
    (∀ f, f ∈ l → ∀ e, embedTarget f.Anonymous f.Typ = some e →
      (bindable e).Pairwise (fun a b => diverge a.idx b.idx = true)) →
    (bindableFields (Fields.ofList l) i).Pairwise (fun a b => diverge a.idx b.idx = true) ∧
    ∀ fi, fi ∈ bindableFields (Fields.ofList l) i → ∃ j tail, fi.idx = j :: tail ∧ i ≤ j := by
  intro l
  induction l with
  | nil =>
    intro i _
    have : bindableFields (Fields.ofList []) i = [] := by simp [Fields.ofList, bindableFields]
    rw [this]
    exact ⟨List.Pairwise.nil, fun fi h => by simp at h⟩
  | cons f fs ih =>
    intro i h
    obtain ⟨ih1, ih2⟩ := ih (i + 1) (fun g hg => h g (List.mem_cons_of_mem _ hg))
    have hf := h f (List.mem_cons_self _ _)
    have hfield : (bindableField i f.Name f.PkgPath f.Anonymous f.Tag f.Typ).Pairwise
          (fun a b => diverge a.idx b.idx = true) ∧
        ∀ fi, fi ∈ bindableField i f.Name f.PkgPath f.Anonymous f.Tag f.Typ →
          ∃ tail, fi.idx = i :: tail := by
      rw [bindableField_eq]
      split
      · exact ⟨List.Pairwise.nil, fun fi h => by simp at h⟩
      · cases he : embedTarget f.Anonymous f.Typ with
        | none =>
          simp only []
          exact ⟨List.pairwise_singleton _ _, fun fi h => by simp at h; exact ⟨[], by simp [h]⟩⟩
        | some e =>
          simp only []
          refine ⟨?_, ?_⟩
          · rw [List.pairwise_map]
            simpa [fieldInfo.under, diverge_cons] using hf e he
          · intro fi hfi
            obtain ⟨g, _, rfl⟩ := List.mem_map.mp hfi
            exact ⟨g.idx, rfl⟩
    have happ : bindableFields (Fields.ofList (f :: fs)) i
        = bindableField i f.Name f.PkgPath f.Anonymous f.Tag f.Typ
          ++ bindableFields (Fields.ofList fs) (i + 1) := by
      simp [Fields.ofList, bindableFields_cons]
    rw [happ]
    refine ⟨?_, ?_⟩
    · rw [List.pairwise_append]
      refine ⟨hfield.1, ih1, ?_⟩
      intro a ha b hb
      obtain ⟨ta, hta⟩ := hfield.2 a ha
      obtain ⟨j, tb, htb, hj⟩ := ih2 b hb
      rw [hta, htb, diverge_cons]
      have : ¬ i = j := by omega
      simp [this]
    · intro fi hfi
      rcases List.mem_append.mp hfi with h1 | h1
      · obtain ⟨ta, hta⟩ := hfield.2 fi h1
        exact ⟨i, ta, hta, Nat.le_refl _⟩
      · obtain ⟨j, tb, htb, hj⟩ := ih2 fi h1
        exact ⟨j, tb, htb, by omega⟩

/-- The paths of the bindable fields of a type part ways pairwise. -/
theorem bindable_diverge (t : GoType) :
    (bindable t).Pairwise (fun a b => diverge a.idx b.idx = true) := by
  refine embed_induction (motive := fun t =>
    (bindable t).Pairwise (fun a b => diverge a.idx b.idx = true)) ?_ t
  intro t ih
  cases t
  case struct m fs =>
    have h := (bindableFields_diverge fs.toList 0 (fun f hf e he => ih m fs f e rfl hf he)).1
    rw [Fields.ofList_toList] at h
    simpa [bindable] using h
  all_goals simp [bindable]

theorem getTypeInfo_ptr (cache : TinfoMap) (pm : TypeMeta) (t : GoType) (v : Value) :
    getTypeInfo cache (some (.ptr pm t, .ptr (some v))) = getReflectTypeInfo cache t := rfl

theorem decodeAt_ptr (lib : StdLib) (cu : Custom) (df : Dataframe) (pos : Int) (pm : TypeMeta)
    (t : GoType) (v : Value) (tinfo : typeInfo) :
    df.decodeAt lib cu pos (some (.ptr pm t, .ptr (some v))) tinfo
      = if (df.Data.length : Int) ≤ pos then
          (.err (.invalidTableRow pos df.Data.length), some (.ptr pm t, .ptr (some v)))
        else
          ((decodeAt.row lib cu df pos tinfo t ⟨true, false, false⟩ v).1,
            some (.ptr pm t,
              .ptr (some (decodeAt.row lib cu df pos tinfo t ⟨true, false, false⟩ v).2))) := rfl

/-- When the Dataframe fits the shape of the destination and the shape
resolves, `DecodeAt` is `decodeAt` on the Dataframe with the descriptor and the
column map stored. -/
theorem DecodeAt_ptr_ok (lib : StdLib) (cu : Custom) (cache : TinfoMap) (df : Dataframe)
    (row : Int) (pm : TypeMeta) (t : GoType) (v : Value) (hfit : df.FitsShape t)
    (hok : df.tinfo = none → (getReflectTypeInfo cache t).1 = .ok (descriptorOf t)) :
    (df.DecodeAt lib cu cache row (some (.ptr pm t, .ptr (some v)))).res
      = ((df.withShape t).decodeAt lib cu row (some (.ptr pm t, .ptr (some v)))
          (descriptorOf t)).1 ∧
    (df.DecodeAt lib cu cache row (some (.ptr pm t, .ptr (some v)))).val
      = ((df.withShape t).decodeAt lib cu row (some (.ptr pm t, .ptr (some v)))
          (descriptorOf t)).2 ∧
    (df.DecodeAt lib cu cache row (some (.ptr pm t, .ptr (some v)))).frame = df.withShape t := by
  cases hti : df.tinfo with
  | none =>
    have h := hok hti
    unfold Dataframe.DecodeAt
    rw [hti]
    simp only [getTypeInfo_ptr]
    cases hg : getReflectTypeInfo cache t with
    | mk r c =>
      rw [hg] at h
      simp only [] at h
      subst h
      exact ⟨rfl, rfl, rfl⟩
  | some ti =>
    rcases hfit with h | ⟨h1, h2⟩
    · rw [hti] at h; cases h
    · have hdf : df.withShape t = df := by
        cases df
        simp only [Dataframe.withShape] at h1 h2 ⊢
        simp [h1, h2]
      rw [hti] at h1
      cases h1
      unfold Dataframe.DecodeAt
      rw [hti, hdf]
      exact ⟨rfl, rfl, rfl⟩

/-- Within the range where the product `ms * 1000000` fits into an `int64`, the
time made of `ms` milliseconds lies `ms * 1000000` nanoseconds after the epoch. -/
theorem timeOfMillis_exact (ms : Int) (hlo : -9223372036854 ≤ ms) (hhi : ms ≤ 9223372036854) :
    (timeOfMillis ms).epochNanos = some (ms * 1000000) := by
  have hw : wrapInt64 (ms * 1000000) = ms * 1000000 := by
    unfold wrapInt64
    have h := Int.emod_eq_of_lt (a := ms * 1000000 + 2 ^ 63) (b := 2 ^ 64) (by omega) (by omega)
    have h2 : Int.emod (ms * 1000000 + 2 ^ 63) (2 ^ 64) = (ms * 1000000 + 2 ^ 63) % 2 ^ 64 := rfl
    rw [h2, h]
    omega
  simp only [timeOfMillis, Value.epochNanos, hw]
  have h3 := Int.ediv_add_emod' (ms * 1000000) 1000000000
  have h4 : Int.ediv (ms * 1000000) 1000000000 = (ms * 1000000) / 1000000000 := rfl
  have h5 : Int.emod (ms * 1000000) 1000000000 = (ms * 1000000) % 1000000000 := rfl
  rw [h4, h5, h3]

/-- C11 (code at the failing input): the field text `9223372036855` is a base-10
numeral of the int64 value 9223372036855. Decoded as a cell of a datetime column
with `FieldAt`, and bound to a time field with `DecodeAt`, it yields the instant
-9223372037 s + 145448384 ns, which lies 9223372036854551616 ns before the epoch
(in the year 1677) and not 9223372036855 ms after it: the product
`i*1000000` wraps around in `int64`. -/
theorem C11_time_of_millis_wraps (lib : StdLib) (cu : Custom) (h0 t0 : Value) :
    ParseInt (ascii "9223372036855") 64 = .ok 9223372036855 ∧
    Dataframe.FieldAt lib ⟨timeHeightColumns, [ascii "[9223372036855,1]"], none, none⟩ 0 0
      = .ok (.time (-9223372037) 145448384) ∧
    ((heightTimeFrame [ascii "[1,9223372036855]"]).DecodeAt lib cu [] 0
        (heightTimeDest h0 t0)).res = .ok () ∧
    ((heightTimeFrame [ascii "[1,9223372036855]"]).DecodeAt lib cu [] 0
        (heightTimeDest h0 t0)).val
      = heightTimeDest (.uint 1) (.time (-9223372037) 145448384) ∧
    (Value.time (-9223372037) 145448384).epochNanos = some (-9223372036854551616) ∧
    (-9223372036854551616 : Int) ≠ 9223372036855 * 1000000 :=
  ⟨rfl, rfl, rfl, rfl, rfl, by decide⟩

/-- C13: `FieldType.UnmarshalText` succeeds exactly when the lower-case form of
the text is in the vocabulary `string, bytes, date, datetime, boolean (bool),
int64 (int, integer), uint64 (uint, unsigned), float64 (float)`, and then sets
the receiver to the declared type of that entry; for every other text it
returns the error that carries the text and leaves the receiver as it was. The
empty text is rejected. On a text of ASCII bytes the lower-case form is the text
with each of `A`..`Z` replaced by its lower-case letter. -/
theorem C13_unmarshalText_vocabulary (unicodeLower : Bytes → Bytes) (t : FieldType)
    (data : Bytes) :
    FieldType.UnmarshalText unicodeLower t data
      = (match fieldTypeVocabulary.lookup (stringsToLower unicodeLower data) with
        | some typ => (.ok (), typ)
        | none => (.err (.invalidFieldType data), t)) ∧
    FieldType.UnmarshalText unicodeLower t [] = (.err (.invalidFieldType []), t) ∧
    (data.all (fun c => c < 128) = true →
      stringsToLower unicodeLower data = data.map asciiLower) ∧
    fieldTypeVocabulary.map (fun e => e.2)
      = ["string", "bytes", "date", "datetime", "boolean", "boolean", "int64", "int64",
          "int64", "uint64", "uint64", "uint64", "float64", "float64"] := by
  refine ⟨?_, rfl, ?_, rfl⟩
  · unfold FieldType.UnmarshalText ParseFieldType
    generalize stringsToLower unicodeLower data = l
    simp only []
    by_cases h1 : l = ascii "string"
    · subst h1; rfl
    by_cases h2 : l = ascii "bytes"
    · subst h2; rfl
    by_cases h3 : l = ascii "date"
    · subst h3; rfl
    by_cases h4 : l = ascii "datetime"
    · subst h4; rfl
    by_cases h5 : l = ascii "boolean"
    · subst h5; rfl
    by_cases h6 : l = ascii "bool"
    · subst h6; rfl
    by_cases h7 : l = ascii "int64"
    · subst h7; rfl
    by_cases h8 : l = ascii "int"
    · subst h8; rfl
    by_cases h9 : l = ascii "integer"
    · subst h9; rfl
    by_cases h10 : l = ascii "uint64"
    · subst h10; rfl
    by_cases h11 : l = ascii "uint"
    · subst h11; rfl
    by_cases h12 : l = ascii "unsigned"
    · subst h12; rfl
    by_cases h13 : l = ascii "float64"
    · subst h13; rfl
    by_cases h14 : l = ascii "float"
    · subst h14; rfl
    have hl : fieldTypeVocabulary.lookup l = none := by
      have hb : ∀ x : Bytes, l ≠ x → (l == x) = false := fun x hx => by simpa using hx
      simp only [fieldTypeVocabulary, List.lookup, hb _ h1, hb _ h2, hb _ h3, hb _ h4,
        hb _ h5, hb _ h6, hb _ h7, hb _ h8, hb _ h9, hb _ h10, hb _ h11, hb _ h12, hb _ h13,
        hb _ h14]
    rw [hl]
    simp only [h1, h2, h3, h4, h5, h6, h7, h8, h9, h10, h11, h12, h13, h14, or_self, if_false]
    rfl
  · intro h
    unfold stringsToLower
    rw [if_pos h]

/-- C13 (witness): the text `DateTime` is ASCII, its lower-case form is
`datetime`, and `UnmarshalText` sets an undefined receiver to `datetime`. -/
theorem C13_unmarshalText_vocabulary_witness :
    FieldType.UnmarshalText id FieldTypeUndefined (ascii "DateTime")
      = (.ok (), FieldTypeDatetime) ∧
    (ascii "DateTime").all (fun c => c < 128) = true ∧
    stringsToLower id (ascii "DateTime") = ascii "datetime" :=
  ⟨(C13_unmarshalText_vocabulary id FieldTypeUndefined (ascii "DateTime")).1.trans rfl,
    by decide,
    ((C13_unmarshalText_vocabulary id FieldTypeUndefined (ascii "DateTime")).2.2.1
      (by decide)).trans (by decide)⟩

/-- C15 (code at the failing input): with columns `[height, time]` and the row
`[12345,abc]`, binding into a record with a time field aliased `time` fails with
the bare error of `strconv.ParseInt` for the text `abc`, which names no field;
the unsigned field aliased `height` with the text `abc` in row `[abc,1]` fails
with the error of `makeFieldError`, which names `height`, the type of the field
and the parser's cause. -/
theorem C15_time_field_error_is_bare (lib : StdLib) (cu : Custom) (h0 t0 : Value) :
    ((heightTimeFrame [ascii "[12345,abc]"]).DecodeAt lib cu [] 0 (heightTimeDest h0 t0)).res
      = .err (.bare (.num "ParseInt" (ascii "abc") .ErrSyntax)) ∧
    (Err.bare (.num "ParseInt" (ascii "abc") .ErrSyntax)).fieldName = none ∧
    ((heightTimeFrame [ascii "[abc,1]"]).DecodeAt lib cu [] 0 (heightTimeDest h0 t0)).res
      = .err (.fieldError "height" "uint64" (.num "ParseUint" (ascii "abc") .ErrSyntax)) ∧
    (Err.fieldError "height" "uint64" (.num "ParseUint" (ascii "abc") .ErrSyntax)).fieldName
      = some "height" :=
  ⟨rfl, rfl, rfl, rfl⟩

/-- The column map built by `DecodeAt` depends on the codes of the columns only. -/
theorem buildColmap_sameButType : ∀ (cols cols2 : List Datafield),
    List.Forall₂ Datafield.sameButType cols cols2 → ∀ (i : Nat) (m : List (String × Nat)),
      buildColmap cols i m = buildColmap cols2 i m := by
  intro cols cols2 h
  induction h with
  | nil => intro i m; rfl
  | cons hab _ ih =>
    intro i m
    simp only [buildColmap, hab.2]
    exact ih _ _

/-- The loop of `decodeAt` reads the column map of the Dataframe only. -/
theorem decodeAt_loop_congr (lib : StdLib) (cu : Custom) (df df2 : Dataframe)
    (cols : List Bytes) (t : GoType) (fl : Flag) (hm : df.colmap = df2.colmap) :
    ∀ (fields : List fieldInfo) (v : Value),
      decodeAt.loop lib cu df cols t fl fields v = decodeAt.loop lib cu df2 cols t fl fields v := by
  have hci : ∀ name, df.columnIndex name = df2.columnIndex name := by
    intro name
    simp [Dataframe.columnIndex, hm]
  intro fields
  induction fields with
  | nil => intro v; rfl
  | cons fi rest ih =>
    intro v
    simp only [decodeAt.loop, hci]
    split
    · exact ih v
    · split
      · exact ih _
      · rfl

/-- The method `decodeAt` reads the rows and the column map of the Dataframe only. -/
theorem decodeAt_congr (lib : StdLib) (cu : Custom) (df df2 : Dataframe) (pos : Int)
    (val : Dest) (tinfo : typeInfo) (hd : df.Data = df2.Data) (hm : df.colmap = df2.colmap) :
    df.decodeAt lib cu pos val tinfo = df2.decodeAt lib cu pos val tinfo := by
  have hrow : ∀ t fl v, decodeAt.row lib cu df pos tinfo t fl v
      = decodeAt.row lib cu df2 pos tinfo t fl v := by
    intro t fl v
    unfold decodeAt.row
    rw [hd]
    split
    · rfl
    · cases df2.Data[pos.toNat]? with
      | none => rfl
      | some buf =>
        simp only []
        split
        · rfl
        · exact decodeAt_loop_congr lib cu df df2 _ t fl hm _ v
  unfold Dataframe.decodeAt
  simp only [hd, hrow]

/-- C16: for two Dataframes that are identical except for the declared `Type`
of their columns, `DecodeAt` of the same row into the same destination, on the
same descriptor cache, returns the same result, leaves the same destination and
the same cache, and leaves two Dataframes that are again identical except for
the declared types. -/
theorem C16_declared_type_irrelevant (lib : StdLib) (cu : Custom) (cache : TinfoMap)
    (df df2 : Dataframe) (row : Int) (val : Dest) (h : df.sameButTypes df2) :
    (df.DecodeAt lib cu cache row val).res = (df2.DecodeAt lib cu cache row val).res ∧
    (df.DecodeAt lib cu cache row val).val = (df2.DecodeAt lib cu cache row val).val ∧
    (df.DecodeAt lib cu cache row val).cache = (df2.DecodeAt lib cu cache row val).cache ∧
    (df.DecodeAt lib cu cache row val).frame.sameButTypes
      (df2.DecodeAt lib cu cache row val).frame := by
  obtain ⟨hc, hd, ht, hm⟩ := h
  unfold Dataframe.DecodeAt
  rw [← ht]
  cases hti : df.tinfo with
  | some tinfo =>
    simp only []
    rw [decodeAt_congr lib cu df df2 row val tinfo hd hm]
    exact ⟨rfl, rfl, trivial, hc, hd, ht, hm⟩
  | none =>
    simp only []
    cases hg : getTypeInfo cache val with
    | mk r c =>
      cases r with
      | ok tinfo =>
        simp only []
        rw [decodeAt_congr lib cu
          { df with tinfo := some tinfo, colmap := some (buildColmap df.Columns 0 []) }
          { df2 with tinfo := some tinfo, colmap := some (buildColmap df2.Columns 0 []) }
          row val tinfo hd (by simp only [buildColmap_sameButType _ _ hc])]
        refine ⟨rfl, rfl, trivial, hc, hd, rfl, ?_⟩
        simp only [buildColmap_sameButType _ _ hc]
      | err e => exact ⟨rfl, rfl, rfl, hc, hd, ht, hm⟩
      | panic p => exact ⟨rfl, rfl, rfl, hc, hd, ht, hm⟩

/-- C16 (witness): the Dataframe with columns `[height: uint64, time: datetime]`
and the one with both columns declared `string` bind the row
`[12345,1700000000000]` to the same values. -/
theorem C16_declared_type_irrelevant_witness :
    (heightTimeFrame [ascii "[12345,1700000000000]"]).sameButTypes
      ⟨[⟨"Height", "height", FieldTypeString⟩, ⟨"Time", "time", FieldTypeString⟩],
        [ascii "[12345,1700000000000]"], none, none⟩ ∧
    (Dataframe.DecodeAt asciiLib noCustom []
        ⟨[⟨"Height", "height", FieldTypeString⟩, ⟨"Time", "time", FieldTypeString⟩],
          [ascii "[12345,1700000000000]"], none, none⟩ 0
        (heightTimeDest (.uint 0) (.time 0 0))).val
      = heightTimeDest (.uint 12345) (.time 1700000000 0) :=
  ⟨⟨List.Forall₂.cons ⟨rfl, rfl⟩ (List.Forall₂.cons ⟨rfl, rfl⟩ List.Forall₂.nil), rfl, rfl, rfl⟩,
    (C16_declared_type_irrelevant asciiLib noCustom []
      (heightTimeFrame [ascii "[12345,1700000000000]"])
      ⟨[⟨"Height", "height", FieldTypeString⟩, ⟨"Time", "time", FieldTypeString⟩],
        [ascii "[12345,1700000000000]"], none, none⟩ 0 (heightTimeDest (.uint 0) (.time 0 0))
      ⟨List.Forall₂.cons ⟨rfl, rfl⟩ (List.Forall₂.cons ⟨rfl, rfl⟩ List.Forall₂.nil),
        rfl, rfl, rfl⟩).2.1.symm.trans rfl⟩

/-- C18: a call of `columnIndex` leaves the Dataframe as it was (columns, rows,
cached descriptor and column map), and a second call with the same code on the
Dataframe the first call left returns the same index. -/
theorem C18_columnIndex_pure (t : Dataframe) (name : String) :
    (t.columnIndexCall name).2.Columns = t.Columns ∧
    (t.columnIndexCall name).2.Data = t.Data ∧
    (t.columnIndexCall name).2.tinfo = t.tinfo ∧
    (t.columnIndexCall name).2.colmap = t.colmap ∧
    ((t.columnIndexCall name).2.columnIndexCall name).1 = (t.columnIndexCall name).1 :=
  ⟨rfl, rfl, rfl, rfl, rfl⟩

/-- C20 (counterexample): a Dataframe that holds the descriptor of a record with
a field aliased `x` from an earlier call, with the column `x`; `DecodeAt` of row
0 into a pointer to an `uint64`, which is no record, does not return an error:
`getTypeInfo` is not called, and the walk to the field panics in `reflect`. On
the same cache `getTypeInfo` returns the error for that destination. -/
theorem C20_counterexample_descriptor_held :
    frameAfterRecordX.frame.tinfo = some (descriptorOf recordX) ∧
    (uint64Dest 0).shape = some uint64Type ∧ uint64Type.isStruct = false ∧
    (getTypeInfo frameAfterRecordX.cache (uint64Dest 0)).1
      = .err (.notStruct "uint64" "uint64") ∧
    (frameAfterRecordX.frame.DecodeAt asciiLib noCustom frameAfterRecordX.cache 0
        (uint64Dest 0)).res = .panic .reflectCall :=
  ⟨rfl, rfl, rfl, rfl, rfl⟩

/-- C20 (amended): on a descriptor cache with its invariant, for every
destination whose type after dereferencing one pointer is not a struct (the nil
interface included): `getTypeInfo` returns an error, which is the invalid-value
error or the not-a-struct error with the name and kind of that type, and leaves
the cache as it was; and on a Dataframe that holds no descriptor, `DecodeAt`
returns that error, leaves the Dataframe without descriptor and column map (as
it was), leaves the destination as it was and the cache as it was. -/
theorem C20_non_struct_destination (lib : StdLib) (cu : Custom) (cache : TinfoMap)
    (hc : CacheOK cache) (df : Dataframe) (row : Int) (val : Dest)
    (hs : ∀ t, val.shape = some t → t.isStruct = false) (hn : df.tinfo = none) :
    ∃ e, (getTypeInfo cache val).1 = .err e ∧
      (getTypeInfo cache val).2 = cache ∧
      ((∃ name, e = .invalidValue name) ∨
        ∃ t, val.shape = some t ∧ e = .notStruct t.typeString t.kindString) ∧
      (df.DecodeAt lib cu cache row val).res = .err e ∧
      (df.DecodeAt lib cu cache row val).frame = df ∧
      (df.DecodeAt lib cu cache row val).val = val ∧
      (df.DecodeAt lib cu cache row val).cache = cache := by
  have hget : ∀ t, t.isStruct = false →
      getReflectTypeInfo cache t = (.err (.notStruct t.typeString t.kindString), cache) := by
    intro t ht
    rw [getReflectTypeInfo_other cache t ht]
    cases hg : TinfoMap.get cache t with
    | none => rfl
    | some ti =>
      have := (hc t ti hg).1
      rw [ht] at this
      cases this
  have hti : (∃ name, getTypeInfo cache val = (.err (.invalidValue name), cache)) ∨
      ∃ t, val.shape = some t ∧
        getTypeInfo cache val = (.err (.notStruct t.typeString t.kindString), cache) := by
    cases val with
    | none => exact Or.inl ⟨_, rfl⟩
    | some p =>
      obtain ⟨t, v⟩ := p
      cases t with
      | ptr m e =>
        have he : e.isStruct = false := hs e rfl
        cases v with
        | ptr target =>
          cases target with
          | none => exact Or.inl ⟨_, rfl⟩
          | some pv => exact Or.inr ⟨e, rfl, hget e he⟩
        | bool _ => exact Or.inr ⟨e, rfl, hget e he⟩
        | int _ => exact Or.inr ⟨e, rfl, hget e he⟩
        | uint _ => exact Or.inr ⟨e, rfl, hget e he⟩
        | float _ => exact Or.inr ⟨e, rfl, hget e he⟩
        | string _ => exact Or.inr ⟨e, rfl, hget e he⟩
        | bytes _ => exact Or.inr ⟨e, rfl, hget e he⟩
        | time _ _ => exact Or.inr ⟨e, rfl, hget e he⟩
        | struct _ => exact Or.inr ⟨e, rfl, hget e he⟩
        | other _ => exact Or.inr ⟨e, rfl, hget e he⟩
      | bool m => exact Or.inr ⟨_, rfl, hget _ (hs _ rfl)⟩
      | int m k => exact Or.inr ⟨_, rfl, hget _ (hs _ rfl)⟩
      | uint m k => exact Or.inr ⟨_, rfl, hget _ (hs _ rfl)⟩
      | float m k => exact Or.inr ⟨_, rfl, hget _ (hs _ rfl)⟩
      | string m => exact Or.inr ⟨_, rfl, hget _ (hs _ rfl)⟩
      | slice m e => exact Or.inr ⟨_, rfl, hget _ (hs _ rfl)⟩
      | struct m fs => exact absurd (hs _ rfl) (by simp [GoType.isStruct])
      | time => exact absurd (hs _ rfl) (by simp [GoType.isStruct])
      | other m k => exact Or.inr ⟨_, rfl, hget _ (hs _ rfl)⟩
  have hdec : ∀ e, getTypeInfo cache val = (.err e, cache) →
      df.DecodeAt lib cu cache row val = ⟨.err e, val, df, cache⟩ := by
    intro e he
    unfold Dataframe.DecodeAt
    rw [hn]
    simp only [he]
  rcases hti with ⟨name, h⟩ | ⟨t, hsh, h⟩
  · refine ⟨_, by rw [h], by rw [h], Or.inl ⟨name, rfl⟩, ?_, ?_, ?_, ?_⟩ <;> rw [hdec _ h]
  · refine ⟨_, by rw [h], by rw [h], Or.inr ⟨t, hsh, rfl⟩, ?_, ?_, ?_, ?_⟩ <;> rw [hdec _ h]

/-- C20 (witness): on the empty cache and the fresh Dataframe with columns
`[height, time]`, a pointer to an `uint64` as destination makes `getTypeInfo`
and `DecodeAt` return the not-a-struct error. -/
theorem C20_non_struct_destination_witness :
    CacheOK [] ∧ (∀ t, (uint64Dest 0).shape = some t → t.isStruct = false) ∧
    (heightTimeFrame [ascii "[12345,1700000000000]"]).tinfo = none ∧
    ∃ e, (getTypeInfo [] (uint64Dest 0)).1 = .err e ∧
      (getTypeInfo [] (uint64Dest 0)).2 = [] ∧
      ((∃ name, e = .invalidValue name) ∨
        ∃ t, (uint64Dest 0).shape = some t ∧ e = .notStruct t.typeString t.kindString) ∧
      ((heightTimeFrame [ascii "[12345,1700000000000]"]).DecodeAt asciiLib noCustom [] 0
        (uint64Dest 0)).res = .err e ∧
      ((heightTimeFrame [ascii "[12345,1700000000000]"]).DecodeAt asciiLib noCustom [] 0
        (uint64Dest 0)).frame = heightTimeFrame [ascii "[12345,1700000000000]"] ∧
      ((heightTimeFrame [ascii "[12345,1700000000000]"]).DecodeAt asciiLib noCustom [] 0
        (uint64Dest 0)).val = uint64Dest 0 ∧
      ((heightTimeFrame [ascii "[12345,1700000000000]"]).DecodeAt asciiLib noCustom [] 0
        (uint64Dest 0)).cache = [] :=
  ⟨CacheOK_nil, fun t h => by cases h; rfl, rfl,
    C20_non_struct_destination asciiLib noCustom [] CacheOK_nil
      (heightTimeFrame [ascii "[12345,1700000000000]"]) 0 (uint64Dest 0)
      (fun t h => by cases h; rfl) rfl⟩

/-! ### The parsers of integers accept the base-10 numerals in range -/

theorem u8_digit_toNat (c : UInt8) (h : 48 ≤ c ∧ c ≤ 57) :
    (c - 48).toNat = c.toNat - 48 ∧ 48 ≤ c.toNat ∧ c.toNat ≤ 57 := by
  refine ⟨UInt8.toNat_sub_of_le c 48 h.1, ?_, ?_⟩
  · exact h.1
  · exact h.2

theorem decimal_foldl_ge : ∀ (cs : Bytes) (n : Nat),
    n ≤ cs.foldl (fun n c => n * 10 + (c - 48).toNat) n := by
  intro cs
  induction cs with
  | nil => intro n; exact Nat.le_refl n
  | cons c cs ih =>
    intro n
    simp only [List.foldl_cons]
    exact Nat.le_trans (by omega) (ih _)

/-- The loop of `ParseUint` returns `m` exactly when all bytes are digits, the
digits appended to `n` denote `m`, and `m` is at most `maxVal`. -/
theorem parseUint_loop_ok (maxVal : Nat) (hmax : maxVal < 2 ^ 64) : ∀ (cs : Bytes) (n m : Nat),
    n ≤ maxVal →
    (ParseUint.loop maxVal cs n = .ok m ↔
      (cs.all isDigit = true ∧ cs.foldl (fun n c => n * 10 + (c - 48).toNat) n = m ∧
        m ≤ maxVal)) := by
  intro cs
  induction cs with
  | nil =>
    intro n m hn
    simp only [ParseUint.loop, List.all_nil, List.foldl_nil, true_and]
    constructor
    · intro h
      cases h
      exact ⟨rfl, hn⟩
    · intro h
      rw [h.1]
  | cons c cs ih =>
    intro n m hn
    simp only [ParseUint.loop, List.all_cons, List.foldl_cons]
    have hge := decimal_foldl_ge cs (n * 10 + (c - 48).toNat)
    by_cases hd : 48 ≤ c ∧ c ≤ 57
    · have hdig : isDigit c = true := by simp [isDigit, hd]
      rw [if_pos hd, hdig]
      by_cases hcut : n ≥ (2 ^ 64 - 1) / 10 + 1
      · rw [if_pos hcut]
        constructor
        · intro h; cases h
        · intro h
          have := h.2.2
          have h1 := h.2.1
          norm_num at hcut
          omega
      · rw [if_neg hcut]
        by_cases hov : n * 10 + (c - 48).toNat ≥ 2 ^ 64 ∨ n * 10 + (c - 48).toNat > maxVal
        · simp only [hov, if_true]
          constructor
          · intro h; cases h
          · intro h
            have := h.2.2
            have h1 := h.2.1
            omega
        · simp only [hov, if_false]
          rw [ih _ m (by omega)]
          simp
    · have hdig : isDigit c = false := by simp [isDigit, hd]
      rw [if_neg hd, hdig]
      constructor
      · intro h; cases h
      · intro h
        simp at h

/-- The core of `ParseUint` returns `m` exactly when the text is a non-empty
string of digits that denotes `m`, and `m` fits into `bitSize` bits. -/
theorem parseUint_core_ok (s : Bytes) (bitSize : Nat) (hb : bitSize ≤ 64) (m : Nat) :
    ParseUint.core s bitSize = .ok m ↔
      (isDecimal s = true ∧ decimalValue s = m ∧ m < 2 ^ bitSize) := by
  have hpow : 2 ^ bitSize ≤ 2 ^ 64 := Nat.pow_le_pow_right (by decide) hb
  have hpos : 0 < 2 ^ bitSize := Nat.two_pow_pos bitSize
  unfold ParseUint.core
  by_cases hs : s = []
  · subst hs
    simp [isDecimal]
  · rw [if_neg hs, parseUint_loop_ok (2 ^ bitSize - 1) (by omega) s 0 m (by omega)]
    have he : s.isEmpty = false := by
      cases s with
      | nil => exact absurd rfl hs
      | cons _ _ => rfl
    simp only [isDecimal, he, decimalValue, Bool.not_false, Bool.true_and]
    constructor
    · rintro ⟨h1, h2, h3⟩
      exact ⟨h1, h2, by omega⟩
    · rintro ⟨h1, h2, h3⟩
      exact ⟨h1, h2, by omega⟩

/-- Go `ParseUint` returns `m` exactly when the text is a non-empty string of
digits that denotes `m`, and `m` fits into `bitSize` bits. -/
theorem parseUint_ok (s : Bytes) (bitSize : Nat) (hb : bitSize ≤ 64) (m : Nat) :
    ParseUint s bitSize = .ok m ↔
      (isDecimal s = true ∧ decimalValue s = m ∧ m < 2 ^ bitSize) := by
  rw [← parseUint_core_ok s bitSize hb m]
  unfold ParseUint
  cases ParseUint.core s bitSize with
  | ok n => simp
  | error e => simp

/-- The result of `ParseInt` on the digits `digits` of the text `s` with sign `neg`. -/
theorem parseInt_digits (s digits : Bytes) (neg : Bool) (w : Nat) (hw1 : 1 ≤ w) (hw : w ≤ 64)
    (v : Int) :
    (match ParseUint.core digits w with
      | .error .ErrSyntax => (Except.error (.num "ParseInt" s .ErrSyntax) : Except Cause Int)
      | .error .ErrRange => .error (.num "ParseInt" s .ErrRange)
      | .ok un =>
        if ¬ (neg = true) ∧ un ≥ 2 ^ (w - 1) then .error (.num "ParseInt" s .ErrRange)
        else if neg = true ∧ un > 2 ^ (w - 1) then .error (.num "ParseInt" s .ErrRange)
        else .ok (if neg = true then - (un : Int) else (un : Int))) = .ok v ↔
    (isDecimal digits = true ∧
      v = (if neg = true then - (decimalValue digits : Int) else (decimalValue digits : Int)) ∧
      -((2 : Int) ^ (w - 1)) ≤ v ∧ v < (2 : Int) ^ (w - 1)) := by
  have hpow : 2 ^ (w - 1) < 2 ^ 64 := Nat.pow_lt_pow_right (by decide) (by omega)
  have hpos : 0 < 2 ^ (w - 1) := Nat.two_pow_pos (w - 1)
  have hcast : ((2 ^ (w - 1) : Nat) : Int) = (2 : Int) ^ (w - 1) := by push_cast; rfl
  have hdouble : 2 ^ w = 2 * 2 ^ (w - 1) := by
    have hw2 : w = (w - 1) + 1 := by omega
    rw [hw2, Nat.pow_succ, Nat.add_sub_cancel]
    omega
  have hok := fun un => parseUint_core_ok digits w hw un
  rw [hdouble] at hok
  rw [← hcast]
  generalize 2 ^ (w - 1) = cutoff at hpow hpos hok ⊢
  cases hcore : ParseUint.core digits w with
  | error e =>
    have hno : ¬ (isDecimal digits = true ∧
        v = (if neg = true then - (decimalValue digits : Int) else (decimalValue digits : Int)) ∧
        -(cutoff : Int) ≤ v ∧ v < (cutoff : Int)) := by
      rintro ⟨hd, hv, hlo, hhi⟩
      have hlt : decimalValue digits < 2 * cutoff := by
        cases neg with
        | false =>
          simp only [Bool.false_eq_true, if_false] at hv
          omega
        | true =>
          simp only [if_true] at hv
          omega
      rw [(hok (decimalValue digits)).mpr ⟨hd, rfl, hlt⟩] at hcore
      cases hcore
    cases e <;> simp only [hno, iff_false] <;> intro h <;> cases h
  | ok un =>
    obtain ⟨hd, hval, hlt⟩ := (hok un).mp hcore
    simp only [hd, true_and, hval]
    cases neg with
    | false =>
      simp only [Bool.false_eq_true, not_false_eq_true, true_and, false_and, if_false]
      by_cases h1 : un ≥ cutoff
      · simp only [h1, if_true]
        constructor
        · intro h; cases h
        · rintro ⟨h2, _, h3⟩
          omega
      · simp only [h1, if_false]
        constructor
        · intro h
          cases h
          exact ⟨rfl, by omega, by omega⟩
        · rintro ⟨h2, _, _⟩
          rw [h2]
    | true =>
      simp only [not_true_eq_false, false_and, true_and, if_false, if_true]
      by_cases h1 : un > cutoff
      · simp only [h1, if_true]
        constructor
        · intro h; cases h
        · rintro ⟨h2, h3, _⟩
          omega
      · simp only [h1, if_false]
        constructor
        · intro h
          cases h
          exact ⟨rfl, by omega, by omega⟩
        · rintro ⟨h2, _, _⟩
          rw [h2]

/-- Go `ParseInt` returns `v` exactly when the text is a base-10 numeral (an
optional sign, then digits) of `v`, and `v` fits into `bitSize` bits in two's
complement. -/
theorem parseInt_ok (s : Bytes) (w : Nat) (hw1 : 1 ≤ w) (hw : w ≤ 64) (v : Int) :
    ParseInt s w = .ok v ↔
      (numeralValue s = some v ∧ -((2 : Int) ^ (w - 1)) ≤ v ∧ v < (2 : Int) ^ (w - 1)) := by
  cases s with
  | nil =>
    constructor
    · intro h; cases h
    · rintro ⟨h, _⟩
      simp [numeralValue, isDecimal] at h
  | cons c rest =>
    by_cases h45 : c = 45
    · subst h45
      have h := parseInt_digits (45 :: rest) rest true w hw1 hw v
      simp only [if_true, not_true_eq_false, false_and, true_and, if_false] at h
      have hn : numeralValue (45 :: rest)
          = if isDecimal rest then some (-(decimalValue rest : Int)) else none := rfl
      rw [hn]
      have hp : ParseInt (45 :: rest) w
          = (match ParseUint.core rest w with
            | .error .ErrSyntax => .error (.num "ParseInt" (45 :: rest) .ErrSyntax)
            | .error .ErrRange => .error (.num "ParseInt" (45 :: rest) .ErrRange)
            | .ok un =>
              if un > 2 ^ (w - 1) then .error (.num "ParseInt" (45 :: rest) .ErrRange)
              else .ok (- (un : Int))) := by
        unfold ParseInt
        have hd : (if (45 : UInt8) = 43 ∨ (45 : UInt8) = 45 then rest else 45 :: rest) = rest := by
          simp
        simp only [hd]
        cases hcore : ParseUint.core rest w with
        | error e => cases e <;> simp [hcore]
        | ok un => simp [hcore]
      rw [hp, h]
      by_cases hd : isDecimal rest = true
      · simp only [hd, if_true, true_and, Option.some.injEq]
        constructor
        · rintro ⟨h1, h2⟩; exact ⟨h1.symm, h2⟩
        · rintro ⟨h1, h2⟩; exact ⟨h1.symm, h2⟩
      · simp [hd]
    · by_cases h43 : c = 43
      · subst h43
        have h := parseInt_digits (43 :: rest) rest false w hw1 hw v
        simp only [Bool.false_eq_true, not_false_eq_true, true_and, false_and, if_false] at h
        have hn : numeralValue (43 :: rest)
            = if isDecimal rest then some (decimalValue rest : Int) else none := rfl
        rw [hn]
        have hp : ParseInt (43 :: rest) w
            = (match ParseUint.core rest w with
              | .error .ErrSyntax => .error (.num "ParseInt" (43 :: rest) .ErrSyntax)
              | .error .ErrRange => .error (.num "ParseInt" (43 :: rest) .ErrRange)
              | .ok un =>
                if un ≥ 2 ^ (w - 1) then .error (.num "ParseInt" (43 :: rest) .ErrRange)
                else .ok (un : Int)) := by
          unfold ParseInt
          have hd : (if (43 : UInt8) = 43 ∨ (43 : UInt8) = 45 then rest else 43 :: rest)
              = rest := by
            simp
          simp only [hd]
          cases hcore : ParseUint.core rest w with
          | error e => cases e <;> simp [hcore]
          | ok un => simp [hcore]
        rw [hp, h]
        by_cases hd : isDecimal rest = true
        · simp only [hd, if_true, true_and, Option.some.injEq]
          constructor
          · rintro ⟨h1, h2⟩; exact ⟨h1.symm, h2⟩
          · rintro ⟨h1, h2⟩; exact ⟨h1.symm, h2⟩
        · simp [hd]
      · have h := parseInt_digits (c :: rest) (c :: rest) false w hw1 hw v
        simp only [Bool.false_eq_true, not_false_eq_true, true_and, false_and, if_false] at h
        have hn : numeralValue (c :: rest)
            = if isDecimal (c :: rest) then some (decimalValue (c :: rest) : Int) else none := by
          unfold numeralValue
          split
          · rename_i heq; cases heq; exact absurd rfl h43
          · rename_i heq; cases heq; exact absurd rfl h45
          · rfl
        rw [hn]
        have hp : ParseInt (c :: rest) w
            = (match ParseUint.core (c :: rest) w with
              | .error .ErrSyntax => .error (.num "ParseInt" (c :: rest) .ErrSyntax)
              | .error .ErrRange => .error (.num "ParseInt" (c :: rest) .ErrRange)
              | .ok un =>
                if un ≥ 2 ^ (w - 1) then .error (.num "ParseInt" (c :: rest) .ErrRange)
                else .ok (un : Int)) := by
          unfold ParseInt
          simp only [h43, h45, or_self, if_false]
          cases hcore : ParseUint.core (c :: rest) w with
          | error e => cases e <;> simp [hcore, h45]
          | ok un => simp [hcore, h45]
        rw [hp, h]
        by_cases hd : isDecimal (c :: rest) = true
        · simp only [hd, if_true, true_and, Option.some.injEq]
          constructor
          · rintro ⟨h1, h2⟩; exact ⟨h1.symm, h2⟩
          · rintro ⟨h1, h2⟩; exact ⟨h1.symm, h2⟩
        · simp [hd]

/-- The error of `ParseInt` is a `NumError` of `ParseInt` that carries the text. -/
theorem parseInt_error (s : Bytes) (w : Nat) (c : Cause) (h : ParseInt s w = .error c) :
    ∃ e, c = .num "ParseInt" s e := by
  unfold ParseInt at h
  split at h
  · cases h; exact ⟨_, rfl⟩
  · simp only [] at h
    split at h
    · cases h; exact ⟨_, rfl⟩
    · cases h; exact ⟨_, rfl⟩
    · split at h
      · cases h; exact ⟨_, rfl⟩
      · split at h
        · cases h; exact ⟨_, rfl⟩
        · cases h

/-- The error kind of `ParseInt` for a numeral of fewer than 64 bits goes by the
first byte that offends: in `300x` the digits leave the range of 8 bits before
the byte `x` is read, and the error is the range error; in `30x` the byte `x` is
read first, and the error is the syntax error. -/
theorem parseInt_range_before_syntax :
    ParseInt (ascii "300x") 8 = .error (.num "ParseInt" (ascii "300x") .ErrRange) ∧
    ParseInt (ascii "30x") 8 = .error (.num "ParseInt" (ascii "30x") .ErrSyntax) ∧
    ParseInt (ascii "300x") 64 = .error (.num "ParseInt" (ascii "300x") .ErrSyntax) ∧
    ParseInt (ascii "-129") 8 = .error (.num "ParseInt" (ascii "-129") .ErrRange) ∧
    ParseInt (ascii "-128") 8 = .ok (-128) :=
  ⟨rfl, rfl, rfl, rfl, rfl⟩

/-! ### Formatting a number gives its canonical numeral -/

theorem digitChar_value (d : Nat) (h : d < 10) :
    (UInt8.ofNat (48 + d) - 48).toNat = d ∧ isDigit (UInt8.ofNat (48 + d)) = true ∧
      (UInt8.ofNat (48 + d) = 48 → d = 0) ∧ UInt8.ofNat (48 + d) ≠ 43 ∧
      UInt8.ofNat (48 + d) ≠ 45 := by
  interval_cases d <;> decide

theorem digitValue_char (c : UInt8) (h : isDigit c = true) :
    UInt8.ofNat (48 + (c - 48).toNat) = c ∧ (c - 48).toNat < 10 ∧
      (c ≠ 48 → (c - 48).toNat ≠ 0) ∧ c ≠ 43 ∧ c ≠ 45 := by
  have hd : 48 ≤ c ∧ c ≤ 57 := by simpa [isDigit] using h
  obtain ⟨h1, h2, h3⟩ := u8_digit_toNat c hd
  have hc : c = UInt8.ofNat c.toNat := by
    apply UInt8.ext
    have hsz : c.toNat < UInt8.size := by
      have : UInt8.size = 256 := rfl
      omega
    rw [UInt8.toNat_ofNat_of_lt hsz]
  have hn : ∃ d, d < 10 ∧ c.toNat = 48 + d := ⟨c.toNat - 48, by omega, by omega⟩
  obtain ⟨d, hd10, hcd⟩ := hn
  rw [h1, hcd]
  rw [hc, hcd]
  interval_cases d <;> decide

/-- The loop of `formatUint` puts the digits of `n` in front of `acc`. -/
theorem formatUint_loop_eq : ∀ (fuel n : Nat) (acc : Bytes), n < fuel →
    formatUint.loop fuel n acc
      = (if n = 0 then [48]
          else (Nat.digits 10 n).reverse.map (fun d => UInt8.ofNat (48 + d))) ++ acc := by
  intro fuel
  induction fuel with
  | zero => intro n acc h; omega
  | succ fuel ih =>
    intro n acc h
    unfold formatUint.loop
    by_cases h10 : n < 10
    · rw [if_pos h10]
      by_cases h0 : n = 0
      · subst h0; rfl
      · rw [if_neg h0, Nat.digits_of_lt 10 n h0 h10]
        rfl
    · rw [if_neg h10]
      have h0 : n ≠ 0 := by omega
      have hq : n / 10 ≠ 0 := by omega
      rw [ih (n / 10) _ (by omega), if_neg hq, if_neg h0]
      have hdig : Nat.digits 10 n = n % 10 :: Nat.digits 10 (n / 10) :=
        Nat.digits_def' (by decide) (by omega)
      rw [hdig]
      simp

/-- The digits of `formatUint`. -/
theorem formatUint_eq (n : Nat) :
    formatUint n = if n = 0 then [48]
      else (Nat.digits 10 n).reverse.map (fun d => UInt8.ofNat (48 + d)) := by
  unfold formatUint
  rw [formatUint_loop_eq (n + 1) n [] (by omega)]
  simp

/-- The number a digit string denotes, by the digits from the last one on. -/
theorem decimalValue_eq_ofDigits (ds : Bytes) :
    decimalValue ds = Nat.ofDigits 10 ((ds.map (fun c => (c - 48).toNat)).reverse) := by
  induction ds using List.reverseRecOn with
  | nil => rfl
  | append_singleton ds c ih =>
    have : decimalValue (ds ++ [c]) = decimalValue ds * 10 + (c - 48).toNat := by
      simp [decimalValue, List.foldl_append]
    rw [this, ih]
    simp [Nat.ofDigits_cons]
    omega

theorem isDecimal_iff (ds : Bytes) :
    isDecimal ds = true ↔ ds ≠ [] ∧ ∀ c ∈ ds, isDigit c = true := by
  cases ds with
  | nil => simp [isDecimal]
  | cons c cs => simp [isDecimal]

/-- The text `formatUint n` is a digit string that denotes `n` and is canonical. -/
theorem formatUint_spec (n : Nat) :
    isDecimal (formatUint n) = true ∧ decimalValue (formatUint n) = n ∧
      canonicalUint (formatUint n) = true := by
  by_cases h0 : n = 0
  · subst h0
    exact ⟨by decide, by decide, by decide⟩
  · have hf := formatUint_eq n
    rw [if_neg h0] at hf
    have hne : Nat.digits 10 n ≠ [] := Nat.digits_ne_nil_iff_ne_zero.mpr h0
    have hlt : ∀ d ∈ Nat.digits 10 n, d < 10 := fun d hd => Nat.digits_lt_base (by decide) hd
    have hdec : isDecimal (formatUint n) = true := by
      rw [isDecimal_iff, hf]
      constructor
      · simpa using hne
      · intro c hc
        simp only [List.mem_map, List.mem_reverse] at hc
        obtain ⟨d, hd, rfl⟩ := hc
        exact (digitChar_value d (hlt d hd)).2.1
    have hval : decimalValue (formatUint n) = n := by
      rw [decimalValue_eq_ofDigits, hf]
      have : (((Nat.digits 10 n).reverse.map (fun d => UInt8.ofNat (48 + d))).map
          (fun c => (c - 48).toNat)).reverse = Nat.digits 10 n := by
        rw [List.map_map, ← List.map_reverse, List.reverse_reverse]
        conv_rhs => rw [← List.map_id (Nat.digits 10 n)]
        apply List.map_congr_left
        intro d hd
        exact (digitChar_value d (hlt d hd)).1
      rw [this, Nat.ofDigits_digits]
    refine ⟨hdec, hval, ?_⟩
    unfold canonicalUint
    rw [hdec]
    simp only [Bool.true_and, Bool.or_eq_true, decide_eq_true_eq]
    right
    rw [hf]
    have hlast := Nat.getLast_digit_ne_zero 10 h0
    intro hh
    have hrev : (Nat.digits 10 n).reverse.head? = some ((Nat.digits 10 n).getLast hne) := by
      rw [List.head?_reverse, List.getLast?_eq_getLast _ hne]
    rw [List.head?_map, hrev] at hh
    simp only [Option.map_some', Option.some.injEq] at hh
    exact hlast ((digitChar_value _ (hlt _ (List.getLast_mem hne))).2.2.1 hh)

/-- Formatting the number a digit string denotes gives the string back exactly
when the string is canonical. -/
theorem formatUint_decimalValue (ds : Bytes) (hd : isDecimal ds = true) :
    formatUint (decimalValue ds) = ds ↔ canonicalUint ds = true := by
  constructor
  · intro h
    have := (formatUint_spec (decimalValue ds)).2.2
    rwa [h] at this
  · intro hc
    unfold canonicalUint at hc
    rw [hd] at hc
    simp only [Bool.true_and, Bool.or_eq_true, decide_eq_true_eq] at hc
    rcases hc with h48 | hhead
    · subst h48; decide
    · obtain ⟨hne, hall⟩ := (isDecimal_iff ds).mp hd
      have hL1 : ∀ l ∈ (ds.map (fun c => (c - 48).toNat)).reverse, l < 10 := by
        intro l hl
        simp only [List.mem_reverse, List.mem_map] at hl
        obtain ⟨c, hc, rfl⟩ := hl
        exact (digitValue_char c (hall c hc)).2.1
      have hL2 : ∀ (h : (ds.map (fun c => (c - 48).toNat)).reverse ≠ []),
          ((ds.map (fun c => (c - 48).toNat)).reverse).getLast h ≠ 0 := by
        intro h
        cases ds with
        | nil => exact absurd rfl hne
        | cons c cs =>
          have hc48 : c ≠ 48 := by
            intro he
            apply hhead
            rw [he]
            rfl
          have : ((List.map (fun c => (c - 48).toNat) (c :: cs)).reverse).getLast h
              = (c - 48).toNat := by
            simp
          rw [this]
          exact (digitValue_char c (hall c (List.mem_cons_self _ _))).2.2.1 hc48
      have hdig := Nat.digits_ofDigits 10 (by decide) _ hL1 hL2
      rw [← decimalValue_eq_ofDigits] at hdig
      have hn0 : decimalValue ds ≠ 0 := by
        intro h0
        rw [h0] at hdig
        simp at hdig
        exact hne hdig
      rw [formatUint_eq, if_neg hn0, hdig, List.reverse_reverse, List.map_map]
      conv_rhs => rw [← List.map_id ds]
      apply List.map_congr_left
      intro c hc
      exact (digitValue_char c (hall c hc)).1

theorem numeralValue_plain (s : Bytes) (h43 : s.head? ≠ some 43) (h45 : s.head? ≠ some 45) :
    numeralValue s = (if isDecimal s then some (decimalValue s : Int) else none) ∧
      canonicalInt s = canonicalUint s := by
  constructor
  · unfold numeralValue
    split
    · exact absurd rfl h43
    · exact absurd rfl h45
    · rfl
  · unfold canonicalInt
    split
    · exact absurd rfl h45
    · rfl

theorem isDecimal_head (s : Bytes) (h : isDecimal s = true) :
    s.head? ≠ some 43 ∧ s.head? ≠ some 45 := by
  obtain ⟨hne, hall⟩ := (isDecimal_iff s).mp h
  cases s with
  | nil => exact absurd rfl hne
  | cons c cs =>
    have := digitValue_char c (hall c (List.mem_cons_self _ _))
    simp only [List.head?_cons, ne_eq, Option.some.injEq]
    exact ⟨this.2.2.2.1, this.2.2.2.2⟩

/-- The text `formatInt a` is the canonical numeral of `a`. -/
theorem formatInt_spec (a : Int) :
    numeralValue (formatInt a) = some a ∧ canonicalInt (formatInt a) = true := by
  unfold formatInt
  by_cases hneg : a < 0
  · rw [if_pos hneg]
    obtain ⟨h1, h2, h3⟩ := formatUint_spec a.natAbs
    have hn : numeralValue (45 :: formatUint a.natAbs)
        = if isDecimal (formatUint a.natAbs) then
            some (-(decimalValue (formatUint a.natAbs) : Int)) else none := rfl
    have hc : canonicalInt (45 :: formatUint a.natAbs)
        = (isDecimal (formatUint a.natAbs) &&
            decide ((formatUint a.natAbs).head? ≠ some 48)) := rfl
    rw [hn, hc, h1, h2]
    refine ⟨by simp only [if_true]; congr 1; omega, ?_⟩
    simp only [Bool.true_and, decide_eq_true_eq]
    unfold canonicalUint at h3
    rw [h1] at h3
    simp only [Bool.true_and, Bool.or_eq_true, decide_eq_true_eq] at h3
    rcases h3 with h48 | hh
    · rw [h48] at h2
      have : decimalValue [48] = 0 := by decide
      omega
    · exact hh
  · rw [if_neg hneg]
    obtain ⟨h1, h2, h3⟩ := formatUint_spec a.toNat
    obtain ⟨g1, g2⟩ := isDecimal_head _ h1
    obtain ⟨k1, k2⟩ := numeralValue_plain _ g1 g2
    rw [k1, k2, h1, h2, h3]
    refine ⟨?_, rfl⟩
    simp only [if_true]
    congr 1
    omega

/-- Formatting the integer a numeral denotes gives the numeral back exactly when
the numeral is canonical. -/
theorem formatInt_numeralValue (s : Bytes) (v : Int) (h : numeralValue s = some v) :
    formatInt v = s ↔ canonicalInt s = true := by
  constructor
  · intro hf
    have := (formatInt_spec v).2
    rwa [hf] at this
  · intro hc
    cases s with
    | nil => simp [numeralValue, isDecimal] at h
    | cons c rest =>
      by_cases h45 : c = 45
      · subst h45
        have hn : numeralValue (45 :: rest)
            = if isDecimal rest then some (-(decimalValue rest : Int)) else none := rfl
        have hcc : canonicalInt (45 :: rest)
            = (isDecimal rest && decide (rest.head? ≠ some 48)) := rfl
        rw [hn] at h
        rw [hcc] at hc
        simp only [Bool.and_eq_true, decide_eq_true_eq] at hc
        obtain ⟨hd, hh⟩ := hc
        rw [hd] at h
        simp only [if_true, Option.some.injEq] at h
        have hcu : canonicalUint rest = true := by
          unfold canonicalUint
          rw [hd]
          simp only [Bool.true_and, Bool.or_eq_true, decide_eq_true_eq]
          exact Or.inr hh
        have hfu := (formatUint_decimalValue rest hd).mpr hcu
        have hpos : decimalValue rest ≠ 0 := by
          intro h0
          rw [h0] at hfu
          have : formatUint 0 = [48] := by decide
          rw [this] at hfu
          apply hh
          rw [← hfu]
          rfl
        unfold formatInt
        have hneg : v < 0 := by omega
        rw [if_pos hneg]
        have hab : v.natAbs = decimalValue rest := by omega
        rw [hab, hfu]
      · have h45' : (c :: rest).head? ≠ some 45 := by
          simp only [List.head?_cons, ne_eq, Option.some.injEq]
          exact h45
        by_cases h43 : c = 43
        · subst h43
          have hcu : canonicalInt (43 :: rest) = canonicalUint (43 :: rest) := by
            unfold canonicalInt
            split
            · rename_i heq; cases heq
            · rfl
          rw [hcu] at hc
          unfold canonicalUint at hc
          simp only [Bool.and_eq_true] at hc
          have := (isDecimal_head _ hc.1).1
          exact absurd rfl this
        · have h43' : (c :: rest).head? ≠ some 43 := by
            simp only [List.head?_cons, ne_eq, Option.some.injEq]
            exact h43
          obtain ⟨k1, k2⟩ := numeralValue_plain _ h43' h45'
          rw [k1] at h
          rw [k2] at hc
          have hd : isDecimal (c :: rest) = true := by
            unfold canonicalUint at hc
            simp only [Bool.and_eq_true] at hc
            exact hc.1
          rw [hd] at h
          simp only [if_true, Option.some.injEq] at h
          have hfu := (formatUint_decimalValue _ hd).mpr hc
          unfold formatInt
          have hneg : ¬ v < 0 := by omega
          rw [if_neg hneg]
          have hab : v.toNat = decimalValue (c :: rest) := by omega
          rw [hab, hfu]

/-- The milliseconds of the time made of `ms` milliseconds are `ms` exactly when
the product `ms * 1000000` fits into an `int64`. -/
theorem timeOfMillis_millis (ms : Int) (hlo : -(2 : Int) ^ 63 ≤ ms) (hhi : ms < (2 : Int) ^ 63) :
    (Int.ediv (wrapInt64 (ms * 1000000)) 1000000000 * 1000
        + Int.emod (wrapInt64 (ms * 1000000)) 1000000000 / 1000000 = ms) ↔
      (-9223372036854 ≤ ms ∧ ms ≤ 9223372036854) := by
  have h1 : ∀ a b : Int, Int.ediv a b = a / b := fun _ _ => rfl
  have h2 : ∀ a b : Int, Int.emod a b = a % b := fun _ _ => rfl
  unfold wrapInt64
  rw [h1, h2, h2]
  norm_num at hlo hhi ⊢
  omega

/-- Formatting the boolean a text parses to gives the text back exactly when the
text is `true` or `false`. -/
theorem formatBool_parseBool (s : Bytes) (b : Bool) (h : ParseBool s = .ok b) :
    formatBool b = s ↔ (s = ascii "true" ∨ s = ascii "false") := by
  constructor
  · intro hf
    rw [← hf]
    cases b
    · exact Or.inr rfl
    · exact Or.inl rfl
  · intro hs
    rcases hs with hs | hs
    · subst hs
      have : ParseBool (ascii "true") = .ok true := rfl
      rw [this] at h
      cases h
      rfl
    · subst hs
      have : ParseBool (ascii "false") = .ok false := rfl
      rw [this] at h
      cases h
      rfl

theorem uint8_forall (P : UInt8 → Prop) (h : ∀ n, n < 256 → P (UInt8.ofNat n)) (c : UInt8) :
    P c := by
  have h1 := h c.toNat (UInt8.toNat_lt c)
  have h2 : UInt8.ofNat c.toNat = c := by
    apply UInt8.ext
    rw [UInt8.toNat_ofNat_of_lt (UInt8.toNat_lt c)]
  rwa [h2] at h1

/-- Every digit that `hex.EncodeToString` writes for a byte is one of `0`..`9`,
`a`..`f`, and `hex.DecodeString` reads the two digits of a byte as that byte. -/
theorem hex_byte (b : UInt8) :
    isLowerHex (hextable.getD (b >>> 4).toNat 0) = true ∧
    isLowerHex (hextable.getD (b &&& 15).toNat 0) = true := by
  apply uint8_forall (fun b => isLowerHex (hextable.getD (b >>> 4).toNat 0) = true ∧
    isLowerHex (hextable.getD (b &&& 15).toNat 0) = true)
  set_option maxRecDepth 200000 in decide

theorem isLowerHex_mem (c : UInt8) (h : isLowerHex c = true) : c ∈ hextable := by
  revert h
  apply uint8_forall (fun c => isLowerHex c = true → c ∈ hextable)
  set_option maxRecDepth 200000 in decide

theorem isLowerHex_plain (c : UInt8) (h : isLowerHex c = true) : isPlainByte c = true := by
  revert h
  apply uint8_forall (fun c => isLowerHex c = true → isPlainByte c = true)
  set_option maxRecDepth 200000 in decide

theorem hexPairBack_all : ∀ p ∈ hextable, ∀ q ∈ hextable, hexPairBack p q = true := by
  set_option maxRecDepth 200000 in decide

theorem hexEncode_lower : ∀ b : Bytes,
    (hexEncodeToString b).all isLowerHex = true ∧ (hexEncodeToString b).length % 2 = 0
  | [] => ⟨rfl, rfl⟩
  | c :: rest => by
    obtain ⟨h1, h2⟩ := hexEncode_lower rest
    obtain ⟨k1, k2⟩ := hex_byte c
    constructor
    · simp only [hexEncodeToString, List.all_cons, k1, k2, h1, Bool.and_self]
    · simp only [hexEncodeToString, List.length_cons]
      omega

/-- Encoding the bytes that `hex.DecodeString` reads from digits `0`..`9`,
`a`..`f` gives the digits back. -/
theorem hexEncode_decode : ∀ (h b : Bytes), h.all isLowerHex = true →
    hexDecodeString h = .ok b → hexEncodeToString b = h
  | [], b, _, hd => by
    cases hd
    rfl
  | [p], b, _, hd => by
    unfold hexDecodeString at hd
    cases hp : fromHexChar p <;> rw [hp] at hd <;> cases hd
  | p :: q :: rest, b, hall, hd => by
    simp only [List.all_cons, Bool.and_eq_true] at hall
    obtain ⟨hp, hq, hrest⟩ := hall
    have hpair := hexPairBack_all p (isLowerHex_mem p hp) q (isLowerHex_mem q hq)
    unfold hexPairBack at hpair
    unfold hexDecodeString at hd
    cases h1 : fromHexChar p with
    | none => rw [h1] at hd; cases hd
    | some a =>
      cases h2 : fromHexChar q with
      | none => rw [h1, h2] at hd; cases hd
      | some b2 =>
        rw [h1, h2] at hd hpair
        simp only [Bool.and_eq_true, decide_eq_true_eq] at hpair hd
        cases h3 : hexDecodeString rest with
        | error e => rw [h3] at hd; cases hd
        | ok bs =>
          rw [h3] at hd
          cases hd
          have ih := hexEncode_decode rest bs hrest h3
          simp only [hexEncodeToString, hpair.1, hpair.2, ih]

theorem betweenQuotes_iff (text body : Bytes) :
    betweenQuotes text = some body ↔ text = 34 :: body ++ [34] := by
  constructor
  · intro h
    unfold betweenQuotes at h
    split at h
    · rename_i rest
      split at h
      · rename_i rbody hr
        cases h
        have : rest = (34 :: rbody).reverse := by rw [← hr, List.reverse_reverse]
        rw [this]
        simp
      · cases h
    · cases h
  · intro h
    subst h
    simp [betweenQuotes]

/-- The library used for the examples has the two properties of `TrimSpace` and
`Unquote` on quoted literals. -/
theorem asciiLib_plainQuotes : asciiLib.PlainQuotes := by
  constructor
  · intro body
    show ((List.dropWhile isAsciiSpace (34 :: body ++ [34])).reverse.dropWhile
      isAsciiSpace).reverse = _
    have h1 : isAsciiSpace 34 = false := by decide
    have h2 : List.dropWhile isAsciiSpace (34 :: body ++ [34]) = 34 :: body ++ [34] := by
      simp [List.dropWhile, h1]
    rw [h2]
    have h3 : (34 :: body ++ [34]).reverse = 34 :: (34 :: body).reverse := by simp
    rw [h3]
    have h4 : List.dropWhile isAsciiSpace (34 :: (34 :: body).reverse)
        = 34 :: (34 :: body).reverse := by
      simp [List.dropWhile, h1]
    rw [h4, ← h3, List.reverse_reverse]
  · intro body hb
    show (match (34 :: body ++ [34] : Bytes) with
      | 34 :: rest =>
        match rest.reverse with
        | 34 :: body =>
          if body.all (fun c => c ≠ 34 ∧ c ≠ 92 ∧ 32 ≤ c ∧ c < 127) then some body.reverse
          else none
        | _ => none
      | _ => none) = some body
    have h3 : (body ++ [34]).reverse = 34 :: body.reverse := by simp
    simp only [List.cons_append, h3]
    have h5 : body.reverse.all (fun c => decide (c ≠ 34 ∧ c ≠ 92 ∧ 32 ≤ c ∧ c < 127)) = true := by
      rw [List.all_reverse]
      rw [List.all_eq_true] at hb ⊢
      intro c hc
      have := hb c hc
      unfold isPlainByte at this
      simp only [decide_eq_true_eq] at this ⊢
      tauto
    rw [if_pos h5, List.reverse_reverse]

/-- The quoted literal of the string that a text denotes is the text exactly when
the text is canonical. -/
theorem quoteLiteral_canonical (lib : StdLib) (hlib : lib.PlainQuotes) (quote : Bytes → Bytes)
    (text s : Bytes) (hu : lib.Unquote (lib.TrimSpace text) = some s) :
    quoteLiteral quote s = text ↔ canonicalString lib quote text = true := by
  unfold canonicalString
  rw [hu]
  simp only [Bool.or_eq_true, Bool.and_eq_true, Bool.not_eq_true', decide_eq_true_eq]
  constructor
  · intro h
    by_cases hp : s.all isPlainByte = true
    · left
      unfold quoteLiteral at h
      rw [if_pos hp] at h
      rw [(betweenQuotes_iff text s).mpr h.symm]
      exact hp
    · right
      unfold quoteLiteral at h
      rw [if_neg hp] at h
      exact ⟨by simpa using hp, h⟩
  · rintro (h | ⟨h1, h2⟩)
    · cases hb : betweenQuotes text with
      | none => rw [hb] at h; cases h
      | some body =>
        rw [hb] at h
        simp only [] at h
        have ht := (betweenQuotes_iff text body).mp hb
        rw [ht, hlib.1 body, hlib.2 body h] at hu
        cases hu
        unfold quoteLiteral
        rw [if_pos h, ht]
    · unfold quoteLiteral
      rw [if_neg (by simp [h1]), h2]

/-- The quoted lower-case hex of the byte sequence that a text denotes is the
text exactly when the text is canonical. -/
theorem hexLiteral_canonical (lib : StdLib) (hlib : lib.PlainQuotes) (text u b : Bytes)
    (hu : lib.Unquote (lib.TrimSpace text) = some u) (hd : hexDecodeString u = .ok b) :
    34 :: hexEncodeToString b ++ [34] = text ↔ canonicalBytes text = true := by
  unfold canonicalBytes
  constructor
  · intro h
    rw [(betweenQuotes_iff text _).mpr h.symm]
    obtain ⟨h1, h2⟩ := hexEncode_lower b
    simp only [h1, h2, decide_True, Bool.and_self]
  · intro h
    cases hb : betweenQuotes text with
    | none => rw [hb] at h; cases h
    | some body =>
      rw [hb] at h
      simp only [Bool.and_eq_true, decide_eq_true_eq] at h
      have ht := (betweenQuotes_iff text body).mp hb
      have hplain : body.all isPlainByte = true := by
        rw [List.all_eq_true]
        intro c hc
        exact isLowerHex_plain c (List.all_eq_true.mp h.1 c hc)
      rw [ht, hlib.1 body, hlib.2 body hplain] at hu
      cases hu
      rw [hexEncode_decode u b h.1 hd, ht]

/-- C12 (counterexample): with two `int64` columns and the row `[-0,6]`, whose
field count equals the column count, `FieldAt(0, 0)` succeeds with the value 0,
whose re-encoding `0` is not the field text `-0`; with a `boolean` column and
the row `[1,6]`, `FieldAt(0, 0)` succeeds with `true`, whose re-encoding `true`
is not the field text `1`; and with a `string` column and the row `[ "a",6]`,
`FieldAt(0, 0)` succeeds with the string `a`, whose re-encoding `"a"` is not the
field text, which starts with a blank. -/
theorem C12_counterexample_not_canonical :
    bytesSplit 44 (((ascii "[-0,6]").drop 1).take ((ascii "[-0,6]").length - 2))
      = [ascii "-0", ascii "6"] ∧
    Dataframe.FieldAt asciiLib
      ⟨[⟨"A", "a", FieldTypeInt64⟩, ⟨"B", "b", FieldTypeInt64⟩], [ascii "[-0,6]"], none, none⟩
      0 0 = .ok (.int 0) ∧
    reencode noEscapes (.int 0) = some (ascii "0") ∧ ascii "0" ≠ ascii "-0" ∧
    bytesSplit 44 (((ascii "[1,6]").drop 1).take ((ascii "[1,6]").length - 2))
      = [ascii "1", ascii "6"] ∧
    Dataframe.FieldAt asciiLib
      ⟨[⟨"A", "a", FieldTypeBoolean⟩, ⟨"B", "b", FieldTypeInt64⟩], [ascii "[1,6]"], none, none⟩
      0 0 = .ok (.bool true) ∧
    reencode noEscapes (.bool true) = some (ascii "true") ∧ ascii "true" ≠ ascii "1" ∧
    bytesSplit 44 (((ascii "[ \"a\",6]").drop 1).take ((ascii "[ \"a\",6]").length - 2))
      = [ascii " \"a\"", ascii "6"] ∧
    Dataframe.FieldAt asciiLib
      ⟨[⟨"A", "a", FieldTypeString⟩, ⟨"B", "b", FieldTypeInt64⟩], [ascii "[ \"a\",6]"],
        none, none⟩
      0 0 = .ok (.string (ascii "a")) ∧
    reencode noEscapes (.string (ascii "a")) = some (ascii "\"a\"") ∧
    ascii "\"a\"" ≠ ascii " \"a\"" :=
  ⟨by decide, rfl, rfl, by decide, by decide, rfl, rfl, by decide, by decide, rfl, by decide,
    by decide⟩

/-- The method `FieldAt` on a cell that is not the last field of its row: the
decoder of the declared type of the column applied to the text of the field. -/
theorem fieldAt_inner_field (lib : StdLib) (df : Dataframe) (col row : Nat) (buf text : Bytes)
    (c : Datafield) (hbuf : df.Data[row]? = some buf) (hlen : 2 ≤ buf.length)
    (hin : col + 1 < (bytesSplit 44 ((buf.drop 1).take (buf.length - 2))).length)
    (htext : (bytesSplit 44 ((buf.drop 1).take (buf.length - 2)))[col]? = some text)
    (hc : df.Columns[col]? = some c) :
    df.cellText (col : Int) (row : Int) = .ok (some text) ∧
    df.FieldAt lib (col : Int) (row : Int)
      = (if c.Typ = FieldTypeString then
          (df.decodeStringAt lib (col : Int) (row : Int) c.Code).map .string
        else if c.Typ = FieldTypeBytes then
          (df.decodeBytesAt lib (col : Int) (row : Int) c.Code).map (fun b => .bytes (some b))
        else if c.Typ = FieldTypeDate ∨ c.Typ = FieldTypeDatetime then
          df.decodeTimeAt (col : Int) (row : Int) c.Code
        else if c.Typ = FieldTypeBoolean then
          (df.decodeBoolAt (col : Int) (row : Int) c.Code).map .bool
        else if c.Typ = FieldTypeFloat64 then
          (df.decodeFloat64At lib (col : Int) (row : Int) c.Code).map .float
        else if c.Typ = FieldTypeInt64 then
          (df.decodeInt64At (col : Int) (row : Int) c.Code).map .int
        else if c.Typ = FieldTypeUint64 then
          (df.decodeUint64At (col : Int) (row : Int) c.Code).map .uint
        else .err (.noMethodColumn c.Code c.Typ)) := by
  constructor
  · obtain ⟨f, hf, hcell⟩ := cellText_inner_field df col row buf hbuf hlen hin
    rw [htext] at hf
    cases hf
    exact hcell
  · have hcl : col < df.Columns.length := by
      by_contra hn
      rw [List.getElem?_eq_none (by omega)] at hc
      cases hc
    have hrl : row < df.Data.length := by
      by_contra hn
      rw [List.getElem?_eq_none (by omega)] at hbuf
      cases hbuf
    have g1 : ¬ ((df.Columns.length : Int) < (col : Int)) := by omega
    have g2 : ¬ ((df.Data.length : Int) < (row : Int)) := by omega
    have g3 : ¬ ((col : Int) < 0) := by omega
    unfold Dataframe.FieldAt
    rw [if_neg g1, if_neg g2, if_neg g3]
    simp only [Int.toNat_ofNat, hc]

/-- C12 (amended): for every Dataframe, row with a payload of at least two bytes
and cell of a column declared `string`, `bytes`, `int64`, `uint64`, `boolean`,
`date` or `datetime` that is not the last field of the row and on which
`FieldAt` succeeds: the re-encoding of the decoded value (quoted string
literal, quoted lower-case hex, base-10 digits, `true` / `false`, base-10 epoch
milliseconds) is the text of the field exactly when that text is canonical for
the declared type. `TrimSpace` and `Unquote` are any functions that leave a text
between double quotes untrimmed and unquote it to the bytes in between when
these need no escape sequence. -/
theorem C12_round_trip_canonical (lib : StdLib) (hlib : lib.PlainQuotes)
    (quote : Bytes → Bytes) (df : Dataframe) (col row : Nat)
    (buf text : Bytes) (c : Datafield) (x : Value) (hbuf : df.Data[row]? = some buf)
    (hlen : 2 ≤ buf.length)
    (hin : col + 1 < (bytesSplit 44 ((buf.drop 1).take (buf.length - 2))).length)
    (htext : (bytesSplit 44 ((buf.drop 1).take (buf.length - 2)))[col]? = some text)
    (hc : df.Columns[col]? = some c)
    (hty : c.Typ = FieldTypeString ∨ c.Typ = FieldTypeBytes ∨ c.Typ = FieldTypeInt64 ∨
      c.Typ = FieldTypeUint64 ∨ c.Typ = FieldTypeBoolean ∨ c.Typ = FieldTypeDate ∨
      c.Typ = FieldTypeDatetime)
    (hok : df.FieldAt lib (col : Int) (row : Int) = .ok x) :
    reencode quote x = some text ↔ canonicalText lib quote c.Typ text = true := by
  obtain ⟨hcell, hfa⟩ := fieldAt_inner_field lib df col row buf text c hbuf hlen hin htext hc
  rw [hfa] at hok
  rcases hty with h | h | h | h | h | h | h
  · -- string
    rw [h] at hok ⊢
    have hok2 : (df.decodeStringAt lib (col : Int) (row : Int) c.Code).map Value.string
        = .ok x := hok
    unfold Dataframe.decodeStringAt Dataframe.cell at hok2
    rw [hcell] at hok2
    simp only [] at hok2
    unfold StdLib.unquote at hok2
    cases hu : lib.Unquote (lib.TrimSpace text) with
    | none => rw [hu] at hok2; cases hok2
    | some s =>
      rw [hu] at hok2
      cases hok2
      have hct : canonicalText lib quote FieldTypeString text
          = canonicalString lib quote text := rfl
      rw [hct, ← quoteLiteral_canonical lib hlib quote text s hu]
      simp [reencode]
  · -- bytes
    rw [h] at hok ⊢
    have hok2 : (df.decodeBytesAt lib (col : Int) (row : Int) c.Code).map
        (fun b => Value.bytes (some b)) = .ok x := hok
    unfold Dataframe.decodeBytesAt Dataframe.cell at hok2
    rw [hcell] at hok2
    simp only [] at hok2
    unfold StdLib.unquote at hok2
    cases hu : lib.Unquote (lib.TrimSpace text) with
    | none => rw [hu] at hok2; cases hok2
    | some u =>
      rw [hu] at hok2
      simp only [] at hok2
      cases hd : hexDecodeString u with
      | error e => rw [hd] at hok2; cases hok2
      | ok b =>
        rw [hd] at hok2
        cases hok2
        have hct : canonicalText lib quote FieldTypeBytes text = canonicalBytes text := rfl
        rw [hct, ← hexLiteral_canonical lib hlib text u b hu hd]
        simp [reencode]
  · -- int64
    rw [h] at hok ⊢
    have hok2 : (df.decodeInt64At (col : Int) (row : Int) c.Code).map Value.int = .ok x := hok
    unfold Dataframe.decodeInt64At Dataframe.cell at hok2
    rw [hcell] at hok2
    simp only [] at hok2
    cases hp : ParseInt text 64 with
    | error e => rw [hp] at hok2; cases hok2
    | ok v =>
      rw [hp] at hok2
      cases hok2
      have hnv := ((parseInt_ok text 64 (by decide) (by decide) v).mp hp).1
      have hct : canonicalText lib quote FieldTypeInt64 text = canonicalInt text := rfl
      rw [hct, ← formatInt_numeralValue text v hnv]
      simp [reencode]
  · -- uint64
    rw [h] at hok ⊢
    have hok2 : (df.decodeUint64At (col : Int) (row : Int) c.Code).map Value.uint = .ok x := hok
    unfold Dataframe.decodeUint64At Dataframe.cell at hok2
    rw [hcell] at hok2
    simp only [] at hok2
    cases hp : ParseUint text 64 with
    | error e => rw [hp] at hok2; cases hok2
    | ok n =>
      rw [hp] at hok2
      cases hok2
      obtain ⟨hd, hv, _⟩ := (parseUint_ok text 64 (by decide) n).mp hp
      have hct : canonicalText lib quote FieldTypeUint64 text = canonicalUint text := rfl
      rw [hct, ← formatUint_decimalValue text hd, hv]
      simp [reencode]
  · -- boolean
    rw [h] at hok ⊢
    have hok2 : (df.decodeBoolAt (col : Int) (row : Int) c.Code).map Value.bool = .ok x := hok
    unfold Dataframe.decodeBoolAt Dataframe.cell at hok2
    rw [hcell] at hok2
    simp only [] at hok2
    cases hp : ParseBool text with
    | error e => rw [hp] at hok2; cases hok2
    | ok b =>
      rw [hp] at hok2
      cases hok2
      have hct : canonicalText lib quote FieldTypeBoolean text
          = decide (text = ascii "true" ∨ text = ascii "false") := rfl
      rw [hct, decide_eq_true_eq, ← formatBool_parseBool text b hp]
      simp [reencode]
  all_goals
    -- date, datetime
    rw [h] at hok ⊢
    have hok2 : df.decodeTimeAt (col : Int) (row : Int) c.Code = .ok x := hok
    unfold Dataframe.decodeTimeAt at hok2
    rw [hcell] at hok2
    simp only [] at hok2
    cases hp : ParseInt text 64 with
    | error e => rw [hp] at hok2; cases hok2
    | ok ms =>
      rw [hp] at hok2
      cases hok2
      obtain ⟨hnv, hlo, hhi⟩ := (parseInt_ok text 64 (by decide) (by decide) ms).mp hp
      have hms := timeOfMillis_millis ms (by simpa using hlo) (by simpa using hhi)
      have hre : reencode quote (timeOfMillis ms)
          = some (formatInt (Int.ediv (wrapInt64 (ms * 1000000)) 1000000000 * 1000
              + Int.emod (wrapInt64 (ms * 1000000)) 1000000000 / 1000000)) := rfl
      have hct : ∀ typ, (typ = FieldTypeDate ∨ typ = FieldTypeDatetime) →
          canonicalText lib quote typ text = (canonicalInt text &&
            decide (-9223372036854 ≤ ms ∧ ms ≤ 9223372036854)) := by
        intro typ ht
        rcases ht with ht | ht <;> subst ht <;> simp only [canonicalText, hnv] <;> rfl
      rw [hre, hct _ (by first | exact Or.inl rfl | exact Or.inr rfl)]
      simp only [Option.some.injEq, Bool.and_eq_true, decide_eq_true_eq]
      constructor
      · intro hf
        have hspec := formatInt_spec (Int.ediv (wrapInt64 (ms * 1000000)) 1000000000 * 1000
              + Int.emod (wrapInt64 (ms * 1000000)) 1000000000 / 1000000)
        rw [hf, hnv] at hspec
        have heq := Option.some.inj hspec.1
        exact ⟨hspec.2, hms.mp heq.symm⟩
      · rintro ⟨hcan, hr⟩
        rw [hms.mpr hr]
        exact (formatInt_numeralValue text ms hnv).mpr hcan

/-- C12 (witness): with the library of the examples, which has the two
properties of quoted literals: in the row `[12345,6]` of two `int64` columns the
cell (0, 0) holds the canonical text `12345`, and its re-encoding is that text;
in the row `["ab",6]` with a `string` column the cell (0, 0) holds the canonical
text `"ab"`, which is the re-encoding of the string `ab` it decodes to; and in
the row `["00ff",6]` with a `bytes` column the cell (0, 0) holds the canonical
text `"00ff"`, which is the re-encoding of the two bytes 0 and 255. -/
theorem C12_round_trip_canonical_witness :
    asciiLib.PlainQuotes ∧
    Dataframe.FieldAt asciiLib
      ⟨[⟨"A", "a", FieldTypeInt64⟩, ⟨"B", "b", FieldTypeInt64⟩], [ascii "[12345,6]"], none, none⟩
      0 0 = .ok (.int 12345) ∧
    canonicalText asciiLib noEscapes FieldTypeInt64 (ascii "12345") = true ∧
    reencode noEscapes (.int 12345) = some (ascii "12345") ∧
    Dataframe.FieldAt asciiLib
      ⟨[⟨"A", "a", FieldTypeString⟩, ⟨"B", "b", FieldTypeInt64⟩], [ascii "[\"ab\",6]"],
        none, none⟩
      0 0 = .ok (.string (ascii "ab")) ∧
    canonicalText asciiLib noEscapes FieldTypeString (ascii "\"ab\"") = true ∧
    reencode noEscapes (.string (ascii "ab")) = some (ascii "\"ab\"") ∧
    Dataframe.FieldAt asciiLib
      ⟨[⟨"A", "a", FieldTypeBytes⟩, ⟨"B", "b", FieldTypeInt64⟩], [ascii "[\"00ff\",6]"],
        none, none⟩
      0 0 = .ok (.bytes (some [0, 255])) ∧
    canonicalText asciiLib noEscapes FieldTypeBytes (ascii "\"00ff\"") = true ∧
    reencode noEscapes (.bytes (some [0, 255])) = some (ascii "\"00ff\"") :=
  ⟨asciiLib_plainQuotes, rfl, by decide,
    (C12_round_trip_canonical asciiLib asciiLib_plainQuotes noEscapes
      ⟨[⟨"A", "a", FieldTypeInt64⟩, ⟨"B", "b", FieldTypeInt64⟩], [ascii "[12345,6]"], none, none⟩
      0 0 (ascii "[12345,6]") (ascii "12345") ⟨"A", "a", FieldTypeInt64⟩ (.int 12345) rfl
      (by decide) (by decide) (by decide) rfl (Or.inr (Or.inr (Or.inl rfl))) rfl).mpr
      (by decide),
    rfl, by decide,
    (C12_round_trip_canonical asciiLib asciiLib_plainQuotes noEscapes
      ⟨[⟨"A", "a", FieldTypeString⟩, ⟨"B", "b", FieldTypeInt64⟩], [ascii "[\"ab\",6]"],
        none, none⟩
      0 0 (ascii "[\"ab\",6]") (ascii "\"ab\"") ⟨"A", "a", FieldTypeString⟩
      (.string (ascii "ab")) rfl
      (by decide) (by decide) (by decide) rfl (Or.inl rfl) rfl).mpr (by decide),
    rfl, by decide,
    (C12_round_trip_canonical asciiLib asciiLib_plainQuotes noEscapes
      ⟨[⟨"A", "a", FieldTypeBytes⟩, ⟨"B", "b", FieldTypeInt64⟩], [ascii "[\"00ff\",6]"],
        none, none⟩
      0 0 (ascii "[\"00ff\",6]") (ascii "\"00ff\"") ⟨"A", "a", FieldTypeBytes⟩
      (.bytes (some [0, 255])) rfl
      (by decide) (by decide) (by decide) rfl (Or.inr (Or.inl rfl)) rfl).mpr (by decide)⟩

/-! ### The field a descriptor entry resolves to, and what binding it leaves -/

theorem Value.locate_cons (x : Nat) (xs : List Nat) (first : Bool) (t : GoType) (fl : Flag)
    (v : Value) :
    Value.locate (x :: xs) first t fl v
      = if first then
          Value.locate.field (fun t1 fl1 v1 => Value.locate xs false t1 fl1 v1) x t fl v
        else
          match t with
          | .ptr _ e =>
            if e.isStruct then
              match v with
              | .ptr none =>
                if fl.CanSet then
                  Value.locate.field (fun t1 fl1 v1 => Value.locate xs false t1 fl1 v1) x e
                    fl.elem (zeroValue e)
                else none
              | .ptr (some pv) =>
                Value.locate.field (fun t1 fl1 v1 => Value.locate xs false t1 fl1 v1) x e
                  fl.elem pv
              | _ => none
            else Value.locate.field (fun t1 fl1 v1 => Value.locate xs false t1 fl1 v1) x t fl v
          | _ => Value.locate.field (fun t1 fl1 v1 => Value.locate xs false t1 fl1 v1) x t fl v := by
  cases t <;> rfl

/-- The step `v.Field(x)` followed by `next` keeps the field located at an index
other than `x`, and at `x` when `next` keeps what is located there. -/
theorem field_locate_frame (next : GoType → Flag → Value → Res Unit × Value)
    (lnext : GoType → Flag → Value → Option (GoType × Flag × Value)) (x a : Nat) (t : GoType)
    (fl : Flag) (v : Value)
    (hnext : a = x → ∀ ty fl1 fv, lnext ty fl1 (next ty fl1 fv).2 = lnext ty fl1 fv) :
    Value.locate.field lnext a t fl (fieldInfo.value.field next x t fl v).2
      = Value.locate.field lnext a t fl v := by
  unfold fieldInfo.value.field
  cases hf : t.Field x with
  | none => rfl
  | some f =>
    cases v with
    | struct vs =>
      simp only []
      cases hx : vs[x]? with
      | none => rfl
      | some fv =>
        simp only []
        unfold Value.locate.field
        cases hfa : t.Field a with
        | none => rfl
        | some fa =>
          simp only []
          by_cases hax : a = x
          · subst hax
            have hlt : a < vs.length := by
              by_contra hn
              rw [List.getElem?_eq_none (by omega)] at hx
              cases hx
            rw [hf] at hfa
            cases hfa
            rw [List.getElem?_set_self hlt, hx]
            exact hnext rfl _ _ _
          · rw [List.getElem?_set_ne (fun e => hax e.symm)]
    | bool _ => rfl
    | int _ => rfl
    | uint _ => rfl
    | float _ => rfl
    | string _ => rfl
    | bytes _ => rfl
    | time _ _ => rfl
    | ptr _ => rfl
    | other _ => rfl

/-- Walking to the field at `idx` and running `k` there keeps the field located
at every path that parts ways with `idx`. -/
theorem locate_frame (k : GoType → Flag → Value → Res Unit × Value) :
    ∀ (idx : List Nat) (first : Bool) (t : GoType) (fl : Flag) (v : Value) (p : List Nat),
      diverge p idx = true →
        Value.locate p first t fl (fieldInfo.value k idx first t fl v).2
          = Value.locate p first t fl v := by
  intro idx
  induction idx with
  | nil =>
    intro first t fl v p hd
    rw [diverge_nil_right] at hd
    cases hd
  | cons x xs ih =>
    intro first t fl v p hd
    cases p with
    | nil => rw [diverge_nil_left] at hd; cases hd
    | cons a p =>
      rw [diverge_cons] at hd
      have hstep : ∀ t1 fl1 v1,
          Value.locate.field (fun t2 fl2 v2 => Value.locate p false t2 fl2 v2) a t1 fl1
            (fieldInfo.value.field
              (fun t1 fl1 v1 => fieldInfo.value k xs false t1 fl1 v1) x t1 fl1 v1).2
          = Value.locate.field (fun t2 fl2 v2 => Value.locate p false t2 fl2 v2) a t1 fl1 v1 := by
        intro t1 fl1 v1
        apply field_locate_frame
        intro hax ty fl2 fv
        rw [if_pos hax] at hd
        exact ih false ty fl2 fv p hd
      rw [fieldInfo.value_cons, Value.locate_cons, Value.locate_cons]
      cases first with
      | true => exact hstep t fl v
      | false =>
        simp only [Bool.false_eq_true, if_false]
        cases t with
        | ptr m e =>
          simp only []
          by_cases hs : e.isStruct = true
          · simp only [if_pos hs]
            cases v with
            | ptr target =>
              cases target with
              | none =>
                simp only []
                by_cases hcs : fl.CanSet = true
                · rw [if_pos hcs]
                  simp only [if_pos hcs]
                  exact hstep e fl.elem (zeroValue e)
                · rw [if_neg hcs]
              | some pv =>
                simp only []
                exact hstep e fl.elem pv
            | struct vs => rfl
            | bool _ => rfl
            | int _ => rfl
            | uint _ => rfl
            | float _ => rfl
            | string _ => rfl
            | bytes _ => rfl
            | time _ _ => rfl
            | other _ => rfl
          · simp only [if_neg hs]
            exact hstep _ fl v
        | bool _ => exact hstep _ fl v
        | int _ _ => exact hstep _ fl v
        | uint _ _ => exact hstep _ fl v
        | float _ _ => exact hstep _ fl v
        | string _ => exact hstep _ fl v
        | slice _ _ => exact hstep _ fl v
        | struct _ _ => exact hstep _ fl v
        | time => exact hstep _ fl v
        | other _ _ => exact hstep _ fl v

/-- The step `v.Field(x)` followed by `next` does on the field what `next` does. -/
theorem field_own (k : GoType → Flag → Value → Res Unit × Value)
    (next : GoType → Flag → Value → Res Unit × Value)
    (lnext : GoType → Flag → Value → Option (GoType × Flag × Value))
    (rnext : GoType → Value → Option Value) (x : Nat) (t : GoType) (fl : Flag) (v : Value)
    (h : ∀ ty fl1 fv, OwnSpec k (next ty fl1 fv).1 (lnext ty fl1 fv)
      (rnext ty (next ty fl1 fv).2)) :
    OwnSpec k (fieldInfo.value.field next x t fl v).1 (Value.locate.field lnext x t fl v)
      (Value.read.field rnext x t (fieldInfo.value.field next x t fl v).2) := by
  unfold fieldInfo.value.field Value.locate.field
  cases hf : t.Field x with
  | none => exact ⟨_, rfl⟩
  | some f =>
    cases v with
    | struct vs =>
      simp only []
      cases hx : vs[x]? with
      | none => exact ⟨_, rfl⟩
      | some fv =>
        simp only []
        have hlt : x < vs.length := by
          by_contra hn
          rw [List.getElem?_eq_none (by omega)] at hx
          cases hx
        have hr : Value.read.field rnext x t
            (Value.struct (vs.set x (next f.Typ (fl.field f) fv).2))
            = rnext f.Typ (next f.Typ (fl.field f) fv).2 := by
          unfold Value.read.field
          rw [hf]
          simp only []
          rw [List.getElem?_set_self hlt]
        rw [hr]
        exact h _ _ _
    | bool _ => exact ⟨_, rfl⟩
    | int _ => exact ⟨_, rfl⟩
    | uint _ => exact ⟨_, rfl⟩
    | float _ => exact ⟨_, rfl⟩
    | string _ => exact ⟨_, rfl⟩
    | bytes _ => exact ⟨_, rfl⟩
    | time _ _ => exact ⟨_, rfl⟩
    | ptr _ => exact ⟨_, rfl⟩
    | other _ => exact ⟨_, rfl⟩

/-- Walking to the field at `idx` and running `k` there gives the result of `k`
on the field the path resolves to, and leaves in the field what `k` left. -/
theorem value_own (k : GoType → Flag → Value → Res Unit × Value) :
    ∀ (idx : List Nat) (first : Bool) (t : GoType) (fl : Flag) (v : Value),
      OwnSpec k (fieldInfo.value k idx first t fl v).1 (Value.locate idx first t fl v)
        (Value.read idx first t (fieldInfo.value k idx first t fl v).2) := by
  intro idx
  induction idx with
  | nil =>
    intro first t fl v
    exact ⟨rfl, rfl⟩
  | cons x xs ih =>
    intro first t fl v
    have hstep : ∀ t1 fl1 v1,
        OwnSpec k
          (fieldInfo.value.field (fun t1 fl1 v1 => fieldInfo.value k xs false t1 fl1 v1)
            x t1 fl1 v1).1
          (Value.locate.field (fun t2 fl2 v2 => Value.locate xs false t2 fl2 v2) x t1 fl1 v1)
          (Value.read.field (fun t2 v2 => Value.read xs false t2 v2) x t1
            (fieldInfo.value.field (fun t1 fl1 v1 => fieldInfo.value k xs false t1 fl1 v1)
              x t1 fl1 v1).2) := by
      intro t1 fl1 v1
      apply field_own
      intro ty fl2 fv
      exact ih false ty fl2 fv
    rw [fieldInfo.value_cons, Value.locate_cons, Value.read_cons]
    cases first with
    | true => exact hstep t fl v
    | false =>
      simp only [Bool.false_eq_true, if_false]
      cases t with
      | ptr m e =>
        simp only []
        by_cases hs : e.isStruct = true
        · simp only [if_pos hs]
          cases v with
          | ptr target =>
            cases target with
            | none =>
              simp only []
              by_cases hcs : fl.CanSet = true
              · simp only [if_pos hcs]
                exact hstep e fl.elem (zeroValue e)
              · simp only [if_neg hcs]
                exact ⟨_, rfl⟩
            | some pv =>
              simp only []
              exact hstep e fl.elem pv
          | struct vs => exact ⟨_, rfl⟩
          | bool _ => exact ⟨_, rfl⟩
          | int _ => exact ⟨_, rfl⟩
          | uint _ => exact ⟨_, rfl⟩
          | float _ => exact ⟨_, rfl⟩
          | string _ => exact ⟨_, rfl⟩
          | bytes _ => exact ⟨_, rfl⟩
          | time _ _ => exact ⟨_, rfl⟩
          | other _ => exact ⟨_, rfl⟩
        · simp only [if_neg hs]
          exact hstep _ fl v
      | bool _ => exact hstep _ fl v
      | int _ _ => exact hstep _ fl v
      | uint _ _ => exact hstep _ fl v
      | float _ _ => exact hstep _ fl v
      | string _ => exact hstep _ fl v
      | slice _ _ => exact hstep _ fl v
      | struct _ _ => exact hstep _ fl v
      | time => exact hstep _ fl v
      | other _ _ => exact hstep _ fl v

/-- One step of the loop of `decodeAt` does what `bindField` says: its result,
and the value the field holds afterwards; it panics where the field does not
resolve. -/
theorem step_own (lib : StdLib) (cu : Custom) (name : String) (raw : Option Bytes)
    (idx : List Nat) (t : GoType) (fl : Flag) (v : Value) :
    (∀ r w, bindField lib cu name raw idx t fl v = some (r, w) →
      (fieldInfo.value (decodeValue lib cu name raw) idx true t fl v).1 = r ∧
      Value.read idx true t (fieldInfo.value (decodeValue lib cu name raw) idx true t fl v).2
        = some w) ∧
    (bindField lib cu name raw idx t fl v = none →
      ∃ p, (fieldInfo.value (decodeValue lib cu name raw) idx true t fl v).1 = .panic p) := by
  have h := value_own (decodeValue lib cu name raw) idx true t fl v
  unfold bindField
  cases hl : Value.locate idx true t fl v with
  | none =>
    rw [hl] at h
    exact ⟨fun r w hh => (by cases hh), fun _ => h⟩
  | some loc =>
    obtain ⟨ty, fl1, old⟩ := loc
    rw [hl] at h
    refine ⟨?_, fun hh => (by cases hh)⟩
    intro r w hh
    simp only [Option.some.injEq] at hh
    obtain ⟨h1, h2⟩ := h
    rw [hh] at h1 h2
    exact ⟨h1, h2⟩

/-- What `bindField` gives depends on the record only through the field the
path resolves to. -/
theorem bindField_congr (lib : StdLib) (cu : Custom) (name : String) (raw : Option Bytes)
    (idx : List Nat) (t : GoType) (fl : Flag) (v v0 : Value)
    (h : Value.locate idx true t fl v = Value.locate idx true t fl v0) :
    bindField lib cu name raw idx t fl v = bindField lib cu name raw idx t fl v0 := by
  unfold bindField
  rw [h]

/-- The loop of `decodeAt` over fields that all bind without error: it goes on
with the remaining fields on a record in which every bound field holds its
decoded value and everything apart from the bound fields is as before. -/
theorem loop_forward (lib : StdLib) (cu : Custom) (df : Dataframe) (cols : List Bytes)
    (t : GoType) (fl : Flag) (v0 : Value) :
    ∀ (pre rest : List fieldInfo) (v : Value),
      (pre ++ rest).Pairwise (fun a b => diverge a.idx b.idx = true) →
      (∀ fj, fj ∈ pre ++ rest →
        Value.locate fj.idx true t fl v = Value.locate fj.idx true t fl v0) →
      (∀ fj, fj ∈ pre → 0 ≤ df.columnIndex fj.name →
        ∃ w, bindField lib cu fj.name cols[(df.columnIndex fj.name).toNat]? fj.idx t fl v0
          = some (.ok (), w)) →
      ∃ v1, decodeAt.loop lib cu df cols t fl (pre ++ rest) v
          = decodeAt.loop lib cu df cols t fl rest v1 ∧
        (∀ fj, fj ∈ rest →
          Value.locate fj.idx true t fl v1 = Value.locate fj.idx true t fl v0) ∧
        (∀ fj, fj ∈ pre → 0 ≤ df.columnIndex fj.name → ∀ w,
          bindField lib cu fj.name cols[(df.columnIndex fj.name).toNat]? fj.idx t fl v0
            = some (.ok (), w) → Value.read fj.idx true t v1 = some w) ∧
        (∀ p, (∀ fj, fj ∈ pre → 0 ≤ df.columnIndex fj.name → diverge p fj.idx = true) →
          Value.read p true t v1 = Value.read p true t v) := by
  intro pre
  induction pre with
  | nil =>
    intro rest v _ hinv _
    exact ⟨v, rfl, hinv, fun fj h => (by cases h), fun p _ => rfl⟩
  | cons f pre ih =>
    intro rest v hpw hinv hok
    rw [List.cons_append, List.pairwise_cons] at hpw
    obtain ⟨hf, hpw2⟩ := hpw
    have hinv2 : ∀ fj, fj ∈ pre ++ rest →
        Value.locate fj.idx true t fl v = Value.locate fj.idx true t fl v0 :=
      fun fj h => hinv fj (List.mem_cons_of_mem _ h)
    have hok2 : ∀ fj, fj ∈ pre → 0 ≤ df.columnIndex fj.name →
        ∃ w, bindField lib cu fj.name cols[(df.columnIndex fj.name).toNat]? fj.idx t fl v0
          = some (.ok (), w) :=
      fun fj h => hok fj (List.mem_cons_of_mem _ h)
    by_cases hcol : df.columnIndex f.name < 0
    · have hl : decodeAt.loop lib cu df cols t fl (f :: pre ++ rest) v
          = decodeAt.loop lib cu df cols t fl (pre ++ rest) v := by
        simp only [List.cons_append, decodeAt.loop, if_pos hcol]
        rfl
      obtain ⟨v1, h1, h2, h3, h4⟩ := ih rest v hpw2 hinv2 hok2
      refine ⟨v1, by rw [hl, h1], h2, ?_, ?_⟩
      · intro fj hfj hc w hw
        rcases List.mem_cons.mp hfj with he | hm
        · subst he; omega
        · exact h3 fj hm hc w hw
      · intro p hp
        exact h4 p (fun fj hm => hp fj (List.mem_cons_of_mem _ hm))
    · have hc0 : 0 ≤ df.columnIndex f.name := by omega
      obtain ⟨w, hw⟩ := hok f (List.mem_cons_self _ _) hc0
      have hb := bindField_congr lib cu f.name cols[(df.columnIndex f.name).toNat]? f.idx t fl
        v v0 (hinv f (List.mem_cons_self _ _))
      obtain ⟨hs, _⟩ := step_own lib cu f.name cols[(df.columnIndex f.name).toNat]? f.idx t fl v
      obtain ⟨hs1, hs2⟩ := hs (.ok ()) w (by rw [hb, hw])
      have hl : decodeAt.loop lib cu df cols t fl (f :: pre ++ rest) v
          = decodeAt.loop lib cu df cols t fl (pre ++ rest)
            (fieldInfo.value (decodeValue lib cu f.name cols[(df.columnIndex f.name).toNat]?)
              f.idx true t fl v).2 := by
        simp only [List.cons_append, decodeAt.loop, if_neg hcol]
        split
        · rename_i u v1 heq
          rw [heq]
          rfl
        · rename_i r v1 hne heq
          rw [heq] at hs1
          exact absurd hs1 (hne ())
      have hinv3 : ∀ fj, fj ∈ pre ++ rest →
          Value.locate fj.idx true t fl
            (fieldInfo.value (decodeValue lib cu f.name cols[(df.columnIndex f.name).toNat]?)
              f.idx true t fl v).2 = Value.locate fj.idx true t fl v0 := by
        intro fj hfj
        rw [locate_frame _ f.idx true t fl v fj.idx (by rw [diverge_symm]; exact hf fj hfj)]
        exact hinv2 fj hfj
      obtain ⟨v1, h1, h2, h3, h4⟩ := ih rest _ hpw2 hinv3 hok2
      refine ⟨v1, by rw [hl, h1], h2, ?_, ?_⟩
      · intro fj hfj hc w2 hw2
        rcases List.mem_cons.mp hfj with he | hm
        · subst he
          rw [hw] at hw2
          cases hw2
          rw [h4 fj.idx (fun fk hk _ => hf fk (List.mem_append_left _ hk))]
          exact hs2
        · exact h3 fj hm hc w2 hw2
      · intro p hp
        rw [h4 p (fun fj hm => hp fj (List.mem_cons_of_mem _ hm))]
        exact value_frame _ f.idx true t fl v p (hp f (List.mem_cons_self _ _) hc0)

/-- A list either has a property at every element or has a first element
without it. -/
theorem first_without {α : Type} (P : α → Prop) : ∀ L : List α,
    (∀ x, x ∈ L → P x) ∨
      ∃ pre x post, L = pre ++ x :: post ∧ (∀ y, y ∈ pre → P y) ∧ ¬ P x := by
  intro L
  induction L with
  | nil => exact Or.inl (fun x h => (by cases h))
  | cons a L ih =>
    by_cases ha : P a
    · rcases ih with h | ⟨pre, x, post, h1, h2, h3⟩
      · left
        intro x hx
        rcases List.mem_cons.mp hx with he | hm
        · rw [he]; exact ha
        · exact h x hm
      · right
        refine ⟨a :: pre, x, post, by rw [h1]; rfl, ?_, h3⟩
        intro y hy
        rcases List.mem_cons.mp hy with he | hm
        · rw [he]; exact ha
        · exact h2 y hm
    · exact Or.inr ⟨[], a, L, rfl, fun y h => (by cases h), ha⟩

/-- The loop of `decodeAt` ends with the first step that does not succeed. -/
theorem loop_cons_stop (lib : StdLib) (cu : Custom) (df : Dataframe) (cols : List Bytes)
    (t : GoType) (fl : Flag) (fi : fieldInfo) (post : List fieldInfo) (v : Value)
    (hc : 0 ≤ df.columnIndex fi.name)
    (hs : ∀ u, (fieldInfo.value (decodeValue lib cu fi.name
      cols[(df.columnIndex fi.name).toNat]?) fi.idx true t fl v).1 ≠ .ok u) :
    decodeAt.loop lib cu df cols t fl (fi :: post) v
      = fieldInfo.value (decodeValue lib cu fi.name cols[(df.columnIndex fi.name).toNat]?)
          fi.idx true t fl v := by
  have hcol : ¬ df.columnIndex fi.name < 0 := by omega
  simp only [decodeAt.loop, if_neg hcol]

/-- The outcome of the loop of `decodeAt` over fields whose paths part ways
pairwise. Either every field with a column binds without error: the loop
succeeds and every such field holds its decoded value. Or there is a first
field with a column whose binding does not succeed: the loop ends with the
result of that binding, the fields with a column before it hold their decoded
values, the field holds what its binding left, and everything apart from these
fields is as before. -/
theorem loop_outcome (lib : StdLib) (cu : Custom) (df : Dataframe) (cols : List Bytes)
    (t : GoType) (fl : Flag) (L : List fieldInfo) (v : Value)
    (hpw : L.Pairwise (fun a b => diverge a.idx b.idx = true)) :
    ((∀ fj, fj ∈ L → 0 ≤ df.columnIndex fj.name →
        ∃ w, decodeAt.bind lib cu df cols t fl v fj = some (.ok (), w) ∧
          Value.read fj.idx true t (decodeAt.loop lib cu df cols t fl L v).2 = some w) ∧
      (decodeAt.loop lib cu df cols t fl L v).1 = .ok ()) ∨
    ∃ pre fi post, L = pre ++ fi :: post ∧ 0 ≤ df.columnIndex fi.name ∧
      (∀ fj, fj ∈ pre → 0 ≤ df.columnIndex fj.name →
        ∃ w, decodeAt.bind lib cu df cols t fl v fj = some (.ok (), w) ∧
          Value.read fj.idx true t (decodeAt.loop lib cu df cols t fl L v).2 = some w) ∧
      ((∃ r w, decodeAt.bind lib cu df cols t fl v fi = some (r, w) ∧ (∀ u, r ≠ .ok u) ∧
          (decodeAt.loop lib cu df cols t fl L v).1 = r ∧
          Value.read fi.idx true t (decodeAt.loop lib cu df cols t fl L v).2 = some w) ∨
        (decodeAt.bind lib cu df cols t fl v fi = none ∧
          ∃ p, (decodeAt.loop lib cu df cols t fl L v).1 = .panic p)) ∧
      (∀ p, (∀ fj, fj ∈ pre → 0 ≤ df.columnIndex fj.name → diverge p fj.idx = true) →
        diverge p fi.idx = true →
        Value.read p true t (decodeAt.loop lib cu df cols t fl L v).2
          = Value.read p true t v) := by
  rcases first_without (fun fj => 0 ≤ df.columnIndex fj.name →
      ∃ w, decodeAt.bind lib cu df cols t fl v fj = some (.ok (), w)) L with hall | hfail
  · left
    have hpw2 : (L ++ []).Pairwise (fun a b : fieldInfo => diverge a.idx b.idx = true) := by
      rw [List.append_nil]; exact hpw
    obtain ⟨v1, h1, _, h3, _⟩ := loop_forward lib cu df cols t fl v L [] v hpw2
      (fun _ _ => rfl) hall
    rw [List.append_nil] at h1
    have hl : decodeAt.loop lib cu df cols t fl L v = (.ok (), v1) := by rw [h1]; rfl
    rw [hl]
    refine ⟨?_, rfl⟩
    intro fj hfj hc
    obtain ⟨w, hw⟩ := hall fj hfj hc
    exact ⟨w, hw, h3 fj hfj hc w hw⟩
  · right
    obtain ⟨pre, fi, post, hL, hpre, hfi⟩ := hfail
    have hc : 0 ≤ df.columnIndex fi.name := by
      by_contra hn
      exact hfi (fun h => absurd h hn)
    have hnok : ∀ w, decodeAt.bind lib cu df cols t fl v fi ≠ some (.ok (), w) :=
      fun w hw => hfi (fun _ => ⟨w, hw⟩)
    subst hL
    obtain ⟨v1, h1, h2, h3, h4⟩ := loop_forward lib cu df cols t fl v pre (fi :: post) v hpw
      (fun _ _ => rfl) hpre
    have hdiv : ∀ fj, fj ∈ pre → diverge fj.idx fi.idx = true := by
      intro fj hfj
      exact (List.pairwise_append.mp hpw).2.2 fj hfj fi (List.mem_cons_self _ _)
    have hb := bindField_congr lib cu fi.name cols[(df.columnIndex fi.name).toNat]? fi.idx t fl
      v1 v (h2 fi (List.mem_cons_self _ _))
    obtain ⟨hs, hp⟩ := step_own lib cu fi.name cols[(df.columnIndex fi.name).toNat]? fi.idx t
      fl v1
    rw [hb] at hs hp
    have hfr : ∀ p, diverge p fi.idx = true →
        Value.read p true t (fieldInfo.value (decodeValue lib cu fi.name
          cols[(df.columnIndex fi.name).toNat]?) fi.idx true t fl v1).2
          = Value.read p true t v1 :=
      fun p hp => value_frame _ fi.idx true t fl v1 p hp
    have hstop : (∀ u, (fieldInfo.value (decodeValue lib cu fi.name
        cols[(df.columnIndex fi.name).toNat]?) fi.idx true t fl v1).1 ≠ .ok u) →
        decodeAt.loop lib cu df cols t fl (pre ++ fi :: post) v
          = fieldInfo.value (decodeValue lib cu fi.name cols[(df.columnIndex fi.name).toNat]?)
              fi.idx true t fl v1 := by
      intro hne
      rw [h1]
      exact loop_cons_stop lib cu df cols t fl fi post v1 hc hne
    cases hbind : bindField lib cu fi.name cols[(df.columnIndex fi.name).toNat]? fi.idx t fl v
      with
    | none =>
      obtain ⟨p, hpp⟩ := hp hbind
      have hne : ∀ u, (fieldInfo.value (decodeValue lib cu fi.name
          cols[(df.columnIndex fi.name).toNat]?) fi.idx true t fl v1).1 ≠ .ok u := by
        intro u h
        rw [hpp] at h
        cases h
      rw [hstop hne]
      refine ⟨pre, fi, post, rfl, hc, ?_, Or.inr ⟨hbind, p, hpp⟩, ?_⟩
      · intro fj hfj hcj
        obtain ⟨w, hw⟩ := hpre fj hfj hcj
        refine ⟨w, hw, ?_⟩
        rw [hfr fj.idx (hdiv fj hfj)]
        exact h3 fj hfj hcj w hw
      · intro p2 hp2 hp3
        rw [hfr p2 hp3]
        exact h4 p2 hp2
    | some rw0 =>
      obtain ⟨r, w⟩ := rw0
      obtain ⟨hs1, hs2⟩ := hs r w hbind
      have hrne : ∀ u, r ≠ .ok u := by
        intro u hu
        cases u
        rw [hu] at hbind
        exact hnok w hbind
      have hne : ∀ u, (fieldInfo.value (decodeValue lib cu fi.name
          cols[(df.columnIndex fi.name).toNat]?) fi.idx true t fl v1).1 ≠ .ok u := by
        intro u h
        rw [hs1] at h
        exact hrne u h
      rw [hstop hne]
      refine ⟨pre, fi, post, rfl, hc, ?_, Or.inl ⟨r, w, hbind, hrne, hs1, hs2⟩, ?_⟩
      · intro fj hfj hcj
        obtain ⟨w2, hw2⟩ := hpre fj hfj hcj
        refine ⟨w2, hw2, ?_⟩
        rw [hfr fj.idx (hdiv fj hfj)]
        exact h3 fj hfj hcj w2 hw2
      · intro p2 hp2 hp3
        rw [hfr p2 hp3]
        exact h4 p2 hp2

/-- The column map built by the loop has an entry for every column code. -/
theorem buildColmap_lookup_mem (name : String) : ∀ (cols : List Datafield) (i : Nat)
    (m : List (String × Nat)),
    (name ∈ cols.map (fun c => c.Code) ∨ ∃ k, m.lookup name = some k) →
    ∃ k, (buildColmap cols i m).lookup name = some k := by
  intro cols
  induction cols with
  | nil =>
    intro i m h
    rcases h with h | h
    · simp at h
    · exact h
  | cons c rest ih =>
    intro i m h
    rw [buildColmap]
    apply ih
    by_cases hn : name = c.Code
    · right
      have hb : (name == c.Code) = true := by simpa using hn
      exact ⟨i, by simp [List.lookup, hb]⟩
    · have hb : (name == c.Code) = false := by simpa using hn
      rcases h with h | ⟨k, hk⟩
      · left
        simp only [List.map_cons, List.mem_cons] at h
        rcases h with h | h
        · exact absurd h hn
        · exact h
      · right
        exact ⟨k, by simp [List.lookup, hb, hk]⟩

/-- A wire name is bound to a column exactly when it is the code of a column. -/
theorem columnOf_nonneg_iff (df : Dataframe) (name : String) :
    0 ≤ df.columnOf name ↔ name ∈ df.codes := by
  constructor
  · intro h
    by_contra hn
    have := buildColmap_lookup_not_mem name df.Columns 0 [] hn
    unfold Dataframe.columnOf at h
    rw [this] at h
    simp at h
  · intro h
    obtain ⟨k, hk⟩ := buildColmap_lookup_mem name df.Columns 0 [] (Or.inl h)
    unfold Dataframe.columnOf
    rw [hk]
    simp

theorem columnIndex_withShape (df : Dataframe) (t : GoType) (name : String) :
    (df.withShape t).columnIndex name = df.columnOf name := rfl

/-- On a row that exists and has a payload of two bytes at least, the text of a
bound column is the field at its index. -/
theorem fieldText_eq (df : Dataframe) (row : Int) (buf : Bytes) (name : String)
    (h0 : 0 ≤ row) (hb : df.Data[row.toNat]? = some buf) (hl : 2 ≤ buf.length)
    (hc : 0 ≤ df.columnOf name) :
    df.fieldText row name
      = (bytesSplit 44 ((buf.drop 1).take (buf.length - 2)))[(df.columnOf name).toNat]? := by
  unfold Dataframe.fieldText
  have g1 : ¬ (row < 0 ∨ df.columnOf name < 0) := by omega
  have g2 : ¬ (buf.length < 2) := by omega
  rw [if_neg g1, hb]
  simp only []
  rw [if_neg g2]

/-- On such a row the binding of a bound field inside the loop of `decodeAt` is
`Dataframe.bind`. -/
theorem bind_eq (lib : StdLib) (cu : Custom) (df : Dataframe) (row : Int) (buf : Bytes)
    (t : GoType) (v : Value) (fi : fieldInfo) (h0 : 0 ≤ row)
    (hb : df.Data[row.toNat]? = some buf) (hl : 2 ≤ buf.length)
    (hc : 0 ≤ (df.withShape t).columnIndex fi.name) :
    decodeAt.bind lib cu (df.withShape t)
        (bytesSplit 44 ((buf.drop 1).take (buf.length - 2))) t ⟨true, false, false⟩ v fi
      = df.bind lib cu row t v fi := by
  unfold decodeAt.bind Dataframe.bind
  rw [fieldText_eq df row buf fi.name h0 hb hl hc]
  rfl

/-- When the Dataframe fits the shape of the destination, the shape resolves and
the row exists with a payload of two bytes at least, `DecodeAt` is the loop of
`decodeAt` over the bindable fields of the shape. -/
theorem DecodeAt_loop (lib : StdLib) (cu : Custom) (cache : TinfoMap) (df : Dataframe)
    (row : Int) (pm : TypeMeta) (t : GoType) (v : Value) (hfit : df.FitsShape t)
    (hok : df.tinfo = none → (getReflectTypeInfo cache t).1 = .ok (descriptorOf t))
    (buf : Bytes) (h0 : 0 ≤ row) (hb : df.Data[row.toNat]? = some buf) (hl : 2 ≤ buf.length) :
    (df.DecodeAt lib cu cache row (some (.ptr pm t, .ptr (some v)))).res
      = (decodeAt.loop lib cu (df.withShape t)
          (bytesSplit 44 ((buf.drop 1).take (buf.length - 2))) t ⟨true, false, false⟩
          (bindable t) v).1 ∧
    (df.DecodeAt lib cu cache row (some (.ptr pm t, .ptr (some v)))).val
      = some (.ptr pm t, .ptr (some (decodeAt.loop lib cu (df.withShape t)
          (bytesSplit 44 ((buf.drop 1).take (buf.length - 2))) t ⟨true, false, false⟩
          (bindable t) v).2)) := by
  obtain ⟨h1, h2, _⟩ := DecodeAt_ptr_ok lib cu cache df row pm t v hfit hok
  have hlen : row.toNat < df.Data.length := by
    by_contra hn
    rw [List.getElem?_eq_none (by omega)] at hb
    cases hb
  have g0 : ¬ (((df.withShape t).Data.length : Int) ≤ row) := by
    have : (df.withShape t).Data.length = df.Data.length := rfl
    omega
  have g1 : ¬ (row < 0) := by omega
  have g2 : ¬ (buf.length < 2) := by omega
  have hrow : decodeAt.row lib cu (df.withShape t) row (descriptorOf t) t ⟨true, false, false⟩ v
      = decodeAt.loop lib cu (df.withShape t)
          (bytesSplit 44 ((buf.drop 1).take (buf.length - 2))) t ⟨true, false, false⟩
          (bindable t) v := by
    unfold decodeAt.row
    rw [if_neg g1]
    have hd : (df.withShape t).Data[row.toNat]? = some buf := hb
    rw [hd]
    simp only []
    rw [if_neg g2]
    rfl
  rw [h1, h2, decodeAt_ptr, if_neg g0, hrow]
  exact ⟨rfl, rfl⟩

/-- A type that is `time.Time` or declares no unmarshaler is decoded by the
built-in coercion. -/
theorem decodeElem_builtin (lib : StdLib) (cu : Custom) (name : String) (raw : Option Bytes)
    (t0 t : GoType) (fl : Flag) (v : Value)
    (h : t.typeString = "time.Time" ∨ t.declaresUnmarshaler = false) :
    decodeElem lib cu name raw t0 t fl v = decodeSimple lib name raw t0 t fl v := by
  unfold decodeElem
  by_cases ht : t.typeString = "time.Time"
  · simp only [ht, ne_eq, not_true_eq_false, if_false]
  · rcases h with h | h
    · exact absurd h ht
    · unfold GoType.declaresUnmarshaler at h
      simp only [Bool.or_eq_false_iff] at h
      obtain ⟨⟨⟨h1, h2⟩, h3⟩, h4⟩ := h
      simp only [ne_eq, ht, not_false_eq_true, if_true, h1, h2, h3, h4, Bool.false_eq_true,
        and_false, if_false]

/-- In a list of fields whose paths part ways pairwise, where every field with a
column before `fi` binds without error: when `fi` binds without error it holds
its decoded value after the loop of `decodeAt`, whatever the fields after it
do; when the binding of `fi` does not succeed the loop ends with its result,
and `fi` holds what the binding left. -/
theorem loop_at (lib : StdLib) (cu : Custom) (df : Dataframe) (cols : List Bytes)
    (t : GoType) (fl : Flag) (pre : List fieldInfo) (fi : fieldInfo) (post : List fieldInfo)
    (v : Value)
    (hpw : (pre ++ fi :: post).Pairwise (fun a b => diverge a.idx b.idx = true))
    (hpre : ∀ fj, fj ∈ pre → 0 ≤ df.columnIndex fj.name →
      ∃ w, decodeAt.bind lib cu df cols t fl v fj = some (.ok (), w))
    (hc : 0 ≤ df.columnIndex fi.name) (r : Res Unit) (w : Value)
    (hb : decodeAt.bind lib cu df cols t fl v fi = some (r, w)) :
    Value.read fi.idx true t (decodeAt.loop lib cu df cols t fl (pre ++ fi :: post) v).2
        = some w ∧
      ((∀ u, r ≠ .ok u) →
        (decodeAt.loop lib cu df cols t fl (pre ++ fi :: post) v).1 = r) := by
  rcases loop_outcome lib cu df cols t fl (pre ++ fi :: post) v hpw with
    ⟨hall, _⟩ | ⟨pre2, fi2, post2, hL, hc2, hpre2, hfi2, _⟩
  · obtain ⟨w2, hw2, hr2⟩ := hall fi (List.mem_append_right _ (List.mem_cons_self _ _)) hc
    rw [hb] at hw2
    cases hw2
    exact ⟨hr2, fun h => absurd rfl (h ())⟩
  · have hnok2 : ∀ w2, decodeAt.bind lib cu df cols t fl v fi2 ≠ some (.ok (), w2) := by
      intro w2 hw2
      rcases hfi2 with ⟨r3, w3, h3, hne, _⟩ | ⟨h3, _⟩
      · rw [hw2] at h3
        cases h3
        exact hne () rfl
      · rw [hw2] at h3
        cases h3
    have hnotpre : fi2 ∉ pre := by
      intro hm
      obtain ⟨w2, hw2⟩ := hpre fi2 hm hc2
      exact hnok2 w2 hw2
    rcases List.append_eq_append_iff.mp hL with ⟨a, h1, h2⟩ | ⟨c, h1, h2⟩
    · cases a with
      | nil =>
        simp only [List.nil_append, List.cons.injEq] at h2
        obtain ⟨hfe, _⟩ := h2
        subst hfe
        rcases hfi2 with ⟨r3, w3, h3, hne, hr3, hread3⟩ | ⟨h3, _⟩
        · rw [hb] at h3
          cases h3
          exact ⟨hread3, fun _ => hr3⟩
        · rw [hb] at h3
          cases h3
      | cons x a =>
        simp only [List.cons_append, List.cons.injEq] at h2
        obtain ⟨hx, _⟩ := h2
        subst hx
        have hm : fi ∈ pre2 := by
          rw [h1]
          exact List.mem_append_right _ (List.mem_cons_self _ _)
        obtain ⟨w2, hw2, hr2⟩ := hpre2 fi hm hc
        rw [hb] at hw2
        cases hw2
        exact ⟨hr2, fun h => absurd rfl (h ())⟩
    · cases c with
      | nil =>
        simp only [List.nil_append, List.cons.injEq] at h2
        obtain ⟨hfe, _⟩ := h2
        subst hfe
        rcases hfi2 with ⟨r3, w3, h3, hne, hr3, hread3⟩ | ⟨h3, _⟩
        · rw [hb] at h3
          cases h3
          exact ⟨hread3, fun _ => hr3⟩
        · rw [hb] at h3
          cases h3
      | cons x c =>
        simp only [List.cons_append, List.cons.injEq] at h2
        obtain ⟨hx, _⟩ := h2
        subst hx
        exfalso
        apply hnotpre
        rw [h1]
        exact List.mem_append_right _ (List.mem_cons_self _ _)

/-- The text of a bound column in a row exists only on an existing row with a
payload of two bytes at least. -/
theorem fieldText_some (df : Dataframe) (row : Int) (name : String) (s : Bytes)
    (h : df.fieldText row name = some s) :
    ∃ buf, 0 ≤ row ∧ df.Data[row.toNat]? = some buf ∧ 2 ≤ buf.length ∧
      0 ≤ df.columnOf name := by
  unfold Dataframe.fieldText at h
  by_cases g1 : row < 0 ∨ df.columnOf name < 0
  · rw [if_pos g1] at h
    cases h
  · rw [if_neg g1] at h
    cases hb : df.Data[row.toNat]? with
    | none => rw [hb] at h; cases h
    | some buf =>
      rw [hb] at h
      simp only [] at h
      by_cases g2 : buf.length < 2
      · rw [if_pos g2] at h
        cases h
      · exact ⟨buf, by omega, rfl, by omega, by omega⟩

/-- The binding of a field of signed integer kind whose type declares no
unmarshaler: `ParseInt` with the bit width of the kind. -/
theorem decodeValue_int (lib : StdLib) (cu : Custom) (name : String) (s : Bytes)
    (m : TypeMeta) (k : IntKind) (fl : Flag) (old : Value)
    (hplain : (GoType.int m k).declaresUnmarshaler = false) :
    decodeValue lib cu name (some s) (.int m k) fl old
      = (match ParseInt s k.bits with
        | .error c => (.err (.fieldError name m.name c), old)
        | .ok i => if fl.CanSet then (.ok (), .int i) else (.panic .reflectSet, old)) := by
  have hd : decodeValue lib cu name (some s) (.int m k) fl old
      = decodeElem lib cu name (some s) (.int m k) (.int m k) fl old := rfl
  rw [hd, decodeElem_builtin lib cu name (some s) (.int m k) (.int m k) fl old (Or.inr hplain)]
  rfl

/-- C17 (counterexample): a field of the named type `Level` of kind `int64` that
declares `UnmarshalText`, aliased `level`, with the column `level`. The text `5`
is a base-10 numeral of 5, in the range of `int64`, but `DecodeAt` calls
`UnmarshalText` and the field holds 7 after the call; for the text `abc`, which
is no numeral, `DecodeAt` returns no error and the field holds 7. -/
theorem C17_counterexample_unmarshaler :
    numeralValue (ascii "5") = some 5 ∧ numeralValue (ascii "abc") = none ∧
    (Dataframe.DecodeAt asciiLib levelCustom []
        ⟨[⟨"Level", "level", FieldTypeInt64⟩], [ascii "[5]"], none, none⟩ 0
        (some (.ptr (.plain "*main.L") recordLevel, .ptr (some (.struct [.int 0]))))).res
      = .ok () ∧
    (Dataframe.DecodeAt asciiLib levelCustom []
        ⟨[⟨"Level", "level", FieldTypeInt64⟩], [ascii "[5]"], none, none⟩ 0
        (some (.ptr (.plain "*main.L") recordLevel, .ptr (some (.struct [.int 0]))))).val
      = some (.ptr (.plain "*main.L") recordLevel, .ptr (some (.struct [.int 7]))) ∧
    (Dataframe.DecodeAt asciiLib levelCustom []
        ⟨[⟨"Level", "level", FieldTypeInt64⟩], [ascii "[abc]"], none, none⟩ 0
        (some (.ptr (.plain "*main.L") recordLevel, .ptr (some (.struct [.int 0]))))).res
      = .ok () ∧
    (Dataframe.DecodeAt asciiLib levelCustom []
        ⟨[⟨"Level", "level", FieldTypeInt64⟩], [ascii "[abc]"], none, none⟩ 0
        (some (.ptr (.plain "*main.L") recordLevel, .ptr (some (.struct [.int 0]))))).val
      = some (.ptr (.plain "*main.L") recordLevel, .ptr (some (.struct [.int 7]))) :=
  ⟨by decide, by decide, rfl, rfl, rfl, rfl⟩

/-- C17 (amended): on a descriptor cache with its invariant and a Dataframe that
holds no descriptor or the one of the record, for a record behind a pointer
whose bindable fields have distinct wire names and are `pre`, then `fi`, then
`post`, where every field of `pre` with a column binds without error, and `fi`
resolves to a settable field of signed integer kind `k` whose type declares no
unmarshaler and has the text `s` in its column of the row: for every integer
`x` with `-2^(w-1) ≤ x < 2^(w-1)`, `w` the bit width of `k`, of which `s` is a
base-10 numeral, the field holds `x` after `DecodeAt`; and when `s` is no
base-10 numeral of an integer in that range, `DecodeAt` returns the field error
that names `fi`, the type of the field and the `ParseInt` error for `s`, and the
field holds what it held before. -/
theorem C17_signed_integer_field (lib : StdLib) (cu : Custom) (cache : TinfoMap)
    (hc : CacheOK cache) (df : Dataframe) (row : Int) (pm : TypeMeta) (t : GoType) (v : Value)
    (hfit : df.FitsShape t) (hnd : (bindableNames t).Nodup)
    (pre : List fieldInfo) (fi : fieldInfo) (post : List fieldInfo)
    (hL : bindable t = pre ++ fi :: post)
    (hpre : ∀ fj, fj ∈ pre → fj.name ∈ df.codes →
      ∃ wj, df.bind lib cu row t v fj = some (.ok (), wj))
    (m : TypeMeta) (k : IntKind) (fl : Flag) (old : Value)
    (hloc : Value.locate fi.idx true t ⟨true, false, false⟩ v = some (.int m k, fl, old))
    (hplain : (GoType.int m k).declaresUnmarshaler = false) (hset : fl.CanSet = true)
    (s : Bytes) (htext : df.fieldText row fi.name = some s) :
    ∃ v2, (df.DecodeAt lib cu cache row (some (.ptr pm t, .ptr (some v)))).val
        = some (.ptr pm t, .ptr (some v2)) ∧
      (∀ x : Int, numeralValue s = some x → -((2 : Int) ^ (k.bits - 1)) ≤ x →
        x < (2 : Int) ^ (k.bits - 1) → Value.read fi.idx true t v2 = some (.int x)) ∧
      ((∀ x : Int, numeralValue s = some x →
          ¬ (-((2 : Int) ^ (k.bits - 1)) ≤ x ∧ x < (2 : Int) ^ (k.bits - 1))) →
        ∃ ne, (df.DecodeAt lib cu cache row (some (.ptr pm t, .ptr (some v)))).res
            = .err (.fieldError fi.name m.name (.num "ParseInt" s ne)) ∧
          Value.read fi.idx true t v2 = some old) := by
  obtain ⟨buf, h0, hb, hl, hcol⟩ := fieldText_some df row fi.name s htext
  have hstruct : t.isStruct = true := by
    cases t
    case struct => rfl
    case time => rfl
    all_goals (simp [bindable] at hL)
  have hok : df.tinfo = none → (getReflectTypeInfo cache t).1 = .ok (descriptorOf t) :=
    fun _ => ((getReflectTypeInfo_spec t cache hc).2 hstruct).1 hnd
  obtain ⟨k1, k2⟩ := DecodeAt_loop lib cu cache df row pm t v hfit hok buf h0 hb hl
  have hpw := bindable_diverge t
  rw [hL] at hpw
  have hci : 0 ≤ (df.withShape t).columnIndex fi.name := hcol
  have hpre2 : ∀ fj, fj ∈ pre → 0 ≤ (df.withShape t).columnIndex fj.name →
      ∃ w, decodeAt.bind lib cu (df.withShape t)
        (bytesSplit 44 ((buf.drop 1).take (buf.length - 2))) t ⟨true, false, false⟩ v fj
        = some (.ok (), w) := by
    intro fj hfj hcj
    rw [bind_eq lib cu df row buf t v fj h0 hb hl hcj]
    exact hpre fj hfj ((columnOf_nonneg_iff df fj.name).mp hcj)
  have hbind : decodeAt.bind lib cu (df.withShape t)
      (bytesSplit 44 ((buf.drop 1).take (buf.length - 2))) t ⟨true, false, false⟩ v fi
      = some (match ParseInt s k.bits with
        | .error c => (.err (.fieldError fi.name m.name c), old)
        | .ok i => (.ok (), .int i)) := by
    rw [bind_eq lib cu df row buf t v fi h0 hb hl hci]
    unfold Dataframe.bind bindField
    rw [hloc, htext]
    simp only []
    rw [decodeValue_int lib cu fi.name s m k fl old hplain]
    simp only [hset, if_true]
  have hbits : 1 ≤ k.bits ∧ k.bits ≤ 64 := by cases k <;> decide
  rw [k2, hL]
  refine ⟨_, rfl, ?_, ?_⟩
  · intro x hx hlo hhi
    have hp : ParseInt s k.bits = .ok x :=
      (parseInt_ok s k.bits hbits.1 hbits.2 x).mpr ⟨hx, hlo, hhi⟩
    rw [hp] at hbind
    exact (loop_at lib cu (df.withShape t) _ t ⟨true, false, false⟩ pre fi post v hpw hpre2
      hci _ _ hbind).1
  · intro hno
    cases hp : ParseInt s k.bits with
    | ok x =>
      obtain ⟨hx, hlo, hhi⟩ := (parseInt_ok s k.bits hbits.1 hbits.2 x).mp hp
      exact absurd ⟨hlo, hhi⟩ (hno x hx)
    | error c =>
      obtain ⟨ne, hne⟩ := parseInt_error s k.bits c hp
      rw [hp] at hbind
      simp only [] at hbind
      obtain ⟨g1, g2⟩ := loop_at lib cu (df.withShape t) _ t ⟨true, false, false⟩ pre fi post
        v hpw hpre2 hci _ _ hbind
      refine ⟨ne, ?_, g1⟩
      rw [k1, hL, g2 (fun u h => by cases h), hne]

/-- C17 (witness): a record with the one field `N int32` aliased `n`, the column
`n` and the row `[-42]`: the text `-42` is a numeral of -42, and the field holds
-42 after `DecodeAt`. -/
theorem C17_signed_integer_field_witness :
    CacheOK [] ∧ (frameN [ascii "[-42]"]).FitsShape recordN ∧ (bindableNames recordN).Nodup ∧
    bindable recordN = [] ++ ⟨[0], "n", ""⟩ :: [] ∧
    Value.locate [0] true recordN ⟨true, false, false⟩ (.struct [.int 0])
      = some (.int (.plain "int32") .Int32, ⟨true, false, false⟩, .int 0) ∧
    (frameN [ascii "[-42]"]).fieldText 0 "n" = some (ascii "-42") ∧
    numeralValue (ascii "-42") = some (-42) ∧
    ∃ v2, ((frameN [ascii "[-42]"]).DecodeAt asciiLib noCustom [] 0
          (some (.ptr (.plain "*main.N") recordN, .ptr (some (.struct [.int 0]))))).val
        = some (.ptr (.plain "*main.N") recordN, .ptr (some v2)) ∧
      (∀ x : Int, numeralValue (ascii "-42") = some x →
        -((2 : Int) ^ (IntKind.Int32.bits - 1)) ≤ x → x < (2 : Int) ^ (IntKind.Int32.bits - 1) →
        Value.read [0] true recordN v2 = some (.int x)) ∧
      ((∀ x : Int, numeralValue (ascii "-42") = some x →
          ¬ (-((2 : Int) ^ (IntKind.Int32.bits - 1)) ≤ x ∧
            x < (2 : Int) ^ (IntKind.Int32.bits - 1))) →
        ∃ ne, ((frameN [ascii "[-42]"]).DecodeAt asciiLib noCustom [] 0
              (some (.ptr (.plain "*main.N") recordN, .ptr (some (.struct [.int 0]))))).res
            = .err (.fieldError "n" "int32" (.num "ParseInt" (ascii "-42") ne)) ∧
          Value.read [0] true recordN v2 = some (.int 0)) :=
  ⟨CacheOK_nil, Or.inl rfl, by decide, rfl, rfl, rfl, by decide,
    C17_signed_integer_field asciiLib noCustom [] CacheOK_nil (frameN [ascii "[-42]"]) 0
      (.plain "*main.N") recordN (.struct [.int 0]) (Or.inl rfl) (by decide) []
      ⟨[0], "n", ""⟩ [] rfl (fun fj h => (by cases h)) (.plain "int32") .Int32
      ⟨true, false, false⟩ (.int 0) rfl rfl rfl (ascii "-42") rfl⟩

/-- A lookup that finds a descriptor in the cache ends `getReflectTypeInfo`: the
cached descriptor is returned and the cache is as before. -/
theorem getReflectTypeInfo_hit (cache : TinfoMap) (t : GoType) (ti : typeInfo)
    (h : TinfoMap.get cache t = some ti) : getReflectTypeInfo cache t = (.ok ti, cache) := by
  cases hs : t.isStruct
  · rw [getReflectTypeInfo_other cache t hs, h]
  · cases t
    case struct m fs => rw [getReflectTypeInfo_struct, h]
    case time => rw [getReflectTypeInfo_time, h]
    all_goals cases hs

/-- A successful resolution on a cache with the invariant is that of a struct
type without two bindable fields of one wire name, and returns the descriptor
of the specification. -/
theorem resolve_ok (cache : TinfoMap) (hc : CacheOK cache) (t : GoType) (tinfo : typeInfo)
    (h : (getReflectTypeInfo cache t).1 = .ok tinfo) :
    t.isStruct = true ∧ (bindableNames t).Nodup ∧ tinfo = descriptorOf t := by
  have hs : t.isStruct = true := by
    cases hs : t.isStruct
    · rw [getReflectTypeInfo_other cache t hs] at h
      cases hg : TinfoMap.get cache t with
      | none => rw [hg] at h; cases h
      | some ti => rw [(hc t ti hg).1] at hs; cases hs
    · rfl
  have hn : (bindableNames t).Nodup := by
    by_contra hn
    obtain ⟨e, he⟩ := (getReflectTypeInfo_err_iff cache hc t hs).mpr hn
    rw [he] at h
    cases h
  have h2 := ((getReflectTypeInfo_spec t cache hc).2 hs).1 hn
  rw [h2] at h
  cases h
  exact ⟨hs, hn, rfl⟩

/-! ### Every program of getReflectTypeInfo is good -/

theorem progLoop_cons (typ : GoType) (Name PkgPath : String) (Anonymous : Bool)
    (Tag : String) (ty : GoType) (rest : Fields) (i : Nat) (tinfo : typeInfo)
    (k : Res typeInfo → Prog) :
    getReflectTypeInfo.progLoop typ (.cons Name PkgPath Anonymous Tag ty rest) i tinfo k
      = if (PkgPath ≠ "" ∧ Anonymous = false) ∨ Tag = "-" then
          getReflectTypeInfo.progLoop typ rest (i + 1) tinfo k
        else match embedTarget Anonymous ty with
          | some e =>
            getReflectTypeInfo.prog e (fun r =>
              match r with
              | .ok inner =>
                match addEmbedded typ i inner.fields tinfo with
                | .ok tinfo1 => getReflectTypeInfo.progLoop typ rest (i + 1) tinfo1 k
                | .err e => k (.err e)
                | .panic p => k (.panic p)
              | .err e => k (.err e)
              | .panic p => k (.panic p))
          | none =>
            match addFieldInfo typ tinfo (structFieldInfo i Name Tag) with
            | .ok tinfo1 => getReflectTypeInfo.progLoop typ rest (i + 1) tinfo1 k
            | .err e => k (.err e)
            | .panic p => k (.panic p) := by
  have hdef : getReflectTypeInfo.progLoop typ (.cons Name PkgPath Anonymous Tag ty rest) i tinfo k
      = if (PkgPath ≠ "" ∧ Anonymous = false) ∨ Tag = "-" then
          getReflectTypeInfo.progLoop typ rest (i + 1) tinfo k
        else
          if Anonymous then
            match ty with
            | .ptr _ e =>
              if e.isStruct then
                getReflectTypeInfo.prog e (fun r =>
                  match r with
                  | .ok inner =>
                    match addEmbedded typ i inner.fields tinfo with
                    | .ok tinfo1 => getReflectTypeInfo.progLoop typ rest (i + 1) tinfo1 k
                    | .err e => k (.err e)
                    | .panic p => k (.panic p)
                  | .err e => k (.err e)
                  | .panic p => k (.panic p))
              else
                match addFieldInfo typ tinfo (structFieldInfo i Name Tag) with
                | .ok tinfo1 => getReflectTypeInfo.progLoop typ rest (i + 1) tinfo1 k
                | .err e => k (.err e)
                | .panic p => k (.panic p)
            | .struct m fs =>
              getReflectTypeInfo.prog (.struct m fs) (fun r =>
                match r with
                | .ok inner =>
                  match addEmbedded typ i inner.fields tinfo with
                  | .ok tinfo1 => getReflectTypeInfo.progLoop typ rest (i + 1) tinfo1 k
                  | .err e => k (.err e)
                  | .panic p => k (.panic p)
                | .err e => k (.err e)
                | .panic p => k (.panic p))
            | .time =>
              getReflectTypeInfo.prog .time (fun r =>
                match r with
                | .ok inner =>
                  match addEmbedded typ i inner.fields tinfo with
                  | .ok tinfo1 => getReflectTypeInfo.progLoop typ rest (i + 1) tinfo1 k
                  | .err e => k (.err e)
                  | .panic p => k (.panic p)
                | .err e => k (.err e)
                | .panic p => k (.panic p))
            | _ =>
              match addFieldInfo typ tinfo (structFieldInfo i Name Tag) with
              | .ok tinfo1 => getReflectTypeInfo.progLoop typ rest (i + 1) tinfo1 k
              | .err e => k (.err e)
              | .panic p => k (.panic p)
          else
            match addFieldInfo typ tinfo (structFieldInfo i Name Tag) with
            | .ok tinfo1 => getReflectTypeInfo.progLoop typ rest (i + 1) tinfo1 k
            | .err e => k (.err e)
            | .panic p => k (.panic p) := by
    cases ty <;> rfl
  rw [hdef]
  by_cases hx : (PkgPath ≠ "" ∧ Anonymous = false) ∨ Tag = "-"
  · rw [if_pos hx, if_pos hx]
  · rw [if_neg hx, if_neg hx]
    cases Anonymous
    · rw [embedTarget_false]
      simp
    · cases ty <;> simp only [embedTarget, if_true]
      split
      · rfl
      · rfl

theorem prog_struct (m : TypeMeta) (fs : Fields) (k : Res typeInfo → Prog) :
    getReflectTypeInfo.prog (.struct m fs) k
      = .lookup (.struct m fs) (fun hit =>
          match hit with
          | some tinfo => k (.ok tinfo)
          | none =>
            getReflectTypeInfo.progLoop (.struct m fs) fs 0 ⟨m.name, [], true⟩ (fun r =>
              match r with
              | .ok tinfo => .store (.struct m fs) tinfo (k (.ok tinfo))
              | .err e => k (.err e)
              | .panic p => k (.panic p))) := rfl

theorem prog_time (k : Res typeInfo → Prog) :
    getReflectTypeInfo.prog .time k
      = .lookup .time (fun hit =>
          match hit with
          | some tinfo => k (.ok tinfo)
          | none => .store .time ⟨"time.Time", [], true⟩ (k (.ok ⟨"time.Time", [], true⟩))) := rfl

theorem prog_other (t : GoType) (h : t.isStruct = false) (k : Res typeInfo → Prog) :
    getReflectTypeInfo.prog t k
      = .lookup t (fun hit =>
          match hit with
          | some tinfo => k (.ok tinfo)
          | none => k (.err (.notStruct t.typeString t.kindString))) := by
  cases t <;> first | rfl | (simp [GoType.isStruct] at h)

/-- The result of the loop of `getReflectTypeInfo` does not depend on the cache,
as long as the cache has its invariant, when this is so for `getReflectTypeInfo`
on the structs the type embeds. -/
theorem loop_indep_of (m : TypeMeta) (all : Fields)
    (ihT : ∀ f e, f ∈ all.toList → embedTarget f.Anonymous f.Typ = some e →
      ∀ c, CacheOK c → (getReflectTypeInfo c e).1 = (getReflectTypeInfo [] e).1) :
    ∀ (fs : Fields) (i : Nat) (tinfo : typeInfo) (c : TinfoMap),
      all.toList.drop i = fs.toList → CacheOK c →
      (getReflectTypeInfo.loop c (.struct m all) fs i tinfo).1
        = (getReflectTypeInfo.loop [] (.struct m all) fs i tinfo).1
  | .nil, i, tinfo, c, _, _ => rfl
  | .cons Name PkgPath Anonymous Tag ty rest, i, tinfo, c, hd, hc => by
    have ihR := loop_indep_of m all ihT rest (i + 1)
    have hd2 := drop_succ_of_cons all i _ _ _ _ _ rest hd
    have hi : all.toList[i]? = some ⟨Name, PkgPath, Anonymous, Tag, ty⟩ := by
      have := congrArg (fun l => l[0]?) hd
      simpa [Fields.toList] using this
    have hmem : (⟨Name, PkgPath, Anonymous, Tag, ty⟩ : StructField) ∈ all.toList :=
      List.getElem?_mem hi
    rw [loop_cons, loop_cons]
    by_cases hx : (PkgPath ≠ "" ∧ Anonymous = false) ∨ Tag = "-"
    · rw [if_pos hx, if_pos hx]
      exact ihR tinfo c hd2 hc
    · rw [if_neg hx, if_neg hx]
      cases hE : embedTarget Anonymous ty with
      | none =>
        simp only []
        cases addFieldInfo (.struct m all) tinfo (structFieldInfo i Name Tag) with
        | ok tinfo1 => exact ihR tinfo1 c hd2 hc
        | err e => rfl
        | panic p => rfl
      | some e =>
        simp only []
        have h1 := ihT _ e hmem hE c hc
        have hc1 := (getReflectTypeInfo_spec e c hc).1
        have hc0 := (getReflectTypeInfo_spec e [] CacheOK_nil).1
        cases hg : getReflectTypeInfo c e with
        | mk r c1 =>
          cases hg0 : getReflectTypeInfo [] e with
          | mk r0 c0 =>
            rw [hg, hg0] at h1
            rw [hg] at hc1
            rw [hg0] at hc0
            simp only [] at h1 hc1 hc0
            subst h1
            cases r with
            | ok inner =>
              simp only []
              cases addEmbedded (.struct m all) i inner.fields tinfo with
              | ok tinfo1 =>
                simp only []
                rw [ihR tinfo1 c1 hd2 hc1, ihR tinfo1 c0 hd2 hc0]
              | err e => rfl
              | panic p => rfl
            | err e => rfl
            | panic p => rfl

/-- What `getReflectTypeInfo` returns for a type does not depend on the cache,
as long as the cache has its invariant: it is what a call returns in a fresh
process, with the empty cache. -/
theorem resolve_indep (t : GoType) : ∀ c, CacheOK c →
    (getReflectTypeInfo c t).1 = (getReflectTypeInfo [] t).1 := by
  refine embed_induction (motive := fun t => ∀ c, CacheOK c →
    (getReflectTypeInfo c t).1 = (getReflectTypeInfo [] t).1) ?_ t
  intro t ih c hc
  cases hget : TinfoMap.get c t with
  | some ti =>
    rw [getReflectTypeInfo_hit c t ti hget]
    obtain ⟨hs, hN, hti⟩ := hc t ti hget
    rw [((getReflectTypeInfo_spec t [] CacheOK_nil).2 hs).1 hN, hti]
  | none =>
    by_cases hs : t.isStruct = true
    · cases t with
      | struct m fs =>
        rw [getReflectTypeInfo_struct, getReflectTypeInfo_struct, hget]
        have h0 : TinfoMap.get [] (GoType.struct m fs) = none := rfl
        rw [h0]
        simp only []
        have hl := loop_indep_of m fs (fun f e hf he => ih m fs f e rfl hf he) fs 0
          ⟨m.name, [], true⟩ c (by simp) hc
        cases hg : getReflectTypeInfo.loop c (.struct m fs) fs 0 ⟨m.name, [], true⟩ with
        | mk r c1 =>
          cases hg0 : getReflectTypeInfo.loop [] (.struct m fs) fs 0 ⟨m.name, [], true⟩ with
          | mk r0 c0 =>
            rw [hg, hg0] at hl
            simp only [] at hl
            subst hl
            cases r <;> rfl
      | time =>
        rw [getReflectTypeInfo_time, getReflectTypeInfo_time, hget]
        rfl
      | bool _ => cases hs
      | int _ _ => cases hs
      | uint _ _ => cases hs
      | float _ _ => cases hs
      | string _ => cases hs
      | slice _ _ => cases hs
      | ptr _ _ => cases hs
      | other _ _ => cases hs
    · have hs2 : t.isStruct = false := by simpa using hs
      rw [getReflectTypeInfo_other c t hs2, getReflectTypeInfo_other [] t hs2, hget]
      rfl

/-- The result of the loop of `getReflectTypeInfo` does not depend on the cache,
as long as the cache has its invariant. -/
theorem loop_indep (m : TypeMeta) (all : Fields) (fs : Fields) (i : Nat) (tinfo : typeInfo)
    (c : TinfoMap) (hd : all.toList.drop i = fs.toList) (hc : CacheOK c) :
    (getReflectTypeInfo.loop c (.struct m all) fs i tinfo).1
      = (getReflectTypeInfo.loop [] (.struct m all) fs i tinfo).1 :=
  loop_indep_of m all (fun _ e _ _ c hc => resolve_indep e c hc) fs i tinfo c hd hc

/-- What a single call of `getReflectTypeInfo` returns in a fresh process is what
the specification says of the type. -/
theorem solo_resultSpec (t : GoType) : ResultSpec t (getReflectTypeInfo [] t).1 := by
  constructor
  · intro hs
    exact (getReflectTypeInfo_spec t [] CacheOK_nil).2 hs
  · intro hs
    rw [getReflectTypeInfo_other [] t hs]
    rfl

/-- One round of the loop of a single call in a fresh process, by its result. -/
theorem soloLoop_cons (m : TypeMeta) (all : Fields) (Name PkgPath : String) (Anonymous : Bool)
    (Tag : String) (ty : GoType) (rest : Fields) (i : Nat) (tinfo : typeInfo)
    (hd : all.toList.drop i = (Fields.cons Name PkgPath Anonymous Tag ty rest).toList) :
    (getReflectTypeInfo.loop [] (.struct m all) (.cons Name PkgPath Anonymous Tag ty rest) i
        tinfo).1
      = if (PkgPath ≠ "" ∧ Anonymous = false) ∨ Tag = "-" then
          (getReflectTypeInfo.loop [] (.struct m all) rest (i + 1) tinfo).1
        else match embedTarget Anonymous ty with
          | some e =>
            match (getReflectTypeInfo [] e).1 with
            | .ok inner =>
              match addEmbedded (.struct m all) i inner.fields tinfo with
              | .ok tinfo1 => (getReflectTypeInfo.loop [] (.struct m all) rest (i + 1) tinfo1).1
              | .err e => .err e
              | .panic p => .panic p
            | .err e => .err e
            | .panic p => .panic p
          | none =>
            match addFieldInfo (.struct m all) tinfo (structFieldInfo i Name Tag) with
            | .ok tinfo1 => (getReflectTypeInfo.loop [] (.struct m all) rest (i + 1) tinfo1).1
            | .err e => .err e
            | .panic p => .panic p := by
  have hd2 := drop_succ_of_cons all i _ _ _ _ _ rest hd
  rw [loop_cons]
  by_cases hx : (PkgPath ≠ "" ∧ Anonymous = false) ∨ Tag = "-"
  · rw [if_pos hx, if_pos hx]
  · rw [if_neg hx, if_neg hx]
    cases hE : embedTarget Anonymous ty with
    | none =>
      simp only []
      cases addFieldInfo (.struct m all) tinfo (structFieldInfo i Name Tag) <;> rfl
    | some e =>
      simp only []
      have hc0 := (getReflectTypeInfo_spec e [] CacheOK_nil).1
      cases hg0 : getReflectTypeInfo [] e with
      | mk r0 c0 =>
        rw [hg0] at hc0
        simp only [] at hc0 ⊢
        cases r0 with
        | ok inner =>
          simp only []
          cases addEmbedded (.struct m all) i inner.fields tinfo with
          | ok tinfo1 =>
            simp only []
            exact loop_indep m all rest (i + 1) tinfo1 c0 hd2 hc0
          | err e => rfl
          | panic p => rfl
        | err e => rfl
        | panic p => rfl

theorem Prog.Good_lookup (t : GoType) (known : Bool) (typ : GoType)
    (k : Option typeInfo → Prog) :
    Prog.Good t known (.lookup typ k) ↔
      ∀ hit : Option typeInfo,
        (∀ ti, hit = some ti →
          typ.isStruct = true ∧ (bindableNames typ).Nodup ∧ ti = descriptorOf typ) →
        Prog.Good t (known || (decide (typ = t) && hit.isSome)) (k hit) := by
  rw [Prog.Good]

theorem Prog.Good_store (t : GoType) (known : Bool) (typ : GoType) (ti : typeInfo)
    (k : Prog) :
    Prog.Good t known (.store typ ti k) ↔
      ((typ.isStruct = true ∧ (bindableNames typ).Nodup ∧ ti = descriptorOf typ) ∧
        Prog.Good t (known || decide (typ = t)) k) := by
  rw [Prog.Good]

theorem Prog.Good_done (t : GoType) (known : Bool) (r : Res typeInfo) :
    Prog.Good t known (.done r) ↔
      (r = (getReflectTypeInfo [] t).1 ∧ (∀ ti, r = .ok ti → known = true)) := by
  rw [Prog.Good]

/-- The loop of `getReflectTypeInfo` as a program is good when the programs of
the structs the type embeds are, and what follows it is good on the result of
the loop of a single call in a fresh process. -/
theorem progLoop_good (t : GoType) (m : TypeMeta) (all : Fields)
    (ihT : ∀ f e, f ∈ all.toList → embedTarget f.Anonymous f.Typ = some e → ProgSpec t e) :
    ∀ (fs : Fields) (i : Nat) (known : Bool) (tinfo : typeInfo) (k : Res typeInfo → Prog),
      all.toList.drop i = fs.toList →
      (∀ (known2 : Bool), (known = true → known2 = true) →
        Prog.Good t known2 (k (getReflectTypeInfo.loop [] (.struct m all) fs i tinfo).1)) →
      Prog.Good t known (getReflectTypeInfo.progLoop (.struct m all) fs i tinfo k)
  | .nil, i, known, tinfo, k, _, H => H known id
  | .cons Name PkgPath Anonymous Tag ty rest, i, known, tinfo, k, hd, H => by
    have ihR := progLoop_good t m all ihT rest (i + 1)
    have hd2 := drop_succ_of_cons all i _ _ _ _ _ rest hd
    have hi : all.toList[i]? = some ⟨Name, PkgPath, Anonymous, Tag, ty⟩ := by
      have := congrArg (fun l => l[0]?) hd
      simpa [Fields.toList] using this
    have hmem : (⟨Name, PkgPath, Anonymous, Tag, ty⟩ : StructField) ∈ all.toList :=
      List.getElem?_mem hi
    have hsolo := soloLoop_cons m all Name PkgPath Anonymous Tag ty rest i tinfo hd
    rw [progLoop_cons]
    by_cases hx : (PkgPath ≠ "" ∧ Anonymous = false) ∨ Tag = "-"
    · rw [if_pos hx] at hsolo ⊢
      apply ihR known tinfo k hd2
      intro known2 hk
      rw [← hsolo]
      exact H known2 hk
    · rw [if_neg hx] at hsolo ⊢
      cases hE : embedTarget Anonymous ty with
      | none =>
        rw [hE] at hsolo
        simp only [] at hsolo ⊢
        cases ha : addFieldInfo (.struct m all) tinfo (structFieldInfo i Name Tag) with
        | ok tinfo1 =>
          rw [ha] at hsolo
          simp only [] at hsolo ⊢
          apply ihR known tinfo1 k hd2
          intro known2 hk
          rw [← hsolo]
          exact H known2 hk
        | err e =>
          rw [ha] at hsolo
          simp only [] at hsolo ⊢
          rw [← hsolo]
          exact H known id
        | panic p =>
          rw [ha] at hsolo
          simp only [] at hsolo ⊢
          rw [← hsolo]
          exact H known id
      | some e =>
        rw [hE] at hsolo
        simp only [] at hsolo ⊢
        apply ihT _ e hmem hE known
        intro known2 hk _
        cases hr : (getReflectTypeInfo [] e).1 with
        | ok inner =>
          rw [hr] at hsolo
          simp only [] at hsolo ⊢
          cases ha : addEmbedded (.struct m all) i inner.fields tinfo with
          | ok tinfo1 =>
            rw [ha] at hsolo
            simp only [] at hsolo ⊢
            apply ihR known2 tinfo1 k hd2
            intro known3 hk3
            rw [← hsolo]
            exact H known3 (fun h => hk3 (hk h))
          | err e0 =>
            rw [ha] at hsolo
            simp only [] at hsolo ⊢
            rw [← hsolo]
            exact H known2 hk
          | panic p =>
            rw [ha] at hsolo
            simp only [] at hsolo ⊢
            rw [← hsolo]
            exact H known2 hk
        | err e0 =>
          rw [hr] at hsolo
          simp only [] at hsolo ⊢
          rw [← hsolo]
          exact H known2 hk
        | panic p =>
          rw [hr] at hsolo
          simp only [] at hsolo ⊢
          rw [← hsolo]
          exact H known2 hk

/-- The program of `getReflectTypeInfo` for any type is good for `t`, whatever
follows it that is good on the result of a single call in a fresh process. -/
theorem prog_good (t : GoType) (typ : GoType) : ProgSpec t typ := by
  refine embed_induction (motive := fun typ => ProgSpec t typ) ?_ typ
  intro typ ih
  intro known k H
  have hhit : ∀ ti, (typ.isStruct = true ∧ (bindableNames typ).Nodup ∧ ti = descriptorOf typ) →
      (getReflectTypeInfo [] typ).1 = .ok ti := by
    rintro ti ⟨hs, hN, hti⟩
    rw [hti]
    exact ((getReflectTypeInfo_spec typ [] CacheOK_nil).2 hs).1 hN
  by_cases hs : typ.isStruct = true
  · cases typ with
    | struct m fs =>
      rw [prog_struct, Prog.Good_lookup]
      intro hit hh
      cases hit with
      | some ti =>
        simp only []
        rw [← hhit ti (hh ti rfl)]
        apply H _ (fun h => by simp [h])
        intro he _
        simp [he]
      | none =>
        simp only [Option.isSome_none, Bool.and_false, Bool.or_false]
        apply progLoop_good t m fs (fun f e hf he => ih m fs f e rfl hf he) fs 0 known
          ⟨m.name, [], true⟩ _ (by simp)
        intro known2 hk
        have hsolo : (getReflectTypeInfo [] (.struct m fs)).1
            = (getReflectTypeInfo.loop [] (.struct m fs) fs 0 ⟨m.name, [], true⟩).1 := by
          rw [getReflectTypeInfo_struct]
          have h0 : TinfoMap.get [] (GoType.struct m fs) = none := rfl
          rw [h0]
          simp only []
          cases hg0 : getReflectTypeInfo.loop [] (.struct m fs) fs 0 ⟨m.name, [], true⟩ with
          | mk r0 c0 => cases r0 <;> rfl
        rw [← hsolo]
        cases hr : (getReflectTypeInfo [] (.struct m fs)).1 with
        | ok tinfo =>
          simp only []
          rw [Prog.Good_store]
          refine ⟨resolve_ok [] CacheOK_nil _ tinfo hr, ?_⟩
          rw [← hr]
          apply H _ (fun h => by simp [hk h])
          intro he _
          simp [he]
        | err e =>
          simp only []
          rw [← hr]
          apply H _ hk
          rintro _ ⟨ti, hti⟩
          rw [hr] at hti
          cases hti
        | panic p =>
          simp only []
          rw [← hr]
          apply H _ hk
          rintro _ ⟨ti, hti⟩
          rw [hr] at hti
          cases hti
    | time =>
      rw [prog_time, Prog.Good_lookup]
      intro hit hh
      cases hit with
      | some ti =>
        simp only []
        rw [← hhit ti (hh ti rfl)]
        apply H _ (fun h => by simp [h])
        intro he _
        simp [he]
      | none =>
        simp only [Option.isSome_none, Bool.and_false, Bool.or_false]
        have hr : (getReflectTypeInfo [] .time).1 = .ok ⟨"time.Time", [], true⟩ := rfl
        rw [Prog.Good_store]
        refine ⟨resolve_ok [] CacheOK_nil _ _ hr, ?_⟩
        rw [← hr]
        apply H _ (fun h => by simp [h])
        intro he _
        simp [he]
    | bool _ => cases hs
    | int _ _ => cases hs
    | uint _ _ => cases hs
    | float _ _ => cases hs
    | string _ => cases hs
    | slice _ _ => cases hs
    | ptr _ _ => cases hs
    | other _ _ => cases hs
  · have hs2 : typ.isStruct = false := by simpa using hs
    rw [prog_other typ hs2, Prog.Good_lookup]
    intro hit hh
    cases hit with
    | some ti =>
      exact absurd (hh ti rfl).1 hs
    | none =>
      simp only [Option.isSome_none, Bool.and_false, Bool.or_false]
      have hr : (getReflectTypeInfo [] typ).1 = .err (.notStruct typ.typeString typ.kindString) := by
        rw [getReflectTypeInfo_other [] typ hs2]
        rfl
      rw [← hr]
      apply H _ id
      rintro _ ⟨ti, hti⟩
      rw [hr] at hti
      cases hti

/-- The program of `getReflectTypeInfo`, run without other callers in between,
does what the function `getReflectTypeInfo` does: the loop. -/
theorem progLoop_exec (m : TypeMeta) (all : Fields)
    (ihT : ∀ f e, f ∈ all.toList → embedTarget f.Anonymous f.Typ = some e →
      ∀ cache k, Prog.exec (getReflectTypeInfo.prog e k) cache
        = Prog.exec (k (getReflectTypeInfo cache e).1) (getReflectTypeInfo cache e).2) :
    ∀ (fs : Fields) (i : Nat) (tinfo : typeInfo) (cache : TinfoMap) (k : Res typeInfo → Prog),
      all.toList.drop i = fs.toList →
      Prog.exec (getReflectTypeInfo.progLoop (.struct m all) fs i tinfo k) cache
        = Prog.exec (k (getReflectTypeInfo.loop cache (.struct m all) fs i tinfo).1)
            (getReflectTypeInfo.loop cache (.struct m all) fs i tinfo).2
  | .nil, i, tinfo, cache, k, _ => rfl
  | .cons Name PkgPath Anonymous Tag ty rest, i, tinfo, cache, k, hd => by
    have ihR := progLoop_exec m all ihT rest (i + 1)
    have hd2 := drop_succ_of_cons all i _ _ _ _ _ rest hd
    have hi : all.toList[i]? = some ⟨Name, PkgPath, Anonymous, Tag, ty⟩ := by
      have := congrArg (fun l => l[0]?) hd
      simpa [Fields.toList] using this
    have hmem : (⟨Name, PkgPath, Anonymous, Tag, ty⟩ : StructField) ∈ all.toList :=
      List.getElem?_mem hi
    rw [progLoop_cons, loop_cons]
    by_cases hx : (PkgPath ≠ "" ∧ Anonymous = false) ∨ Tag = "-"
    · rw [if_pos hx, if_pos hx]
      exact ihR tinfo cache k hd2
    · rw [if_neg hx, if_neg hx]
      cases hE : embedTarget Anonymous ty with
      | none =>
        simp only []
        cases addFieldInfo (.struct m all) tinfo (structFieldInfo i Name Tag) with
        | ok tinfo1 => exact ihR tinfo1 cache k hd2
        | err e => rfl
        | panic p => rfl
      | some e =>
        simp only []
        rw [ihT _ e hmem hE]
        cases hg : getReflectTypeInfo cache e with
        | mk r c =>
          cases r with
          | ok inner =>
            simp only []
            cases addEmbedded (.struct m all) i inner.fields tinfo with
            | ok tinfo1 => exact ihR tinfo1 c k hd2
            | err e => rfl
            | panic p => rfl
          | err e => rfl
          | panic p => rfl

/-- The program of `getReflectTypeInfo`, run without other callers in between,
does what the function `getReflectTypeInfo` does. -/
theorem prog_exec (t : GoType) : ∀ (cache : TinfoMap) (k : Res typeInfo → Prog),
    Prog.exec (getReflectTypeInfo.prog t k) cache
      = Prog.exec (k (getReflectTypeInfo cache t).1) (getReflectTypeInfo cache t).2 := by
  refine embed_induction (motive := fun t => ∀ (cache : TinfoMap) (k : Res typeInfo → Prog),
    Prog.exec (getReflectTypeInfo.prog t k) cache
      = Prog.exec (k (getReflectTypeInfo cache t).1) (getReflectTypeInfo cache t).2) ?_ t
  intro t ih cache k
  by_cases hs : t.isStruct = true
  · cases t with
    | struct m fs =>
      rw [prog_struct, getReflectTypeInfo_struct]
      simp only [Prog.exec]
      cases TinfoMap.get cache (.struct m fs) with
      | some ti => rfl
      | none =>
        simp only []
        rw [progLoop_exec m fs (fun f e hf he => ih m fs f e rfl hf he) fs 0 _ cache _
          (by simp)]
        cases hl : getReflectTypeInfo.loop cache (.struct m fs) fs 0 ⟨m.name, [], true⟩ with
        | mk r c =>
          cases r with
          | ok ti => rfl
          | err e => rfl
          | panic p => rfl
    | time =>
      rw [prog_time, getReflectTypeInfo_time]
      simp only [Prog.exec]
      cases TinfoMap.get cache .time with
      | some ti => rfl
      | none => rfl
    | bool _ => cases hs
    | int _ _ => cases hs
    | uint _ _ => cases hs
    | float _ _ => cases hs
    | string _ => cases hs
    | slice _ _ => cases hs
    | ptr _ _ => cases hs
    | other _ _ => cases hs
  · have hs2 : t.isStruct = false := by simpa using hs
    rw [prog_other t hs2, getReflectTypeInfo_other cache t hs2]
    simp only [Prog.exec]
    cases TinfoMap.get cache t with
    | some ti => rfl
    | none => rfl

/-- A single caller, run to its end, returns what `getReflectTypeInfo` returns
and leaves the cache `getReflectTypeInfo` leaves. -/
theorem prog_exec_done (t : GoType) (cache : TinfoMap) :
    Prog.exec (getReflectTypeInfo.prog t .done) cache = getReflectTypeInfo cache t := by
  rw [prog_exec]
  rfl

/-! ### The invariant of a process with concurrent callers -/

theorem Sys.Inv_start (cache : TinfoMap) (hc : CacheOK cache) (n : Nat) (t : GoType) :
    Sys.Inv t (Sys.start cache n t) := by
  refine ⟨hc, ?_⟩
  intro p hp
  have hp2 : p = getReflectTypeInfo.prog t .done := List.eq_of_mem_replicate hp
  subst hp2
  refine ⟨false, ?_, fun h => by cases h⟩
  apply prog_good t t false
  intro known2 _ hk
  rw [Prog.Good_done]
  exact ⟨rfl, fun ti hti => hk rfl ⟨ti, hti⟩⟩

theorem TinfoMap.get_cons (typ t : GoType) (ti : typeInfo) (cache : TinfoMap) :
    TinfoMap.get ((typ, ti) :: cache) t = if typ = t then some ti else TinfoMap.get cache t := by
  rw [TinfoMap.get]

theorem Sys.Inv_step (t : GoType) (s : Sys) (i : Nat) (h : Sys.Inv t s) :
    Sys.Inv t (s.step i) := by
  obtain ⟨hc, hall⟩ := h
  unfold Sys.step
  cases hp : s.callers[i]? with
  | none => exact ⟨hc, hall⟩
  | some p =>
    have hmem : p ∈ s.callers := List.getElem?_mem hp
    obtain ⟨known, hg, hk⟩ := hall p hmem
    cases p with
    | done r => exact ⟨hc, hall⟩
    | lookup typ k =>
      refine ⟨hc, ?_⟩
      intro q hq
      rcases List.mem_or_eq_of_mem_set hq with hq | hq
      · exact hall q hq
      · subst hq
        rw [Prog.Good_lookup] at hg
        refine ⟨_, hg (TinfoMap.get s.cache typ) (fun ti hti => hc typ ti hti), ?_⟩
        intro hkn
        simp only [Bool.or_eq_true, Bool.and_eq_true, decide_eq_true_eq] at hkn
        rcases hkn with hkn | ⟨he, hsome⟩
        · exact hk hkn
        · rw [← he]
          intro hnone
          rw [hnone] at hsome
          cases hsome
    | store typ ti k =>
      rw [Prog.Good_store] at hg
      obtain ⟨⟨hs, hN, hti⟩, hg2⟩ := hg
      have hc2 : CacheOK ((typ, ti) :: s.cache) := by
        rw [hti]
        exact CacheOK_insert s.cache typ hc hs hN
      refine ⟨hc2, ?_⟩
      intro q hq
      have hkeep : ∀ known2 : Bool, (known2 = true → TinfoMap.get s.cache t ≠ none) →
          (known2 = true → TinfoMap.get ((typ, ti) :: s.cache) t ≠ none) := by
        intro known2 h2 hk2
        rw [TinfoMap.get_cons]
        split
        · simp
        · exact h2 hk2
      rcases List.mem_or_eq_of_mem_set hq with hq | hq
      · obtain ⟨known2, hg3, hk3⟩ := hall q hq
        exact ⟨known2, hg3, hkeep known2 hk3⟩
      · subst hq
        refine ⟨_, hg2, ?_⟩
        intro hkn
        simp only [Bool.or_eq_true, decide_eq_true_eq] at hkn
        rcases hkn with hkn | he
        · exact hkeep known hk hkn
        · rw [TinfoMap.get_cons, if_pos he]
          simp

theorem Sys.Inv_run (t : GoType) : ∀ (sched : List Nat) (s : Sys), Sys.Inv t s →
    Sys.Inv t (s.run sched) := by
  intro sched
  induction sched with
  | nil => intro s h; exact h
  | cons i rest ih => intro s h; exact ih _ (Sys.Inv_step t s i h)

theorem Sys.length_step (s : Sys) (i : Nat) : (s.step i).callers.length = s.callers.length := by
  unfold Sys.step
  cases hp : s.callers[i]? with
  | none => rfl
  | some p => cases p <;> simp

theorem Sys.length_run : ∀ (sched : List Nat) (s : Sys),
    (s.run sched).callers.length = s.callers.length := by
  intro sched
  induction sched with
  | nil => intro s; rfl
  | cons i rest ih =>
    intro s
    rw [Sys.run, ih, Sys.length_step]

/-- In a process with the invariant a caller that has returned has returned what
a single call returns in a fresh process, which is what `ResultSpec` says; and
when that is a descriptor, it is the descriptor of the shape and the cache holds
it for the shape. -/
theorem Sys.Inv_result (t : GoType) (s : Sys) (h : Sys.Inv t s) (i : Nat) (r : Res typeInfo)
    (hr : s.result i = some r) :
    r = (getReflectTypeInfo [] t).1 ∧ ResultSpec t r ∧
      ∀ ti, r = .ok ti → ti = descriptorOf t ∧ TinfoMap.get s.cache t = some (descriptorOf t) := by
  obtain ⟨hc, hall⟩ := h
  unfold Sys.result at hr
  cases hp : s.callers[i]? with
  | none => rw [hp] at hr; cases hr
  | some p =>
    rw [hp] at hr
    cases p with
    | lookup typ k => cases hr
    | store typ ti k => cases hr
    | done r2 =>
      simp only [Option.some.injEq] at hr
      subst hr
      obtain ⟨known, hg, hk⟩ := hall _ (List.getElem?_mem hp)
      rw [Prog.Good_done] at hg
      obtain ⟨hsolo, hkn⟩ := hg
      have hspec : ResultSpec t r2 := by
        rw [hsolo]
        exact solo_resultSpec t
      refine ⟨hsolo, hspec, ?_⟩
      intro ti hti
      have hne := hk (hkn ti hti)
      cases hget : TinfoMap.get s.cache t with
      | none => exact absurd hget hne
      | some x =>
        obtain ⟨hs, hN, hx⟩ := hc t x hget
        have := (hspec.1 hs).1 hN
        rw [hti] at this
        cases this
        exact ⟨rfl, by rw [hx]⟩

/-- A caller that is given enough steps returns, whatever the state. -/
theorem Sys.caller_returns : ∀ (p : Prog) (s : Sys) (i : Nat), s.callers[i]? = some p →
    ∃ n r, (s.run (List.replicate n i)).result i = some r := by
  intro p
  induction p with
  | done r =>
    intro s i h
    refine ⟨0, r, ?_⟩
    simp only [List.replicate, Sys.run, Sys.result, h]
  | lookup typ k ih =>
    intro s i h
    have hlt : i < s.callers.length := by
      by_contra hn
      rw [List.getElem?_eq_none (by omega)] at h
      cases h
    have hstep : (s.step i).callers[i]? = some (k (TinfoMap.get s.cache typ)) := by
      unfold Sys.step
      rw [h]
      simp only []
      exact List.getElem?_set_self hlt
    obtain ⟨n, r, hn⟩ := ih _ (s.step i) i hstep
    exact ⟨n + 1, r, hn⟩
  | store typ ti k ih =>
    intro s i h
    have hlt : i < s.callers.length := by
      by_contra hn
      rw [List.getElem?_eq_none (by omega)] at h
      cases h
    have hstep : (s.step i).callers[i]? = some k := by
      unfold Sys.step
      rw [h]
      simp only []
      exact List.getElem?_set_self hlt
    obtain ⟨n, r, hn⟩ := ih (s.step i) i hstep
    exact ⟨n + 1, r, hn⟩

/-- C19 (counterexample): two callers resolve the record `recordX`, which the
empty cache does not hold. In the schedule in which both look it up before
either stores, both miss, both build the descriptor and both store it: the log
holds two stores, and the descriptor caller 0 built and returned is replaced in
the map by the one caller 1 built. In the schedule in which caller 0 runs to its
end first, caller 1 finds the descriptor and there is one store. -/
theorem C19_counterexample_two_builds :
    TinfoMap.get [] recordX = none ∧
    ((Sys.start [] 2 recordX).run [0, 1]).stored = [] ∧
    ((Sys.start [] 2 recordX).run [0, 1]).result 0 = none ∧
    ((Sys.start [] 2 recordX).run [0, 1]).result 1 = none ∧
    ((Sys.start [] 2 recordX).run [0, 1, 0, 1]).stored = [(0, recordX), (1, recordX)] ∧
    ((Sys.start [] 2 recordX).run [0, 1, 0, 1]).result 0 = some (.ok (descriptorOf recordX)) ∧
    ((Sys.start [] 2 recordX).run [0, 1, 0, 1]).result 1 = some (.ok (descriptorOf recordX)) ∧
    ((Sys.start [] 2 recordX).run [0, 0, 1]).stored = [(0, recordX)] ∧
    ((Sys.start [] 2 recordX).run [0, 0, 1]).result 1 = some (.ok (descriptorOf recordX)) :=
  ⟨rfl, rfl, rfl, rfl, rfl, rfl, rfl, rfl, rfl⟩

/-- C19 (amended): `n` callers resolve the same shape `t` through
`getReflectTypeInfo`, starting from any cache with its invariant, and take their
lookups (under the read lock) and stores (under the write lock) in the order of
an arbitrary schedule; `t` is any shape of the embedding, that is, any shape
that does not embed itself. After the schedule the cache has its invariant:
every entry is the complete descriptor of a struct type, so no lookup ever
finds a partial descriptor. Every caller that has returned has returned what a
single call of `getReflectTypeInfo(t)` returns in a fresh process, so that any
two callers that have returned have returned the same: the descriptor of `t`
when `t` is a struct type whose bindable fields have distinct wire names, one
and the same conflict error when they have not, the not-a-struct error for any
other type. When a caller has returned the descriptor, the cache holds that
descriptor for `t`. And every caller returns when it is given enough further
steps. -/
theorem C19_concurrent_callers (cache : TinfoMap) (hc : CacheOK cache) (n : Nat) (t : GoType)
    (sched : List Nat) :
    CacheOK ((Sys.start cache n t).run sched).cache ∧
    ((Sys.start cache n t).run sched).callers.length = n ∧
    (∀ i r, ((Sys.start cache n t).run sched).result i = some r →
      r = (getReflectTypeInfo [] t).1 ∧ ResultSpec t r ∧
      ∀ ti, r = .ok ti → ti = descriptorOf t ∧
        TinfoMap.get ((Sys.start cache n t).run sched).cache t = some (descriptorOf t)) ∧
    (∀ i j r1 r2, ((Sys.start cache n t).run sched).result i = some r1 →
      ((Sys.start cache n t).run sched).result j = some r2 → r1 = r2) ∧
    (∀ i, i < n → ∃ m r,
      (((Sys.start cache n t).run sched).run (List.replicate m i)).result i = some r) := by
  have hinv := Sys.Inv_run t sched _ (Sys.Inv_start cache hc n t)
  have hlen : ((Sys.start cache n t).run sched).callers.length = n := by
    rw [Sys.length_run]
    simp [Sys.start]
  refine ⟨hinv.1, hlen, fun i r hr => Sys.Inv_result t _ hinv i r hr, ?_, ?_⟩
  · intro i j r1 r2 h1 h2
    rw [(Sys.Inv_result t _ hinv i r1 h1).1, (Sys.Inv_result t _ hinv j r2 h2).1]
  · intro i hi
    have hlt : i < ((Sys.start cache n t).run sched).callers.length := by omega
    exact Sys.caller_returns _ _ i (List.getElem?_eq_getElem hlt)

/-- C19 (witness): two callers resolving `recordX` from the empty cache, in the
schedule in which both miss: both return the descriptor of `recordX`, which is
what a single call returns in a fresh process, and the cache holds it. Two
callers resolving `conflictRecord`, whose fields `A` and `B` both have the wire
name `x`, in the schedule in which both run to their end: both return the
conflict error that names `A` and `B`. -/
theorem C19_concurrent_callers_witness :
    CacheOK [] ∧
    ((Sys.start [] 2 recordX).run [0, 1, 0, 1]).result 0 = some (.ok (descriptorOf recordX)) ∧
    (getReflectTypeInfo [] recordX).1 = .ok (descriptorOf recordX) ∧
    ResultSpec recordX (.ok (descriptorOf recordX)) ∧
    TinfoMap.get ((Sys.start [] 2 recordX).run [0, 1, 0, 1]).cache recordX
      = some (descriptorOf recordX) ∧
    ((Sys.start [] 2 conflictRecord).run [0, 1]).result 0
      = some (.err (.conflict "main.Dup" "A" "x" "B" "x")) ∧
    ((Sys.start [] 2 conflictRecord).run [0, 1]).result 1
      = some (.err (.conflict "main.Dup" "A" "x" "B" "x")) :=
  ⟨CacheOK_nil, rfl,
    ((C19_concurrent_callers [] CacheOK_nil 2 recordX [0, 1, 0, 1]).2.2.1 0 _ rfl).1.symm,
    ((C19_concurrent_callers [] CacheOK_nil 2 recordX [0, 1, 0, 1]).2.2.1 0 _ rfl).2.1,
    (((C19_concurrent_callers [] CacheOK_nil 2 recordX [0, 1, 0, 1]).2.2.1 0 _ rfl).2.2 _
      rfl).2,
    rfl, rfl⟩

/-- The bindable fields of no fields. -/
theorem bindableFields_nil (i : Nat) : bindableFields .nil i = [] := by rw [bindableFields]

/-- The bindable fields contributed by two runs of fields, one after the other. -/
theorem bindableFields_append : ∀ (a b : List StructField) (k : Nat),
    bindableFields (Fields.ofList (a ++ b)) k
      = bindableFields (Fields.ofList a) k ++ bindableFields (Fields.ofList b) (k + a.length)
  | [], b, k => by
    simp only [List.nil_append, Fields.ofList, bindableFields_nil, List.length_nil, Nat.add_zero]
  | f :: a, b, k => by
    have ih := bindableFields_append a b (k + 1)
    have e : k + 1 + a.length = k + (a.length + 1) := by omega
    rw [e] at ih
    show bindableFields (Fields.cons f.Name f.PkgPath f.Anonymous f.Tag f.Typ
        (Fields.ofList (a ++ b))) k
      = bindableFields (Fields.cons f.Name f.PkgPath f.Anonymous f.Tag f.Typ
        (Fields.ofList a)) k ++ bindableFields (Fields.ofList b) (k + (a.length + 1))
    rw [bindableFields_cons, bindableFields_cons, ih, List.append_assoc]

/-- Every entry contributed by the field at index `i` has a path that starts
with `i`. -/
theorem bindableField_top (i : Nat) (Name PkgPath : String) (Anonymous : Bool) (Tag : String)
    (ty : GoType) (fi : fieldInfo)
    (h : fi ∈ bindableField i Name PkgPath Anonymous Tag ty) : fi.top = some i := by
  rw [bindableField_eq] at h
  split at h
  · cases h
  · split at h
    · obtain ⟨fe, _, rfl⟩ := List.mem_map.mp h
      rfl
    · simp only [List.mem_singleton] at h
      subst h
      rfl

/-- Every entry contributed by a run of fields from index `i` on has a path that
starts with the index of one of these fields. -/
theorem bindableFields_top : ∀ (l : List StructField) (i : Nat) (fi : fieldInfo),
    fi ∈ bindableFields (Fields.ofList l) i → ∃ j, fi.top = some j ∧ i ≤ j ∧ j < i + l.length
  | [], i, fi, h => by
    simp only [Fields.ofList, bindableFields_nil] at h
    cases h
  | f :: l, i, fi, h => by
    simp only [Fields.ofList, bindableFields_cons, List.mem_append] at h
    rcases h with h | h
    · exact ⟨i, bindableField_top _ _ _ _ _ _ _ h, by omega, by simp⟩
    · obtain ⟨j, h1, h2, h3⟩ := bindableFields_top l (i + 1) fi h
      exact ⟨j, h1, by omega, by simp only [List.length_cons]; omega⟩

/-- The bindable fields of a struct type whose fields are `before`, then `f`,
then `after`: the entries of `before`, those of `f`, those of `after`. -/
theorem bindable_split (m : TypeMeta) (fs : Fields) (before after : List StructField)
    (f : StructField) (h : fs.toList = before ++ f :: after) :
    bindable (.struct m fs)
      = bindableFields (Fields.ofList before) 0
        ++ bindableField before.length f.Name f.PkgPath f.Anonymous f.Tag f.Typ
        ++ bindableFields (Fields.ofList after) (before.length + 1) := by
  have h1 : fs = Fields.ofList (before ++ f :: after) := by
    rw [← h, Fields.ofList_toList]
  have h2 : bindable (.struct m fs) = bindableFields fs 0 := by rw [bindable]
  rw [h2, h1, bindableFields_append]
  simp only [Fields.ofList, bindableFields_cons, Nat.zero_add, List.append_assoc]

/-- The entries of the bindable fields of a struct type that come from the field
at an index are the entries that field contributes. -/
theorem entriesAt_bindable (m : TypeMeta) (fs : Fields) (before after : List StructField)
    (f : StructField) (h : fs.toList = before ++ f :: after) :
    entriesAt (bindable (.struct m fs)) before.length
      = bindableField before.length f.Name f.PkgPath f.Anonymous f.Tag f.Typ := by
  rw [bindable_split m fs before after f h]
  unfold entriesAt
  rw [List.filter_append, List.filter_append]
  have hA : (bindableFields (Fields.ofList before) 0).filter
      (fun finfo => finfo.top = some before.length) = [] := by
    rw [List.filter_eq_nil_iff]
    intro fi hfi
    obtain ⟨j, h1, _, h3⟩ := bindableFields_top before 0 fi hfi
    simp only [h1, Option.some.injEq, decide_eq_true_eq]
    omega
  have hB : (bindableFields (Fields.ofList after) (before.length + 1)).filter
      (fun finfo => finfo.top = some before.length) = [] := by
    rw [List.filter_eq_nil_iff]
    intro fi hfi
    obtain ⟨j, h1, h2, _⟩ := bindableFields_top after (before.length + 1) fi hfi
    simp only [h1, Option.some.injEq, decide_eq_true_eq]
    omega
  have hM : (bindableField before.length f.Name f.PkgPath f.Anonymous f.Tag f.Typ).filter
      (fun finfo => finfo.top = some before.length)
      = bindableField before.length f.Name f.PkgPath f.Anonymous f.Tag f.Typ := by
    rw [List.filter_eq_self]
    intro fi hfi
    simp only [bindableField_top _ _ _ _ _ _ _ hfi, decide_True]
  rw [hA, hB, hM, List.nil_append, List.append_nil]

/-- The field of a struct type at the index where a split of its fields puts it. -/
theorem toList_split_get (fs : Fields) (before after : List StructField) (f : StructField)
    (h : fs.toList = before ++ f :: after) : fs.toList[before.length]? = some f := by
  rw [h, List.getElem?_append_right (le_refl _)]
  simp

/-- The entries of the bindable fields of a struct type are in the order of the
fields they come from. -/
theorem bindableFields_sorted : ∀ (l : List StructField) (i : Nat),
    (bindableFields (Fields.ofList l) i).Pairwise
      (fun a b => ∃ x y, a.top = some x ∧ b.top = some y ∧ x ≤ y)
  | [], i => by
    simp only [Fields.ofList, bindableFields_nil]
    exact List.Pairwise.nil
  | f :: l, i => by
    simp only [Fields.ofList, bindableFields_cons]
    rw [List.pairwise_append]
    refine ⟨?_, bindableFields_sorted l (i + 1), ?_⟩
    · rw [List.pairwise_iff_forall_sublist]
      intro a b hab
      have ha := bindableField_top _ _ _ _ _ _ a (hab.subset (by simp))
      have hb := bindableField_top _ _ _ _ _ _ b (hab.subset (by simp))
      exact ⟨i, i, ha, hb, le_refl _⟩
    · intro a ha b hb
      obtain ⟨j, h1, h2, _⟩ := bindableFields_top l (i + 1) b hb
      exact ⟨i, j, bindableField_top _ _ _ _ _ _ a ha, h1, by omega⟩

/-- A list with an element at index `i` is what is before the index, the
element, and what is after. -/
theorem split_at_index {α : Type} (l : List α) (i : Nat) (a : α) (h : l[i]? = some a) :
    l = l.take i ++ a :: l.drop (i + 1) ∧ (l.take i).length = i := by
  obtain ⟨hi, ha⟩ := List.getElem?_eq_some_iff.mp h
  refine ⟨?_, by simp only [List.length_take]; omega⟩
  rw [← ha, ← List.drop_eq_getElem_cons hi, List.take_append_drop]

/-- C23: for a struct type that resolves, on a cache with the invariant, the
entries of the descriptor that come from the field at index `i` are: none when
the field is tagged `-` or is unexported and not embedded; exactly one, with the
path `[i]` and as wire name the alias tag when that is not empty and the
declared name otherwise, when the field is declared with a name, is exported
and is not tagged `-`; and the same one entry when the field is embedded, is not
tagged `-` and embeds no record. The entries are in the order of the fields they
come from, and every entry comes from a field of the type. -/
theorem C23_descriptor_entries (cache : TinfoMap) (hc : CacheOK cache) (m : TypeMeta)
    (fs : Fields) (tinfo : typeInfo)
    (hres : (getReflectTypeInfo cache (.struct m fs)).1 = .ok tinfo) :
    (∀ (i : Nat) (f : StructField), fs.toList[i]? = some f →
      (f.Tag = "-" ∨ (f.PkgPath ≠ "" ∧ f.Anonymous = false) →
        entriesAt tinfo.fields i = []) ∧
      (f.Anonymous = false → f.PkgPath = "" → f.Tag ≠ "-" →
        entriesAt tinfo.fields i = [⟨[i], if f.Tag ≠ "" then f.Tag else f.Name, ""⟩]) ∧
      (f.Anonymous = true → f.Tag ≠ "-" → embedTarget f.Anonymous f.Typ = none →
        entriesAt tinfo.fields i = [⟨[i], if f.Tag ≠ "" then f.Tag else f.Name, ""⟩])) ∧
    tinfo.fields.Pairwise (fun a b => ∃ x y, a.top = some x ∧ b.top = some y ∧ x ≤ y) ∧
    (∀ fi, fi ∈ tinfo.fields → ∃ i f, fi.top = some i ∧ fs.toList[i]? = some f) := by
  obtain ⟨_, _, rfl⟩ := resolve_ok cache hc _ tinfo hres
  have hb : bindable (.struct m fs) = bindableFields (Fields.ofList fs.toList) 0 := by
    rw [Fields.ofList_toList, bindable]
  have hd : (descriptorOf (.struct m fs)).fields = bindable (.struct m fs) := rfl
  refine ⟨?_, ?_, ?_⟩
  · intro i f hf
    obtain ⟨hs, hl⟩ := split_at_index fs.toList i f hf
    have he := entriesAt_bindable m fs _ _ f hs
    rw [hl, bindableField_eq] at he
    rw [hd]
    have hgen : f.Tag ≠ "-" → f.PkgPath = "" ∨ f.Anonymous = true →
        embedTarget f.Anonymous f.Typ = none →
        entriesAt (bindable (.struct m fs)) i
          = [⟨[i], if f.Tag ≠ "" then f.Tag else f.Name, ""⟩] := by
      intro h1 h2 h3
      rw [he, if_neg, h3]
      · rfl
      · rintro (⟨h4, h5⟩ | h4)
        · rcases h2 with h2 | h2
          · exact h4 h2
          · rw [h5] at h2
            cases h2
        · exact h1 h4
    refine ⟨?_, ?_, ?_⟩
    · intro hx
      rw [he, if_pos]
      rcases hx with hx | hx
      · exact Or.inr hx
      · exact Or.inl hx
    · intro ha hp ht
      refine hgen ht (Or.inl hp) ?_
      rw [ha]
      exact embedTarget_false _
    · intro ha ht h3
      exact hgen ht (Or.inr ha) h3
  · rw [hd, hb]
    exact bindableFields_sorted _ 0
  · intro fi hfi
    have hfi2 : fi ∈ bindableFields (Fields.ofList fs.toList) 0 := by
      rw [← hb, ← hd]
      exact hfi
    obtain ⟨j, h1, _, h3⟩ := bindableFields_top _ 0 fi hfi2
    have hj : j < fs.toList.length := by omega
    exact ⟨j, fs.toList[j], h1, List.getElem?_eq_getElem hj⟩

/-- C23 (witness): the record with a field aliased `a`, an unexported field `b`,
a field `C` tagged `-` and a field `D` without tag resolves to the two entries
`a` at `[0]` and `D` at `[3]`. -/
theorem C23_descriptor_entries_witness :
    CacheOK [] ∧
    (getReflectTypeInfo [] mixedRecord).1
      = .ok ⟨"main.M", [⟨[0], "a", ""⟩, ⟨[3], "D", ""⟩], true⟩ ∧
    entriesAt [⟨[0], "a", ""⟩, ⟨[3], "D", ""⟩] 0 = [⟨[0], "a", ""⟩] ∧
    entriesAt [⟨[0], "a", ""⟩, ⟨[3], "D", ""⟩] 1 = [] ∧
    entriesAt [⟨[0], "a", ""⟩, ⟨[3], "D", ""⟩] 2 = [] ∧
    entriesAt [⟨[0], "a", ""⟩, ⟨[3], "D", ""⟩] 3 = [⟨[3], "D", ""⟩] :=
  ⟨CacheOK_nil, rfl,
    ((C23_descriptor_entries [] CacheOK_nil (.plain "main.M") mixedFields
      ⟨"main.M", [⟨[0], "a", ""⟩, ⟨[3], "D", ""⟩], true⟩ rfl).1 0
      ⟨"A", "", false, "a", uint64Type⟩ rfl).2.1 rfl rfl (by decide),
    ((C23_descriptor_entries [] CacheOK_nil (.plain "main.M") mixedFields
      ⟨"main.M", [⟨[0], "a", ""⟩, ⟨[3], "D", ""⟩], true⟩ rfl).1 1
      ⟨"b", "main", false, "", uint64Type⟩ rfl).1 (Or.inr ⟨by decide, rfl⟩),
    ((C23_descriptor_entries [] CacheOK_nil (.plain "main.M") mixedFields
      ⟨"main.M", [⟨[0], "a", ""⟩, ⟨[3], "D", ""⟩], true⟩ rfl).1 2
      ⟨"C", "", false, "-", uint64Type⟩ rfl).1 (Or.inl rfl),
    ((C23_descriptor_entries [] CacheOK_nil (.plain "main.M") mixedFields
      ⟨"main.M", [⟨[0], "a", ""⟩, ⟨[3], "D", ""⟩], true⟩ rfl).1 3
      ⟨"D", "", false, "", uint64Type⟩ rfl).2.1 rfl rfl (by decide)⟩

/-- The walk of `fieldInfo.value` from a struct value: the first index selects a
field, and the walk goes on in that field. -/
theorem value_first (k : GoType → Flag → Value → Res Unit × Value) (m : TypeMeta)
    (fs : Fields) (i : Nat) (f : StructField) (hf : fs.toList[i]? = some f) (p : List Nat)
    (fl : Flag) (vs : List Value) (ev : Value) (hv : vs[i]? = some ev) :
    fieldInfo.value k (i :: p) true (.struct m fs) fl (.struct vs)
      = ((fieldInfo.value k p false f.Typ (fl.field f) ev).1,
          .struct (vs.set i (fieldInfo.value k p false f.Typ (fl.field f) ev).2)) := by
  rw [fieldInfo.value_cons]
  simp only [if_true]
  unfold fieldInfo.value.field
  simp only [GoType.Field, hf, hv]

/-- The walk of `fieldInfo.value` that goes on, after the first index, in an
embedded field of type `ty` is the walk from the embedded record. -/
theorem value_embedded (k : GoType → Flag → Value → Res Unit × Value) (a : Bool)
    (ty e : GoType) (he : embedTarget a ty = some e) (x : Nat) (xs : List Nat) (fl : Flag)
    (ev : Value) :
    (∀ fl2 rec, embeddedRecord ty fl ev = some (fl2, rec) →
      fieldInfo.value k (x :: xs) false ty fl ev
        = ((fieldInfo.value k (x :: xs) true e fl2 rec).1,
            rewrapField ty (fieldInfo.value k (x :: xs) true e fl2 rec).2)) ∧
    (ev = .ptr none → embeddedRecord ty fl ev = none →
      fieldInfo.value k (x :: xs) false ty fl ev = (.panic .reflectSet, ev)) := by
  cases a
  · rw [embedTarget_false] at he
    cases he
  · cases ty
    case ptr pm e2 =>
      have hs : e2.isStruct = true := by
        cases h : e2.isStruct
        · simp [embedTarget, h] at he
        · rfl
      have hee : e2 = e := by
        simp only [embedTarget, hs, if_true, Option.some.injEq] at he
        exact he
      subst hee
      constructor
      · intro fl2 rec hr
        rw [fieldInfo.value_cons k x xs false, fieldInfo.value_cons k x xs true]
        cases ev
        case ptr tv =>
          cases tv with
          | none =>
            simp only [embeddedRecord] at hr
            by_cases hcs : fl.CanSet = true
            · rw [if_pos hcs] at hr
              cases hr
              simp only [hs, hcs, if_true, Bool.false_eq_true, if_false, rewrapField]
            · rw [if_neg hcs] at hr
              cases hr
          | some pv =>
            simp only [embeddedRecord, Option.some.injEq, Prod.mk.injEq] at hr
            obtain ⟨rfl, rfl⟩ := hr
            simp only [hs, if_true, Bool.false_eq_true, if_false, rewrapField]
        all_goals (simp [embeddedRecord] at hr)
      · intro hev hr
        subst hev
        rw [fieldInfo.value_cons k x xs false]
        simp only [embeddedRecord] at hr
        by_cases hcs : fl.CanSet = true
        · rw [if_pos hcs] at hr
          cases hr
        · simp only [hs, hcs, if_true, Bool.false_eq_true, if_false]
    case struct m2 fs2 =>
      simp only [embedTarget, Option.some.injEq] at he
      subst he
      constructor
      · intro fl2 rec hr
        simp only [embeddedRecord, Option.some.injEq, Prod.mk.injEq] at hr
        obtain ⟨rfl, rfl⟩ := hr
        rw [fieldInfo.value_cons k x xs false, fieldInfo.value_cons k x xs true]
        simp only [if_true, Bool.false_eq_true, if_false, rewrapField]
      · intro hev hr
        simp [embeddedRecord] at hr
    case time =>
      simp only [embedTarget, Option.some.injEq] at he
      subst he
      constructor
      · intro fl2 rec hr
        simp only [embeddedRecord, Option.some.injEq, Prod.mk.injEq] at hr
        obtain ⟨rfl, rfl⟩ := hr
        rw [fieldInfo.value_cons k x xs false, fieldInfo.value_cons k x xs true]
        simp only [if_true, Bool.false_eq_true, if_false, rewrapField]
      · intro hev hr
        simp [embeddedRecord] at hr
    all_goals (simp [embedTarget] at he)

/-- C22 (counterexample): the record `Q` embeds the record `A`, whose descriptor
has the entry `x`, and tags the embedded field `-`: `Q` resolves, and its
descriptor has no entry, so the entry `x` of `A` does not appear in it. -/
theorem C22_counterexample_excluded :
    (getReflectTypeInfo [] recordX).1 = .ok ⟨"main.A", [⟨[0], "x", ""⟩], true⟩ ∧
    recordExcludesX = .struct (.plain "main.Q") (.cons "A" "" true "-" recordX .nil) ∧
    embedTarget true recordX = some recordX ∧
    (getReflectTypeInfo [] recordExcludesX).1 = .ok ⟨"main.Q", [], true⟩ :=
  ⟨rfl, rfl, rfl, rfl⟩

/-- C22 (amended): a struct type `P` that resolves, on a cache with the
invariant, and whose field `f` at index `i` embeds the record `E` (by value or
through a pointer) and is not tagged `-`. Then `E` resolves, on every cache with
the invariant, to one descriptor; the entries of the descriptor of `P` are
entries that come from fields before `i`, then the entries of the descriptor of
`E` in their order, each with its wire name and with `i` in front of its path,
then entries that come from fields after `i`; and for every entry of `E`, what
`fieldInfo.value` followed by any `k` does at the path `i :: p` in a value of `P`
is what it does at the path `p` in the embedded record, where the embedded
record is the value of the field, or the pointee of the pointer it holds, or a
zero record the pointer is set to when it is nil and can be set. -/
theorem C22_embedded_record_flattened (cache : TinfoMap) (hc : CacheOK cache) (m : TypeMeta)
    (fs : Fields) (tinfoP : typeInfo)
    (hres : (getReflectTypeInfo cache (.struct m fs)).1 = .ok tinfoP)
    (i : Nat) (f : StructField) (hf : fs.toList[i]? = some f) (E : GoType)
    (hE : embedTarget f.Anonymous f.Typ = some E) (hx : f.Tag ≠ "-") :
    ∃ (tinfoE : typeInfo) (A B : List fieldInfo),
      (∀ cache2, CacheOK cache2 → (getReflectTypeInfo cache2 E).1 = .ok tinfoE) ∧
      tinfoP.fields = A ++ tinfoE.fields.map (fieldInfo.under i) ++ B ∧
      (∀ a, a ∈ A → ∃ j, a.top = some j ∧ j < i) ∧
      (∀ b, b ∈ B → ∃ j, b.top = some j ∧ i < j) ∧
      (∀ fe, fe ∈ tinfoE.fields →
        ∀ (k : GoType → Flag → Value → Res Unit × Value) (fl : Flag) (vs : List Value)
          (ev : Value), vs[i]? = some ev →
          ∀ fl2 rec, embeddedRecord f.Typ (fl.field f) ev = some (fl2, rec) →
            fieldInfo.value k (i :: fe.idx) true (.struct m fs) fl (.struct vs)
              = ((fieldInfo.value k fe.idx true E fl2 rec).1,
                  .struct (vs.set i
                    (rewrapField f.Typ (fieldInfo.value k fe.idx true E fl2 rec).2)))) := by
  obtain ⟨_, hnd, rfl⟩ := resolve_ok cache hc _ tinfoP hres
  obtain ⟨hs, hl⟩ := split_at_index fs.toList i f hf
  have hsp := bindable_split m fs _ _ f hs
  have ha : f.Anonymous = true := by
    cases h : f.Anonymous
    · rw [h, embedTarget_false] at hE
      cases hE
    · rfl
  rw [hl, bindableField_eq, if_neg, hE] at hsp
  swap
  · rintro (⟨_, h5⟩ | h4)
    · rw [ha] at h5
      cases h5
    · exact hx h4
  simp only [] at hsp
  have hEs : E.isStruct = true := embedTarget_isStruct hE
  have hEn : (bindableNames E).Nodup := by
    unfold bindableNames at hnd ⊢
    rw [hsp, List.map_append, List.map_append, List.map_map] at hnd
    have h2 := (List.nodup_append.mp (List.nodup_append.mp hnd).1).2.1
    have h3 : ((fun finfo : fieldInfo => finfo.name) ∘ fieldInfo.under i)
        = (fun finfo : fieldInfo => finfo.name) := rfl
    rw [h3] at h2
    exact h2
  refine ⟨descriptorOf E, _, _, ?_, hsp, ?_, ?_, ?_⟩
  · intro cache2 hc2
    exact ((getReflectTypeInfo_spec E cache2 hc2).2 hEs).1 hEn
  · intro a haA
    obtain ⟨j, h1, _, h3⟩ := bindableFields_top _ 0 a haA
    rw [hl] at h3
    exact ⟨j, h1, by omega⟩
  · intro b hbB
    obtain ⟨j, h1, h2, _⟩ := bindableFields_top _ (i + 1) b hbB
    exact ⟨j, h1, by omega⟩
  · intro fe hfe k fl vs ev hv fl2 rec hr
    obtain ⟨hne, _⟩ := bindable_path E fe hfe
    obtain ⟨x, xs, hp⟩ := List.exists_cons_of_ne_nil hne
    rw [hp, value_first k m fs i f hf (x :: xs) fl vs ev hv]
    rw [(value_embedded k f.Anonymous f.Typ E hE x xs (fl.field f) ev).1 fl2 rec hr]

/-- C22 (witness): the record `struct { N uint64 "json:n"; A }`, which embeds the
record `A` with the entry `x` at index 1, resolves to the entries `n` at `[0]`
and `x` at `[1, 0]`, which are an entry before, then the entries of `A` with 1
in front of their paths; and the walk along `[1, 0]` in the value with the
fields 5 and `{7}` does, for every `k`, in the embedded record `{7}` what the
walk along `[0]` does there. -/
theorem C22_embedded_record_flattened_witness :
    CacheOK [] ∧
    (getReflectTypeInfo [] recordEmbedsX).1
      = .ok ⟨"main.P", [⟨[0], "n", ""⟩, ⟨[1, 0], "x", ""⟩], true⟩ ∧
    ∃ (tinfoE : typeInfo) (A B : List fieldInfo),
      (getReflectTypeInfo [] recordX).1 = .ok tinfoE ∧
      [⟨[0], "n", ""⟩, ⟨[1, 0], "x", ""⟩] = A ++ tinfoE.fields.map (fieldInfo.under 1) ++ B ∧
      ∀ fe, fe ∈ tinfoE.fields →
        ∀ (k : GoType → Flag → Value → Res Unit × Value),
          fieldInfo.value k (1 :: fe.idx) true recordEmbedsX ⟨true, false, false⟩
              (.struct [.uint 5, .struct [.uint 7]])
            = ((fieldInfo.value k fe.idx true recordX ⟨true, false, false⟩
                  (.struct [.uint 7])).1,
                .struct [.uint 5, (fieldInfo.value k fe.idx true recordX ⟨true, false, false⟩
                  (.struct [.uint 7])).2]) :=
  ⟨CacheOK_nil, rfl,
    (C22_embedded_record_flattened [] CacheOK_nil (.plain "main.P")
      (.cons "N" "" false "n" uint64Type (.cons "A" "" true "" recordX .nil))
      ⟨"main.P", [⟨[0], "n", ""⟩, ⟨[1, 0], "x", ""⟩], true⟩ rfl 1
      ⟨"A", "", true, "", recordX⟩ rfl recordX rfl (by decide)).imp
      (fun tinfoE h => h.imp (fun A h2 => h2.imp (fun B h3 =>
        ⟨h3.1 [] CacheOK_nil, h3.2.1, fun fe hfe k =>
          h3.2.2.2.2 fe hfe k ⟨true, false, false⟩ [.uint 5, .struct [.uint 7]]
            (.struct [.uint 7]) rfl ⟨true, false, false⟩ (.struct [.uint 7]) rfl⟩)))⟩

/-- The walk of `fieldInfo.value` at a nil pointer to an embedded record that
cannot be set: the record `R` embeds a pointer to the unexported record `inner`
and resolves with the entry `x` at `[0, 0]`; on a value of `R` whose embedded
pointer is nil the walk calls `Set` on a value obtained through an unexported
field, without asking `CanSet`, and panics, and so does `DecodeAt` of the row
`[7]` with the column `x`. -/
theorem value_nil_embedded_pointer_panics :
    (getReflectTypeInfo [] innerRecord).1 = .ok ⟨"main.inner", [⟨[0], "x", ""⟩], true⟩ ∧
    (getReflectTypeInfo [] recordEmbedsInnerPtr).1
      = .ok ⟨"main.R", [⟨[0, 0], "x", ""⟩], true⟩ ∧
    (Dataframe.DecodeAt asciiLib noCustom []
        ⟨[⟨"X", "x", FieldTypeUint64⟩], [ascii "[7]"], none, none⟩ 0
        (some (.ptr (.plain "*main.R") recordEmbedsInnerPtr,
          .ptr (some (.struct [.ptr none]))))).res = .panic .reflectSet :=
  ⟨rfl, rfl, rfl⟩

/-- After a successful resolution the cache holds the descriptor returned. -/
theorem resolve_cached (cache : TinfoMap) (t : GoType) (ti : typeInfo)
    (h : (getReflectTypeInfo cache t).1 = .ok ti) :
    TinfoMap.get (getReflectTypeInfo cache t).2 t = some ti := by
  cases hg : TinfoMap.get cache t with
  | some ti2 =>
    rw [getReflectTypeInfo_hit cache t ti2 hg] at h ⊢
    cases h
    exact hg
  | none =>
    cases hs : t.isStruct
    · rw [getReflectTypeInfo_other cache t hs, hg] at h
      cases h
    · cases t
      case struct m fs =>
        rw [getReflectTypeInfo_struct, hg] at h ⊢
        simp only [] at h ⊢
        rcases hl : getReflectTypeInfo.loop cache (.struct m fs) fs 0 ⟨m.name, [], true⟩
          with ⟨r, c⟩
        rw [hl] at h
        cases r with
        | ok tinfo =>
          simp only [] at h ⊢
          cases h
          simp [TinfoMap.get]
        | err e => cases h
        | panic p => cases h
      case time =>
        rw [getReflectTypeInfo_time, hg] at h ⊢
        simp only [] at h ⊢
        cases h
        simp [TinfoMap.get]
      all_goals cases hs

/-- The method `ResetType` changes nothing on a Dataframe that holds nothing. -/
theorem ResetType_of_none (df : Dataframe) (h1 : df.tinfo = none) (h2 : df.colmap = none) :
    df.ResetType = df := by
  obtain ⟨c, d, ti, cm⟩ := df
  simp only at h1 h2
  subst h1 h2
  rfl

/-- One call of `DecodeAt` into a record of shape `t` on a settled Dataframe: it
does what the call after `ResetType` does, and leaves the Dataframe settled and
the cache with its invariant. -/
theorem DecodeAt_settled (lib : StdLib) (cu : Custom) (cache : TinfoMap) (hc : CacheOK cache)
    (df : Dataframe) (t : GoType) (hs : df.Settled cache t) (row : Int) (pm : TypeMeta)
    (v : Value) :
    df.DecodeAt lib cu cache row (some (.ptr pm t, .ptr (some v)))
      = df.ResetType.DecodeAt lib cu cache row (some (.ptr pm t, .ptr (some v))) ∧
    CacheOK (df.DecodeAt lib cu cache row (some (.ptr pm t, .ptr (some v)))).cache ∧
    (df.DecodeAt lib cu cache row (some (.ptr pm t, .ptr (some v)))).frame.Settled
      (df.DecodeAt lib cu cache row (some (.ptr pm t, .ptr (some v)))).cache t := by
  rcases hs with ⟨h1, h2⟩ | ⟨h1, h2, h3⟩
  · rw [ResetType_of_none df h1 h2]
    refine ⟨rfl, ?_, ?_⟩
    · have hsp := (getReflectTypeInfo_spec t cache hc).1
      unfold Dataframe.DecodeAt
      rw [h1, getTypeInfo_ptr]
      rcases hr : getReflectTypeInfo cache t with ⟨r, c⟩
      rw [hr] at hsp
      cases r <;> exact hsp
    · unfold Dataframe.DecodeAt
      rw [h1, getTypeInfo_ptr]
      rcases hr : getReflectTypeInfo cache t with ⟨r, c⟩
      cases r with
      | ok tinfo =>
        have hr1 : (getReflectTypeInfo cache t).1 = .ok tinfo := by rw [hr]
        obtain ⟨_, _, rfl⟩ := resolve_ok cache hc t tinfo hr1
        have hr2 := resolve_cached cache t _ hr1
        rw [hr] at hr2
        exact Or.inr ⟨rfl, rfl, hr2⟩
      | err e => exact Or.inl ⟨h1, h2⟩
      | panic p => exact Or.inl ⟨h1, h2⟩
  · have hdf : Dataframe.mk df.ResetType.Columns df.ResetType.Data (some (descriptorOf t))
        (some (buildColmap df.ResetType.Columns 0 [])) = df := by
      obtain ⟨c, d, ti, cm⟩ := df
      simp only [Dataframe.ResetType] at h1 h2 ⊢
      subst h1 h2
      rfl
    have hR : df.ResetType.DecodeAt lib cu cache row (some (.ptr pm t, .ptr (some v)))
        = df.DecodeAt lib cu cache row (some (.ptr pm t, .ptr (some v))) := by
      have hn : df.ResetType.tinfo = none := rfl
      unfold Dataframe.DecodeAt
      rw [hn, getTypeInfo_ptr, getReflectTypeInfo_hit cache t _ h3, h1]
      simp only []
      rw [hdf]
    refine ⟨hR.symm, ?_, ?_⟩
    · unfold Dataframe.DecodeAt
      rw [h1]
      exact hc
    · unfold Dataframe.DecodeAt
      rw [h1]
      exact Or.inr ⟨h1, h2, h3⟩

/-- A sequence of `DecodeAt` calls into records of the one shape `t` on a settled
Dataframe does what the sequence with `ResetType` before every call does. -/
theorem DecodeAll_settled (lib : StdLib) (cu : Custom) (t : GoType) :
    ∀ (calls : List (Int × Dest)) (cache : TinfoMap) (df : Dataframe), CacheOK cache →
      df.Settled cache t →
      (∀ c, c ∈ calls → ∃ pm v, c.2 = some (.ptr pm t, .ptr (some v))) →
      Dataframe.DecodeAll lib cu cache df calls = Dataframe.DecodeAllFresh lib cu cache df calls
  | [], _, _, _, _, _ => rfl
  | c :: rest, cache, df, hc, hs, hcalls => by
    obtain ⟨pm, v, hcv⟩ := hcalls c (List.mem_cons_self _ _)
    obtain ⟨g1, g2, g3⟩ := DecodeAt_settled lib cu cache hc df t hs c.1 pm v
    rw [← hcv] at g1 g2 g3
    have ih := DecodeAll_settled lib cu t rest _ _ g2 g3
      (fun c2 h2 => hcalls c2 (List.mem_cons_of_mem _ h2))
    unfold Dataframe.DecodeAll Dataframe.DecodeAllFresh
    rw [← g1, ih]

/-- C24 (counterexample): on a Dataframe with the one column `x` and the row
`[7]`, a call of `DecodeAt` into a record whose field is aliased `x` is followed
by a call into a record of another shape, whose only field is aliased `y`,
without `ResetType` in between. The second call binds with the descriptor of
the first shape and sets the field to 7; decoding with a descriptor freshly
resolved from the second destination leaves the field at 0, since no column has
the code `y`. -/
theorem C24_counterexample_second_shape :
    bindable recordX = [⟨[0], "x", ""⟩] ∧ bindable recordY = [⟨[0], "y", ""⟩] ∧
    (Dataframe.DecodeAll asciiLib noCustom [] frameX [(0, destX 0), (0, destY 0)]).map
        (fun o => o.res) = [.ok (), .ok ()] ∧
    (Dataframe.DecodeAll asciiLib noCustom [] frameX [(0, destX 0), (0, destY 0)]).map
        (fun o => o.val) = [destX 7, destY 7] ∧
    (Dataframe.DecodeAllFresh asciiLib noCustom [] frameX [(0, destX 0), (0, destY 0)]).map
        (fun o => o.res) = [.ok (), .ok ()] ∧
    (Dataframe.DecodeAllFresh asciiLib noCustom [] frameX [(0, destX 0), (0, destY 0)]).map
        (fun o => o.val) = [destX 7, destY 0] ∧
    destY 7 ≠ destY 0 :=
  ⟨rfl, rfl, rfl, rfl, rfl, rfl, fun h => by
    simp only [destY, Option.some.injEq, Prod.mk.injEq, Value.ptr.injEq, Value.struct.injEq,
      List.cons.injEq, Value.uint.injEq] at h
    omega⟩

/-- C24 (amended): on a descriptor cache with its invariant and a Dataframe that
holds no descriptor and no column map (as JSON decoding or `ResetType` leaves
it), every sequence of `DecodeAt` calls whose destinations are pointers to
records of one shape `t` does, call by call, what the sequence does in which
every call decodes with a descriptor freshly resolved from its destination and
a column map freshly built from the columns: the same results, destinations,
Dataframes and caches. -/
theorem C24_same_shape_sequence (lib : StdLib) (cu : Custom) (cache : TinfoMap)
    (hc : CacheOK cache) (df : Dataframe) (h1 : df.tinfo = none) (h2 : df.colmap = none)
    (t : GoType) (calls : List (Int × Dest))
    (hcalls : ∀ c, c ∈ calls → ∃ pm v, c.2 = some (.ptr pm t, .ptr (some v))) :
    Dataframe.DecodeAll lib cu cache df calls = Dataframe.DecodeAllFresh lib cu cache df calls :=
  DecodeAll_settled lib cu t calls cache df hc (Or.inl ⟨h1, h2⟩) hcalls

/-- C24 (witness): two calls into records of the shape `recordX` on the Dataframe
with the column `x` and the row `[7]`: both calls set the field to 7, as the
calls with a fresh descriptor do. -/
theorem C24_same_shape_sequence_witness :
    CacheOK [] ∧ frameX.tinfo = none ∧ frameX.colmap = none ∧
    (Dataframe.DecodeAll asciiLib noCustom [] frameX [(0, destX 0), (0, destX 1)]).map
        (fun o => o.val) = [destX 7, destX 7] ∧
    Dataframe.DecodeAll asciiLib noCustom [] frameX [(0, destX 0), (0, destX 1)]
      = Dataframe.DecodeAllFresh asciiLib noCustom [] frameX [(0, destX 0), (0, destX 1)] :=
  ⟨CacheOK_nil, rfl, rfl, rfl,
    C24_same_shape_sequence asciiLib noCustom [] CacheOK_nil frameX rfl rfl recordX
      [(0, destX 0), (0, destX 1)] (fun c h => by
        simp only [List.mem_cons, List.mem_singleton, List.not_mem_nil, or_false] at h
        rcases h with rfl | rfl
        · exact ⟨_, _, rfl⟩
        · exact ⟨_, _, rfl⟩)⟩

/-- The invariant `CacheOK` of the cache says that every entry is what a fresh
build produces. -/
theorem CacheFresh_iff (cache : TinfoMap) : CacheFresh cache ↔ CacheOK cache := by
  constructor
  · intro h t ti hg
    exact resolve_ok [] CacheOK_nil t ti (h t ti hg)
  · intro h t ti hg
    obtain ⟨hs, hn, rfl⟩ := h t ti hg
    exact ((getReflectTypeInfo_spec t [] CacheOK_nil).2 hs).1 hn

/-- A program of lookups and stores run to its end only puts entries in front
of the cache. -/
theorem Prog.exec_extends (p : Prog) : ∀ cache : TinfoMap,
    ∃ new : TinfoMap, (Prog.exec p cache).2 = new ++ cache := by
  induction p with
  | lookup typ k ih =>
    intro cache
    exact ih (TinfoMap.get cache typ) cache
  | store typ tinfo k ih =>
    intro cache
    obtain ⟨new, hn⟩ := ih ((typ, tinfo) :: cache)
    refine ⟨new ++ [(typ, tinfo)], ?_⟩
    show (Prog.exec k ((typ, tinfo) :: cache)).2 = _
    rw [hn, List.append_assoc]
    rfl
  | done r =>
    intro cache
    exact ⟨[], rfl⟩

/-- A type that has an entry in a cache has one in every cache with entries put
in front. -/
theorem TinfoMap.get_append (new cache : TinfoMap) (t : GoType) (ti : typeInfo)
    (h : TinfoMap.get cache t = some ti) : ∃ ti2, TinfoMap.get (new ++ cache) t = some ti2 := by
  induction new with
  | nil => exact ⟨ti, h⟩
  | cons e new ih =>
    obtain ⟨k, tk⟩ := e
    by_cases hk : k = t
    · exact ⟨tk, by simp [TinfoMap.get, hk]⟩
    · obtain ⟨ti2, h2⟩ := ih
      exact ⟨ti2, by simp [TinfoMap.get, hk, h2]⟩

/-- One resolution on a cache with the invariant: the invariant is kept, a
second resolution of a shape that resolved returns the same descriptor from the
cache and leaves the cache as it is, and the entry of every shape cached before
is as it was. -/
theorem resolve_step (cache : TinfoMap) (hc : CacheOK cache) (T : GoType) :
    CacheOK (getReflectTypeInfo cache T).2 ∧
    (∀ ti, (getReflectTypeInfo cache T).1 = .ok ti →
      getReflectTypeInfo (getReflectTypeInfo cache T).2 T
        = (.ok ti, (getReflectTypeInfo cache T).2)) ∧
    (∀ S ti, TinfoMap.get cache S = some ti →
      TinfoMap.get (getReflectTypeInfo cache T).2 S = some ti) := by
  have hc2 := (getReflectTypeInfo_spec T cache hc).1
  refine ⟨hc2, ?_, ?_⟩
  · intro ti h
    exact getReflectTypeInfo_hit _ T ti (resolve_cached cache T ti h)
  · intro S ti hg
    obtain ⟨new, hn⟩ := Prog.exec_extends (getReflectTypeInfo.prog T .done) cache
    rw [prog_exec_done] at hn
    obtain ⟨ti2, h2⟩ := TinfoMap.get_append new cache S ti hg
    rw [hn, h2]
    rw [← hn] at h2
    rw [(hc S ti hg).2.2, (hc2 S ti2 h2).2.2]

/-- The cache keeps its invariant along a sequence of resolutions. -/
theorem resolveAll_ok : ∀ (ts : List GoType) (cache : TinfoMap), CacheOK cache →
    CacheOK (resolveAll cache ts)
  | [], _, hc => hc
  | t :: rest, cache, hc => resolveAll_ok rest _ (resolve_step cache hc t).1

/-- C25: in the state the cache of a process has after any sequence of
resolutions, from the empty cache on: every cached entry equals the descriptor
that `getReflectTypeInfo` builds for its shape on the empty cache; a further
resolution of any shape `T` keeps this; when it succeeds with a descriptor, that
descriptor is then the entry of `T` in the cache, and a second resolution of `T`
returns it and leaves the cache as it is; a resolution of a shape that has an
entry returns the entry and leaves the cache as it is; and for every shape `S`
that was cached, whatever `T` is (a shape that embeds `S` included), the entry
of `S` after the resolution of `T` is the entry before. -/
theorem C25_cache_in_sequential_use (ts : List GoType) (T : GoType) :
    CacheFresh (resolveAll [] ts) ∧
    CacheFresh (getReflectTypeInfo (resolveAll [] ts) T).2 ∧
    (∀ ti, (getReflectTypeInfo (resolveAll [] ts) T).1 = .ok ti →
      TinfoMap.get (getReflectTypeInfo (resolveAll [] ts) T).2 T = some ti ∧
      getReflectTypeInfo (getReflectTypeInfo (resolveAll [] ts) T).2 T
        = (.ok ti, (getReflectTypeInfo (resolveAll [] ts) T).2)) ∧
    (∀ ti, TinfoMap.get (resolveAll [] ts) T = some ti →
      getReflectTypeInfo (resolveAll [] ts) T = (.ok ti, resolveAll [] ts)) ∧
    (∀ S ti, TinfoMap.get (resolveAll [] ts) S = some ti →
      TinfoMap.get (getReflectTypeInfo (resolveAll [] ts) T).2 S = some ti) := by
  have hc := resolveAll_ok ts [] CacheOK_nil
  obtain ⟨h1, h2, h3⟩ := resolve_step _ hc T
  exact ⟨(CacheFresh_iff _).mpr hc, (CacheFresh_iff _).mpr h1,
    fun ti h => ⟨resolve_cached _ T ti h, h2 ti h⟩,
    fun ti h => getReflectTypeInfo_hit _ T ti h, h3⟩

/-- C25 (witness): the process resolves `recordX` and then `recordEmbedsX`,
which embeds it. The first resolution stores the descriptor of `recordX`, with
the one entry `x` at the path `[0]`; the resolution of `recordEmbedsX` returns
the entries `n` at `[0]` and `x` at `[1, 0]` and stores them as the entry of
`recordEmbedsX`; the entry of `recordX` is as before; and a second resolution of
`recordEmbedsX` returns the stored descriptor and leaves the cache as it is. -/
theorem C25_cache_in_sequential_use_witness :
    TinfoMap.get (resolveAll [] [recordX]) recordX = some ⟨"main.A", [⟨[0], "x", ""⟩], true⟩ ∧
    (getReflectTypeInfo (resolveAll [] [recordX]) recordEmbedsX).1
      = .ok ⟨"main.P", [⟨[0], "n", ""⟩, ⟨[1, 0], "x", ""⟩], true⟩ ∧
    TinfoMap.get (getReflectTypeInfo (resolveAll [] [recordX]) recordEmbedsX).2 recordEmbedsX
      = some ⟨"main.P", [⟨[0], "n", ""⟩, ⟨[1, 0], "x", ""⟩], true⟩ ∧
    TinfoMap.get (getReflectTypeInfo (resolveAll [] [recordX]) recordEmbedsX).2 recordX
      = some ⟨"main.A", [⟨[0], "x", ""⟩], true⟩ ∧
    getReflectTypeInfo (getReflectTypeInfo (resolveAll [] [recordX]) recordEmbedsX).2
        recordEmbedsX
      = (.ok ⟨"main.P", [⟨[0], "n", ""⟩, ⟨[1, 0], "x", ""⟩], true⟩,
        (getReflectTypeInfo (resolveAll [] [recordX]) recordEmbedsX).2) ∧
    (getReflectTypeInfo (resolveAll [] [recordX]) recordEmbedsX).2.length = 2 :=
  ⟨by decide, by decide,
    ((C25_cache_in_sequential_use [recordX] recordEmbedsX).2.2.1 _ (by decide)).1,
    (C25_cache_in_sequential_use [recordX] recordEmbedsX).2.2.2.2 recordX _ (by decide),
    ((C25_cache_in_sequential_use [recordX] recordEmbedsX).2.2.1 _ (by decide)).2,
    by decide⟩

/-- C26 (code at the failing input): a Dataframe with two columns and one row.
`FieldAt(2, 0)`, with `col = len(Columns)`, passes the guard `len(t.Columns) < col`
and panics in `t.Columns[col]`; `FieldAt(0, 1)`, with `row = len(Data)`, passes the
guard `len(t.Data) < row` and panics in `t.Data[row]` of the per-cell decoder.
Only from `col = 3` and `row = 2` on the guards return their errors. -/
theorem C26_fieldAt_guards_off_by_one (lib : StdLib) :
    (heightTimeFrame [ascii "[12345,1700000000000]"]).Columns.length = 2 ∧
    (heightTimeFrame [ascii "[12345,1700000000000]"]).Data.length = 1 ∧
    (heightTimeFrame [ascii "[12345,1700000000000]"]).FieldAt lib 2 0
      = .panic .indexOutOfRange ∧
    (heightTimeFrame [ascii "[12345,1700000000000]"]).FieldAt lib 0 1
      = .panic .indexOutOfRange ∧
    (heightTimeFrame [ascii "[12345,1700000000000]"]).FieldAt lib 3 0
      = .err (.invalidDataColumn 3 2) ∧
    (heightTimeFrame [ascii "[12345,1700000000000]"]).FieldAt lib 0 2
      = .err (.invalidDataRow 2 1) :=
  ⟨rfl, rfl, rfl, rfl, rfl, rfl⟩

/-- C27 (code): for every rate-limit error built by `newErrRateLimited` and every
bound on the depth of nested calls, `Error()` has not returned: each call only
calls `Error()` again on the same receiver. For the error built from a response
with status 429 and the body `slow down`, the wrapped `httpError` has the message
text `429 Too Many Requests: slow down`, which `Error()` never returns. -/
theorem C27_errRateLimited_Error_never_returns (fuel : Nat) (err : httpError) (untilSecs : Int) :
    (newErrRateLimited err untilSecs).Error fuel = none ∧
    (newErrRateLimited slowDownError untilSecs).httpError.Error statusText429
      = .ok (ascii "429 Too Many Requests: slow down") := by
  constructor
  · induction fuel with
    | zero => rfl
    | succ n ih => exact ih
  · show httpError.Error statusText429 slowDownError = _
    set_option maxRecDepth 20000 in rfl

/-- The name of a valid mode has no dot, and `ParseFilterMode` maps it back to
the mode, which is not `FilterModeInvalid`. -/
theorem parseFilterMode_string (unicodeLower : Bytes → Bytes) (m : FilterMode)
    (hm : m ∈ validFilterModes) :
    ParseFilterMode unicodeLower (FilterMode.String m) = m ∧ 46 ∉ FilterMode.String m ∧
      m ≠ FilterModeInvalid := by
  simp only [validFilterModes, List.mem_cons, List.mem_singleton, List.not_mem_nil,
    or_false] at hm
  rcases hm with h | h | h | h | h | h | h | h | h | h <;> subst h <;>
    exact ⟨rfl, by decide, by decide⟩

/-- What `ParseFilter` does with a key of two dot-separated parts. -/
theorem parseFilter_two_parts (unicodeLower : Bytes → Bytes) (key val a b : Bytes)
    (h : bytesSplit 46 key = [a, b]) :
    ParseFilter unicodeLower key val
      = if stringsToLower unicodeLower b = [] then .ok ⟨a, FilterModeEqual, val⟩
        else match filterModeNames.lookup (stringsToLower unicodeLower b) with
          | some m => .ok ⟨a, m, val⟩
          | none => .err (.invalidFilterMode b) := by
  unfold ParseFilter
  rw [h]
  simp only []
  unfold ParseFilterMode
  generalize stringsToLower unicodeLower b = l
  simp only []
  by_cases h0 : l = []
  · subst h0; rfl
  by_cases h1 : l = ascii "eq"
  · subst h1; rfl
  by_cases h2 : l = ascii "ne"
  · subst h2; rfl
  by_cases h3 : l = ascii "gt"
  · subst h3; rfl
  by_cases h4 : l = ascii "gte"
  · subst h4; rfl
  by_cases h5 : l = ascii "lt"
  · subst h5; rfl
  by_cases h6 : l = ascii "lte"
  · subst h6; rfl
  by_cases h7 : l = ascii "in"
  · subst h7; rfl
  by_cases h8 : l = ascii "nin"
  · subst h8; rfl
  by_cases h9 : l = ascii "rg"
  · subst h9; rfl
  by_cases h10 : l = ascii "re"
  · subst h10; rfl
  have hl : filterModeNames.lookup l = none := by
    have hb : ∀ x : Bytes, l ≠ x → (l == x) = false := fun x hx => by simpa using hx
    simp only [filterModeNames, List.lookup, hb _ h1, hb _ h2, hb _ h3, hb _ h4,
      hb _ h5, hb _ h6, hb _ h7, hb _ h8, hb _ h9, hb _ h10]
  rw [hl]
  simp only [h0, h1, h2, h3, h4, h5, h6, h7, h8, h9, h10, or_self, if_false]
  rfl

/-- C28 (counterexample): the key `height.` has the two dot-separated parts
`height` and the empty text, which is none of the ten mode names, and the key
`height.EQ` has the second part `EQ`; `ParseFilter` returns no error for either,
but a filter with the mode `eq`. -/
theorem C28_counterexample_empty_mode :
    bytesSplit 46 (ascii "height.") = [ascii "height", []] ∧
    filterModeNames.lookup [] = none ∧
    ParseFilter id (ascii "height.") (ascii "5")
      = .ok ⟨ascii "height", FilterModeEqual, ascii "5"⟩ ∧
    bytesSplit 46 (ascii "height.EQ") = [ascii "height", ascii "EQ"] ∧
    filterModeNames.lookup (ascii "EQ") = none ∧
    ParseFilter id (ascii "height.EQ") (ascii "5")
      = .ok ⟨ascii "height", FilterModeEqual, ascii "5"⟩ :=
  ⟨by decide, by decide, by decide, by decide, by decide, by decide⟩

/-- C28 (amended): for every filter whose mode is one of the ten valid modes and
whose field has no dot, `ParseFilter` of the key and value that `AppendQuery`
adds returns the filter; and `ParseFilter` of a key with two dot-separated parts
`a` and `b` returns an error, which carries `b`, exactly when the lower-case
form of `b` is neither empty nor one of the ten mode names; for the empty form
it returns the filter of `a` with the mode `eq`, for a mode name the filter of
`a` with that mode. -/
theorem C28_parseFilter_round_trip (unicodeLower : Bytes → Bytes) (f : Filter)
    (hm : f.Mode ∈ validFilterModes) (hf : 46 ∉ f.Field) :
    (f.AppendQuery Values.empty).get f.queryKey = [f.Value] ∧
    ParseFilter unicodeLower f.queryKey f.Value = .ok f ∧
    ∀ key val a b : Bytes, bytesSplit 46 key = [a, b] →
      ((∃ e, ParseFilter unicodeLower key val = .err e) ↔
        (stringsToLower unicodeLower b ≠ [] ∧
          filterModeNames.lookup (stringsToLower unicodeLower b) = none)) ∧
      (stringsToLower unicodeLower b ≠ [] →
        filterModeNames.lookup (stringsToLower unicodeLower b) = none →
        ParseFilter unicodeLower key val = .err (.invalidFilterMode b)) ∧
      (stringsToLower unicodeLower b = [] →
        ParseFilter unicodeLower key val = .ok ⟨a, FilterModeEqual, val⟩) ∧
      (∀ m, filterModeNames.lookup (stringsToLower unicodeLower b) = some m →
        ParseFilter unicodeLower key val = .ok ⟨a, m, val⟩) := by
  obtain ⟨g1, g2, g3⟩ := parseFilterMode_string unicodeLower f.Mode hm
  refine ⟨?_, ?_, ?_⟩
  · simp [Filter.AppendQuery, Values.Add, Values.empty]
  · have hs : bytesSplit 46 f.queryKey = [f.Field, FilterMode.String f.Mode] := by
      have hk : f.queryKey = f.Field ++ 46 :: FilterMode.String f.Mode := by
        unfold Filter.queryKey
        rw [List.append_assoc]
        rfl
      rw [hk, bytesSplit_append_sep 46 _ f.Field hf, bytesSplit_of_not_mem 46 _ g2]
    unfold ParseFilter
    rw [hs]
    simp only [g1, g3, if_false]
  · intro key val a b h
    have hp := parseFilter_two_parts unicodeLower key val a b h
    by_cases h0 : stringsToLower unicodeLower b = []
    · rw [if_pos h0] at hp
      refine ⟨⟨?_, fun hx => absurd h0 hx.1⟩, fun hx => absurd h0 hx, fun _ => hp, ?_⟩
      · rintro ⟨e, he⟩
        rw [hp] at he
        cases he
      · intro m hmm
        have hno : filterModeNames.lookup [] = none := by decide
        rw [h0, hno] at hmm
        cases hmm
    · rw [if_neg h0] at hp
      cases hl : filterModeNames.lookup (stringsToLower unicodeLower b) with
      | none =>
        rw [hl] at hp
        exact ⟨⟨fun _ => ⟨h0, rfl⟩, fun _ => ⟨_, hp⟩⟩, fun _ _ => hp, fun hx => absurd hx h0,
          fun m hmm => (by cases hmm)⟩
      | some m =>
        rw [hl] at hp
        refine ⟨⟨?_, fun hx => (by cases hx.2)⟩, fun _ hx => (by cases hx),
          fun hx => absurd hx h0, ?_⟩
        · rintro ⟨e, he⟩
          rw [hp] at he
          cases he
        · intro m2 hm2
          cases hm2
          exact hp

/-- C28 (witness): the filter `height.gte=5`: its key is `height.gte`, and
`ParseFilter` of the key and the value returns the filter. -/
theorem C28_parseFilter_round_trip_witness :
    FilterModeGte ∈ validFilterModes ∧ (46 : UInt8) ∉ ascii "height" ∧
    Filter.queryKey ⟨ascii "height", FilterModeGte, ascii "5"⟩ = ascii "height.gte" ∧
    ParseFilter id (ascii "height.gte") (ascii "5")
      = .ok ⟨ascii "height", FilterModeGte, ascii "5"⟩ :=
  ⟨by decide, by decide, by decide,
    (C28_parseFilter_round_trip id ⟨ascii "height", FilterModeGte, ascii "5"⟩ (by decide)
      (by decide)).2.1⟩

/-- The value of `time.Minute` in nanoseconds. -/
theorem timeMinute_eq : timeMinute = 60000000000 := by norm_num [timeMinute]

/-- A step function is not below a bound that none of its values is below. -/
theorem stepOf_ge (b dflt d : Int) : ∀ tbl : List (Int × Int), (∀ e, e ∈ tbl → b ≤ e.2) →
    b ≤ dflt → b ≤ stepOf tbl dflt d
  | [], _, hd => hd
  | e :: rest, h, hd => by
    unfold stepOf
    split
    · exact h e (List.mem_cons_self _ _)
    · exact stepOf_ge b dflt d rest (fun e2 h2 => h e2 (List.mem_cons_of_mem _ h2)) hd

/-- A step function whose values are in order is monotone. -/
theorem stepOf_mono (dflt d1 d2 : Int) (hd : d1 ≤ d2) : ∀ tbl : List (Int × Int),
    (tbl.map (fun e => e.2) ++ [dflt]).Pairwise (fun a b => a ≤ b) →
    stepOf tbl dflt d1 ≤ stepOf tbl dflt d2
  | [], _ => le_refl _
  | e :: rest, h => by
    simp only [List.map_cons, List.cons_append, List.pairwise_cons] at h
    obtain ⟨h1, h2⟩ := h
    unfold stepOf
    by_cases c1 : d1 ≤ e.1
    · rw [if_pos c1]
      split
      · exact le_refl _
      · exact stepOf_ge e.2 dflt d2 rest
          (fun e2 h3 => h1 e2.2 (List.mem_append_left _ (List.mem_map_of_mem _ h3)))
          (h1 dflt (List.mem_append_right _ (List.mem_singleton_self _)))
    · have c2 : ¬ d2 ≤ e.1 := by omega
      rw [if_neg c1, if_neg c2]
      exact stepOf_mono dflt d1 d2 hd rest h2

/-- The duration of the mode that `NewCollapseMode` assigns to a duration is
given by the step function of its thresholds. -/
theorem newCollapseMode_duration (d : Int) :
    CollapseMode.Duration (NewCollapseMode d)
      = stepOf collapseSteps (365 * 24 * timeHour) d := by
  have e0 : CollapseMode.Duration CollapseNone = timeMinute := rfl
  have e1 : CollapseMode.Duration CollapseOneMinute = timeMinute := rfl
  have e2 : CollapseMode.Duration CollapseFiveMinutes = 5 * timeMinute := rfl
  have e3 : CollapseMode.Duration CollapseFifteenMinutes = 15 * timeMinute := rfl
  have e4 : CollapseMode.Duration CollapseThirtyMinutes = 30 * timeMinute := rfl
  have e5 : CollapseMode.Duration CollapseOneHour = timeHour := rfl
  have e6 : CollapseMode.Duration CollapseThreeHours = 3 * timeHour := rfl
  have e7 : CollapseMode.Duration CollapseSixHours = 6 * timeHour := rfl
  have e8 : CollapseMode.Duration CollapseTwelveHours = 12 * timeHour := rfl
  have e9 : CollapseMode.Duration CollapseDaily = 24 * timeHour := rfl
  have e10 : CollapseMode.Duration CollapseWeekly = 24 * 7 * timeHour := rfl
  have e11 : CollapseMode.Duration CollapseMonthly = 30 * 24 * timeHour := rfl
  have e12 : CollapseMode.Duration CollapseQuarterly = 90 * 24 * timeHour := rfl
  have e13 : CollapseMode.Duration CollapseAnnual = 365 * 24 * timeHour := rfl
  unfold NewCollapseMode
  iterate 13 rw [apply_ite CollapseMode.Duration]
  rw [e0, e1, e2, e3, e4, e5, e6, e7, e8, e9, e10, e11, e12, e13]
  by_cases h0 : d = 0
  · have hM : d ≤ timeMinute := by rw [h0, timeMinute_eq]; norm_num
    rw [if_pos h0]
    show timeMinute = if d ≤ timeMinute then timeMinute else _
    rw [if_pos hM]
  · rw [if_neg h0]
    rfl

/-- The durations of the modes that `NewCollapseMode` assigns are in the order
of its thresholds. -/
theorem collapseSteps_sorted :
    (collapseSteps.map (fun e => e.2) ++ [365 * 24 * timeHour]).Pairwise
      (fun a b => a ≤ b) := by
  have hH : timeHour = 60 * timeMinute := rfl
  have hM : 0 < timeMinute := by rw [timeMinute_eq]; norm_num
  simp only [collapseSteps, List.map_cons, List.map_nil, List.cons_append, List.nil_append,
    List.pairwise_cons, List.mem_cons, List.mem_singleton, List.not_mem_nil, hH]
  generalize timeMinute = M at hM
  refine ⟨?_, ?_, ?_, ?_, ?_, ?_, ?_, ?_, ?_, ?_, ?_, ?_, ?_, ?_⟩
  all_goals first
    | exact List.Pairwise.nil
    | (intro a ha
       rcases ha with h | h | h | h | h | h | h | h | h | h | h | h | h | h <;>
         (subst h; omega))

/-- C29: for each of the thirteen valid collapse modes other than `none`,
`NewCollapseMode` of its duration is the mode; and for two durations of which
the first is not greater than the second, the duration of the mode of the first
is not greater than the duration of the mode of the second. -/
theorem C29_collapse_mode_duration (m : CollapseMode) (d1 d2 : Int) (hm : m ∈ collapseModes)
    (hd : d1 ≤ d2) :
    NewCollapseMode (CollapseMode.Duration m) = m ∧
    CollapseMode.Duration (NewCollapseMode d1) ≤ CollapseMode.Duration (NewCollapseMode d2) := by
  constructor
  · simp only [collapseModes, List.mem_cons, List.mem_singleton, List.not_mem_nil,
      or_false] at hm
    rcases hm with h | h | h | h | h | h | h | h | h | h | h | h | h <;> subst h <;> rfl
  · rw [newCollapseMode_duration d1, newCollapseMode_duration d2]
    exact stepOf_mono _ d1 d2 hd collapseSteps collapseSteps_sorted

/-- C29 (witness): the mode `1M` has the duration of 30 days, to which
`NewCollapseMode` assigns `1M`; the durations of one hour and of 31 days are in
order, and so are the durations of their modes, `1h` and `1M`. -/
theorem C29_collapse_mode_duration_witness :
    CollapseMonthly ∈ collapseModes ∧ timeHour ≤ 31 * 24 * timeHour ∧
    CollapseMode.Duration CollapseMonthly = 30 * 24 * timeHour ∧
    NewCollapseMode (30 * 24 * timeHour) = CollapseMonthly ∧
    CollapseMode.Duration (NewCollapseMode timeHour)
      ≤ CollapseMode.Duration (NewCollapseMode (31 * 24 * timeHour)) :=
  ⟨by decide, by decide, rfl,
    (C29_collapse_mode_duration CollapseMonthly timeHour (31 * 24 * timeHour) (by decide)
      (by decide)).1,
    (C29_collapse_mode_duration CollapseMonthly timeHour (31 * 24 * timeHour) (by decide)
      (by decide)).2⟩

/-- The query after the loop over the filters of `Query`: under every key, the
values that were there, then the values of the filters with that key that are
not nil, in list order. -/
theorem query_filters (key : Bytes) : ∀ (fs : List (Option Filter)) (q : Values),
    (fs.foldl (fun q v =>
        match v with
        | none => q
        | some f => f.AppendQuery q) q).get key
      = q.get key
        ++ ((fs.filterMap id).filter (fun f => f.queryKey = key)).map (fun f => f.Value)
  | [], q => by simp
  | none :: rest, q => by
    simp only [List.foldl_cons, List.filterMap_cons, id]
    exact query_filters key rest q
  | some f :: rest, q => by
    simp only [List.foldl_cons, List.filterMap_cons, id]
    rw [query_filters key rest (f.AppendQuery q)]
    by_cases hk : f.queryKey = key
    · have hk2 : key = f.queryKey := hk.symm
      simp only [Filter.AppendQuery, Values.Add, hk2, if_true, List.filter_cons, decide_True,
        List.map_cons, List.append_assoc, List.singleton_append]
    · have hk2 : ¬ key = f.queryKey := fun h => hk h.symm
      simp only [Filter.AppendQuery, Values.Add, hk2, if_false, List.filter_cons, hk,
        decide_False, Bool.false_eq_true]

/-- The key of a filter has a dot. -/
theorem queryKey_dot (f : Filter) : (46 : UInt8) ∈ f.queryKey := by
  unfold Filter.queryKey
  simp [ascii]

/-- The values under a key of the query built by `Query` are the entries of the
specification. -/
theorem query_get (p : TableParams) (key : Bytes) : p.Query.get key = p.entries key := by
  have hc : (0 < p.Columns.length ∧ p.Columns[0]? ≠ some [])
      ↔ (p.Columns ≠ [] ∧ p.Columns.head? ≠ some []) := by
    cases p.Columns with
    | nil => simp
    | cons c rest => simp
  have e1 : (if 0 < p.Columns.length ∧ p.Columns[0]? ≠ some [] then
        Values.empty.Add (ascii "columns") (stringsJoin (ascii ",") p.Columns)
      else Values.empty).get key
      = (if key = ascii "columns" ∧ p.Columns ≠ [] ∧ p.Columns.head? ≠ some [] then
          [stringsJoin (ascii ",") p.Columns] else []) := by
    by_cases h1 : (0 < p.Columns.length ∧ p.Columns[0]? ≠ some [])
    · rw [if_pos h1]
      by_cases k1 : key = ascii "columns"
      · rw [if_pos ⟨k1, hc.mp h1⟩]
        simp [Values.Add, Values.empty, k1]
      · rw [if_neg (fun h => k1 h.1)]
        simp [Values.Add, Values.empty, k1]
    · rw [if_neg h1, if_neg (fun h => h1 (hc.mpr h.2))]
      rfl
  have hq2 := query_filters key p.Filter
    (if 0 < p.Columns.length ∧ p.Columns[0]? ≠ some [] then
        Values.empty.Add (ascii "columns") (stringsJoin (ascii ",") p.Columns)
      else Values.empty)
  rw [e1] at hq2
  unfold TableParams.Query TableParams.entries Itoa
  simp only []
  generalize List.foldl _ _ p.Filter = Q2 at hq2 ⊢
  have n1 : ascii "cursor" ≠ ascii "limit" := by decide
  have n2 : ascii "cursor" ≠ ascii "columns" := by decide
  have n3 : ascii "limit" ≠ ascii "cursor" := by decide
  have n4 : ascii "limit" ≠ ascii "columns" := by decide
  by_cases k2 : key = ascii "cursor"
  · subst k2
    by_cases h4 : p.Limit > 0 <;> by_cases h3 : p.Cursor ≠ [] <;>
      simp [Values.Add, hq2, h4, h3, n1, n2]
  · by_cases k3 : key = ascii "limit"
    · subst k3
      by_cases h4 : p.Limit > 0 <;> by_cases h3 : p.Cursor ≠ [] <;>
        simp [Values.Add, hq2, h4, h3, n3, n4]
    · by_cases h4 : p.Limit > 0 <;> by_cases h3 : p.Cursor ≠ [] <;>
        simp [Values.Add, hq2, h4, h3, k2, k3]

/-- C30: for every `TableParams` the query built by `Query` holds: under
`columns` the comma-joined columns exactly when there are columns and the first
is not empty, and nothing otherwise; under `cursor` the cursor exactly when it
is not empty; under `limit` the base-10 text of the limit, which is a numeral
of the limit, exactly when it is positive; under every other key the values of the filters that are not nil and
have that key, `Field + "." + Mode.String()`, in list order, and nothing else.
The key of a filter has a dot, so it is none of the three other keys. The
parameters are as before the call. For the example parameters, whose second
filter is nil, the key `height.gte` holds the values `5` and `7`. -/
theorem C30_query_entries (p : TableParams) :
    p.Query.get (ascii "columns")
      = (if p.Columns ≠ [] ∧ p.Columns.head? ≠ some [] then
          [stringsJoin (ascii ",") p.Columns] else []) ∧
    p.Query.get (ascii "cursor") = (if p.Cursor ≠ [] then [p.Cursor] else []) ∧
    p.Query.get (ascii "limit") = (if 0 < p.Limit then [formatInt p.Limit] else []) ∧
    numeralValue (formatInt p.Limit) = some p.Limit ∧
    (∀ key, key ≠ ascii "columns" → key ≠ ascii "cursor" → key ≠ ascii "limit" →
      p.Query.get key
        = ((p.Filter.filterMap id).filter
            (fun f => f.Field ++ ascii "." ++ FilterMode.String f.Mode = key)).map
            (fun f => f.Value)) ∧
    (∀ f : Filter, f.queryKey = f.Field ++ ascii "." ++ FilterMode.String f.Mode ∧
      f.queryKey ≠ ascii "columns" ∧ f.queryKey ≠ ascii "cursor" ∧
      f.queryKey ≠ ascii "limit") ∧
    p.QueryCall = (p.Query, p) ∧
    exampleParams.Query.get (ascii "height.gte") = [ascii "5", ascii "7"] ∧
    exampleParams.Query.get (ascii "columns") = [ascii "height,time"] ∧
    exampleParams.Query.get (ascii "limit") = [ascii "10"] := by
  have hk : ∀ f : Filter, f.queryKey ≠ ascii "columns" ∧ f.queryKey ≠ ascii "cursor" ∧
      f.queryKey ≠ ascii "limit" := by
    intro f
    have hd := queryKey_dot f
    refine ⟨?_, ?_, ?_⟩ <;>
    · intro h
      rw [h] at hd
      revert hd
      decide
  have hnone : ∀ key, key = ascii "columns" ∨ key = ascii "cursor" ∨ key = ascii "limit" →
      ((p.Filter.filterMap id).filter (fun f => f.queryKey = key)).map (fun f => f.Value)
        = [] := by
    intro key hkey
    rw [List.map_eq_nil_iff, List.filter_eq_nil_iff]
    intro f _
    simp only [decide_eq_true_eq]
    rcases hkey with h | h | h <;> rw [h]
    · exact (hk f).1
    · exact (hk f).2.1
    · exact (hk f).2.2
  have n1 : ascii "cursor" ≠ ascii "limit" := by decide
  have n2 : ascii "cursor" ≠ ascii "columns" := by decide
  have n3 : ascii "limit" ≠ ascii "cursor" := by decide
  have n4 : ascii "limit" ≠ ascii "columns" := by decide
  have n5 : ascii "columns" ≠ ascii "cursor" := by decide
  have n6 : ascii "columns" ≠ ascii "limit" := by decide
  refine ⟨?_, ?_, ?_, (formatInt_spec p.Limit).1, ?_, fun f => ⟨rfl, hk f⟩, rfl, rfl, rfl, rfl⟩
  · rw [query_get]
    unfold TableParams.entries
    rw [hnone _ (Or.inl rfl)]
    simp [n5, n6]
  · rw [query_get]
    unfold TableParams.entries
    rw [hnone _ (Or.inr (Or.inl rfl))]
    simp [n1, n2]
  · rw [query_get]
    unfold TableParams.entries
    rw [hnone _ (Or.inr (Or.inr rfl))]
    simp [n3, n4]
  · intro key k1 k2 k3
    rw [query_get]
    unfold TableParams.entries
    simp only [k1, k2, k3, false_and, if_false, List.nil_append, List.append_nil]
    rfl

end Blockwatch
